import Mathlib

/-!
# Generic-requirement fulfillment and witness-table classification (polarphp irgen)

A shallow embedding of `src/irgen/GenInterface.cpp`: the requirement enumerator, the
polymorphic convention (metadata sources and the fulfillment map it drives), the
signature expansion built on it, and the conformance classifier.

Front-end objects (types, generic signatures, conformances, function types) are plain
data; queries whose implementation lives outside this translation unit are fields of the
object they are asked of, or fields of `IRGenModule`.
-/

set_option autoImplicit false

namespace Irgen

/-! ## Canonical types -/

/-- Kind of a nominal type declaration (struct, enum, class or protocol). -/
inductive NominalKind
  | Struct | Enum | Class | Interface
deriving DecidableEq, Repr

/-- A nominal type declaration, identified by `id`. -/
structure NominalTypeDecl where
  id : Nat
  kind : NominalKind
deriving DecidableEq, Repr

/-- Representation of a metatype value. -/
inductive MetatypeRepresentation
  | Thin | Thick | ObjC
deriving DecidableEq, Repr

/-- Canonical types (`CanType`). `nominal` is a `NominalType`, `boundGeneric` a
`BoundGenericType`, `archetype` a contextual (dependent) type, `builtin` any other leaf. -/
inductive CanType : Type
  | genericTypeParam (depth index : Nat)
  | dependentMember (base : CanType) (assocType : Nat)
  | archetype (id : Nat)
  | nominal (decl : NominalTypeDecl)
  | boundGeneric (decl : NominalTypeDecl) (args : List CanType)
  | metatype (instanceType : CanType) (repr : MetatypeRepresentation)
  | tuple (elements : List CanType)
  | function (params : List CanType) (result : CanType)
  | builtin (id : Nat)

mutual
/-- Structural equality test on canonical types (canonical types are uniqued, so pointer
equality in the source is structural equality here). -/
def CanType.decEq : (a b : CanType) → Decidable (a = b)
  | .genericTypeParam d i, .genericTypeParam d2 i2 =>
    match Nat.decEq d d2, Nat.decEq i i2 with
    | isTrue h1, isTrue h2 => isTrue (by rw [h1, h2])
    | isFalse h1, _ => isFalse (by intro e; cases e; exact h1 rfl)
    | _, isFalse h2 => isFalse (by intro e; cases e; exact h2 rfl)
  | .dependentMember b n, .dependentMember b2 n2 =>
    match CanType.decEq b b2, Nat.decEq n n2 with
    | isTrue h1, isTrue h2 => isTrue (by rw [h1, h2])
    | isFalse h1, _ => isFalse (by intro e; cases e; exact h1 rfl)
    | _, isFalse h2 => isFalse (by intro e; cases e; exact h2 rfl)
  | .archetype n, .archetype n2 =>
    match Nat.decEq n n2 with
    | isTrue h1 => isTrue (by rw [h1])
    | isFalse h1 => isFalse (by intro e; cases e; exact h1 rfl)
  | .nominal d, .nominal d2 =>
    match (inferInstance : Decidable (d = d2)) with
    | isTrue h1 => isTrue (by rw [h1])
    | isFalse h1 => isFalse (by intro e; cases e; exact h1 rfl)
  | .boundGeneric d as, .boundGeneric d2 as2 =>
    match (inferInstance : Decidable (d = d2)), CanType.decEqList as as2 with
    | isTrue h1, isTrue h2 => isTrue (by rw [h1, h2])
    | isFalse h1, _ => isFalse (by intro e; cases e; exact h1 rfl)
    | _, isFalse h2 => isFalse (by intro e; cases e; exact h2 rfl)
  | .metatype t r, .metatype t2 r2 =>
    match CanType.decEq t t2, (inferInstance : Decidable (r = r2)) with
    | isTrue h1, isTrue h2 => isTrue (by rw [h1, h2])
    | isFalse h1, _ => isFalse (by intro e; cases e; exact h1 rfl)
    | _, isFalse h2 => isFalse (by intro e; cases e; exact h2 rfl)
  | .tuple es, .tuple es2 =>
    match CanType.decEqList es es2 with
    | isTrue h1 => isTrue (by rw [h1])
    | isFalse h1 => isFalse (by intro e; cases e; exact h1 rfl)
  | .function ps r, .function ps2 r2 =>
    match CanType.decEqList ps ps2, CanType.decEq r r2 with
    | isTrue h1, isTrue h2 => isTrue (by rw [h1, h2])
    | isFalse h1, _ => isFalse (by intro e; cases e; exact h1 rfl)
    | _, isFalse h2 => isFalse (by intro e; cases e; exact h2 rfl)
  | .builtin n, .builtin n2 =>
    match Nat.decEq n n2 with
    | isTrue h1 => isTrue (by rw [h1])
    | isFalse h1 => isFalse (by intro e; cases e; exact h1 rfl)
  | .genericTypeParam .., .dependentMember .. => isFalse (by intro e; cases e)
  | .genericTypeParam .., .archetype .. => isFalse (by intro e; cases e)
  | .genericTypeParam .., .nominal .. => isFalse (by intro e; cases e)
  | .genericTypeParam .., .boundGeneric .. => isFalse (by intro e; cases e)
  | .genericTypeParam .., .metatype .. => isFalse (by intro e; cases e)
  | .genericTypeParam .., .tuple .. => isFalse (by intro e; cases e)
  | .genericTypeParam .., .function .. => isFalse (by intro e; cases e)
  | .genericTypeParam .., .builtin .. => isFalse (by intro e; cases e)
  | .dependentMember .., .genericTypeParam .. => isFalse (by intro e; cases e)
  | .dependentMember .., .archetype .. => isFalse (by intro e; cases e)
  | .dependentMember .., .nominal .. => isFalse (by intro e; cases e)
  | .dependentMember .., .boundGeneric .. => isFalse (by intro e; cases e)
  | .dependentMember .., .metatype .. => isFalse (by intro e; cases e)
  | .dependentMember .., .tuple .. => isFalse (by intro e; cases e)
  | .dependentMember .., .function .. => isFalse (by intro e; cases e)
  | .dependentMember .., .builtin .. => isFalse (by intro e; cases e)
  | .archetype .., .genericTypeParam .. => isFalse (by intro e; cases e)
  | .archetype .., .dependentMember .. => isFalse (by intro e; cases e)
  | .archetype .., .nominal .. => isFalse (by intro e; cases e)
  | .archetype .., .boundGeneric .. => isFalse (by intro e; cases e)
  | .archetype .., .metatype .. => isFalse (by intro e; cases e)
  | .archetype .., .tuple .. => isFalse (by intro e; cases e)
  | .archetype .., .function .. => isFalse (by intro e; cases e)
  | .archetype .., .builtin .. => isFalse (by intro e; cases e)
  | .nominal .., .genericTypeParam .. => isFalse (by intro e; cases e)
  | .nominal .., .dependentMember .. => isFalse (by intro e; cases e)
  | .nominal .., .archetype .. => isFalse (by intro e; cases e)
  | .nominal .., .boundGeneric .. => isFalse (by intro e; cases e)
  | .nominal .., .metatype .. => isFalse (by intro e; cases e)
  | .nominal .., .tuple .. => isFalse (by intro e; cases e)
  | .nominal .., .function .. => isFalse (by intro e; cases e)
  | .nominal .., .builtin .. => isFalse (by intro e; cases e)
  | .boundGeneric .., .genericTypeParam .. => isFalse (by intro e; cases e)
  | .boundGeneric .., .dependentMember .. => isFalse (by intro e; cases e)
  | .boundGeneric .., .archetype .. => isFalse (by intro e; cases e)
  | .boundGeneric .., .nominal .. => isFalse (by intro e; cases e)
  | .boundGeneric .., .metatype .. => isFalse (by intro e; cases e)
  | .boundGeneric .., .tuple .. => isFalse (by intro e; cases e)
  | .boundGeneric .., .function .. => isFalse (by intro e; cases e)
  | .boundGeneric .., .builtin .. => isFalse (by intro e; cases e)
  | .metatype .., .genericTypeParam .. => isFalse (by intro e; cases e)
  | .metatype .., .dependentMember .. => isFalse (by intro e; cases e)
  | .metatype .., .archetype .. => isFalse (by intro e; cases e)
  | .metatype .., .nominal .. => isFalse (by intro e; cases e)
  | .metatype .., .boundGeneric .. => isFalse (by intro e; cases e)
  | .metatype .., .tuple .. => isFalse (by intro e; cases e)
  | .metatype .., .function .. => isFalse (by intro e; cases e)
  | .metatype .., .builtin .. => isFalse (by intro e; cases e)
  | .tuple .., .genericTypeParam .. => isFalse (by intro e; cases e)
  | .tuple .., .dependentMember .. => isFalse (by intro e; cases e)
  | .tuple .., .archetype .. => isFalse (by intro e; cases e)
  | .tuple .., .nominal .. => isFalse (by intro e; cases e)
  | .tuple .., .boundGeneric .. => isFalse (by intro e; cases e)
  | .tuple .., .metatype .. => isFalse (by intro e; cases e)
  | .tuple .., .function .. => isFalse (by intro e; cases e)
  | .tuple .., .builtin .. => isFalse (by intro e; cases e)
  | .function .., .genericTypeParam .. => isFalse (by intro e; cases e)
  | .function .., .dependentMember .. => isFalse (by intro e; cases e)
  | .function .., .archetype .. => isFalse (by intro e; cases e)
  | .function .., .nominal .. => isFalse (by intro e; cases e)
  | .function .., .boundGeneric .. => isFalse (by intro e; cases e)
  | .function .., .metatype .. => isFalse (by intro e; cases e)
  | .function .., .tuple .. => isFalse (by intro e; cases e)
  | .function .., .builtin .. => isFalse (by intro e; cases e)
  | .builtin .., .genericTypeParam .. => isFalse (by intro e; cases e)
  | .builtin .., .dependentMember .. => isFalse (by intro e; cases e)
  | .builtin .., .archetype .. => isFalse (by intro e; cases e)
  | .builtin .., .nominal .. => isFalse (by intro e; cases e)
  | .builtin .., .boundGeneric .. => isFalse (by intro e; cases e)
  | .builtin .., .metatype .. => isFalse (by intro e; cases e)
  | .builtin .., .tuple .. => isFalse (by intro e; cases e)
  | .builtin .., .function .. => isFalse (by intro e; cases e)
/-- Structural equality test on lists of canonical types. -/
def CanType.decEqList : (a b : List CanType) → Decidable (a = b)
  | [], [] => isTrue rfl
  | x :: xs, y :: ys =>
    match CanType.decEq x y, CanType.decEqList xs ys with
    | isTrue h1, isTrue h2 => isTrue (by rw [h1, h2])
    | isFalse h1, _ => isFalse (by intro e; cases e; exact h1 rfl)
    | _, isFalse h2 => isFalse (by intro e; cases e; exact h2 rfl)
  | [], _ :: _ => isFalse (by intro e; cases e)
  | _ :: _, [] => isFalse (by intro e; cases e)
end

instance : DecidableEq CanType := CanType.decEq

/-- The test `isa<GenericTypeParamType>(type)` / `type->is<GenericTypeParamType>()`. -/
def CanType.isGenericTypeParam : CanType → Bool
  | .genericTypeParam _ _ => true
  | _ => false

/-- The query `type->isTypeParameter()`: a generic parameter or a member type rooted in one. -/
def CanType.isTypeParameter : CanType → Bool
  | .genericTypeParam _ _ => true
  | .dependentMember base _ => base.isTypeParameter
  | _ => false

mutual
/-- The query `type->hasTypeParameter()`: some component of the type is a type parameter. -/
def CanType.hasTypeParameter : CanType → Bool
  | .genericTypeParam _ _ => true
  | .dependentMember _ _ => true
  | .archetype _ => false
  | .nominal _ => false
  | .boundGeneric _ args => CanType.anyHasTypeParameter args
  | .metatype t _ => t.hasTypeParameter
  | .tuple es => CanType.anyHasTypeParameter es
  | .function ps r => CanType.anyHasTypeParameter ps || r.hasTypeParameter
  | .builtin _ => false
/-- Whether some type of the list has a type parameter. -/
def CanType.anyHasTypeParameter : List CanType → Bool
  | [] => false
  | t :: ts => t.hasTypeParameter || CanType.anyHasTypeParameter ts
end

/-- The query `type->getNominalOrBoundGenericNominal()`: the declaration of a nominal or
bound-generic nominal type, absent for every other type. -/
def CanType.getNominalOrBoundGenericNominal : CanType → Option NominalTypeDecl
  | .nominal d => some d
  | .boundGeneric d _ => some d
  | _ => none

/-- The query `type->getClassOrBoundGenericClass()`: the declaration when the type is a
class or bound-generic class type. -/
def CanType.getClassOrBoundGenericClass (t : CanType) : Option NominalTypeDecl :=
  match t.getNominalOrBoundGenericNominal with
  | some d => if d.kind = NominalKind.Class then some d else none
  | none => none

/-! ## Generic signatures and requirements -/

/-- A module declaration, identified by `id`. -/
structure ModuleDecl where
  id : Nat
deriving DecidableEq, Repr

/-- A protocol declaration (`InterfaceDecl`): identity, `isResilient()` and
`getParentModule()`. -/
structure InterfaceDecl where
  id : Nat
  resilient : Bool
  parentModule : ModuleDecl
deriving DecidableEq, Repr

/-- A generic type parameter `τ_depth_index`. -/
structure GenericTypeParamType where
  depth : Nat
  index : Nat
deriving DecidableEq, Repr

/-- The conversion `CanType(gp)`. -/
def GenericTypeParamType.toCanType (gp : GenericTypeParamType) : CanType :=
  .genericTypeParam gp.depth gp.index

/-- The four kinds of requirement of a generic signature. -/
inductive RequirementKind
  | Conformance | Superclass | SameType | Layout
deriving DecidableEq, Repr

/-- A requirement of a generic signature. The second type of a conformance requirement is
always a protocol type, so it is kept as the protocol declaration that
`cast<InterfaceType>(...)->getDecl()` extracts. -/
inductive Requirement
  | conformance (firstType : CanType) (protocol : InterfaceDecl)
  | superclass (firstType secondType : CanType)
  | sameType (firstType secondType : CanType)
  | layout (firstType : CanType) (layoutConstraint : Nat)
deriving DecidableEq

/-- The accessor `reqt.getKind()`. -/
def Requirement.getKind : Requirement → RequirementKind
  | .conformance _ _ => .Conformance
  | .superclass _ _ => .Superclass
  | .sameType _ _ => .SameType
  | .layout _ _ => .Layout

/-- A generic signature. `params` is what `forEachParam` visits (each parameter with its
canonical flag), `requirements` is `getRequirements()`; `conformsTo` and `superclassBound`
are the signature queries `getConformsTo` and `getSuperclassBound`. -/
structure GenericSignature where
  params : List (GenericTypeParamType × Bool)
  requirements : List Requirement
  conformsTo : CanType → List InterfaceDecl
  superclassBound : CanType → Option CanType

/-- A possibly null `CanGenericSignature`. -/
abbrev CanGenericSignature := Option GenericSignature

/-- A generic requirement: a type parameter, with the protocol when a witness table is
needed and without one when type metadata is needed. -/
structure GenericRequirement where
  TypeParameter : CanType
  Interface : Option InterfaceDecl
deriving DecidableEq

/-! ## The requirement enumerator -/

/-- The first loop of `enumerateGenericSignatureRequirements`: `forEachParam` invoking the
callback on `{CanType(gp), nullptr}` for every canonical parameter. -/
def enumerateParamRequirements : List (GenericTypeParamType × Bool) → List GenericRequirement
  | [] => []
  | (gp, canonical) :: rest =>
    if canonical then
      { TypeParameter := gp.toCanType, Interface := none } :: enumerateParamRequirements rest
    else
      enumerateParamRequirements rest

/-- The second loop of `enumerateGenericSignatureRequirements`: the switch over the
requirement kind. `requiresWitnessTable` is
`lowering::TypeConverter::interfaceRequiresWitnessTable`. -/
def enumerateConformanceRequirements (requiresWitnessTable : InterfaceDecl → Bool) :
    List Requirement → List GenericRequirement
  | [] => []
  | reqt :: rest =>
    match reqt with
    | .superclass _ _ => enumerateConformanceRequirements requiresWitnessTable rest
    | .sameType _ _ => enumerateConformanceRequirements requiresWitnessTable rest
    | .layout _ _ => enumerateConformanceRequirements requiresWitnessTable rest
    | .conformance type protocol =>
      if requiresWitnessTable protocol then
        { TypeParameter := type, Interface := some protocol }
          :: enumerateConformanceRequirements requiresWitnessTable rest
      else
        enumerateConformanceRequirements requiresWitnessTable rest

/-- What one requirement of a signature contributes according to the specification: a
(type, protocol) requirement for a conformance requirement whose protocol requires a
witness table, nothing otherwise. -/
def witnessTableRequirement (requiresWitnessTable : InterfaceDecl → Bool) :
    Requirement → Option GenericRequirement
  | .conformance type protocol =>
    if requiresWitnessTable protocol then some { TypeParameter := type, Interface := some protocol }
    else none
  | .superclass _ _ => none
  | .sameType _ _ => none
  | .layout _ _ => none

/-- The function `irgen::enumerateGenericSignatureRequirements`; the result lists the
requirements in the order the callback receives them. -/
def enumerateGenericSignatureRequirements (requiresWitnessTable : InterfaceDecl → Bool)
    (signature : CanGenericSignature) : List GenericRequirement :=
  match signature with
  | none => []
  | some sig =>
    enumerateParamRequirements sig.params
      ++ enumerateConformanceRequirements requiresWitnessTable sig.requirements

/-! ## Metadata paths, fulfillments and the fulfillment map -/

/-- One step of a metadata path. -/
inductive MetadataPath.Component
  | OutOfLineBaseInterface (index : Nat)
  | AssociatedConformance (index : Nat)
  | NominalTypeArgument (index : Nat)
  | NominalTypeArgumentConformance (index : Nat)
  | ConditionalConformance (index : Nat)
  | Impossible
deriving DecidableEq, Repr

/-- A metadata path: its components in the order they are followed. -/
abbrev MetadataPath := List MetadataPath.Component

/-- The operation `path.addImpossibleComponent()`. -/
def MetadataPath.addImpossibleComponent (path : MetadataPath) : MetadataPath :=
  path ++ [MetadataPath.Component.Impossible]

/-- Completeness state of a piece of type metadata. -/
inductive MetadataState
  | Complete | NonTransitiveComplete | LayoutComplete | Abstract
deriving DecidableEq, Repr

/-- Whether a metadata source is known to be exactly the given type. -/
inductive IsExact_t
  | IsInexact | IsExact
deriving DecidableEq, Repr

/-- A recorded way to derive a value: the source it starts from, the path to follow and
the metadata state obtained. -/
structure Fulfillment where
  SourceIndex : Nat
  Path : MetadataPath
  State : MetadataState
deriving DecidableEq, Repr

/-- Key of the fulfillment map: a type and an optional protocol. -/
abbrev FulfillmentKey := CanType × Option InterfaceDecl

/-- Modelled from the spec: the fulfillment map, whose class (`Fulfillment.h`) is not among
the sources. At most one fulfillment exists per (type, optional protocol) key; entries are
kept in the order they were recorded. -/
structure FulfillmentMap where
  entries : List (FulfillmentKey × Fulfillment)

/-- Modelled from the spec: lookup of a key in the fulfillment map, "not found" being
`none`. -/
def FulfillmentMap.find (m : FulfillmentMap) (key : FulfillmentKey) : Option Fulfillment :=
  match m.entries.find? (fun e => decide (e.1 = key)) with
  | some e => some e.2
  | none => none

/-- Modelled from the spec: `getTypeMetadata(type)`, the lookup of `(type, no protocol)`. -/
def FulfillmentMap.getTypeMetadata (m : FulfillmentMap) (type : CanType) : Option Fulfillment :=
  m.find (type, none)

/-- Modelled from the spec: `getWitnessTable(type, protocol)`, the lookup of
`(type, protocol)`. -/
def FulfillmentMap.getWitnessTable (m : FulfillmentMap) (type : CanType)
    (protocol : InterfaceDecl) : Option Fulfillment :=
  m.find (type, some protocol)

/-- Modelled from the spec: `addFulfillment(key, source, path, state)` with the spec's
first-found-wins policy: the fulfillment is recorded when the key has none yet and the
earlier winner is kept otherwise. The flag tells whether something was recorded. -/
def FulfillmentMap.addFulfillment (m : FulfillmentMap) (key : FulfillmentKey) (source : Nat)
    (path : MetadataPath) (state : MetadataState) : Bool × FulfillmentMap :=
  match m.find key with
  | some _ => (false, m)
  | none =>
    (true, { entries := m.entries ++ [(key, { SourceIndex := source, Path := path, State := state })] })

/-- The callback object handed to the fulfillment search
(`FulfillmentMap::InterestingKeysCallback`). -/
structure InterestingKeysCallback where
  isInterestingType : CanType → Bool
  hasInterestingType : CanType → Bool
  hasLimitedInterestingConformances : CanType → Bool
  getInterestingConformances : CanType → List InterfaceDecl
  getSuperclassBound : CanType → Option CanType

/-! ## Conformances -/

/-- Identity of a root conformance: a normal conformance (index into the conformance
table) or a self-conformance. -/
inductive RootInterfaceConformance
  | normal (id : Nat)
  | selfConformance (id : Nat)
deriving DecidableEq, Repr

/-- Identity of an `InterfaceConformance` object: a root conformance itself, or a
specialized or inherited conformance that refers to its root. -/
inductive InterfaceConformance
  | root (r : RootInterfaceConformance)
  | derived (id : Nat) (r : RootInterfaceConformance)
deriving DecidableEq, Repr

/-- The accessor `conformance->getRootConformance()`. -/
def InterfaceConformance.getRootConformance : InterfaceConformance → RootInterfaceConformance
  | .root r => r
  | .derived _ r => r

/-- A conformance reference: abstract (only the protocol is known) or concrete. -/
inductive InterfaceConformanceRef
  | abstract (requirement : InterfaceDecl)
  | concrete (requirement : InterfaceDecl) (conformance : InterfaceConformance)
deriving DecidableEq, Repr

/-- The accessor `conformance.getRequirement()`. -/
def InterfaceConformanceRef.getRequirement : InterfaceConformanceRef → InterfaceDecl
  | .abstract p => p
  | .concrete p _ => p

/-- The accessor `conformance.isAbstract()`. -/
def InterfaceConformanceRef.isAbstract : InterfaceConformanceRef → Bool
  | .abstract _ => true
  | .concrete _ _ => false

/-! ## Lowered function types -/

/-- Representation tag of a lowered function type. -/
inductive PILFunctionTypeRepresentation
  | Thick | Block | Thin | CFunctionPointer | Method | ObjCMethod | WitnessMethod | Closure
deriving DecidableEq, Repr

/-- Passing convention of a parameter. -/
inductive ParameterConvention
  | Indirect_In | Indirect_In_Constant | Indirect_In_Guaranteed | Indirect_Inout
  | Indirect_InoutAliasable | Direct_Owned | Direct_Unowned | Direct_Guaranteed
deriving DecidableEq, Repr

/-- A formal parameter: `argumentType` is `getArgumentType(...)`, `convention` is
`getConvention()`. -/
structure PILParameterInfo where
  argumentType : CanType
  convention : ParameterConvention
deriving DecidableEq

/-- A lowered function type, with the queries the polymorphic convention asks of it.
`selfInstanceType` is `getSelfInstanceType(...)` and `witnessMethodConformance` is
`getWitnessMethodConformanceOrInvalid()`; both are read for witness and ObjC methods only. -/
structure PILFunctionType where
  representation : PILFunctionTypeRepresentation
  pseudogeneric : Bool
  invocationGenericSignature : CanGenericSignature
  parameters : List PILParameterInfo
  hasSelfParam : Bool
  selfInstanceType : CanType
  witnessMethodConformance : InterfaceConformanceRef

/-! ## Metadata sources -/

/-- Kind of a metadata source. -/
inductive MetadataSource.Kind
  | ClassPointer | Metadata | GenericLValueMetadata | SelfMetadata | SelfWitnessTable
deriving DecidableEq, Repr

/-- A place where metadata is available: its kind, the parameter it comes from and the
type it is known to produce. -/
structure MetadataSource where
  kind : MetadataSource.Kind
  paramIndex : Nat
  type : CanType
deriving DecidableEq

/-- The constant `MetadataSource::InvalidSourceIndex`. Its declaration is outside this
translation unit; it is taken to be the all-ones `unsigned` (`~0U`), the value the
constructor uses for "no self index". No property below depends on the value. -/
def MetadataSource.InvalidSourceIndex : Nat := 4294967295

/-! ## The code-generation module -/

/-- LLVM types pushed on a signature; `other` stands for any type that is neither of the
two pointer types of the module. -/
inductive LLVMType
  | TypeMetadataPtrTy
  | WitnessTablePtrTy
  | other (id : Nat)
deriving DecidableEq, Repr

/-- The member functions of the fulfillment map that search a type or a conformance. Their
implementation is outside this translation unit, so they are parameters: each takes the map
and returns whether a fulfillment was recorded together with the updated map. -/
structure FulfillmentSearch where
  isInterestingTypeForFulfillments : CanType → Bool
  searchTypeMetadata : FulfillmentMap → InterestingKeysCallback → CanType → IsExact_t →
    MetadataState → Nat → MetadataPath → Bool × FulfillmentMap
  searchConformance : FulfillmentMap → InterestingKeysCallback → InterfaceConformance →
    Nat → MetadataPath → Bool × FulfillmentMap

/-- A declaration context: `getParentModule()` and `isGenericContext()`. -/
structure DeclContext where
  parentModule : ModuleDecl
  genericContext : Bool
deriving DecidableEq, Repr

/-- One associated-type witness as visited by `forEachTypeWitness`: whether the
requirement has overridden declarations, and the witness type. -/
structure TypeWitness where
  requirementHasOverriddenDecls : Bool
  type : CanType

/-- A normal conformance. `associatedConformance` is `getAssociatedConformance(type, proto)`
and `conditionalConformances` lists the conditional conformance requirements that have a
witness-table entry, in declaration order. -/
structure NormalInterfaceConformance where
  Interface : InterfaceDecl
  declContext : DeclContext
  associatedConformance : CanType → InterfaceDecl → InterfaceConformanceRef
  typeWitnesses : List TypeWitness
  conditionalConformances : List (CanType × InterfaceDecl)
  synthesizedNonUnique : Bool

/-- The front-end context: the table of normal conformances (a normal conformance is
identified by its index) and the requirement signature of each protocol. -/
structure AstContext where
  conformances : List NormalInterfaceConformance
  requirementSignature : InterfaceDecl → List Requirement

/-- The code-generation module: the module being compiled, the front-end context, the
lowering query `interfaceRequiresWitnessTable` and the fulfillment search. -/
structure IRGenModule where
  PolarphpModule : ModuleDecl
  Context : AstContext
  interfaceRequiresWitnessTable : InterfaceDecl → Bool
  fulfillmentSearch : FulfillmentSearch

/-! ## The polymorphic convention -/

/-- State of a `PolymorphicConvention` object. -/
structure PolymorphicConvention where
  FnType : PILFunctionType
  Generics : CanGenericSignature
  Sources : List MetadataSource
  Fulfillments : FulfillmentMap

/-- The helper `getConformsTo(t)`, which asks the signature. -/
def PolymorphicConvention.getConformsTo (self : PolymorphicConvention) (t : CanType) :
    List InterfaceDecl :=
  match self.Generics with
  | some g => g.conformsTo t
  | none => []

/-- The helper `getSuperclassBound(t)`: the signature's bound, or the null type. -/
def PolymorphicConvention.getSuperclassBound (self : PolymorphicConvention) (t : CanType) :
    Option CanType :=
  match self.Generics with
  | some g => g.superclassBound t
  | none => none

/-- The callback object `FulfillmentMapCallback(*this)`. -/
def PolymorphicConvention.FulfillmentMapCallback (self : PolymorphicConvention) :
    InterestingKeysCallback where
  isInterestingType := fun type => type.isTypeParameter
  hasInterestingType := fun type => type.hasTypeParameter
  hasLimitedInterestingConformances := fun _ => true
  getInterestingConformances := fun type => self.getConformsTo type
  getSuperclassBound := fun type => self.getSuperclassBound type

/-- The member `enumerateRequirements`: the requirements handed to the callback, in order. -/
def PolymorphicConvention.enumerateRequirements (IGM : IRGenModule)
    (self : PolymorphicConvention) : List GenericRequirement :=
  enumerateGenericSignatureRequirements IGM.interfaceRequiresWitnessTable self.Generics

/-- The lambda of `enumerateUnfulfilledRequirements` run over the enumerated requirements:
a requirement reaches the outer callback when its lookup finds nothing. -/
def unfulfilledRequirements (fulfillments : FulfillmentMap) :
    List GenericRequirement → List GenericRequirement
  | [] => []
  | requirement :: rest =>
    match requirement.Interface with
    | some protocol =>
      if (fulfillments.getWitnessTable requirement.TypeParameter protocol).isNone then
        requirement :: unfulfilledRequirements fulfillments rest
      else
        unfulfilledRequirements fulfillments rest
    | none =>
      if (fulfillments.getTypeMetadata requirement.TypeParameter).isNone then
        requirement :: unfulfilledRequirements fulfillments rest
      else
        unfulfilledRequirements fulfillments rest

/-- The specification's test "the requirement has no entry in the fulfillment map": the
lookup is `getWitnessTable(type, protocol)` when the requirement carries a protocol and
`getTypeMetadata(type)` otherwise. -/
def hasNoFulfillment (fulfillments : FulfillmentMap) (r : GenericRequirement) : Bool :=
  match r.Interface with
  | some protocol => (fulfillments.getWitnessTable r.TypeParameter protocol).isNone
  | none => (fulfillments.getTypeMetadata r.TypeParameter).isNone

/-- The member `enumerateUnfulfilledRequirements`: the requirements handed to the
callback, in order. -/
def PolymorphicConvention.enumerateUnfulfilledRequirements (IGM : IRGenModule)
    (self : PolymorphicConvention) : List GenericRequirement :=
  unfulfilledRequirements self.Fulfillments (self.enumerateRequirements IGM)

/-- The member `addPseudogenericFulfillments`: for every enumerated requirement, add a
fulfillment at source 0 whose path is the single Impossible component. -/
def PolymorphicConvention.addPseudogenericFulfillments (IGM : IRGenModule)
    (self : PolymorphicConvention) : PolymorphicConvention :=
  (self.enumerateRequirements IGM).foldl
    (fun conv reqt =>
      let path := MetadataPath.addImpossibleComponent []
      let sourceIndex := 0
      { conv with
        Fulfillments :=
          (conv.Fulfillments.addFulfillment (reqt.TypeParameter, reqt.Interface) sourceIndex
            path MetadataState.Complete).2 })
    self

/-- The member `considerType`: run the type search of the fulfillment map for the given
source; only the fulfillment map changes. -/
def PolymorphicConvention.considerType (IGM : IRGenModule) (self : PolymorphicConvention)
    (type : CanType) (isExact : IsExact_t) (sourceIndex : Nat) (path : MetadataPath) :
    Bool × PolymorphicConvention :=
  let r := IGM.fulfillmentSearch.searchTypeMetadata self.Fulfillments
    self.FulfillmentMapCallback type isExact MetadataState.Complete sourceIndex path
  (r.1, { self with Fulfillments := r.2 })

/-- The member `considerNewTypeSource`. -/
def PolymorphicConvention.considerNewTypeSource (IGM : IRGenModule)
    (self : PolymorphicConvention) (kind : MetadataSource.Kind) (paramIndex : Nat)
    (type : CanType) (isExact : IsExact_t) : PolymorphicConvention :=
  if !IGM.fulfillmentSearch.isInterestingTypeForFulfillments type then self
  else
    -- Prospectively add a source.
    let self1 : PolymorphicConvention :=
      { self with Sources := self.Sources ++ [{ kind := kind, paramIndex := paramIndex, type := type }] }
    -- Consider the source.
    let r := self1.considerType IGM type isExact (self1.Sources.length - 1) []
    if !r.1 then
      -- If it was not used in any fulfillment, remove it.
      { r.2 with Sources := r.2.Sources.dropLast }
    else r.2

/-- The member `addSelfMetadataFulfillment`. -/
def PolymorphicConvention.addSelfMetadataFulfillment (self : PolymorphicConvention)
    (arg : CanType) : PolymorphicConvention :=
  let source := self.Sources.length - 1
  { self with
    Fulfillments := (self.Fulfillments.addFulfillment (arg, none) source [] MetadataState.Complete).2 }

/-- The member `addSelfWitnessTableFulfillment`. -/
def PolymorphicConvention.addSelfWitnessTableFulfillment (IGM : IRGenModule)
    (self : PolymorphicConvention) (arg : CanType) (conformance : InterfaceConformanceRef) :
    PolymorphicConvention :=
  let proto := conformance.getRequirement
  let source := self.Sources.length - 1
  let self1 : PolymorphicConvention :=
    { self with
      Fulfillments :=
        (self.Fulfillments.addFulfillment (arg, some proto) source [] MetadataState.Complete).2 }
  match conformance with
  | .concrete _ concrete =>
    { self1 with
      Fulfillments :=
        (IGM.fulfillmentSearch.searchConformance self1.Fulfillments self1.FulfillmentMapCallback
          concrete source []).2 }
  | .abstract _ => self1

/-- The member `considerWitnessSelf`. -/
def PolymorphicConvention.considerWitnessSelf (IGM : IRGenModule)
    (self : PolymorphicConvention) (fnType : PILFunctionType) : PolymorphicConvention :=
  let selfTy := fnType.selfInstanceType
  let conformance := fnType.witnessMethodConformance
  -- First, bind type metadata for Self.
  let self1 : PolymorphicConvention :=
    { self with
      Sources := self.Sources ++
        [{ kind := MetadataSource.Kind.SelfMetadata,
           paramIndex := MetadataSource.InvalidSourceIndex, type := selfTy }] }
  let self2 := if selfTy.isGenericTypeParam then self1.addSelfMetadataFulfillment selfTy else self1
  let self3 := (self2.considerType IGM selfTy IsExact_t.IsInexact (self2.Sources.length - 1) []).2
  -- The witness table for Self : P comes from the Self witness table parameter.
  let self4 : PolymorphicConvention :=
    { self3 with
      Sources := self3.Sources ++
        [{ kind := MetadataSource.Kind.SelfWitnessTable,
           paramIndex := MetadataSource.InvalidSourceIndex, type := selfTy }] }
  self4.addSelfWitnessTableFulfillment IGM selfTy conformance

/-- The member `considerObjCGenericSelf`; the parameter index is `size() - 1` in
`unsigned` arithmetic. -/
def PolymorphicConvention.considerObjCGenericSelf (IGM : IRGenModule)
    (self : PolymorphicConvention) (fnType : PILFunctionType) : PolymorphicConvention :=
  let selfTy := fnType.selfInstanceType
  let paramIndex := (fnType.parameters.length + 4294967296 - 1) % 4294967296
  let self1 : PolymorphicConvention :=
    { self with
      Sources := self.Sources ++
        [{ kind := MetadataSource.Kind.ClassPointer, paramIndex := paramIndex, type := selfTy }] }
  if selfTy.isGenericTypeParam then self1.addSelfMetadataFulfillment selfTy
  else (self1.considerType IGM selfTy IsExact_t.IsInexact (self1.Sources.length - 1) []).2

/-- The member `considerParameter`. -/
def PolymorphicConvention.considerParameter (IGM : IRGenModule)
    (self : PolymorphicConvention) (param : PILParameterInfo) (paramIndex : Nat)
    (isSelfParameter : Bool) : PolymorphicConvention :=
  let type := param.argumentType
  match param.convention with
  | .Indirect_In | .Indirect_In_Constant | .Indirect_In_Guaranteed | .Indirect_Inout
  | .Indirect_InoutAliasable =>
    if !isSelfParameter then self
    else if type.getNominalOrBoundGenericNominal.isSome then
      self.considerNewTypeSource IGM MetadataSource.Kind.GenericLValueMetadata paramIndex type
        IsExact_t.IsExact
    else self
  | .Direct_Owned | .Direct_Unowned | .Direct_Guaranteed =>
    -- Classes are sources of metadata.
    if type.getClassOrBoundGenericClass.isSome then
      self.considerNewTypeSource IGM MetadataSource.Kind.ClassPointer paramIndex type
        IsExact_t.IsInexact
    else
      match (if type.isGenericTypeParam then self.getSuperclassBound type else none) with
      | some superclassTy =>
        self.considerNewTypeSource IGM MetadataSource.Kind.ClassPointer paramIndex superclassTy
          IsExact_t.IsInexact
      | none =>
        -- Thick metatypes are sources of metadata.
        match type with
        | .metatype objTy repr =>
          if repr ≠ MetatypeRepresentation.Thick then self
          else
            self.considerNewTypeSource IGM MetadataSource.Kind.Metadata paramIndex objTy
              IsExact_t.IsInexact
        | _ => self

/-- A proposal handed to `considerNewTypeSource`: the kind of source, the type searched and
whether the source is exact. -/
structure SourceProposal where
  kind : MetadataSource.Kind
  type : CanType
  isExact : IsExact_t
deriving DecidableEq

/-- Whether a parameter convention passes the value indirectly. -/
def ParameterConvention.isIndirect : ParameterConvention → Bool
  | .Indirect_In => true
  | .Indirect_In_Constant => true
  | .Indirect_In_Guaranteed => true
  | .Indirect_Inout => true
  | .Indirect_InoutAliasable => true
  | .Direct_Owned => false
  | .Direct_Unowned => false
  | .Direct_Guaranteed => false

/-- Whether a type is a nominal or bound-generic nominal type. -/
def CanType.isNominalOrBoundGeneric : CanType → Bool
  | .nominal _ => true
  | .boundGeneric _ _ => true
  | _ => false

/-- Whether a type is class-typed: a nominal or bound-generic nominal type of a class. -/
def CanType.isClassTyped : CanType → Bool
  | .nominal d => decide (d.kind = NominalKind.Class)
  | .boundGeneric d _ => decide (d.kind = NominalKind.Class)
  | _ => false

/-- The classification of a parameter as the specification words it: the source proposed
for a parameter, if any. `superclassBound` is the signature's superclass bound. -/
def proposedSource (superclassBound : CanType → Option CanType) (param : PILParameterInfo)
    (isSelfParameter : Bool) : Option SourceProposal :=
  if param.convention.isIndirect then
    -- an indirect parameter that is not self proposes nothing; indirect self proposes an
    -- exact lvalue-metadata source exactly when nominal
    if isSelfParameter && param.argumentType.isNominalOrBoundGeneric then
      some { kind := MetadataSource.Kind.GenericLValueMetadata, type := param.argumentType,
             isExact := IsExact_t.IsExact }
    else none
  else if param.argumentType.isClassTyped then
    some { kind := MetadataSource.Kind.ClassPointer, type := param.argumentType,
           isExact := IsExact_t.IsInexact }
  else
    match param.argumentType with
    | .genericTypeParam depth index =>
      match superclassBound (.genericTypeParam depth index) with
      | some bound =>
        some { kind := MetadataSource.Kind.ClassPointer, type := bound,
               isExact := IsExact_t.IsInexact }
      | none => none
    | .metatype instanceType MetatypeRepresentation.Thick =>
      some { kind := MetadataSource.Kind.Metadata, type := instanceType,
             isExact := IsExact_t.IsInexact }
    | _ => none

/-- The loop "now consider the rest of the parameters": every index other than
`selfIndex`, in increasing order, starting at `index`. -/
def PolymorphicConvention.considerRestOfParameters (IGM : IRGenModule) (selfIndex : Nat) :
    List PILParameterInfo → Nat → PolymorphicConvention → PolymorphicConvention
  | [], _, self => self
  | param :: rest, index, self =>
    let self1 := if index ≠ selfIndex then self.considerParameter IGM param index false else self
    PolymorphicConvention.considerRestOfParameters IGM selfIndex rest (index + 1) self1

/-- The member initialisers of the constructor followed by `initGenerics()`: no source, an
empty fulfillment map and the invocation generic signature of the function type. -/
def PolymorphicConvention.initGenerics (fnType : PILFunctionType) : PolymorphicConvention :=
  { FnType := fnType, Generics := fnType.invocationGenericSignature, Sources := [],
    Fulfillments := { entries := [] } }

/-- The constructor `PolymorphicConvention::PolymorphicConvention(IGM, fnType)`. The self
index is `params.size() - 1` in `unsigned` arithmetic; a function type that has a self
parameter has at least one parameter, and no parameter is read otherwise. -/
def PolymorphicConvention.construct (IGM : IRGenModule)
    (fnType : PILFunctionType) : PolymorphicConvention :=
  let self := PolymorphicConvention.initGenerics fnType
  let rep := fnType.representation
  if fnType.pseudogeneric then
    let self1 :=
      if rep = PILFunctionTypeRepresentation.WitnessMethod then self.considerWitnessSelf IGM fnType
      else self
    self1.addPseudogenericFulfillments IGM
  else if rep = PILFunctionTypeRepresentation.WitnessMethod then
    self.considerWitnessSelf IGM fnType
  else if rep = PILFunctionTypeRepresentation.ObjCMethod then
    self.considerObjCGenericSelf IGM fnType
  else
    let params := fnType.parameters
    -- Consider self first.
    let selfIndex :=
      if fnType.hasSelfParam then (params.length + 4294967296 - 1) % 4294967296 else 4294967295
    let self1 :=
      if fnType.hasSelfParam then
        match params[selfIndex]? with
        | some param => self.considerParameter IGM param selfIndex true
        | none => self
      else self
    -- Now consider the rest of the parameters.
    PolymorphicConvention.considerRestOfParameters IGM selfIndex params 0 self1

/-! ## Expanding a polymorphic signature -/

/-- The member `ExpandPolymorphicSignature::addEarlySource`. -/
def ExpandPolymorphicSignature.addEarlySource (source : MetadataSource) (out : List LLVMType) :
    List LLVMType :=
  match source.kind with
  | .ClassPointer => out
  | .Metadata => out
  | .GenericLValueMetadata => out ++ [LLVMType.TypeMetadataPtrTy]
  | .SelfMetadata => out
  | .SelfWitnessTable => out

/-- The member `ExpandPolymorphicSignature::expand` on a constructed convention. -/
def ExpandPolymorphicSignature.expand (IGM : IRGenModule) (self : PolymorphicConvention)
    (out : List LLVMType) : List LLVMType :=
  let out1 := self.Sources.foldl (fun acc source => ExpandPolymorphicSignature.addEarlySource source acc) out
  (self.enumerateUnfulfilledRequirements IGM).foldl
    (fun acc reqt =>
      acc ++ [if reqt.Interface.isSome then LLVMType.WitnessTablePtrTy
              else LLVMType.TypeMetadataPtrTy])
    out1

/-- The pointer type the specification assigns to a requirement: a witness-table pointer
when it carries a protocol, a type-metadata pointer otherwise. -/
def requirementPointerType (r : GenericRequirement) : LLVMType :=
  match r.Interface with
  | some _ => LLVMType.WitnessTablePtrTy
  | none => LLVMType.TypeMetadataPtrTy

/-- The function `irgen::expandPolymorphicSignature`. -/
def expandPolymorphicSignature (IGM : IRGenModule) (polyFn : PILFunctionType)
    (out : List LLVMType) : List LLVMType :=
  ExpandPolymorphicSignature.expand IGM (PolymorphicConvention.construct IGM polyFn) out

/-! ## The conformance classifier -/

/-- The member `IRGenModule::isResilientConformance` on a normal conformance. -/
def IRGenModule.isResilientConformance (IGM : IRGenModule)
    (conformance : NormalInterfaceConformance) : Bool :=
  -- If the protocol is not resilient, the conformance is not resilient either.
  if !conformance.Interface.resilient then false
  else
    let conformanceModule := conformance.declContext.parentModule
    -- Protocol and conformance both in the current module: not resilient.
    if conformanceModule = IGM.PolarphpModule ∧
        conformanceModule = conformance.Interface.parentModule then false
    -- Same module and the conforming type is not generic: not resilient.
    else if !conformance.declContext.genericContext ∧
        conformanceModule = conformance.Interface.parentModule then false
    else true

/-- The static function `hasDependentTypeWitness`. -/
def hasDependentTypeWitness (conformance : NormalInterfaceConformance) : Bool :=
  let DC := conformance.declContext
  if !DC.genericContext then false
  else
    conformance.typeWitnesses.any
      (fun w => if w.requirementHasOverriddenDecls then false else w.type.hasTypeParameter)

/-- Modelled from the spec: `PILWitnessTable::enumerateWitnessTableConditionalConformances`,
defined outside this translation unit. It hands each conditional conformance requirement,
with its index, to the callback and stops with `true` as soon as the callback answers
`true`. -/
def enumerateWitnessTableConditionalConformances (fn : Nat → CanType → InterfaceDecl → Bool) :
    List (CanType × InterfaceDecl) → Nat → Bool
  | [], _ => false
  | (type, proto) :: rest, conformanceIndex =>
    if fn conformanceIndex type proto then true
    else enumerateWitnessTableConditionalConformances fn rest (conformanceIndex + 1)

/-- The loop of `isDependentConformance` over the protocol's requirement signature;
`recurse` is the recursive call. The visited set is threaded through. -/
def anyDependentAssociatedConformance
    (recurse : RootInterfaceConformance → List Nat → Option (Bool × List Nat))
    (conformance : NormalInterfaceConformance) :
    List Requirement → List Nat → Option (Bool × List Nat)
  | [], visited => some (false, visited)
  | req :: rest, visited =>
    match req with
    | .conformance firstType assocInterface =>
      match conformance.associatedConformance firstType assocInterface with
      | .abstract _ => some (true, visited)
      | .concrete _ concrete =>
        match recurse concrete.getRootConformance visited with
        | none => none
        | some (true, visited1) => some (true, visited1)
        | some (false, visited1) =>
          anyDependentAssociatedConformance recurse conformance rest visited1
    | _ => anyDependentAssociatedConformance recurse conformance rest visited

/-- The static function `isDependentConformance(IGM, rootConformance, visited)`. The
result carries the updated visited set; `none` means the recursion budget `fuel` ran out or
a conformance identity is not in the table. -/
def isDependentConformance (IGM : IRGenModule) :
    Nat → RootInterfaceConformance → List Nat → Option (Bool × List Nat)
  | 0, _, _ => none
  | fuel + 1, rootConformance, visited =>
    match rootConformance with
    -- Self-conformances are never dependent.
    | .selfConformance _ => some (false, visited)
    | .normal id =>
      -- Already visited: optimistically assume it is fine.
      if id ∈ visited then some (false, visited)
      else
        let visited1 := id :: visited
        match IGM.Context.conformances[id]? with
        | none => none
        | some conformance =>
          -- If the conformance is resilient, this is always true.
          if IGM.isResilientConformance conformance then some (true, visited1)
          else
            match anyDependentAssociatedConformance (isDependentConformance IGM fuel) conformance
                (IGM.Context.requirementSignature conformance.Interface) visited1 with
            | none => none
            | some (true, visited2) => some (true, visited2)
            | some (false, visited2) =>
              if hasDependentTypeWitness conformance then some (true, visited2)
              else
                some (enumerateWitnessTableConditionalConformances (fun _ _ _ => true)
                  conformance.conditionalConformances 0, visited2)

/-- The member `IRGenModule::isDependentConformance`: the search from an empty visited
set. A nested call is made only on a conformance not yet visited, so one more level than
there are conformances is enough budget. -/
def IRGenModule.isDependentConformance (IGM : IRGenModule)
    (conformance : RootInterfaceConformance) : Option Bool :=
  match Irgen.isDependentConformance IGM (IGM.Context.conformances.length + 1) conformance [] with
  | some r => some r.1
  | none => none

/-- The static function `isSynthesizedNonUnique`. -/
def isSynthesizedNonUnique (IGM : IRGenModule) (conformance : RootInterfaceConformance) : Bool :=
  match conformance with
  | .normal id =>
    match IGM.Context.conformances[id]? with
    | some normal => normal.synthesizedNonUnique
    | none => false
  | .selfConformance _ => false

/-- The two implementations of `ConformanceInfo`: a directly referenced table of a root
conformance, or a table reached through an accessor. -/
inductive ConformanceInfo
  | Direct (RootConformance : RootInterfaceConformance)
  | Accessor (Conformance : InterfaceConformance)
deriving DecidableEq, Repr

/-- The cache `IRGenModule::Conformances`. -/
abbrev ConformanceCache := List (InterfaceConformance × ConformanceInfo)

/-- The lambda `checkCache` of `getConformanceInfo`. -/
def checkCache (Conformances : ConformanceCache) (conf : InterfaceConformance) :
    Option ConformanceInfo :=
  match Conformances.find? (fun e => decide (e.1 = conf)) with
  | some e => some e.2
  | none => none

/-- The call `Conformances.try_emplace(key, info)`: insert unless the key is present. -/
def ConformanceCache.try_emplace (Conformances : ConformanceCache) (key : InterfaceConformance)
    (info : ConformanceInfo) : ConformanceCache :=
  match checkCache Conformances key with
  | some _ => Conformances
  | none => Conformances ++ [(key, info)]

/-- The member `IRGenModule::getConformanceInfo(protocol, conformance)`, with the cache
passed in and returned. `none` only when the dependence check has no result. -/
def IRGenModule.getConformanceInfo (IGM : IRGenModule) (Conformances : ConformanceCache)
    (_protocol : InterfaceDecl) (conformance : InterfaceConformance) :
    Option (ConformanceInfo × ConformanceCache) :=
  match checkCache Conformances conformance with
  | some found => some (found, Conformances)
  | none =>
    -- Drill down to the root normal conformance.
    let rootConformance := conformance.getRootConformance
    match IGM.isDependentConformance rootConformance with
    | none => none
    | some dependent =>
      if dependent || isSynthesizedNonUnique IGM rootConformance then
        let info := ConformanceInfo.Accessor conformance
        some (info, ConformanceCache.try_emplace Conformances conformance info)
      else
        match checkCache Conformances (InterfaceConformance.root rootConformance) with
        | some found => some (found, Conformances)
        | none =>
          let info := ConformanceInfo.Direct rootConformance
          some (info,
            ConformanceCache.try_emplace Conformances (InterfaceConformance.root rootConformance) info)

/-! ## The conformance graph searched by the dependence check -/

/-- The root conformances reached through the concrete associated conformances of the
conformance requirements in `reqs`, in requirement order. -/
def NormalInterfaceConformance.associatedRoots (conformance : NormalInterfaceConformance) :
    List Requirement → List RootInterfaceConformance
  | [] => []
  | .conformance firstType assocInterface :: rest =>
    match conformance.associatedConformance firstType assocInterface with
    | .abstract _ => conformance.associatedRoots rest
    | .concrete _ concrete => concrete.getRootConformance :: conformance.associatedRoots rest
  | .superclass _ _ :: rest => conformance.associatedRoots rest
  | .sameType _ _ :: rest => conformance.associatedRoots rest
  | .layout _ _ :: rest => conformance.associatedRoots rest

/-- Whether some conformance requirement in `reqs` has an abstract associated
conformance. -/
def NormalInterfaceConformance.hasAbstractAssociatedConformance
    (conformance : NormalInterfaceConformance) : List Requirement → Bool
  | [] => false
  | .conformance firstType assocInterface :: rest =>
    (conformance.associatedConformance firstType assocInterface).isAbstract
      || conformance.hasAbstractAssociatedConformance rest
  | .superclass _ _ :: rest => conformance.hasAbstractAssociatedConformance rest
  | .sameType _ _ :: rest => conformance.hasAbstractAssociatedConformance rest
  | .layout _ _ :: rest => conformance.hasAbstractAssociatedConformance rest

/-- Whether a root conformance is present among `n` table entries: a normal conformance
must be one of the entries, a self-conformance needs no entry. -/
def RootInterfaceConformance.inTable (n : Nat) : RootInterfaceConformance → Bool
  | .normal id => decide (id < n)
  | .selfConformance _ => true

/-- A conformance table is well formed when every associated conformance of every entry
refers to an entry of the table: the conformance graph is finite and has no dangling
reference. Cycles are allowed. -/
def AstContext.wellFormed (ctx : AstContext) : Bool :=
  ctx.conformances.all (fun conformance =>
    (conformance.associatedRoots (ctx.requirementSignature conformance.Interface)).all
      (fun root => root.inTable ctx.conformances.length))

/-- The number of table entries (out of `n`) that are not in the visited set: the measure
that decreases along nested calls of the dependence check. -/
def unvisitedCount (n : Nat) (visited : List Nat) : Nat :=
  ((List.range n).filter (fun i => decide (i ∉ visited))).length

/-- The body of the static function `isDependentConformance` with its recursive call
abstracted as `recurse`; `isDependentConformance IGM (fuel + 1)` is this body over
`isDependentConformance IGM fuel`. -/
def isDependentConformanceBody (IGM : IRGenModule)
    (recurse : RootInterfaceConformance → List Nat → Option (Bool × List Nat))
    (rootConformance : RootInterfaceConformance) (visited : List Nat) :
    Option (Bool × List Nat) :=
  match rootConformance with
  | .selfConformance _ => some (false, visited)
  | .normal id =>
    if id ∈ visited then some (false, visited)
    else
      let visited1 := id :: visited
      match IGM.Context.conformances[id]? with
      | none => none
      | some conformance =>
        if IGM.isResilientConformance conformance then some (true, visited1)
        else
          match anyDependentAssociatedConformance recurse conformance
              (IGM.Context.requirementSignature conformance.Interface) visited1 with
          | none => none
          | some (true, visited2) => some (true, visited2)
          | some (false, visited2) =>
            if hasDependentTypeWitness conformance then some (true, visited2)
            else
              some (enumerateWitnessTableConditionalConformances (fun _ _ _ => true)
                conformance.conditionalConformances 0, visited2)

/-- The conditions that make a conformance dependent by itself: it is resilient, one of
its associated conformances is abstract, it has a dependent type witness, or it has a
conditional conformance. -/
def IRGenModule.locallyDependent (IGM : IRGenModule)
    (conformance : NormalInterfaceConformance) : Bool :=
  IGM.isResilientConformance conformance
    || conformance.hasAbstractAssociatedConformance
        (IGM.Context.requirementSignature conformance.Interface)
    || hasDependentTypeWitness conformance
    || !conformance.conditionalConformances.isEmpty

/-- Reachability in the conformance graph: `b` is reached from `a` through concrete
associated conformances. -/
inductive Reaches (IGM : IRGenModule) : Nat → Nat → Prop
  | refl (a : Nat) : Reaches IGM a a
  | step (a b y : Nat) (conformance : NormalInterfaceConformance) :
      IGM.Context.conformances[a]? = some conformance →
      RootInterfaceConformance.normal b ∈
        conformance.associatedRoots (IGM.Context.requirementSignature conformance.Interface) →
      Reaches IGM b y → Reaches IGM a y

/-- Some conformance reachable from `a` is dependent by itself. -/
def DependentFrom (IGM : IRGenModule) (a : Nat) : Prop :=
  ∃ y conformance, Reaches IGM a y ∧ IGM.Context.conformances[y]? = some conformance ∧
    IGM.locallyDependent conformance = true

/-- The conformances visited between `V` and `V'` are settled: none is dependent by itself
and all their associated conformances were visited. -/
def SettledBetween (IGM : IRGenModule) (V V' : List Nat) : Prop :=
  ∀ x ∈ V', x ∉ V → ∃ conformance, IGM.Context.conformances[x]? = some conformance ∧
    IGM.locallyDependent conformance = false ∧
    ∀ b, RootInterfaceConformance.normal b ∈
      conformance.associatedRoots (IGM.Context.requirementSignature conformance.Interface) →
      b ∈ V'

/-- What a call of the dependence check on the normal conformance `b` with visited set `V`
must deliver: a result, a visited set that only grows, a reachable dependent conformance
when the answer is true, and a settled visited region containing `b` when it is false. -/
def DependenceCallSpec (IGM : IRGenModule) (b : Nat) (V : List Nat)
    (result : Option (Bool × List Nat)) : Prop :=
  ∃ r V', result = some (r, V') ∧ V ⊆ V' ∧
    (r = true → DependentFrom IGM b) ∧
    (r = false → b ∈ V' ∧ SettledBetween IGM V V')

/-! ## Constants and the constant-table query -/

/-- A lowered function, identified by `id`. -/
structure PILFunction where
  id : Nat
deriving DecidableEq, Repr

/-- A reference to a method requirement, identified by its declaration. -/
structure PILDeclRef where
  decl : Nat
deriving DecidableEq, Repr

/-- An associated type declaration, identified by `id`. -/
structure AssociatedTypeDecl where
  id : Nat
deriving DecidableEq, Repr

/-- An associated type requirement (`AssociatedType`), with `getAssociation()`. -/
structure AssociatedType where
  association : AssociatedTypeDecl
deriving DecidableEq, Repr

/-- An associated conformance requirement: the source protocol, the associated type path
(`getAssociation()`) and the protocol it must conform to
(`getAssociatedRequirement()`). -/
structure AssociatedConformance where
  sourceInterface : InterfaceDecl
  association : CanType
  associatedRequirement : InterfaceDecl
deriving DecidableEq

/-- The constants placed in witness tables and conformance descriptors, named after the
module function that produces each one. Bit casts to the byte pointer type are not
represented. -/
inductive Constant
  | InterfaceConformanceDescriptor (conformance : RootInterfaceConformance)
  | WitnessTable (conformance : RootInterfaceConformance)
  | NullPointer
  | PILFunction (fn : PILFunction)
  | DeletedMethodErrorFn
  | AssociatedTypeWitness (type : CanType)
  | MangledAssociatedConformance (conformance : RootInterfaceConformance)
      (requirement : AssociatedConformance)
deriving DecidableEq

/-- The code-generation options read here (`IGM.getOptions()`). -/
structure IRGenOptions where
  LazyInitializeInterfaceConformances : Bool
deriving DecidableEq, Repr

/-- The member `tryGetConstantTable` of the two conformance infos. `rootModule` is
`RootConformance->getDeclContext()->getParentModule()`. -/
def ConformanceInfo.tryGetConstantTable (IGM : IRGenModule) (Options : IRGenOptions)
    (rootModule : RootInterfaceConformance → ModuleDecl) (info : ConformanceInfo)
    (_conformingType : CanType) : Option Constant :=
  match info with
  | .Direct RootConformance =>
    if Options.LazyInitializeInterfaceConformances ∧
        rootModule RootConformance ≠ IGM.PolarphpModule then none
    else some (Constant.WitnessTable RootConformance)
  | .Accessor _ => none

/-- The caches that `getConformanceInfo` can be called with: the empty cache of a fresh
module and every cache left by a call on such a cache. -/
inductive ReachableCache (IGM : IRGenModule) : ConformanceCache → Prop
  | empty : ReachableCache IGM []
  | step (Conformances : ConformanceCache) (protocol : InterfaceDecl)
      (conformance : InterfaceConformance) (info : ConformanceInfo)
      (Conformances' : ConformanceCache) :
      ReachableCache IGM Conformances →
      IGM.getConformanceInfo Conformances protocol conformance = some (info, Conformances') →
      ReachableCache IGM Conformances'

/-- Every entry of the cache is what `getConformanceInfo` records: an accessor info under
the conformance itself when its root is dependent or synthesized non-unique, a direct info
under the root otherwise. -/
def CacheConsistent (IGM : IRGenModule) (Conformances : ConformanceCache) : Prop :=
  ∀ k info, (k, info) ∈ Conformances →
    (info = ConformanceInfo.Accessor k ∧
      (IGM.isDependentConformance k.getRootConformance = some true ∨
        isSynthesizedNonUnique IGM k.getRootConformance = true)) ∨
    (k = InterfaceConformance.root k.getRootConformance ∧
      info = ConformanceInfo.Direct k.getRootConformance ∧
      IGM.isDependentConformance k.getRootConformance = some false ∧
      isSynthesizedNonUnique IGM k.getRootConformance = false)

/-! ## Witness table layout -/

/-- How much of a protocol a layout covers. -/
inductive InterfaceInfoKind
  | RequirementSignature | Full
deriving DecidableEq, Repr

/-- Modelled from the spec: the order of the layout kinds used by the comparison
`getKind() >= kind` (the enumeration is declared outside this translation unit); `Full` is
the broader kind. -/
def InterfaceInfoKind.rank : InterfaceInfoKind → Nat
  | .RequirementSignature => 0
  | .Full => 1

/-- An entry of a witness table layout, named after the factory function that builds it;
`Invalid` is the default-constructed entry that a placeholder occupies. -/
inductive WitnessTableEntry
  | Invalid
  | OutOfLineBase (baseProto : InterfaceDecl)
  | Function (decl : Nat)
  | AssociatedType (requirement : AssociatedType)
  | AssociatedConformance (requirement : AssociatedConformance)
deriving DecidableEq

/-- A direct member of a protocol that the witness visitor visits: a method requirement or
a placeholder for missing members, with its number of table entries. -/
inductive InterfaceMember
  | Method (requirement : PILDeclRef)
  | Placeholder (numberOfVTableEntries : Nat)
deriving DecidableEq, Repr

/-- The requirements of a protocol as the witness visitor walks them: the out-of-line
base protocols, the members in declaration order, the associated types and the associated
conformances. -/
structure InterfaceRequirements where
  outOfLineBases : List InterfaceDecl
  members : List InterfaceMember
  associatedTypes : List AssociatedType
  associatedConformances : List AssociatedConformance

/-- One call of the witness visitor on its derived class. -/
inductive WitnessVisit
  | InterfaceConformanceDescriptor
  | OutOfLineBaseInterface (baseProto : InterfaceDecl)
  | Method (requirement : PILDeclRef)
  | Placeholder (numberOfVTableEntries : Nat)
  | AssociatedType (requirement : AssociatedType)
  | AssociatedConformance (requirement : AssociatedConformance)
deriving DecidableEq

/-- The visit of one member. -/
def InterfaceMember.toVisit : InterfaceMember → WitnessVisit
  | .Method requirement => WitnessVisit.Method requirement
  | .Placeholder n => WitnessVisit.Placeholder n

/-- Modelled from the spec: the traversal `visitInterfaceDecl` of the witness visitor
(`PILWitnessVisitor.h` is not among the sources). The conformance descriptor comes first;
then the out-of-line base protocols, the methods in declaration order, the associated types
and the associated conformances. Under the requirement-signature-only kind only the base
protocols are visited. -/
def visitInterfaceDecl (requirementSignatureOnly : Bool) (reqs : InterfaceRequirements) :
    List WitnessVisit :=
  WitnessVisit.InterfaceConformanceDescriptor ::
    (reqs.outOfLineBases.map WitnessVisit.OutOfLineBaseInterface ++
      (if requirementSignatureOnly then []
       else
        reqs.members.map InterfaceMember.toVisit ++
          reqs.associatedTypes.map WitnessVisit.AssociatedType ++
          reqs.associatedConformances.map WitnessVisit.AssociatedConformance))

/-- State of a `WitnessTableLayout` object. -/
structure WitnessTableLayout where
  Entries : List WitnessTableEntry
  requirementSignatureOnly : Bool

/-- The constructor `WitnessTableLayout(resultKind)`. -/
def WitnessTableLayout.create (resultKind : InterfaceInfoKind) : WitnessTableLayout :=
  match resultKind with
  | .RequirementSignature => { Entries := [], requirementSignatureOnly := true }
  | .Full => { Entries := [], requirementSignatureOnly := false }

/-- The member `shouldVisitRequirementSignatureOnly`. -/
def WitnessTableLayout.shouldVisitRequirementSignatureOnly (self : WitnessTableLayout) : Bool :=
  self.requirementSignatureOnly

/-- The hooks of `WitnessTableLayout`: `addInterfaceConformanceDescriptor` (nothing),
`addOutOfLineBaseInterface`, `addMethod`, `addPlaceholder` (one invalid entry per table
entry of the placeholder), `addAssociatedType` and `addAssociatedConformance`. -/
def WitnessTableLayout.visit (self : WitnessTableLayout) : WitnessVisit → WitnessTableLayout
  | .InterfaceConformanceDescriptor => self
  | .OutOfLineBaseInterface baseProto =>
    { self with Entries := self.Entries ++ [WitnessTableEntry.OutOfLineBase baseProto] }
  | .Method func =>
    { self with Entries := self.Entries ++ [WitnessTableEntry.Function func.decl] }
  | .Placeholder n =>
    { self with Entries := self.Entries ++ List.replicate n WitnessTableEntry.Invalid }
  | .AssociatedType requirement =>
    { self with Entries := self.Entries ++ [WitnessTableEntry.AssociatedType requirement] }
  | .AssociatedConformance req =>
    { self with Entries := self.Entries ++ [WitnessTableEntry.AssociatedConformance req] }

/-- The call `layout.visitInterfaceDecl(protocol)`: the traversal drives the hooks. -/
def WitnessTableLayout.visitInterfaceDecl (self : WitnessTableLayout)
    (reqs : InterfaceRequirements) : WitnessTableLayout :=
  (Irgen.visitInterfaceDecl self.shouldVisitRequirementSignatureOnly reqs).foldl
    WitnessTableLayout.visit self

/-- A memoized layout: its kind and its entries (`getWitnessEntries()`). -/
structure InterfaceInfo where
  Kind : InterfaceInfoKind
  WitnessEntries : List WitnessTableEntry
deriving DecidableEq

/-- The memo `TypeConverter::Interfaces`. -/
abbrev InterfaceCache := List (InterfaceDecl × InterfaceInfo)

/-- The lookup `Interfaces.find(protocol)`. -/
def InterfaceCache.find (Interfaces : InterfaceCache) (protocol : InterfaceDecl) :
    Option InterfaceInfo :=
  match List.find? (fun e => decide (e.1 = protocol)) Interfaces with
  | some e => some e.2
  | none => none

/-- The assignment `Interfaces[protocol] = info`: replace the entry of the protocol, or add
one. -/
def InterfaceCache.set : InterfaceCache → InterfaceDecl → InterfaceInfo → InterfaceCache
  | [], protocol, info => [(protocol, info)]
  | (p, i) :: rest, protocol, info =>
    if p = protocol then (protocol, info) :: rest
    else (p, i) :: InterfaceCache.set rest protocol info

/-- The layout step of `getInterfaceInfo`: lay out the witness table of the protocol, if it
needs one, and make an `InterfaceInfo` of it. -/
def layoutInterfaceInfo (IGM : IRGenModule) (reqs : InterfaceRequirements)
    (protocol : InterfaceDecl) (kind : InterfaceInfoKind) : InterfaceInfo :=
  let layout := WitnessTableLayout.create kind
  let layout1 :=
    if IGM.interfaceRequiresWitnessTable protocol then layout.visitInterfaceDecl reqs else layout
  { Kind := kind, WitnessEntries := layout1.Entries }

/-- The member `TypeConverter::getInterfaceInfo(protocol, kind)`, with the memo passed in
and returned. `requirementsOf` gives the requirements of each protocol. The two assertions
that compare a new layout with the cached one are not part of the computed result. -/
def TypeConverter.getInterfaceInfo (IGM : IRGenModule)
    (requirementsOf : InterfaceDecl → InterfaceRequirements) (Interfaces : InterfaceCache)
    (protocol : InterfaceDecl) (kind : InterfaceInfoKind) : InterfaceInfo × InterfaceCache :=
  -- Check whether we have already translated this protocol.
  match Interfaces.find protocol with
  | some cached =>
    if cached.Kind.rank ≥ kind.rank then (cached, Interfaces)
    else
      let info := layoutInterfaceInfo IGM (requirementsOf protocol) protocol kind
      (info, InterfaceCache.set Interfaces protocol info)
  | none =>
    let info := layoutInterfaceInfo IGM (requirementsOf protocol) protocol kind
    (info, InterfaceCache.set Interfaces protocol info)

/-- The layout entries that one visit contributes. -/
def WitnessVisit.layoutEntries : WitnessVisit → List WitnessTableEntry
  | .InterfaceConformanceDescriptor => []
  | .OutOfLineBaseInterface baseProto => [WitnessTableEntry.OutOfLineBase baseProto]
  | .Method func => [WitnessTableEntry.Function func.decl]
  | .Placeholder n => List.replicate n WitnessTableEntry.Invalid
  | .AssociatedType requirement => [WitnessTableEntry.AssociatedType requirement]
  | .AssociatedConformance req => [WitnessTableEntry.AssociatedConformance req]

/-! ## The witness table builder -/

mutual
/-- The query `type->hasArchetype()`: some component of the type is an archetype. -/
def CanType.hasArchetype : CanType → Bool
  | .genericTypeParam _ _ => false
  | .dependentMember base _ => base.hasArchetype
  | .archetype _ => true
  | .nominal _ => false
  | .boundGeneric _ args => CanType.anyHasArchetype args
  | .metatype t _ => t.hasArchetype
  | .tuple es => CanType.anyHasArchetype es
  | .function ps r => CanType.anyHasArchetype ps || r.hasArchetype
  | .builtin _ => false
/-- Whether some type of the list has an archetype. -/
def CanType.anyHasArchetype : List CanType → Bool
  | [] => false
  | t :: ts => t.hasArchetype || CanType.anyHasArchetype ts
end

/-- An entry of a recorded witness table (`PILWitnessTable::Entry`); a method entry
carries its witness function, absent when the method was removed as dead. -/
inductive PILWitnessTable.Entry
  | Invalid
  | Method (Requirement : PILDeclRef) (Witness : Option PILFunction)
  | AssociatedType (Requirement : AssociatedTypeDecl)
  | AssociatedTypeInterface (Requirement : CanType) (Interface : InterfaceDecl)
  | BaseInterface (Requirement : InterfaceDecl)
deriving DecidableEq

/-- A conditional conformance recorded in a witness table. -/
structure PILWitnessTable.ConditionalConformance where
  Requirement : CanType
  Conformance : InterfaceConformanceRef
deriving DecidableEq

/-- A recorded witness table: `getConformance()`, `getInterface()`, `getEntries()` and
`getConditionalConformances()`. -/
structure PILWitnessTable where
  Conformance : RootInterfaceConformance
  Interface : InterfaceDecl
  Entries : List PILWitnessTable.Entry
  ConditionalConformances : List PILWitnessTable.ConditionalConformance

/-- The queries asked of the conformance (mapped into its context) while a table is built:
`getInheritedConformance`, `getAssociatedType`, `getAssociatedConformance`,
`getTypeWitness`, and the protocol's Self type (`getInterfaceSelfType()`). -/
structure ConformanceQueries where
  getInheritedConformance : InterfaceDecl → InterfaceConformance
  getAssociatedType : CanType → CanType
  getAssociatedConformance : CanType → InterfaceDecl → InterfaceConformanceRef
  getTypeWitness : AssociatedTypeDecl → CanType
  interfaceSelfType : CanType

/-- What the builder reads from outside this translation unit: the options, the module of
each root conformance, the requirements of each protocol, the conforming type mapped into
context, the conformance queries and the superclass of an archetype (`getSuperclass()`). -/
structure WitnessTableInputs where
  Options : IRGenOptions
  rootModule : RootInterfaceConformance → ModuleDecl
  requirementsOf : InterfaceDecl → InterfaceRequirements
  ConcreteType : CanType
  ConformanceInContext : ConformanceQueries
  archetypeSuperclass : CanType → Option CanType

/-- The member `IRGenModule::isResilientConformance` on a root conformance:
self-conformances never require this. -/
def IRGenModule.isResilientRootConformance (IGM : IRGenModule)
    (root : RootInterfaceConformance) : Bool :=
  match root with
  | .normal id =>
    match IGM.Context.conformances[id]? with
    | some normal => IGM.isResilientConformance normal
    | none => false
  | .selfConformance _ => false

/-- State of a `WitnessTableBuilder`, together with the conformance cache of the module,
which the builder updates through `getConformanceInfo`. `Table` is the constant array under
construction. -/
structure WitnessTableBuilder where
  Table : List Constant
  TableSize : Nat
  PILWT : PILWitnessTable
  ConcreteType : CanType
  Conformance : RootInterfaceConformance
  ConformanceInContext : ConformanceQueries
  PILEntries : List PILWitnessTable.Entry
  PILConditionalConformances : List PILWitnessTable.ConditionalConformance
  SpecializedBaseConformances : List (Nat × ConformanceInfo)
  ConditionalRequirementPrivateDataIndices : List Nat
  NextPrivateDataIndex : Nat
  ResilientConformance : Bool
  PI : InterfaceInfo
  Conformances : ConformanceCache

/-- The constructor `WitnessTableBuilder(IGM, table, PILWT)`; the layout memo is passed in
and returned next to the builder. `TableSize` starts as the all-ones `unsigned`. -/
def WitnessTableBuilder.create (IGM : IRGenModule) (inputs : WitnessTableInputs)
    (Conformances : ConformanceCache) (Interfaces : InterfaceCache) (table : List Constant)
    (PILWT : PILWitnessTable) : WitnessTableBuilder × InterfaceCache :=
  let ResilientConformance := IGM.isResilientRootConformance PILWT.Conformance
  let PI := TypeConverter.getInterfaceInfo IGM inputs.requirementsOf Interfaces PILWT.Interface
    (if ResilientConformance then InterfaceInfoKind.RequirementSignature
     else InterfaceInfoKind.Full)
  ({ Table := table
     TableSize := 4294967295
     PILWT := PILWT
     ConcreteType := inputs.ConcreteType
     Conformance := PILWT.Conformance
     ConformanceInContext := inputs.ConformanceInContext
     PILEntries := PILWT.Entries
     PILConditionalConformances := PILWT.ConditionalConformances
     SpecializedBaseConformances := []
     ConditionalRequirementPrivateDataIndices := []
     NextPrivateDataIndex := 0
     ResilientConformance := ResilientConformance
     PI := PI.1
     Conformances := Conformances }, PI.2)

/-- The member `getTableSize`. -/
def WitnessTableBuilder.getTableSize (self : WitnessTableBuilder) : Nat := self.TableSize

/-- The member `getTablePrivateSize`. -/
def WitnessTableBuilder.getTablePrivateSize (self : WitnessTableBuilder) : Nat :=
  self.NextPrivateDataIndex

/-- The member `addInterfaceConformanceDescriptor`. -/
def WitnessTableBuilder.addInterfaceConformanceDescriptor (self : WitnessTableBuilder) :
    WitnessTableBuilder :=
  { self with Table := self.Table ++ [Constant.InterfaceConformanceDescriptor self.Conformance] }

/-- The member `addOutOfLineBaseInterface`. `none` stands for a fatal condition: no
recorded entry is left, or the conformance info has no result. The debug-only assertions
are not part of the computation. -/
def WitnessTableBuilder.addOutOfLineBaseInterface (IGM : IRGenModule)
    (inputs : WitnessTableInputs) (self : WitnessTableBuilder) (baseProto : InterfaceDecl) :
    Option WitnessTableBuilder :=
  match self.PILEntries with
  | [] => none
  | _ :: rest =>
    let self1 := { self with PILEntries := rest }
    -- Resilient conformances get a resilient witness table.
    if self1.ResilientConformance then some self1
    else
      -- Look for conformance info.
      let astConf := self1.ConformanceInContext.getInheritedConformance baseProto
      match IGM.getConformanceInfo self1.Conformances baseProto astConf with
      | none => none
      | some (conf, Conformances) =>
        let self2 := { self1 with Conformances := Conformances }
        -- If we can emit the base witness table as a constant, do so.
        match conf.tryGetConstantTable IGM inputs.Options inputs.rootModule self2.ConcreteType with
        | some baseWitness => some { self2 with Table := self2.Table ++ [baseWitness] }
        | none =>
          -- Otherwise, we will need to derive it at instantiation time.
          some { self2 with
                 SpecializedBaseConformances :=
                   self2.SpecializedBaseConformances ++ [(self2.Table.length, conf)]
                 Table := self2.Table ++ [Constant.NullPointer] }

/-- The member `addMethod`. Reading the method witness of an entry of another kind is
fatal. -/
def WitnessTableBuilder.addMethod (self : WitnessTableBuilder) (_requirement : PILDeclRef) :
    Option WitnessTableBuilder :=
  match self.PILEntries with
  | [] => none
  | entry :: rest =>
    let self1 := { self with PILEntries := rest }
    -- Resilient conformances get a resilient witness table.
    if self1.ResilientConformance then some self1
    else
      match entry with
      | .Method _ Func =>
        let witness :=
          match Func with
          | some Func => Constant.PILFunction Func
          -- The method is removed by dead method elimination: a pointer to an error
          -- function.
          | none => Constant.DeletedMethodErrorFn
        some { self1 with Table := self1.Table ++ [witness] }
      | _ => none

/-- The member `addPlaceholder`: a witness table with placeholders cannot be emitted. -/
def WitnessTableBuilder.addPlaceholder (_self : WitnessTableBuilder) :
    Option WitnessTableBuilder :=
  none

/-- The member `addAssociatedType`. -/
def WitnessTableBuilder.addAssociatedType (self : WitnessTableBuilder)
    (requirement : AssociatedType) : Option WitnessTableBuilder :=
  match self.PILEntries with
  | [] => none
  | _ :: rest =>
    let self1 := { self with PILEntries := rest }
    if self1.ResilientConformance then some self1
    else
      let associate := self1.ConformanceInContext.getTypeWitness requirement.association
      let witness := Constant.AssociatedTypeWitness associate
      some { self1 with Table := self1.Table ++ [witness] }

/-- The member `getFulfillmentMap`: the fulfillment map of the conforming type, searched
from source 0 with the empty path when the type has archetypes, and empty otherwise. The
member caches the map; the map is a function of `ConcreteType`, which never changes, so the
cache is not represented. -/
def WitnessTableBuilder.getFulfillmentMap (IGM : IRGenModule) (inputs : WitnessTableInputs)
    (self : WitnessTableBuilder) : FulfillmentMap :=
  let Fulfillments : FulfillmentMap := { entries := [] }
  if self.ConcreteType.hasArchetype then
    let callback : InterestingKeysCallback :=
      { isInterestingType := fun type =>
          match type with
          | .archetype _ => true
          | _ => false
        hasInterestingType := fun type => type.hasArchetype
        hasLimitedInterestingConformances := fun _ => false
        getInterestingConformances := fun _ => []
        getSuperclassBound := fun type => inputs.archetypeSuperclass type }
    (IGM.fulfillmentSearch.searchTypeMetadata Fulfillments callback self.ConcreteType
      IsExact_t.IsExact MetadataState.Abstract 0 []).2
  else Fulfillments

/-- The member `defineAssociatedTypeWitnessTableAccessFunction`, reduced to its effect on
the builder and to the conditions under which it is fatal (`none`). The code of the access
function is emitted code and is not represented; what decides whether the member returns
is. The accessor is made for the conformance cast to a normal conformance. For a concrete
associated conformance the member asks the module for the conformance info, which updates
the conformance cache, and is done when that info has a constant table. `conformanceI` is
null for an abstract conformance: when the associated type has no archetype the member
calls `conformanceI->getTable`, which dereferences the null pointer. (An associated type
that is itself an archetype has an archetype, so the test `!hasArchetype &&
!associatedRootOpaqueType` is the test `!hasArchetype`.) With archetypes, a fulfillment of
the witness table found in the fulfillment map is replayed with `followFromTypeMetadata`,
which is fatal on an Impossible component; otherwise an abstract conformance needs the
associated type cast to an archetype, and a concrete one uses `conformanceI->getTable`. -/
def WitnessTableBuilder.defineAssociatedTypeWitnessTableAccessFunction (IGM : IRGenModule)
    (inputs : WitnessTableInputs) (self : WitnessTableBuilder)
    (requirement : AssociatedConformance) (associatedType : CanType)
    (associatedConformance : InterfaceConformanceRef) : Option WitnessTableBuilder :=
  let hasArchetype := associatedType.hasArchetype
  match self.Conformance with
  | .selfConformance _ => none
  | .normal _ =>
    let associatedInterface := requirement.associatedRequirement
    let lookup : Option (Option ConformanceInfo × WitnessTableBuilder) :=
      match associatedConformance with
      | .concrete _ concrete =>
        match IGM.getConformanceInfo self.Conformances associatedInterface concrete with
        | none => none
        | some (info, Conformances) =>
          some (some info, { self with Conformances := Conformances })
      | .abstract _ => some (none, self)
    match lookup with
    | none => none
    | some (conformanceI, self1) =>
      -- If we can emit a constant table, do so.
      let constantTable :=
        match conformanceI with
        | some info =>
          info.tryGetConstantTable IGM inputs.Options inputs.rootModule associatedType
        | none => none
      match constantTable with
      | some _ => some self1
      | none =>
        -- If there are no archetypes, return a reference to the table.
        if !hasArchetype then
          match conformanceI with
          | some _ => some self1
          | none => none
        else
          -- If the witness table is directly fulfillable from the type, do so.
          match (self1.getFulfillmentMap IGM inputs).getWitnessTable associatedType
              associatedInterface with
          | some fulfillment =>
            if MetadataPath.Component.Impossible ∈ fulfillment.Path then none else some self1
          | none =>
            match conformanceI with
            -- Find abstract conformances.
            | none =>
              match associatedType with
              | .archetype _ => some self1
              | _ => none
            -- Handle concrete conformances involving archetypes.
            | some _ => some self1

/-- The inputs on which `defineAssociatedTypeWitnessTableAccessFunction` meets no fatal
condition, for a normal conformance and a well-formed conformance table: a concrete
associated conformance has its root in the conformance table; an abstract one is for an
associated type with archetypes that has a fulfillment in the fulfillment map or is itself
an archetype; and a fulfillment that would be replayed has no Impossible component in its
path. -/
def WitnessTableBuilder.AccessFunctionEmittable (IGM : IRGenModule)
    (inputs : WitnessTableInputs) (self : WitnessTableBuilder) (associatedType : CanType)
    (associatedInterface : InterfaceDecl) (associatedConformance : InterfaceConformanceRef) :
    Prop :=
  (∀ p c, associatedConformance = InterfaceConformanceRef.concrete p c →
    c.getRootConformance.inTable IGM.Context.conformances.length = true) ∧
  (∀ p, associatedConformance = InterfaceConformanceRef.abstract p →
    associatedType.hasArchetype = true ∧
    ((self.getFulfillmentMap IGM inputs).getWitnessTable associatedType associatedInterface
        = none →
      ∃ id, associatedType = CanType.archetype id)) ∧
  (associatedType.hasArchetype = true →
    ∀ fulfillment,
      (self.getFulfillmentMap IGM inputs).getWitnessTable associatedType associatedInterface
        = some fulfillment →
      MetadataPath.Component.Impossible ∉ fulfillment.Path)

/-- The member `getAssociatedConformanceWitness`: define the access function and return the
mangled associated conformance of the (normal) conformance. -/
def WitnessTableBuilder.getAssociatedConformanceWitness (IGM : IRGenModule)
    (inputs : WitnessTableInputs) (self : WitnessTableBuilder)
    (requirement : AssociatedConformance) (associatedType : CanType)
    (conformance : InterfaceConformanceRef) : Option (Constant × WitnessTableBuilder) :=
  match self.defineAssociatedTypeWitnessTableAccessFunction IGM inputs requirement
      associatedType conformance with
  | none => none
  | some self1 =>
    match self1.Conformance with
    | .normal _ =>
      some (Constant.MangledAssociatedConformance self1.Conformance requirement, self1)
    | .selfConformance _ => none

/-- The member `addAssociatedConformance`. -/
def WitnessTableBuilder.addAssociatedConformance (IGM : IRGenModule)
    (inputs : WitnessTableInputs) (self : WitnessTableBuilder)
    (requirement : AssociatedConformance) : Option WitnessTableBuilder :=
  match self.PILEntries with
  | [] => none
  | _ :: rest =>
    let self1 := { self with PILEntries := rest }
    if self1.ResilientConformance then some self1
    else
      let associate := self1.ConformanceInContext.getAssociatedType requirement.association
      let associatedConformance :=
        self1.ConformanceInContext.getAssociatedConformance requirement.association
          requirement.associatedRequirement
      match self1.getAssociatedConformanceWitness IGM inputs requirement associate
          associatedConformance with
      | none => none
      | some (witnessEntry, self2) => some { self2 with Table := self2.Table ++ [witnessEntry] }

/-- The dispatch of one visit of the witness visitor to the hooks of the builder. -/
def WitnessTableBuilder.visit (IGM : IRGenModule) (inputs : WitnessTableInputs)
    (self : WitnessTableBuilder) : WitnessVisit → Option WitnessTableBuilder
  | .InterfaceConformanceDescriptor => some self.addInterfaceConformanceDescriptor
  | .OutOfLineBaseInterface baseProto => self.addOutOfLineBaseInterface IGM inputs baseProto
  | .Method requirement => self.addMethod requirement
  | .Placeholder _ => self.addPlaceholder
  | .AssociatedType requirement => self.addAssociatedType requirement
  | .AssociatedConformance requirement => self.addAssociatedConformance IGM inputs requirement

/-- The hooks run over a sequence of visits, stopping at the first fatal condition. -/
def WitnessTableBuilder.visitAll (IGM : IRGenModule) (inputs : WitnessTableInputs) :
    List WitnessVisit → WitnessTableBuilder → Option WitnessTableBuilder
  | [], self => some self
  | event :: rest, self =>
    match self.visit IGM inputs event with
    | none => none
    | some self1 => WitnessTableBuilder.visitAll IGM inputs rest self1

/-- The call `visitInterfaceDecl(protocol)` on the builder, which visits the whole
protocol (the builder does not ask for the requirement signature only). -/
def WitnessTableBuilder.visitInterfaceDecl (IGM : IRGenModule) (inputs : WitnessTableInputs)
    (self : WitnessTableBuilder) (protocol : InterfaceDecl) : Option WitnessTableBuilder :=
  WitnessTableBuilder.visitAll IGM inputs
    (Irgen.visitInterfaceDecl false (inputs.requirementsOf protocol)) self

/-- The member `getNextPrivateDataIndex`: the index allocated and the updated builder.
The counter is an `unsigned`; the number of private slots stays far below its range. -/
def WitnessTableBuilder.getNextPrivateDataIndex (self : WitnessTableBuilder) :
    Nat × WitnessTableBuilder :=
  (self.NextPrivateDataIndex, { self with NextPrivateDataIndex := self.NextPrivateDataIndex + 1 })

/-- The member `addConditionalConformances`: one private data slot per recorded
conditional conformance, in order. -/
def WitnessTableBuilder.addConditionalConformances (self : WitnessTableBuilder) :
    WitnessTableBuilder :=
  self.PILConditionalConformances.foldl
    (fun (b : WitnessTableBuilder) _conditional =>
      let r := b.getNextPrivateDataIndex
      { r.2 with
        ConditionalRequirementPrivateDataIndices :=
          r.2.ConditionalRequirementPrivateDataIndices ++ [r.1] })
    self

/-- The member `WitnessTableBuilder::build`. The protocol of the conformance is the
protocol of the recorded table. `TableSize` is an `unsigned`, so the assignment of
`Table.size()` keeps the low 32 bits. -/
def WitnessTableBuilder.build (IGM : IRGenModule) (inputs : WitnessTableInputs)
    (self : WitnessTableBuilder) : Option WitnessTableBuilder :=
  let self1 := self.addConditionalConformances
  match self1.visitInterfaceDecl IGM inputs self1.PILWT.Interface with
  | none => none
  | some self2 => some { self2 with TableSize := self2.Table.length % 4294967296 }

/-- The body of the loop of `collectResilientWitnesses` for one recorded entry. A removed
method contributes a null pointer (`none`). -/
def WitnessTableBuilder.collectResilientWitness (IGM : IRGenModule)
    (inputs : WitnessTableInputs) (self : WitnessTableBuilder)
    (resilientWitnesses : List (Option Constant))
    (entry : PILWitnessTable.Entry) :
    Option (WitnessTableBuilder × List (Option Constant)) :=
  match entry with
  | .AssociatedType assocType =>
    -- Associated type witness.
    let associate := self.ConformanceInContext.getTypeWitness assocType
    let witness := Constant.AssociatedTypeWitness associate
    some (self, resilientWitnesses ++ [some witness])
  | .AssociatedTypeInterface Requirement Interface =>
    -- Associated conformance access function.
    let associate := self.ConformanceInContext.getAssociatedType Requirement
    let associatedConformance :=
      self.ConformanceInContext.getAssociatedConformance Requirement Interface
    let requirement : AssociatedConformance :=
      { sourceInterface := self.PILWT.Interface, association := Requirement,
        associatedRequirement := Interface }
    match self.getAssociatedConformanceWitness IGM inputs requirement associate
        associatedConformance with
    | none => none
    | some (witnessEntry, self1) => some (self1, resilientWitnesses ++ [some witnessEntry])
  | .BaseInterface baseProto =>
    -- Inherited conformance witnesses.
    let proto := self.PILWT.Interface
    let selfType := self.ConformanceInContext.interfaceSelfType
    let requirement : AssociatedConformance :=
      { sourceInterface := proto, association := selfType, associatedRequirement := baseProto }
    let inheritedConformance :=
      self.ConformanceInContext.getAssociatedConformance selfType baseProto
    match self.getAssociatedConformanceWitness IGM inputs requirement self.ConcreteType
        inheritedConformance with
    | none => none
    | some (witnessEntry, self1) => some (self1, resilientWitnesses ++ [some witnessEntry])
  | .Invalid => some (self, resilientWitnesses)
  | .Method _ Func =>
    let witness :=
      match Func with
      | some Func => some (Constant.PILFunction Func)
      -- The method is removed by dead method elimination: a null pointer.
      | none => none
    some (self, resilientWitnesses ++ [witness])

/-- The loop of `collectResilientWitnesses` over the recorded entries. -/
def WitnessTableBuilder.collectResilientWitnessLoop (IGM : IRGenModule)
    (inputs : WitnessTableInputs) :
    List PILWitnessTable.Entry → WitnessTableBuilder → List (Option Constant) →
      Option (WitnessTableBuilder × List (Option Constant))
  | [], self, resilientWitnesses => some (self, resilientWitnesses)
  | entry :: rest, self, resilientWitnesses =>
    match self.collectResilientWitness IGM inputs resilientWitnesses entry with
    | none => none
    | some (self1, resilientWitnesses1) =>
      WitnessTableBuilder.collectResilientWitnessLoop IGM inputs rest self1 resilientWitnesses1

/-- The member `collectResilientWitnesses`; the list is the output vector, where `none`
is a null pointer. The member casts the conformance to a normal conformance before the
loop. -/
def WitnessTableBuilder.collectResilientWitnesses (IGM : IRGenModule)
    (inputs : WitnessTableInputs) (self : WitnessTableBuilder)
    (resilientWitnesses : List (Option Constant)) :
    Option (WitnessTableBuilder × List (Option Constant)) :=
  if !self.ResilientConformance then some (self, resilientWitnesses)
  else
    match self.Conformance with
    | .selfConformance _ => none
    | .normal _ =>
      WitnessTableBuilder.collectResilientWitnessLoop IGM inputs self.PILWT.Entries self
        resilientWitnesses

/-- The recorded entries whose resilient witness needs an access function, an associated
conformance or a base protocol, are entries for which the access function can be emitted
(`AccessFunctionEmittable`, on the arguments that `collectResilientWitnesses` passes). -/
def WitnessTableBuilder.ResilientEntryEmittable (IGM : IRGenModule)
    (inputs : WitnessTableInputs) (self : WitnessTableBuilder) :
    PILWitnessTable.Entry → Prop
  | .AssociatedTypeInterface Requirement Interface =>
    self.AccessFunctionEmittable IGM inputs
      (self.ConformanceInContext.getAssociatedType Requirement) Interface
      (self.ConformanceInContext.getAssociatedConformance Requirement Interface)
  | .BaseInterface baseProto =>
    self.AccessFunctionEmittable IGM inputs self.ConcreteType baseProto
      (self.ConformanceInContext.getAssociatedConformance
        self.ConformanceInContext.interfaceSelfType baseProto)
  | _ => True

/-- The instantiation function that `buildInstantiationFunction` emits, reduced to what it
does to the table: the conditional witness tables it loads (by index) and, in order, the
stores of a base witness table, obtained from a conformance info, to a table slot. -/
structure InstantiationFunction where
  conditionalTables : List Nat
  stores : List (Nat × ConformanceInfo)
deriving DecidableEq

/-- The member `buildInstantiationFunction`: no function (`none`) when no base conformance
was deferred. -/
def WitnessTableBuilder.buildInstantiationFunction (self : WitnessTableBuilder) :
    Option InstantiationFunction :=
  if self.SpecializedBaseConformances.isEmpty then none
  else
    some { conditionalTables := List.range self.ConditionalRequirementPrivateDataIndices.length
           stores := self.SpecializedBaseConformances }

/-- The parts of a builder that visiting the protocol never changes. -/
def WitnessTableBuilder.SameSetup (s s' : WitnessTableBuilder) : Prop :=
  s'.ConformanceInContext = s.ConformanceInContext ∧
  s'.PILWT = s.PILWT ∧ s'.ConcreteType = s.ConcreteType ∧ s'.Conformance = s.Conformance ∧
  s'.PILConditionalConformances = s.PILConditionalConformances ∧
  s'.ConditionalRequirementPrivateDataIndices = s.ConditionalRequirementPrivateDataIndices ∧
  s'.NextPrivateDataIndex = s.NextPrivateDataIndex ∧
  s'.ResilientConformance = s.ResilientConformance ∧
  s'.TableSize = s.TableSize

/-- What one successful visit does to the table and to the list of deferred base
conformances: nothing, one constant other than the null pointer appended, or a null pointer
appended together with a deferred base recorded at the index of that slot, for a
conformance info that yields no constant table. -/
def WitnessTableBuilder.TableStep (IGM : IRGenModule) (inputs : WitnessTableInputs)
    (s s' : WitnessTableBuilder) : Prop :=
  (s'.Table = s.Table ∧ s'.SpecializedBaseConformances = s.SpecializedBaseConformances) ∨
  (∃ c, c ≠ Constant.NullPointer ∧ s'.Table = s.Table ++ [c] ∧
    s'.SpecializedBaseConformances = s.SpecializedBaseConformances) ∨
  (∃ conf, conf.tryGetConstantTable IGM inputs.Options inputs.rootModule s.ConcreteType = none ∧
    s'.Table = s.Table ++ [Constant.NullPointer] ∧
    s'.SpecializedBaseConformances = s.SpecializedBaseConformances ++ [(s.Table.length, conf)])

/-- The entries of the resilient witnesses list that stand for one recorded entry: nothing
for an invalid entry and one witness for every other entry, a function address or a null
pointer (`none`) for a method, the type witness for an associated type, and the mangled
associated conformance for an associated conformance or a base protocol. -/
def WitnessTableBuilder.resilientWitnessesOf (self : WitnessTableBuilder) :
    PILWitnessTable.Entry → List (Option Constant)
  | .Invalid => []
  | .Method _ Witness => [Witness.map Constant.PILFunction]
  | .AssociatedType Requirement =>
    [some (Constant.AssociatedTypeWitness (self.ConformanceInContext.getTypeWitness Requirement))]
  | .AssociatedTypeInterface Requirement Interface =>
    [some (Constant.MangledAssociatedConformance self.Conformance
      { sourceInterface := self.PILWT.Interface, association := Requirement,
        associatedRequirement := Interface })]
  | .BaseInterface Requirement =>
    [some (Constant.MangledAssociatedConformance self.Conformance
      { sourceInterface := self.PILWT.Interface,
        association := self.ConformanceInContext.interfaceSelfType,
        associatedRequirement := Requirement })]

/-- The deferred base conformances agree with the table: their slot indices increase, the
slots they name are exactly the slots of the table that hold a null pointer, and none of
the recorded conformance infos yields a constant table. -/
def WitnessTableBuilder.DeferredBasesRecorded (IGM : IRGenModule) (inputs : WitnessTableInputs)
    (s : WitnessTableBuilder) : Prop :=
  (s.SpecializedBaseConformances.map Prod.fst).Pairwise (fun i j => i < j) ∧
  (∀ i, i ∈ s.SpecializedBaseConformances.map Prod.fst ↔
    s.Table[i]? = some Constant.NullPointer) ∧
  (∀ p ∈ s.SpecializedBaseConformances,
    p.2.tryGetConstantTable IGM inputs.Options inputs.rootModule s.ConcreteType = none)

/-! ## Following a metadata path -/

/-- Modelled from the spec: a metadata request (`DynamicMetadataRequest`, whose header is
not among the sources): a statically known completeness state, which is what a
`MetadataState` converts to, or a state computed at run time. -/
inductive DynamicMetadataRequest
  | ofState (state : MetadataState)
  | dynamic (value : Nat)
deriving DecidableEq, Repr

/-- What `MetadataPath::follow` and `followComponent` use from outside this translation
unit, over a function state `F` (`IRGenFunction`), a source key `K` (`LocalTypeDataKey`),
a valid metadata response `R` and a path cache `C` (`Map<MetadataResponse>`). A
`MetadataResponse` is an `Option R`, `none` being the null response.
`adjustKey` is the adjustment of the source key that `followComponent` makes for a
component, `emitComponent` the code it emits for a present source (with the key before the
adjustment), giving the new function state and the response. The lookups
`tryGetConcreteLocalTypeData` and `findPrefix` (a value, if one is cached, and the length
of the prefix it stands for) and the updates `setScopedLocalTypeData` and `insertNew` are
modelled from the spec, their headers not being among the sources. -/
structure FollowOps (F K R C : Type) where
  adjustKey : F → K → MetadataPath.Component → K
  emitComponent : F → K → R → MetadataPath.Component → DynamicMetadataRequest → F × R
  tryGetConcreteLocalTypeData : F → K → DynamicMetadataRequest → Option R
  setScopedLocalTypeData : F → K → Option R → F
  findPrefix : C → MetadataPath → Option (Option R) × Nat
  insertNew : C → MetadataPath → Option R → C

/-- The member `MetadataPath::followComponent`: the source key is adjusted to refer to
the component; with a null source this is the only thing done. Following an impossible
component is fatal (`none`). -/
def MetadataPath.followComponent {F K R C : Type} (ops : FollowOps F K R C) (IGF : F)
    (sourceKey : K) (source : Option R) (component : MetadataPath.Component)
    (request : DynamicMetadataRequest) : Option (F × K × Option R) :=
  match component with
  | .Impossible => none
  | _ =>
    let sourceKey1 := ops.adjustKey IGF sourceKey component
    match source with
    | none => some (IGF, sourceKey1, none)
    | some present =>
      let r := ops.emitComponent IGF sourceKey present component request
      some (r.1, sourceKey1, some r.2)

/-- The loop of `follow` that advances the source key past the cached prefix. -/
def MetadataPath.advanceSourceKey {F K R C : Type} (ops : FollowOps F K R C) :
    MetadataPath → F → K → Option (F × K)
  | [], IGF, sourceKey => some (IGF, sourceKey)
  | component :: rest, IGF, sourceKey =>
    match MetadataPath.followComponent ops IGF sourceKey none component
        (DynamicMetadataRequest.ofState MetadataState.Abstract) with
    | none => none
    | some (IGF1, sourceKey1, _) => MetadataPath.advanceSourceKey ops rest IGF1 sourceKey1

/-- The pass of `follow` over the path that looks for concrete entries in the local type
data of the function. `skipDone` and `skipRest` are the components before and from `skipI`;
the last argument is the baseline: the source key, the source, and the components before
and from `i`. -/
def MetadataPath.skipToCached {F K R C : Type} (ops : FollowOps F K R C)
    (finalRequest : DynamicMetadataRequest) :
    MetadataPath → MetadataPath → F → K → K × Option R × MetadataPath × MetadataPath →
      Option (F × K × Option R × MetadataPath × MetadataPath)
  | _, [], IGF, _, baseline => some (IGF, baseline)
  | skipDone, component :: skipRest, IGF, skipKey, baseline =>
    match MetadataPath.followComponent ops IGF skipKey none component
        (DynamicMetadataRequest.ofState MetadataState.Abstract) with
    | none => none
    | some (IGF1, skipKey1, _) =>
      -- Check the cache for a concrete value.
      let skipRequest :=
        if skipRest.isEmpty then finalRequest
        else DynamicMetadataRequest.ofState MetadataState.Abstract
      match ops.tryGetConcreteLocalTypeData IGF1 skipKey1 skipRequest with
      | some skipResponse =>
        -- Advance the baseline to the current point in the path, then continue the search.
        MetadataPath.skipToCached ops finalRequest (skipDone ++ [component]) skipRest IGF1
          skipKey1 (skipKey1, some skipResponse, skipDone ++ [component], skipRest)
      | none =>
        MetadataPath.skipToCached ops finalRequest (skipDone ++ [component]) skipRest IGF1
          skipKey1 baseline

/-- The loop of `follow` that drills in on the actual source value. `done` are the
components before `i`, the second list those from `i`. -/
def MetadataPath.drillIn {F K R C : Type} (ops : FollowOps F K R C)
    (finalRequest : DynamicMetadataRequest) :
    MetadataPath → MetadataPath → F → K → Option R → Option C → Option (F × Option C × Option R)
  | _, [], IGF, _, source, cache => some (IGF, cache, source)
  | done, component :: rest, IGF, sourceKey, source, cache =>
    let componentRequest :=
      if rest.isEmpty then finalRequest
      else DynamicMetadataRequest.ofState MetadataState.Abstract
    match MetadataPath.followComponent ops IGF sourceKey source component componentRequest with
    | none => none
    | some (IGF1, sourceKey1, source1) =>
      match cache with
      | some map =>
        -- If we have a cache, remember this in the cache at the next position.
        MetadataPath.drillIn ops finalRequest (done ++ [component]) rest IGF1 sourceKey1 source1
          (some (ops.insertNew map (done ++ [component]) source1))
      | none =>
        -- Otherwise, insert it into the global cache (at the updated source key).
        MetadataPath.drillIn ops finalRequest (done ++ [component]) rest
          (ops.setScopedLocalTypeData IGF1 sourceKey1 source1) sourceKey1 source1 none

/-- The static member `MetadataPath::follow` over the components from `begin` to `end`,
given as the list `path`. The result is the function state, the path cache and the
response; `none` stands for a fatal condition. -/
def MetadataPath.follow {F K R C : Type} (ops : FollowOps F K R C) (IGF : F) (sourceKey : K)
    (source : Option R) (path : MetadataPath) (finalRequest : DynamicMetadataRequest)
    (cache : Option C) : Option (F × Option C × Option R) :=
  match cache with
  | some map =>
    -- If the caller gave us a cache to use, check that.
    let result := ops.findPrefix map path
    match result.1 with
    | some found =>
      -- If that was the end, there is no more work to do.
      if (path.drop result.2).isEmpty then some (IGF, cache, found)
      else
        -- Advance the source key past the cached prefix.
        match MetadataPath.advanceSourceKey ops (path.take result.2) IGF sourceKey with
        | none => none
        | some (IGF1, sourceKey1) =>
          MetadataPath.drillIn ops finalRequest (path.take result.2) (path.drop result.2) IGF1
            sourceKey1 found cache
    | none => MetadataPath.drillIn ops finalRequest [] path IGF sourceKey source cache
  | none =>
    -- Otherwise, make a pass over the path looking for available concrete entries.
    match MetadataPath.skipToCached ops finalRequest [] path IGF sourceKey
        (sourceKey, source, [], path) with
    | none => none
    | some (IGF1, sourceKey1, source1, done, rest) =>
      MetadataPath.drillIn ops finalRequest done rest IGF1 sourceKey1 source1 none

/-- The requests made along a path of `n` components, as the specification words them:
Abstract completeness for each of the first `n - 1` components and the final request of
the caller for the last one. -/
def followRequests (n : Nat) (finalRequest : DynamicMetadataRequest) :
    List DynamicMetadataRequest :=
  match n with
  | 0 => []
  | m + 1 =>
    List.replicate m (DynamicMetadataRequest.ofState MetadataState.Abstract) ++ [finalRequest]

/-- One step of following a path as the specification words it: `followComponent` is
applied to the current source with the given request, and the response is remembered, in
the path cache under the prefix followed so far when there is one, in the local type data
of the function under the adjusted key otherwise. The state is the function state, the
source key, the source, the cache and the prefix followed so far. -/
def followStep {F K R C : Type} (ops : FollowOps F K R C)
    (state : F × K × Option R × Option C × MetadataPath)
    (step : MetadataPath.Component × DynamicMetadataRequest) :
    Option (F × K × Option R × Option C × MetadataPath) :=
  match MetadataPath.followComponent ops state.1 state.2.1 state.2.2.1 step.1 step.2 with
  | none => none
  | some (IGF1, sourceKey1, source1) =>
    let done := state.2.2.2.2 ++ [step.1]
    match state.2.2.2.1 with
    | some map => some (IGF1, sourceKey1, source1, some (ops.insertNew map done source1), done)
    | none => some (ops.setScopedLocalTypeData IGF1 sourceKey1 source1, sourceKey1, source1,
        none, done)

/-- Following a path as the specification words it: the steps of `followStep` over the
components from left to right, each paired with its request. -/
def followSpec {F K R C : Type} (ops : FollowOps F K R C) (IGF : F) (sourceKey : K)
    (source : Option R) (path : MetadataPath) (finalRequest : DynamicMetadataRequest)
    (cache : Option C) : Option (F × Option C × Option R) :=
  ((path.zip (followRequests path.length finalRequest)).foldlM (followStep ops)
    (IGF, sourceKey, source, cache, [])).map (fun state => (state.1, state.2.2.2.1, state.2.2.1))

/-- The source keys reached along a path: the key after each nonempty prefix, paired with
the request made when looking for a cached value there. -/
def skipKeys {F K R C : Type} (ops : FollowOps F K R C) (IGF : F)
    (finalRequest : DynamicMetadataRequest) : MetadataPath → K → List (K × DynamicMetadataRequest)
  | [], _ => []
  | component :: rest, sourceKey =>
    let sourceKey1 := ops.adjustKey IGF sourceKey component
    (sourceKey1,
      if rest.isEmpty then finalRequest
      else DynamicMetadataRequest.ofState MetadataState.Abstract) ::
      skipKeys ops IGF finalRequest rest sourceKey1

/-! ## Necessary bindings -/

/-- State of a `NecessaryBindings` object: `Requirements` is a `SetVector`, kept as the
list of its elements in insertion order. -/
structure NecessaryBindings where
  Requirements : List GenericRequirement

/-- Modelled from the spec: `Requirements.insert(requirement)` on the ordered,
deduplicated set (`llvm::SetVector`, whose header is not among the sources): the
requirement is appended unless it is already an element. -/
def NecessaryBindings.insert (self : NecessaryBindings) (requirement : GenericRequirement) :
    NecessaryBindings :=
  if requirement ∈ self.Requirements then self
  else { Requirements := self.Requirements ++ [requirement] }

/-- The member `NecessaryBindings::getBufferSize`; `pointerSize` is `IGM.getPointerSize()`.
A `Size` is a 64-bit unsigned byte count. -/
def NecessaryBindings.getBufferSize (pointerSize : Nat) (self : NecessaryBindings) : Nat :=
  -- We need one pointer for each archetype or witness table.
  (pointerSize * self.Requirements.length) % 18446744073709551616

mutual
/-- The member `NecessaryBindings::addTypeMetadata`. -/
def NecessaryBindings.addTypeMetadata : CanType → NecessaryBindings → NecessaryBindings
  | .tuple es, self =>
    -- Bindings are only necessary at all if the type is dependent.
    if !(CanType.tuple es).hasArchetype then self
    -- Break down structural types.
    else NecessaryBindings.addTypeMetadataList es self
  | .function ps r, self =>
    if !(CanType.function ps r).hasArchetype then self
    else NecessaryBindings.addTypeMetadata r (NecessaryBindings.addTypeMetadataList ps self)
  | .metatype t repr, self =>
    if !(CanType.metatype t repr).hasArchetype then self
    else NecessaryBindings.addTypeMetadata t self
  | .genericTypeParam d i, self =>
    if !(CanType.genericTypeParam d i).hasArchetype then self
    else self.insert { TypeParameter := .genericTypeParam d i, Interface := none }
  | .dependentMember b a, self =>
    if !(CanType.dependentMember b a).hasArchetype then self
    else self.insert { TypeParameter := .dependentMember b a, Interface := none }
  | .archetype n, self =>
    if !(CanType.archetype n).hasArchetype then self
    -- Otherwise, just record the need for this metadata.
    else self.insert { TypeParameter := .archetype n, Interface := none }
  | .nominal d, self =>
    if !(CanType.nominal d).hasArchetype then self
    else self.insert { TypeParameter := .nominal d, Interface := none }
  | .boundGeneric d args, self =>
    if !(CanType.boundGeneric d args).hasArchetype then self
    else self.insert { TypeParameter := .boundGeneric d args, Interface := none }
  | .builtin n, self =>
    if !(CanType.builtin n).hasArchetype then self
    else self.insert { TypeParameter := .builtin n, Interface := none }
/-- The loops of `addTypeMetadata` over the element types of a tuple and over the
parameter types of a function type. -/
def NecessaryBindings.addTypeMetadataList : List CanType → NecessaryBindings → NecessaryBindings
  | [], self => self
  | t :: ts, self =>
    NecessaryBindings.addTypeMetadataList ts (NecessaryBindings.addTypeMetadata t self)
end

/-- The member `NecessaryBindings::addInterfaceConformance`: only an abstract conformance
is recorded. -/
def NecessaryBindings.addInterfaceConformance (self : NecessaryBindings) (type : CanType)
    (conf : InterfaceConformanceRef) : NecessaryBindings :=
  match conf with
  | .concrete _ _ => self
  | .abstract protocol => self.insert { TypeParameter := type, Interface := some protocol }

mutual
/-- The dependent leaves of a type as the specification words them: tuples decompose into
their elements, function types into their parameter types followed by the result type,
metatypes into their instance type; any other type is a leaf, and it counts when it
contains an archetype. -/
def dependentLeaves : CanType → List CanType
  | .tuple es => dependentLeavesList es
  | .function ps r => dependentLeavesList ps ++ dependentLeaves r
  | .metatype t _ => dependentLeaves t
  | .genericTypeParam d i =>
    if (CanType.genericTypeParam d i).hasArchetype then [.genericTypeParam d i] else []
  | .dependentMember b a =>
    if (CanType.dependentMember b a).hasArchetype then [.dependentMember b a] else []
  | .archetype n => [.archetype n]
  | .nominal d => if (CanType.nominal d).hasArchetype then [.nominal d] else []
  | .boundGeneric d args =>
    if (CanType.boundGeneric d args).hasArchetype then [.boundGeneric d args] else []
  | .builtin n => if (CanType.builtin n).hasArchetype then [.builtin n] else []
/-- The dependent leaves of the types of a list, in order. -/
def dependentLeavesList : List CanType → List CanType
  | [] => []
  | t :: ts => dependentLeaves t ++ dependentLeavesList ts
end

/-- Whether a type is one of the structural types that `addTypeMetadata` breaks down. -/
def CanType.isStructural : CanType → Bool
  | .tuple _ => true
  | .function _ _ => true
  | .metatype _ _ => true
  | _ => false

/-! ## The buffer of generic requirements -/

/-- The slots of a buffer of generic requirements: for each index, the value last stored
there and the pointer type it was stored through. -/
abbrev RequirementsBuffer (V : Type) := Nat → Option (LLVMType × V)

/-- The store `IGF.Builder.CreateStore(value, slot)` to the slot at `index`, seen through
a pointer of type `slotType`. -/
def RequirementsBuffer.store {V : Type} (buffer : RequirementsBuffer V) (index : Nat)
    (slotType : LLVMType) (value : V) : RequirementsBuffer V :=
  fun i => if i = index then some (slotType, value) else buffer i

/-- The load `IGF.Builder.CreateLoad(slot)` of the slot at `index`, seen through a pointer
of type `slotType`. A slot never stored to, or stored through a pointer of another type,
gives no usable value (`none`). -/
def RequirementsBuffer.load {V : Type} (buffer : RequirementsBuffer V) (index : Nat)
    (slotType : LLVMType) : Option V :=
  match buffer index with
  | some (storedType, value) => if storedType = slotType then some value else none
  | none => none

/-- One binding of local type data made by `bindGenericRequirement`: a witness table bound
for a type and a protocol (`setUnscopedLocalTypeData` with the abstract witness table
kind), or type metadata bound for a type (`bindLocalTypeDataFromTypeMetadata`). -/
inductive LocalTypeBinding (V : Type)
  | witnessTable (type : CanType) (protocol : InterfaceDecl) (value : Option V)
  | typeMetadata (type : CanType) (isExact : IsExact_t) (value : Option V)
      (metadataState : MetadataState)
deriving DecidableEq

/-- The function `irgen::bindGenericRequirement`, as the binding it makes. -/
def bindGenericRequirement {V : Type} (requirement : GenericRequirement) (value : Option V)
    (metadataState : MetadataState) (getInContext : CanType → CanType) : LocalTypeBinding V :=
  -- Get the corresponding context type.
  let type := getInContext requirement.TypeParameter
  match requirement.Interface with
  | some proto => LocalTypeBinding.witnessTable type proto value
  | none => LocalTypeBinding.typeMetadata type IsExact_t.IsExact value metadataState

/-- The pointer type a slot is cast to: the witness table pointer type when the
requirement carries a protocol, the type metadata pointer type (the element type of the
buffer) otherwise. -/
def slotPointerType (requirement : GenericRequirement) : LLVMType :=
  if requirement.Interface.isSome then LLVMType.WitnessTablePtrTy
  else LLVMType.TypeMetadataPtrTy

/-- The loop of `emitInitOfGenericRequirementsBuffer` from `index` on. -/
def emitInitOfGenericRequirementsBufferLoop {V : Type}
    (emitRequirement : GenericRequirement → V) :
    List GenericRequirement → Nat → RequirementsBuffer V → RequirementsBuffer V
  | [], _, buffer => buffer
  | requirement :: rest, index, buffer =>
    let value := emitRequirement requirement
    emitInitOfGenericRequirementsBufferLoop emitRequirement rest (index + 1)
      (buffer.store index (slotPointerType requirement) value)

/-- The function `irgen::emitInitOfGenericRequirementsBuffer`, as its effect on the
buffer. -/
def emitInitOfGenericRequirementsBuffer {V : Type} (requirements : List GenericRequirement)
    (buffer : RequirementsBuffer V) (emitRequirement : GenericRequirement → V) :
    RequirementsBuffer V :=
  if requirements.isEmpty then buffer
  else emitInitOfGenericRequirementsBufferLoop emitRequirement requirements 0 buffer

/-- The loop of `bindFromGenericRequirementsBuffer` from `index` on: the bindings made, in
order. -/
def bindFromGenericRequirementsBufferLoop {V : Type} (buffer : RequirementsBuffer V)
    (metadataState : MetadataState) (getInContext : CanType → CanType) :
    List GenericRequirement → Nat → List (LocalTypeBinding V)
  | [], _ => []
  | requirement :: rest, index =>
    let value := buffer.load index (slotPointerType requirement)
    bindGenericRequirement requirement value metadataState getInContext ::
      bindFromGenericRequirementsBufferLoop buffer metadataState getInContext rest (index + 1)

/-- The function `irgen::bindFromGenericRequirementsBuffer`, as the bindings it makes. -/
def bindFromGenericRequirementsBuffer {V : Type} (requirements : List GenericRequirement)
    (buffer : RequirementsBuffer V) (metadataState : MetadataState)
    (getInContext : CanType → CanType) : List (LocalTypeBinding V) :=
  if requirements.isEmpty then []
  else bindFromGenericRequirementsBufferLoop buffer metadataState getInContext requirements 0

/-- The two emitters that `NecessaryBindings::save` reads its values from. -/
structure BindingsEmitter (V : Type) where
  emitArchetypeWitnessTableRef : CanType → InterfaceDecl → V
  emitTypeMetadataRef : CanType → V

/-- The lambda of `NecessaryBindings::save`: the value saved for a requirement. -/
def NecessaryBindings.savedValue {V : Type} (emitter : BindingsEmitter V)
    (requirement : GenericRequirement) : V :=
  let type := requirement.TypeParameter
  match requirement.Interface with
  | some protocol => emitter.emitArchetypeWitnessTableRef type protocol
  | none => emitter.emitTypeMetadataRef type

/-- The member `NecessaryBindings::save`. -/
def NecessaryBindings.save {V : Type} (self : NecessaryBindings) (emitter : BindingsEmitter V)
    (buffer : RequirementsBuffer V) : RequirementsBuffer V :=
  emitInitOfGenericRequirementsBuffer self.Requirements buffer
    (NecessaryBindings.savedValue emitter)

/-- The member `NecessaryBindings::restore`. -/
def NecessaryBindings.restore {V : Type} (self : NecessaryBindings)
    (buffer : RequirementsBuffer V) (metadataState : MetadataState) :
    List (LocalTypeBinding V) :=
  bindFromGenericRequirementsBuffer self.Requirements buffer metadataState (fun type => type)

/-! ## Properties asked of the fulfillment search and the order of parameters -/

/-- A candidate that a structural search discovers: the key, with the path and the state
it would be recorded with. -/
structure FulfillmentCandidate where
  key : FulfillmentKey
  path : MetadataPath
  state : MetadataState

/-- Modelled from the spec: what the structural searches of the fulfillment map
(`Fulfillment.h` is not among the sources) discover before anything is recorded. Which
candidates a search finds, in which order, given the map so far and its arguments, is left
open. -/
structure FulfillmentDiscovery where
  isInterestingTypeForFulfillments : CanType → Bool
  discoverTypeMetadata : FulfillmentMap → InterestingKeysCallback → CanType → IsExact_t →
    MetadataState → Nat → MetadataPath → List FulfillmentCandidate
  discoverConformance : FulfillmentMap → InterestingKeysCallback → InterfaceConformance →
    Nat → MetadataPath → List FulfillmentCandidate

/-- Modelled from the spec: a search records its candidates in the order of discovery, each
through `addFulfillment` for the source being searched, so that the first discovery wins per
key and a key that has a fulfillment keeps it; the flag tells whether at least one
fulfillment was recorded. -/
def FulfillmentMap.recordCandidates (m : FulfillmentMap) (source : Nat) :
    List FulfillmentCandidate → Bool × FulfillmentMap
  | [] => (false, m)
  | candidate :: rest =>
    let first := m.addFulfillment candidate.key source candidate.path candidate.state
    let others := FulfillmentMap.recordCandidates first.2 source rest
    (first.1 || others.1, others.2)

/-- Modelled from the spec: the searches `searchTypeMetadata` and `searchConformance` of a
fulfillment map that records what is discovered with the first-found-wins policy. -/
def FulfillmentDiscovery.toSearch (discovery : FulfillmentDiscovery) : FulfillmentSearch where
  isInterestingTypeForFulfillments := discovery.isInterestingTypeForFulfillments
  searchTypeMetadata := fun m callbacks type isExact state source path =>
    m.recordCandidates source
      (discovery.discoverTypeMetadata m callbacks type isExact state source path)
  searchConformance := fun m callbacks conformance source path =>
    m.recordCandidates source (discovery.discoverConformance m callbacks conformance source path)

/-- A fulfillment search keeps what is recorded: a key that has a fulfillment before a
search has the same fulfillment after it. -/
def FulfillmentSearch.keepsFulfillments (search : FulfillmentSearch) : Prop :=
  (∀ (m : FulfillmentMap) (callbacks : InterestingKeysCallback) (type : CanType)
      (isExact : IsExact_t) (state : MetadataState) (source : Nat) (path : MetadataPath)
      (key : FulfillmentKey) (fulfillment : Fulfillment),
    m.find key = some fulfillment →
    (search.searchTypeMetadata m callbacks type isExact state source path).2.find key =
      some fulfillment) ∧
  (∀ (m : FulfillmentMap) (callbacks : InterestingKeysCallback)
      (conformance : InterfaceConformance) (source : Nat) (path : MetadataPath)
      (key : FulfillmentKey) (fulfillment : Fulfillment),
    m.find key = some fulfillment →
    (search.searchConformance m callbacks conformance source path).2.find key =
      some fulfillment)

/-- The order in which the specification has the general convention consider the
parameters: the self parameter, which is the last one, first when the function has one
(marked `true`), then the other parameters in increasing index. -/
def considerationOrder (fnType : PILFunctionType) : List (Nat × Bool) :=
  if fnType.hasSelfParam then
    match fnType.parameters.length with
    | 0 => []
    | m + 1 => (m, true) :: (List.range m).map (fun index => (index, false))
  else (List.range fnType.parameters.length).map (fun index => (index, false))

/-- The parameters considered one after the other in a given order. -/
def PolymorphicConvention.considerInOrder (IGM : IRGenModule) (fnType : PILFunctionType)
    (order : List (Nat × Bool)) (self : PolymorphicConvention) : PolymorphicConvention :=
  order.foldl
    (fun conv step =>
      match fnType.parameters[step.1]? with
      | some param => conv.considerParameter IGM param step.1 step.2
      | none => conv)
    self

/-! ## Requirements of a generic type -/

/-- What the constructor of `GenericTypeRequirements` reads from the generic signature of
the context of the type declaration (`getGenericSignatureOfContext()`):
`areAllParamsConcrete()` and `getCanonicalSignature()`. -/
structure ContextGenericSignature where
  areAllParamsConcrete : Bool
  canonicalSignature : GenericSignature

/-- The representative function type that the constructor of `GenericTypeRequirements`
builds: the given generic signature, the default `ExtInfo` (a thick function that is not
pseudogeneric and has no self parameter) and no parameters. Its Self type and witness
method conformance are never read for such a function. -/
def representativeFunctionType (generics : GenericSignature) : PILFunctionType where
  representation := PILFunctionTypeRepresentation.Thick
  pseudogeneric := false
  invocationGenericSignature := some generics
  parameters := []
  hasSelfParam := false
  selfInstanceType := CanType.tuple []
  witnessMethodConformance :=
    InterfaceConformanceRef.abstract { id := 0, resilient := false, parentModule := { id := 0 } }

/-- State of a `GenericTypeRequirements` object. -/
structure GenericTypeRequirements where
  Requirements : List GenericRequirement

/-- The constructor `GenericTypeRequirements(IGM, typeDecl)`; `ncGenerics` is the generic
signature of the context of `typeDecl`, absent when the context is not generic. -/
def GenericTypeRequirements.construct (IGM : IRGenModule)
    (ncGenerics : Option ContextGenericSignature) : GenericTypeRequirements :=
  match ncGenerics with
  | none => { Requirements := [] }
  | some nc =>
    if nc.areAllParamsConcrete then { Requirements := [] }
    else
      -- Construct a representative function type.
      let generics := nc.canonicalSignature
      let fnType := representativeFunctionType generics
      -- Figure out what we are actually still required to pass.
      let convention := PolymorphicConvention.construct IGM fnType
      { Requirements :=
          (convention.enumerateUnfulfilledRequirements IGM).foldl
            (fun requirements reqt => requirements ++ [reqt]) [] }

/-! ## Passing and binding the implicit generic arguments -/

/-- A substitution map, with the queries asked of it here: `empty()`, the substitution of
a type (`type.subst(subs)->getCanonicalType()`) and `lookupConformance`. -/
structure SubstitutionMap where
  empty : Bool
  subst : CanType → CanType
  lookupConformance : CanType → InterfaceDecl → InterfaceConformanceRef

/-- The witness metadata of a witness method call: the Self metadata and the Self witness
table, each possibly null. -/
structure WitnessMetadata (V : Type) where
  SelfMetadata : Option V
  SelfWitnessTable : Option V

/-- The emitters of values that the caller side uses: `IGF.emitTypeMetadataRef` and
`emitWitnessTableRef`. -/
structure ArgumentEmitter (V : Type) where
  emitTypeMetadataRef : CanType → V
  emitWitnessTableRef : CanType → InterfaceConformanceRef → V

/-- The static function `getSubstSelfType`. Reading the last parameter of a function type
without parameters is fatal (`none`). -/
def getSubstSelfType (origFnType : PILFunctionType) (subs : SubstitutionMap) : Option CanType :=
  match origFnType.parameters.getLast? with
  | none => none
  | some selfParam =>
    let inputType := selfParam.argumentType
    -- If the parameter is a direct metatype parameter, this is a static method of the
    -- instance type.
    let inputType1 :=
      match inputType with
      | .metatype instanceType _ =>
        if !selfParam.convention.isIndirect then instanceType else inputType
      | _ => inputType
    -- Substitute the self type.
    some (if !subs.empty then subs.subst inputType1 else inputType1)

/-- The function `irgen::emitGenericRequirementFromSubstitutions`, as the value it
returns. -/
def emitGenericRequirementFromSubstitutions {V : Type} (emitter : ArgumentEmitter V)
    (requirement : GenericRequirement) (subs : SubstitutionMap) : V :=
  let depTy := requirement.TypeParameter
  let argType := subs.subst depTy
  match requirement.Interface with
  | none => emitter.emitTypeMetadataRef argType
  | some proto =>
    let conformance := subs.lookupConformance depTy proto
    emitter.emitWitnessTableRef argType conformance

/-- The member `EmitPolymorphicArguments::emitEarlySources` on the sources of the
convention: the values added to `out`. -/
def EmitPolymorphicArguments.emitEarlySources {V : Type} (emitter : ArgumentEmitter V)
    (FnType : PILFunctionType) (subs : SubstitutionMap) :
    List MetadataSource → List V → Option (List V)
  | [], out => some out
  | source :: rest, out =>
    match source.kind with
    -- Already accounted for in the parameters.
    | .ClassPointer => EmitPolymorphicArguments.emitEarlySources emitter FnType subs rest out
    | .Metadata => EmitPolymorphicArguments.emitEarlySources emitter FnType subs rest out
    -- Needs a special argument.
    | .GenericLValueMetadata =>
      match getSubstSelfType FnType subs with
      | none => none
      | some selfType =>
        EmitPolymorphicArguments.emitEarlySources emitter FnType subs rest
          (out ++ [emitter.emitTypeMetadataRef selfType])
    -- Witness Self arguments are added as a special case in emit.
    | .SelfMetadata => EmitPolymorphicArguments.emitEarlySources emitter FnType subs rest out
    | .SelfWitnessTable =>
      EmitPolymorphicArguments.emitEarlySources emitter FnType subs rest out

/-- The body of the last loop of `EmitPolymorphicArguments::emit` for one source: for a
witness call, the Self metadata is stored in the witness metadata. A null witness metadata
is fatal there. -/
def EmitPolymorphicArguments.emitSelfMetadataSource {V : Type} (emitter : ArgumentEmitter V)
    (FnType : PILFunctionType) (subs : SubstitutionMap) (source : MetadataSource)
    (witnessMetadata : Option (WitnessMetadata V)) : Option (Option (WitnessMetadata V)) :=
  match source.kind with
  -- Already accounted for in the arguments.
  | .Metadata => some witnessMetadata
  | .ClassPointer => some witnessMetadata
  -- Added in the early phase.
  | .GenericLValueMetadata => some witnessMetadata
  | .SelfMetadata =>
    match witnessMetadata with
    | none => none
    | some metadata =>
      match getSubstSelfType FnType subs with
      | none => none
      | some selfType =>
        some (some { metadata with SelfMetadata := some (emitter.emitTypeMetadataRef selfType) })
  -- Added later.
  | .SelfWitnessTable => some witnessMetadata

/-- The last loop of `EmitPolymorphicArguments::emit` over the sources. -/
def EmitPolymorphicArguments.emitSelfMetadata {V : Type} (emitter : ArgumentEmitter V)
    (FnType : PILFunctionType) (subs : SubstitutionMap) :
    List MetadataSource → Option (WitnessMetadata V) → Option (Option (WitnessMetadata V))
  | [], witnessMetadata => some witnessMetadata
  | source :: rest, witnessMetadata =>
    match EmitPolymorphicArguments.emitSelfMetadataSource emitter FnType subs source
        witnessMetadata with
    | none => none
    | some witnessMetadata1 =>
      EmitPolymorphicArguments.emitSelfMetadata emitter FnType subs rest witnessMetadata1

/-- The member `EmitPolymorphicArguments::emit` for the function type `polyFn` (the member
`FnType` of the convention): the witness metadata and the explosion `out` after the
call. -/
def EmitPolymorphicArguments.emit {V : Type} (IGM : IRGenModule) (polyFn : PILFunctionType)
    (emitter : ArgumentEmitter V) (subs : SubstitutionMap)
    (witnessMetadata : Option (WitnessMetadata V)) (out : List V) :
    Option (Option (WitnessMetadata V) × List V) :=
  let self := PolymorphicConvention.construct IGM polyFn
  -- Add all the early sources.
  match EmitPolymorphicArguments.emitEarlySources emitter polyFn subs self.Sources out with
  | none => none
  | some out1 =>
    -- For now, treat all archetypes independently.
    let out2 :=
      (self.enumerateUnfulfilledRequirements IGM).foldl
        (fun acc requirement =>
          acc ++ [emitGenericRequirementFromSubstitutions emitter requirement subs])
        out1
    -- For a witness call, add the Self argument metadata arguments last.
    match EmitPolymorphicArguments.emitSelfMetadata emitter polyFn subs self.Sources
        witnessMetadata with
    | none => none
    | some witnessMetadata1 => some (witnessMetadata1, out2)

/-- What the callee side reads from outside this translation unit: the mapping of a type
into the context of the function, whether a class is final, the value of a formal
parameter, and the two emitters of metadata from a parameter value. -/
structure ParameterEmitter (V : Type) where
  getTypeInContext : CanType → CanType
  isFinal : NominalTypeDecl → Bool
  getParameter : Nat → V
  emitObjCMetadataRefForMetadata : V → V
  emitDynamicTypeOfHeapObject : V → CanType → V

/-- One binding of local type data made on the callee side: a generic requirement bound to
a value (`bindGenericRequirement`), type metadata bound for a type
(`bindLocalTypeDataFromTypeMetadata`), the Self witness table bound for the conformance
(`setUnscopedLocalTypeData`), or the bindings derived from the Self witness table of a
concrete conformance (`bindLocalTypeDataFromSelfWitnessTable`). -/
inductive ParameterBinding (V : Type)
  | requirement (binding : LocalTypeBinding V)
  | typeMetadata (type : CanType) (isExact : IsExact_t) (value : V)
      (metadataState : MetadataState)
  | selfWitnessTable (type : CanType) (conformance : InterfaceConformanceRef) (value : V)
  | fromSelfWitnessTable (conformance : InterfaceConformance) (value : V)
deriving DecidableEq

/-- The member `getArgTypeInContext`; reading a parameter that does not exist is fatal. -/
def EmitPolymorphicParameters.getArgTypeInContext {V : Type} (env : ParameterEmitter V)
    (FnType : PILFunctionType) (paramIndex : Nat) : Option CanType :=
  match FnType.parameters[paramIndex]? with
  | some param => some (env.getTypeInContext param.argumentType)
  | none => none

/-- The member `EmitPolymorphicParameters::bindExtraSource`: the bindings made and the
rest of the incoming explosion. Claiming from an empty explosion, a null witness metadata
and a null Self value are fatal (`none`). -/
def EmitPolymorphicParameters.bindExtraSource {V : Type} (env : ParameterEmitter V)
    (FnType : PILFunctionType) (source : MetadataSource)
    (state : List (ParameterBinding V) × List V) (witnessMetadata : Option (WitnessMetadata V)) :
    Option (List (ParameterBinding V) × List V) :=
  match source.kind with
  -- Ignore these, we will get to them when we walk the parameter list.
  | .Metadata => some state
  | .ClassPointer => some state
  | .GenericLValueMetadata =>
    match EmitPolymorphicParameters.getArgTypeInContext env FnType source.paramIndex,
        state.2 with
    | some argTy, metadata :: rest =>
      some (state.1 ++
        [ParameterBinding.typeMetadata argTy IsExact_t.IsExact metadata MetadataState.Complete],
        rest)
    | _, _ => none
  | .SelfMetadata =>
    match witnessMetadata with
    | none => none
    | some witness =>
      match witness.SelfMetadata with
      | none => none
      | some metadata =>
        -- Mark this as the cached metatype for Self.
        let selfTy := FnType.selfInstanceType
        let argTy := env.getTypeInContext selfTy
        let isExact :=
          match selfTy.getClassOrBoundGenericClass with
          | none => IsExact_t.IsExact
          | some CD => if env.isFinal CD then IsExact_t.IsExact else IsExact_t.IsInexact
        some (state.1 ++
          [ParameterBinding.typeMetadata argTy isExact metadata MetadataState.Complete],
          state.2)
  | .SelfWitnessTable =>
    match witnessMetadata with
    | none => none
    | some witness =>
      match witness.SelfWitnessTable with
      | none => none
      | some selfTable =>
        -- Mark this as the cached witness table for Self.
        let conformance := FnType.witnessMethodConformance
        let selfTy := FnType.selfInstanceType
        let argTy := env.getTypeInContext selfTy
        let bound := state.1 ++ [ParameterBinding.selfWitnessTable argTy conformance selfTable]
        match conformance with
        | .concrete _ concrete =>
          some (bound ++ [ParameterBinding.fromSelfWitnessTable concrete selfTable], state.2)
        | .abstract _ => some (bound, state.2)

/-- The first loop of `EmitPolymorphicParameters::emit` over the sources. -/
def EmitPolymorphicParameters.bindExtraSources {V : Type} (env : ParameterEmitter V)
    (FnType : PILFunctionType) (witnessMetadata : Option (WitnessMetadata V)) :
    List MetadataSource → List (ParameterBinding V) × List V →
      Option (List (ParameterBinding V) × List V)
  | [], state => some state
  | source :: rest, state =>
    match EmitPolymorphicParameters.bindExtraSource env FnType source state witnessMetadata with
    | none => none
    | some state1 =>
      EmitPolymorphicParameters.bindExtraSources env FnType witnessMetadata rest state1

/-- The second loop of `EmitPolymorphicParameters::emit`: one value is claimed for every
unfulfilled requirement and bound to it. -/
def EmitPolymorphicParameters.bindUnfulfilledRequirements {V : Type}
    (env : ParameterEmitter V) :
    List GenericRequirement → List (ParameterBinding V) × List V →
      Option (List (ParameterBinding V) × List V)
  | [], state => some state
  | requirement :: rest, state =>
    match state.2 with
    | [] => none
    | value :: remaining =>
      EmitPolymorphicParameters.bindUnfulfilledRequirements env rest
        (state.1 ++
          [ParameterBinding.requirement
            (bindGenericRequirement requirement (some value) MetadataState.Complete
              env.getTypeInContext)],
         remaining)

/-- The member `isClassPointerSource`. -/
def EmitPolymorphicParameters.isClassPointerSource (Sources : List MetadataSource)
    (paramIndex : Nat) : Bool :=
  Sources.any (fun source =>
    decide (source.kind = MetadataSource.Kind.ClassPointer) &&
      decide (source.paramIndex = paramIndex))

/-- The member `EmitPolymorphicParameters::bindParameterSource`: the bindings made for one
formal parameter. -/
def EmitPolymorphicParameters.bindParameterSource {V : Type} (env : ParameterEmitter V)
    (FnType : PILFunctionType) (Sources : List MetadataSource) (param : PILParameterInfo)
    (paramIndex : Nat) (bound : List (ParameterBinding V)) : List (ParameterBinding V) :=
  -- Ignore indirect parameters for now.
  if param.convention.isIndirect then bound
  else
    match EmitPolymorphicParameters.getArgTypeInContext env FnType paramIndex with
    | none => bound
    | some paramType =>
      match paramType with
      -- If the parameter is a thick metatype, bind it directly.
      | .metatype instanceType repr =>
        match repr with
        | .Thick =>
          bound ++ [ParameterBinding.typeMetadata instanceType IsExact_t.IsInexact
            (env.getParameter paramIndex) MetadataState.Complete]
        | .ObjC =>
          bound ++ [ParameterBinding.typeMetadata instanceType IsExact_t.IsInexact
            (env.emitObjCMetadataRefForMetadata (env.getParameter paramIndex))
            MetadataState.Complete]
        | .Thin => bound
      | _ =>
        -- A class type is interesting only if the convention decided it was a source.
        if EmitPolymorphicParameters.isClassPointerSource Sources paramIndex then
          bound ++ [ParameterBinding.typeMetadata paramType IsExact_t.IsInexact
            (env.emitDynamicTypeOfHeapObject (env.getParameter paramIndex) paramType)
            MetadataState.Complete]
        else bound

/-- The loop of `bindParameterSources` over the parameters from `index` on. -/
def EmitPolymorphicParameters.bindParameterSourcesLoop {V : Type} (env : ParameterEmitter V)
    (FnType : PILFunctionType) (Sources : List MetadataSource) :
    List PILParameterInfo → Nat → List (ParameterBinding V) → List (ParameterBinding V)
  | [], _, bound => bound
  | param :: rest, index, bound =>
    EmitPolymorphicParameters.bindParameterSourcesLoop env FnType Sources rest (index + 1)
      (EmitPolymorphicParameters.bindParameterSource env FnType Sources param index bound)

/-- The member `EmitPolymorphicParameters::bindParameterSources`: self first, then the
other parameters. A function type that has a self parameter has at least one parameter. -/
def EmitPolymorphicParameters.bindParameterSources {V : Type} (env : ParameterEmitter V)
    (FnType : PILFunctionType) (Sources : List MetadataSource)
    (bound : List (ParameterBinding V)) : List (ParameterBinding V) :=
  let params := FnType.parameters
  if FnType.hasSelfParam then
    match params.getLast? with
    | some selfParam =>
      -- Bind things from self preferentially.
      let bound1 := EmitPolymorphicParameters.bindParameterSource env FnType Sources selfParam
        (params.length - 1) bound
      EmitPolymorphicParameters.bindParameterSourcesLoop env FnType Sources params.dropLast 0
        bound1
    | none => bound
  else EmitPolymorphicParameters.bindParameterSourcesLoop env FnType Sources params 0 bound

/-- The member `EmitPolymorphicParameters::emit` for the function type of `Fn` (the member
`FnType` of the convention): the bindings made and what is left of the incoming
explosion. -/
def EmitPolymorphicParameters.emit {V : Type} (IGM : IRGenModule) (fnType : PILFunctionType)
    (env : ParameterEmitter V) (incoming : List V)
    (witnessMetadata : Option (WitnessMetadata V)) :
    Option (List (ParameterBinding V) × List V) :=
  let self := PolymorphicConvention.construct IGM fnType
  -- Collect any early sources and bind local type data from them.
  match EmitPolymorphicParameters.bindExtraSources env fnType witnessMetadata self.Sources
      ([], incoming) with
  | none => none
  | some state1 =>
    -- Collect any concrete type metadata that has been passed separately.
    match EmitPolymorphicParameters.bindUnfulfilledRequirements env
        (self.enumerateUnfulfilledRequirements IGM) state1 with
    | none => none
    | some state2 =>
      -- Bind all the fulfillments we can from the formal parameters.
      some (EmitPolymorphicParameters.bindParameterSources env fnType self.Sources
        state2.1, state2.2)

/-- An implicit generic argument as the specification counts them: the metadata passed
for a GenericLValueMetadata source, or the value passed for an unfulfilled requirement. -/
inductive ImplicitArgument
  | lvalueMetadata (source : MetadataSource)
  | requirement (requirement : GenericRequirement)
deriving DecidableEq

/-- The implicit generic arguments of a convention: one per GenericLValueMetadata source in
source order, followed by one per unfulfilled requirement in enumerator order. -/
def implicitArguments (IGM : IRGenModule) (self : PolymorphicConvention) :
    List ImplicitArgument :=
  (self.Sources.filter
      (fun source => decide (source.kind = MetadataSource.Kind.GenericLValueMetadata))).map
    ImplicitArgument.lvalueMetadata ++
  (self.enumerateUnfulfilledRequirements IGM).map ImplicitArgument.requirement

/-- The type of the signature element of an implicit argument. -/
def ImplicitArgument.signatureType : ImplicitArgument → LLVMType
  | .lvalueMetadata _ => LLVMType.TypeMetadataPtrTy
  | .requirement reqt => requirementPointerType reqt

/-- The value the caller passes for an implicit argument; `selfType` is the substituted
Self type. -/
def ImplicitArgument.passedValue {V : Type} (emitter : ArgumentEmitter V)
    (subs : SubstitutionMap) (selfType : CanType) : ImplicitArgument → V
  | .lvalueMetadata _ => emitter.emitTypeMetadataRef selfType
  | .requirement reqt => emitGenericRequirementFromSubstitutions emitter reqt subs

/-- The binding the callee makes of the value claimed for an implicit argument. -/
def ImplicitArgument.boundAs {V : Type} (env : ParameterEmitter V) (FnType : PILFunctionType)
    (value : V) : ImplicitArgument → Option (ParameterBinding V)
  | .lvalueMetadata source =>
    (EmitPolymorphicParameters.getArgTypeInContext env FnType source.paramIndex).map
      (fun argTy =>
        ParameterBinding.typeMetadata argTy IsExact_t.IsExact value MetadataState.Complete)
  | .requirement reqt =>
    some (ParameterBinding.requirement
      (bindGenericRequirement reqt (some value) MetadataState.Complete
        env.getTypeInContext))

/-! ## The debug assertions of the witness table builder -/

/-- Modelled from the spec: `WitnessTableEntry::matchesBase` (the class is declared outside
this translation unit): the entry is the out-of-line base entry of the protocol. -/
def WitnessTableEntry.matchesBase : WitnessTableEntry → InterfaceDecl → Bool
  | .OutOfLineBase baseProto, proto => decide (baseProto = proto)
  | _, _ => false

/-- Modelled from the spec: `WitnessTableEntry::matchesFunction`: the entry is the method
entry of the function declaration. -/
def WitnessTableEntry.matchesFunction : WitnessTableEntry → Nat → Bool
  | .Function decl, func => decide (decl = func)
  | _, _ => false

/-- Modelled from the spec: `WitnessTableEntry::matchesAssociatedType`: the entry is the
entry of the associated type requirement. -/
def WitnessTableEntry.matchesAssociatedType :
    WitnessTableEntry → Irgen.AssociatedType → Bool
  | .AssociatedType requirement, assocType => decide (requirement = assocType)
  | _, _ => false

/-- Modelled from the spec: `WitnessTableEntry::matchesAssociatedConformance`: the entry is
the entry of the associated conformance requirement. -/
def WitnessTableEntry.matchesAssociatedConformance :
    WitnessTableEntry → Irgen.AssociatedConformance → Bool
  | .AssociatedConformance requirement, conformance => decide (requirement = conformance)
  | _, _ => false

/-- Modelled from the spec: `InterfaceInfo::getNonBaseWitnessIndex(&witness)` (declared
outside this translation unit): the index of an entry of a layout is its position in the
entry sequence. -/
def InterfaceInfo.getNonBaseWitnessIndex (position : Nat) : Nat := position

/-- The loop `for (auto &witness : getWitnessEntries()) if (...) return
getNonBaseWitnessIndex(&witness);` of an index lookup, over the entries from position
`position` on: the index of the first entry that satisfies `pred`. `none` stands for the
unreachable end of the loop. -/
def InterfaceInfo.firstMatchingWitness (pred : WitnessTableEntry → Bool) :
    List WitnessTableEntry → Nat → Option Nat
  | [], _ => none
  | witness :: rest, position =>
    if pred witness then some (InterfaceInfo.getNonBaseWitnessIndex position)
    else InterfaceInfo.firstMatchingWitness pred rest (position + 1)

/-- The member `InterfaceInfo::getAssociatedTypeIndex`. Its entry assertion, that the
source protocol of the associated type is not resilient, reads a query that is not
represented. -/
def InterfaceInfo.getAssociatedTypeIndex (self : InterfaceInfo) (assocType : AssociatedType) :
    Option Nat :=
  InterfaceInfo.firstMatchingWitness (fun witness => witness.matchesAssociatedType assocType)
    self.WitnessEntries 0

/-- Modelled from the spec: `InterfaceInfo::getBaseIndex` (declared outside this translation
unit), after the pattern of `getAssociatedTypeIndex`. -/
def InterfaceInfo.getBaseIndex (self : InterfaceInfo) (protocol : InterfaceDecl) : Option Nat :=
  InterfaceInfo.firstMatchingWitness (fun witness => witness.matchesBase protocol)
    self.WitnessEntries 0

/-- Modelled from the spec: `InterfaceInfo::getFunctionIndex` (declared outside this
translation unit), after the pattern of `getAssociatedTypeIndex`. -/
def InterfaceInfo.getFunctionIndex (self : InterfaceInfo) (function : Nat) : Option Nat :=
  InterfaceInfo.firstMatchingWitness (fun witness => witness.matchesFunction function)
    self.WitnessEntries 0

/-- Modelled from the spec: `InterfaceInfo::getAssociatedConformanceIndex` (declared outside
this translation unit), after the pattern of `getAssociatedTypeIndex`. -/
def InterfaceInfo.getAssociatedConformanceIndex (self : InterfaceInfo)
    (conformance : AssociatedConformance) : Option Nat :=
  InterfaceInfo.firstMatchingWitness
    (fun witness => witness.matchesAssociatedConformance conformance) self.WitnessEntries 0

/-- The `size_t` difference `Table.size() - WitnessTableFirstRequirementOffset`, which wraps
when the table is shorter than the offset. The constant is declared outside this
translation unit and is passed in. -/
def WitnessTableBuilder.requirementOffset (WitnessTableFirstRequirementOffset : Nat)
    (self : WitnessTableBuilder) : Nat :=
  (self.Table.length + 18446744073709551616 - WitnessTableFirstRequirementOffset) %
    18446744073709551616

/-- The assertion `(size_t)piIndex.getValue() == Table.size() -
WitnessTableFirstRequirementOffset` ("offset doesn't match InterfaceInfo layout"); an index
lookup that finds no entry is fatal. -/
def WitnessTableBuilder.offsetMatchesLayout (WitnessTableFirstRequirementOffset : Nat)
    (self : WitnessTableBuilder) (piIndex : Option Nat) : Bool :=
  match piIndex with
  | none => false
  | some piIndex =>
    decide (piIndex = self.requirementOffset WitnessTableFirstRequirementOffset)

/-- The debug-only assertions (`#ifndef NDEBUG`) of the hook that a visit is dispatched to,
on the state in which the hook is entered: whether all of them hold. Each hook evaluates
them on the front recorded entry, after the test for a resilient conformance and before it
appends to the table; a hook that returns earlier, or that has no assertion, lets everything
pass. -/
def WitnessTableBuilder.assertionsHold (WitnessTableFirstRequirementOffset : Nat)
    (self : WitnessTableBuilder) : WitnessVisit → Bool
  | .InterfaceConformanceDescriptor => true
  | .OutOfLineBaseInterface baseProto =>
    match self.PILEntries with
    | [] => true
    | entry :: _ =>
      if self.ResilientConformance then true
      else
        -- entry.getKind() == PILWitnessTable::BaseInterface, and
        -- entry.getBaseInterfaceWitness().Requirement == baseProto
        (match entry with
         | .BaseInterface Requirement => decide (Requirement = baseProto)
         | _ => false) &&
        self.offsetMatchesLayout WitnessTableFirstRequirementOffset
          (self.PI.getBaseIndex baseProto)
  | .Method requirement =>
    match self.PILEntries with
    | [] => true
    | entry :: _ =>
      if self.ResilientConformance then true
      else
        -- entry.getKind() == PILWitnessTable::Method, and
        -- entry.getMethodWitness().Requirement == requirement
        (match entry with
         | .Method Requirement _ => decide (Requirement = requirement)
         | _ => false) &&
        self.offsetMatchesLayout WitnessTableFirstRequirementOffset
          (self.PI.getFunctionIndex requirement.decl)
  | .Placeholder _ => true
  | .AssociatedType requirement =>
    match self.PILEntries with
    | [] => true
    | entry :: _ =>
      if self.ResilientConformance then true
      else
        -- entry.getKind() == PILWitnessTable::AssociatedType, and
        -- entry.getAssociatedTypeWitness().Requirement == requirement.getAssociation()
        (match entry with
         | .AssociatedType Requirement => decide (Requirement = requirement.association)
         | _ => false) &&
        self.offsetMatchesLayout WitnessTableFirstRequirementOffset
          (self.PI.getAssociatedTypeIndex requirement)
  | .AssociatedConformance requirement =>
    match self.PILEntries with
    | [] => true
    | entry :: _ =>
      if self.ResilientConformance then true
      else
        -- entry.getKind() == PILWitnessTable::AssociatedTypeInterface, and
        -- associatedWitness.Requirement == requirement.getAssociation(), and
        -- associatedWitness.Interface == requirement.getAssociatedRequirement()
        (match entry with
         | .AssociatedTypeInterface Requirement Interface =>
           decide (Requirement = requirement.association) &&
             decide (Interface = requirement.associatedRequirement)
         | _ => false) &&
        self.offsetMatchesLayout WitnessTableFirstRequirementOffset
          (self.PI.getAssociatedConformanceIndex requirement)

/-- The index of the requirement of a visit in the layout of the protocol, as the hook of
the visit looks it up. -/
def WitnessTableBuilder.layoutIndex (self : WitnessTableBuilder) : WitnessVisit → Option Nat
  | .InterfaceConformanceDescriptor => none
  | .OutOfLineBaseInterface baseProto => self.PI.getBaseIndex baseProto
  | .Method requirement => self.PI.getFunctionIndex requirement.decl
  | .Placeholder _ => none
  | .AssociatedType requirement => self.PI.getAssociatedTypeIndex requirement
  | .AssociatedConformance requirement => self.PI.getAssociatedConformanceIndex requirement

/-- A recorded entry agrees with a visited requirement, in the words of the specification:
it has the kind of the requirement and names the same requirement. No recorded entry agrees
with the conformance descriptor or with a placeholder. -/
def PILWitnessTable.Entry.agreesWith : PILWitnessTable.Entry → WitnessVisit → Bool
  | .BaseInterface Requirement, .OutOfLineBaseInterface baseProto =>
    decide (Requirement = baseProto)
  | .Method Requirement _, .Method requirement => decide (Requirement = requirement)
  | .AssociatedType Requirement, .AssociatedType requirement =>
    decide (Requirement = requirement.association)
  | .AssociatedTypeInterface Requirement Interface, .AssociatedConformance requirement =>
    decide (Requirement = requirement.association) &&
      decide (Interface = requirement.associatedRequirement)
  | _, _ => false

/-- The recorded entries agree in kind and order with the visited requirements: there are
as many, and each entry agrees with the requirement at its position. -/
def entriesAgree : List PILWitnessTable.Entry → List WitnessVisit → Bool
  | [], [] => true
  | entry :: entries, visit :: visits => entry.agreesWith visit && entriesAgree entries visits
  | _, _ => false

/-! ## Scenario inputs -/

/-- A fulfillment search that records nothing and reports so: what an inexact search over a
bare type parameter or over a type without generic arguments comes to. Types with a type
parameter are the interesting ones. -/
def FulfillmentSearch.recordsNothing : FulfillmentSearch where
  isInterestingTypeForFulfillments := fun type => type.hasTypeParameter
  searchTypeMetadata := fun m _ _ _ _ _ _ => (false, m)
  searchConformance := fun m _ _ _ _ => (false, m)

/-- A module named `current` with the given conformance table, in which no protocol has
requirements of its own, every protocol requires a witness table and the fulfillment
search records nothing. -/
def scenarioModule (current : ModuleDecl) (conformances : List NormalInterfaceConformance) :
    IRGenModule where
  PolarphpModule := current
  Context := { conformances := conformances, requirementSignature := fun _ => [] }
  interfaceRequiresWitnessTable := fun _ => true
  fulfillmentSearch := FulfillmentSearch.recordsNothing

/-- The protocol `P` of module 0, not resilient. -/
def scenarioInterfaceP : InterfaceDecl := { id := 0, resilient := false, parentModule := { id := 0 } }

/-- The witness-method thunk of `protocol P { func f() }` for the conformance `S: P` of a
struct `S`: no generic signature, no formal parameter besides self. -/
def witnessThunkScenario : PILFunctionType where
  representation := PILFunctionTypeRepresentation.WitnessMethod
  pseudogeneric := false
  invocationGenericSignature := none
  parameters := [{ argumentType := CanType.nominal { id := 0, kind := NominalKind.Struct },
                   convention := ParameterConvention.Indirect_In_Guaranteed }]
  hasSelfParam := true
  selfInstanceType := CanType.nominal { id := 0, kind := NominalKind.Struct }
  witnessMethodConformance :=
    InterfaceConformanceRef.concrete scenarioInterfaceP
      (InterfaceConformance.root (RootInterfaceConformance.normal 0))

/-- A pseudogeneric witness method whose Self type is the generic parameter `τ_0_0` of the
signature `<τ_0_0 where τ_0_0 : P>`, with an abstract conformance. -/
def pseudogenericWitnessScenario : PILFunctionType where
  representation := PILFunctionTypeRepresentation.WitnessMethod
  pseudogeneric := true
  invocationGenericSignature := some
    { params := [({ depth := 0, index := 0 }, true)]
      requirements := [Requirement.conformance (CanType.genericTypeParam 0 0) scenarioInterfaceP]
      conformsTo := fun t => if t = CanType.genericTypeParam 0 0 then [scenarioInterfaceP] else []
      superclassBound := fun _ => none }
  parameters := [{ argumentType := CanType.genericTypeParam 0 0,
                   convention := ParameterConvention.Indirect_In_Guaranteed }]
  hasSelfParam := true
  selfInstanceType := CanType.genericTypeParam 0 0
  witnessMethodConformance := InterfaceConformanceRef.abstract scenarioInterfaceP

/-- The function generic over `T: Comparable, U` (`T` is `τ_0_0`, `U` is `τ_0_1`) whose only
parameter is `self: T`, passed indirect-in. -/
def selfIndirectInScenario (rep : PILFunctionTypeRepresentation) (Comparable : InterfaceDecl) :
    PILFunctionType where
  representation := rep
  pseudogeneric := false
  invocationGenericSignature := some
    { params := [({ depth := 0, index := 0 }, true), ({ depth := 0, index := 1 }, true)]
      requirements := [Requirement.conformance (CanType.genericTypeParam 0 0) Comparable]
      conformsTo := fun t => if t = CanType.genericTypeParam 0 0 then [Comparable] else []
      superclassBound := fun _ => none }
  parameters := [{ argumentType := CanType.genericTypeParam 0 0,
                   convention := ParameterConvention.Indirect_In }]
  hasSelfParam := true
  selfInstanceType := CanType.genericTypeParam 0 0
  witnessMethodConformance := InterfaceConformanceRef.abstract Comparable

/-- A resilient protocol `P` declared in module 0. -/
def resilientInterfaceP : InterfaceDecl := { id := 1, resilient := true, parentModule := { id := 0 } }

/-- A conformance to the resilient protocol `P` (of module 0) declared in
`conformanceModule`, for a type that is generic or not as `genericContext` says, with no
associated-type witness, no conditional conformance and not synthesized. -/
def resilientInterfaceConformance (conformanceModule : ModuleDecl) (genericContext : Bool) :
    NormalInterfaceConformance where
  Interface := resilientInterfaceP
  declContext := { parentModule := conformanceModule, genericContext := genericContext }
  associatedConformance := fun _ proto => InterfaceConformanceRef.abstract proto
  typeWitnesses := []
  conditionalConformances := []
  synthesizedNonUnique := false

/-- A conformance in a generic context whose only associated-type witness is the type
parameter `τ_0_0`, for an associated type that overrides one of a base protocol (so it has
no witness-table entry). Nothing else could make it dependent. -/
def overriddenWitnessConformance : NormalInterfaceConformance where
  Interface := scenarioInterfaceP
  declContext := { parentModule := { id := 0 }, genericContext := true }
  associatedConformance := fun _ proto => InterfaceConformanceRef.abstract proto
  typeWitnesses := [{ requirementHasOverriddenDecls := true, type := CanType.genericTypeParam 0 0 }]
  conditionalConformances := []
  synthesizedNonUnique := false

/-- A conformance to `P` of a non-generic type of module 0 whose associated conformances
are all the concrete conformance `next`, and which has the given conditional
conformances. -/
def chainedConformance (next : Nat) (conditional : List (CanType × InterfaceDecl)) :
    NormalInterfaceConformance where
  Interface := scenarioInterfaceP
  declContext := { parentModule := { id := 0 }, genericContext := false }
  associatedConformance := fun _ _ =>
    InterfaceConformanceRef.concrete scenarioInterfaceP
      (InterfaceConformance.root (RootInterfaceConformance.normal next))
  typeWitnesses := []
  conditionalConformances := conditional
  synthesizedNonUnique := false

/-- A module with a cyclic conformance graph: conformance 0 refers to conformance 1 and
conformance 1 back to conformance 0, through the one conformance requirement `Self.A : P`
of the protocol. Conformance 1 has the given conditional conformances. -/
def cyclicModule (conditional : List (CanType × InterfaceDecl)) : IRGenModule where
  PolarphpModule := { id := 0 }
  Context :=
    { conformances := [chainedConformance 1 [], chainedConformance 0 conditional]
      requirementSignature := fun _ =>
        [Requirement.conformance (CanType.dependentMember (CanType.genericTypeParam 0 0) 0)
          scenarioInterfaceP] }
  interfaceRequiresWitnessTable := fun _ => true
  fulfillmentSearch := FulfillmentSearch.recordsNothing

/-- The base protocol `A` of module 0, not resilient. -/
def baseInterfaceA : InterfaceDecl := { id := 2, resilient := false, parentModule := { id := 0 } }

/-- The base protocol `B` of module 0, not resilient. -/
def baseInterfaceB : InterfaceDecl := { id := 3, resilient := false, parentModule := { id := 0 } }

/-- A conformance to `protocol` declared in module 0, for a type that is generic or not as
`genericContext` says, with the given conditional conformances and nothing else. -/
def plainConformance (protocol : InterfaceDecl) (genericContext : Bool)
    (conditional : List (CanType × InterfaceDecl)) : NormalInterfaceConformance where
  Interface := protocol
  declContext := { parentModule := { id := 0 }, genericContext := genericContext }
  associatedConformance := fun _ proto => InterfaceConformanceRef.abstract proto
  typeWitnesses := []
  conditionalConformances := conditional
  synthesizedNonUnique := false

/-- The module 0 with four conformances: 0 is `S: P` (the table under construction),
1 is `S: A` (not dependent), 2 is `G<T>: B` with a conditional requirement (dependent), and
3 is a conformance to the resilient protocol declared in module 1 (resilient). -/
def builderModule : IRGenModule :=
  scenarioModule { id := 0 }
    [plainConformance scenarioInterfaceP false [],
     plainConformance baseInterfaceA false [],
     plainConformance baseInterfaceB true [(CanType.genericTypeParam 0 0, scenarioInterfaceP)],
     resilientInterfaceConformance { id := 1 } false]

/-- The inputs of the builder in `builderModule`: `P` and the resilient protocol inherit
`A` and `B` and require two methods and one associated type; the inherited conformance to
`A` is conformance 1 and that to `B` is conformance 2. -/
def builderInputs : WitnessTableInputs where
  Options := { LazyInitializeInterfaceConformances := false }
  rootModule := fun _ => { id := 0 }
  requirementsOf := fun protocol =>
    if protocol = scenarioInterfaceP ∨ protocol = resilientInterfaceP then
      { outOfLineBases := [baseInterfaceA, baseInterfaceB]
        members := [InterfaceMember.Method { decl := 0 }, InterfaceMember.Method { decl := 1 }]
        associatedTypes := [{ association := { id := 0 } }]
        associatedConformances := [] }
    else { outOfLineBases := [], members := [], associatedTypes := [], associatedConformances := [] }
  ConcreteType := CanType.nominal { id := 0, kind := NominalKind.Struct }
  ConformanceInContext :=
    { getInheritedConformance := fun protocol =>
        if protocol = baseInterfaceA then
          InterfaceConformance.root (RootInterfaceConformance.normal 1)
        else InterfaceConformance.root (RootInterfaceConformance.normal 2)
      getAssociatedType := fun type => type
      getAssociatedConformance := fun _ protocol =>
        if protocol = baseInterfaceA then
          InterfaceConformanceRef.concrete protocol
            (InterfaceConformance.root (RootInterfaceConformance.normal 1))
        else InterfaceConformanceRef.abstract protocol
      getTypeWitness := fun _ => CanType.nominal { id := 1, kind := NominalKind.Struct }
      interfaceSelfType := CanType.genericTypeParam 0 0 }
  archetypeSuperclass := fun _ => none

/-- The inputs of the builder for the resilient sample table: as `builderInputs`, with both
inherited conformances concrete (conformance 1 for `A`, conformance 2 for `B`), as they are
for a conforming type without archetypes. -/
def resilientBuilderInputs : WitnessTableInputs :=
  { builderInputs with
    ConformanceInContext :=
      { builderInputs.ConformanceInContext with
        getAssociatedConformance := fun _ protocol =>
          InterfaceConformanceRef.concrete protocol
            (InterfaceConformance.root
              (RootInterfaceConformance.normal (if protocol = baseInterfaceA then 1 else 2))) } }

/-- The recorded entries of the two sample tables: the two base protocols, a method with
its witness, a method removed as dead, and an associated type. -/
def builderEntries : List PILWitnessTable.Entry :=
  [PILWitnessTable.Entry.BaseInterface baseInterfaceA,
   PILWitnessTable.Entry.BaseInterface baseInterfaceB,
   PILWitnessTable.Entry.Method { decl := 0 } (some { id := 7 }),
   PILWitnessTable.Entry.Method { decl := 1 } none,
   PILWitnessTable.Entry.AssociatedType { id := 0 }]

/-- The recorded table of conformance 0 (`S: P`, not resilient), with two conditional
conformances. -/
def fixedTableScenario : PILWitnessTable where
  Conformance := RootInterfaceConformance.normal 0
  Interface := scenarioInterfaceP
  Entries := builderEntries
  ConditionalConformances :=
    [{ Requirement := CanType.genericTypeParam 0 0,
       Conformance := InterfaceConformanceRef.abstract baseInterfaceA },
     { Requirement := CanType.genericTypeParam 0 1,
       Conformance := InterfaceConformanceRef.abstract baseInterfaceB }]

/-- The recorded table of conformance 3 (resilient), without conditional conformances. -/
def resilientTableScenario : PILWitnessTable where
  Conformance := RootInterfaceConformance.normal 3
  Interface := resilientInterfaceP
  Entries := builderEntries
  ConditionalConformances := []

/-- The associated conformance requirement `Self.T : A` of the protocol `P`. -/
def associatedRequirementTA : AssociatedConformance where
  sourceInterface := scenarioInterfaceP
  association := CanType.dependentMember (CanType.genericTypeParam 0 0) 0
  associatedRequirement := baseInterfaceA

/-- The inputs of the builder for a protocol `P` that also has the associated conformance
requirement `Self.T : A`: as `builderInputs`, with that requirement added to `P`. The
associated conformance is the concrete conformance 1. -/
def associatedBuilderInputs : WitnessTableInputs :=
  { builderInputs with
    requirementsOf := fun protocol =>
      if protocol = scenarioInterfaceP then
        { outOfLineBases := [baseInterfaceA, baseInterfaceB]
          members := [InterfaceMember.Method { decl := 0 }, InterfaceMember.Method { decl := 1 }]
          associatedTypes := [{ association := { id := 0 } }]
          associatedConformances := [associatedRequirementTA] }
      else
        { outOfLineBases := [], members := [], associatedTypes := [],
          associatedConformances := [] } }

/-- The recorded table of conformance 0 (`S: P`, not resilient) for the protocol with the
associated conformance requirement: the sample entries followed by the entry of
`Self.T : A`. -/
def associatedTableScenario : PILWitnessTable where
  Conformance := RootInterfaceConformance.normal 0
  Interface := scenarioInterfaceP
  Entries := builderEntries ++
    [PILWitnessTable.Entry.AssociatedTypeInterface
      (CanType.dependentMember (CanType.genericTypeParam 0 0) 0) baseInterfaceA]
  ConditionalConformances := []

/-- The builder of a recorded table in `builderModule`, as `emitPILWitnessTable` creates it:
over an empty constant array, with empty caches. -/
def freshBuilder (PILWT : PILWitnessTable) : WitnessTableBuilder :=
  (WitnessTableBuilder.create builderModule builderInputs [] [] [] PILWT).1

/-- The builder of the resilient sample table, over an empty constant array, with empty
caches. -/
def resilientBuilder : WitnessTableBuilder :=
  (WitnessTableBuilder.create builderModule resilientBuilderInputs [] [] []
    resilientTableScenario).1

/-- The builder of the fixed sample table at the point where the next recorded entry is the
method that was removed as dead. -/
def deadMethodBuilder : WitnessTableBuilder :=
  { freshBuilder fixedTableScenario with
    PILEntries := [PILWitnessTable.Entry.Method { decl := 1 } none] }

/-- Operations that log what `followComponent` emits: the function state is the list of
the components followed on a present source, each with its request; a source key counts
the components it was advanced past; nothing is cached anywhere. -/
def loggingFollowOps :
    FollowOps (List (MetadataPath.Component × DynamicMetadataRequest)) Nat Nat Unit where
  adjustKey := fun _ sourceKey _ => sourceKey + 1
  emitComponent := fun IGF _ present component request =>
    (IGF ++ [(component, request)], present + 1)
  tryGetConcreteLocalTypeData := fun _ _ _ => none
  setScopedLocalTypeData := fun IGF _ _ => IGF
  findPrefix := fun _ _ => (none, 0)
  insertNew := fun map _ _ => map

/-- A path of three components. -/
def followScenarioPath : MetadataPath :=
  [MetadataPath.Component.NominalTypeArgumentConformance 0,
   MetadataPath.Component.AssociatedConformance 1,
   MetadataPath.Component.OutOfLineBaseInterface 2]

/-- The type `((T, Int), U) -> Array<T>.Type` over the archetypes `T` and `U`, where `Int`
has no archetype. -/
def structuralTypeScenario : CanType :=
  CanType.function
    [CanType.tuple [CanType.archetype 0, CanType.nominal { id := 9, kind := NominalKind.Struct }],
     CanType.archetype 1]
    (CanType.metatype
      (CanType.boundGeneric { id := 8, kind := NominalKind.Struct } [CanType.archetype 0])
      MetatypeRepresentation.Thick)

/-- Bindings that already record the metadata of the archetype `U`. -/
def recordedBindingsScenario : NecessaryBindings :=
  { Requirements := [{ TypeParameter := CanType.archetype 1, Interface := none }] }

/-- Bindings for the metadata of the archetype `T` and for its conformance to `P`. -/
def savedBindingsScenario : NecessaryBindings :=
  { Requirements :=
      [{ TypeParameter := CanType.archetype 0, Interface := none },
       { TypeParameter := CanType.archetype 0, Interface := some scenarioInterfaceP }] }

/-- An emitter whose values name what they are: 0 for type metadata, 1 for a witness
table, each with the type it is for. -/
def namingEmitter : BindingsEmitter (Nat × CanType) where
  emitArchetypeWitnessTableRef := fun type _ => (1, type)
  emitTypeMetadataRef := fun type => (0, type)

/-- A discovery that finds the searched type itself, structurally, one nominal type argument
away from the source, and nothing in a conformance. -/
def searchedTypeDiscovery : FulfillmentDiscovery where
  isInterestingTypeForFulfillments := fun type => type.hasTypeParameter
  discoverTypeMetadata := fun _ _ type _ state _ path =>
    [{ key := (type, none), path := path ++ [MetadataPath.Component.NominalTypeArgument 0],
       state := state }]
  discoverConformance := fun _ _ _ _ _ => []

/-- The module 0 without conformances whose fulfillment search records the searched type
through `addFulfillment`. -/
def recordingModule : IRGenModule where
  PolarphpModule := { id := 0 }
  Context := { conformances := [], requirementSignature := fun _ => [] }
  interfaceRequiresWitnessTable := fun _ => true
  fulfillmentSearch := searchedTypeDiscovery.toSearch

/-- A witness method, not pseudogeneric, whose Self type is the generic parameter `τ_0_0` of
the signature `<τ_0_0 where τ_0_0 : P>`, with an abstract conformance. -/
def abstractSelfWitnessScenario : PILFunctionType :=
  { pseudogenericWitnessScenario with pseudogeneric := false }

/-- A method of a class `C` of three parameters `(x: D, y: Int, self: C)`, where `C` and
`D` are classes and `Int` is a struct, all passed directly; generic over `τ_0_0`. -/
def threeParameterScenario : PILFunctionType where
  representation := PILFunctionTypeRepresentation.Method
  pseudogeneric := false
  invocationGenericSignature := some
    { params := [({ depth := 0, index := 0 }, true)]
      requirements := []
      conformsTo := fun _ => []
      superclassBound := fun _ => none }
  parameters :=
    [{ argumentType :=
         CanType.boundGeneric { id := 2, kind := NominalKind.Class } [CanType.genericTypeParam 0 0],
       convention := ParameterConvention.Direct_Guaranteed },
     { argumentType := CanType.nominal { id := 9, kind := NominalKind.Struct },
       convention := ParameterConvention.Direct_Unowned },
     { argumentType :=
         CanType.boundGeneric { id := 1, kind := NominalKind.Class } [CanType.genericTypeParam 0 0],
       convention := ParameterConvention.Direct_Guaranteed }]
  hasSelfParam := true
  selfInstanceType :=
    CanType.boundGeneric { id := 1, kind := NominalKind.Class } [CanType.genericTypeParam 0 0]
  witnessMethodConformance := InterfaceConformanceRef.abstract scenarioInterfaceP

/-- A fulfillment search that finds something in every type it searches: it records the
metadata of the searched type for the given source when no key is left over, through
`addFulfillment`, and reports success in every case. -/
def FulfillmentSearch.alwaysFinds : FulfillmentSearch where
  isInterestingTypeForFulfillments := fun type => type.hasTypeParameter
  searchTypeMetadata := fun m _ type _ state source path =>
    (true, (m.addFulfillment (type, none) source path state).2)
  searchConformance := fun m _ _ _ _ => (false, m)

/-- The module 0 without conformances whose fulfillment search always finds something. -/
def findingModule : IRGenModule where
  PolarphpModule := { id := 0 }
  Context := { conformances := [], requirementSignature := fun _ => [] }
  interfaceRequiresWitnessTable := fun _ => true
  fulfillmentSearch := FulfillmentSearch.alwaysFinds

/-- The generic signature `<τ_0_0, τ_0_1 where τ_0_0 : P>`. -/
def twoParameterSignature : GenericSignature where
  params := [({ depth := 0, index := 0 }, true), ({ depth := 0, index := 1 }, true)]
  requirements := [Requirement.conformance (CanType.genericTypeParam 0 0) scenarioInterfaceP]
  conformsTo := fun t => if t = CanType.genericTypeParam 0 0 then [scenarioInterfaceP] else []
  superclassBound := fun _ => none

/-- A mutating method of the generic struct `S<τ_0_0>`: the only parameter is
`self: inout S<τ_0_0>`. -/
def mutatingMethodScenario : PILFunctionType where
  representation := PILFunctionTypeRepresentation.Method
  pseudogeneric := false
  invocationGenericSignature := some
    { params := [({ depth := 0, index := 0 }, true)]
      requirements := []
      conformsTo := fun _ => []
      superclassBound := fun _ => none }
  parameters :=
    [{ argumentType :=
         CanType.boundGeneric { id := 5, kind := NominalKind.Struct } [CanType.genericTypeParam 0 0],
       convention := ParameterConvention.Indirect_Inout }]
  hasSelfParam := true
  selfInstanceType :=
    CanType.boundGeneric { id := 5, kind := NominalKind.Struct } [CanType.genericTypeParam 0 0]
  witnessMethodConformance := InterfaceConformanceRef.abstract scenarioInterfaceP

/-- An emitter of arguments whose values name what they are: 0 for type metadata, 1 for a
witness table, each with the type it is for. -/
def namingArgumentEmitter : ArgumentEmitter (Nat × CanType) where
  emitTypeMetadataRef := fun type => (0, type)
  emitWitnessTableRef := fun type _ => (1, type)

/-- The substitution of `Int` for `τ_0_0`. -/
def intSubstitution : SubstitutionMap where
  empty := false
  subst := fun type =>
    if type = CanType.genericTypeParam 0 0 then
      CanType.nominal { id := 9, kind := NominalKind.Struct }
    else if type = CanType.boundGeneric { id := 5, kind := NominalKind.Struct }
        [CanType.genericTypeParam 0 0] then
      CanType.boundGeneric { id := 5, kind := NominalKind.Struct }
        [CanType.nominal { id := 9, kind := NominalKind.Struct }]
    else type
  lookupConformance := fun _ protocol => InterfaceConformanceRef.abstract protocol

/-- A callee environment that maps no type and reads the formal parameter `i` as the value
`(2, ())` tagged with the empty tuple. -/
def plainParameterEmitter : ParameterEmitter (Nat × CanType) where
  getTypeInContext := fun type => type
  isFinal := fun _ => false
  getParameter := fun _ => (2, CanType.tuple [])
  emitObjCMetadataRefForMetadata := fun value => value
  emitDynamicTypeOfHeapObject := fun value _ => value


/-! ## Properties of the requirement enumerator -/

theorem enumerateParamRequirements_eq (params : List (GenericTypeParamType × Bool)) :
    enumerateParamRequirements params =
      (params.filter (fun p => p.2)).map
        (fun p => ({ TypeParameter := p.1.toCanType, Interface := none } : GenericRequirement)) := by
  induction params with
  | nil => rfl
  | cons p rest ih =>
    obtain ⟨gp, canonical⟩ := p
    cases canonical <;> simp [enumerateParamRequirements, ih]

theorem enumerateConformanceRequirements_eq (requiresWitnessTable : InterfaceDecl → Bool)
    (reqs : List Requirement) :
    enumerateConformanceRequirements requiresWitnessTable reqs =
      reqs.filterMap (witnessTableRequirement requiresWitnessTable) := by
  induction reqs with
  | nil => rfl
  | cons r rest ih =>
    cases r with
    | conformance t p =>
      by_cases h : requiresWitnessTable p = true
      · simp [enumerateConformanceRequirements, witnessTableRequirement, h, ih]
      · simp [enumerateConformanceRequirements, witnessTableRequirement, h, ih]
    | superclass a b => simp [enumerateConformanceRequirements, witnessTableRequirement, ih]
    | sameType a b => simp [enumerateConformanceRequirements, witnessTableRequirement, ih]
    | layout a b => simp [enumerateConformanceRequirements, witnessTableRequirement, ih]

theorem witnessTableRequirement_isSome_Interface (requiresWitnessTable : InterfaceDecl → Bool)
    (r : Requirement) (g : GenericRequirement)
    (h : witnessTableRequirement requiresWitnessTable r = some g) : g.Interface.isNone = false := by
  cases r with
  | conformance t p =>
    by_cases hp : requiresWitnessTable p = true
    · simp [witnessTableRequirement, hp] at h
      subst h
      rfl
    · simp [witnessTableRequirement, hp] at h
  | superclass a b => simp [witnessTableRequirement] at h
  | sameType a b => simp [witnessTableRequirement] at h
  | layout a b => simp [witnessTableRequirement] at h

/-- C1: the enumerator yields nothing for a null signature; for a signature it yields one
metadata-only requirement per canonical parameter in parameter order, followed by one
(type, protocol) requirement per conformance requirement whose protocol requires a witness
table, in requirement order, and nothing for superclass, same-type and layout requirements.
So at least N requirements come out for N canonical parameters, exactly N of them
metadata-only. -/
theorem enumerateGenericSignatureRequirements_spec
    (requiresWitnessTable : InterfaceDecl → Bool) :
    enumerateGenericSignatureRequirements requiresWitnessTable none = [] ∧
    ∀ sig : GenericSignature,
      enumerateGenericSignatureRequirements requiresWitnessTable (some sig) =
          (sig.params.filter (fun p => p.2)).map
            (fun p => ({ TypeParameter := p.1.toCanType, Interface := none } : GenericRequirement))
          ++ sig.requirements.filterMap (witnessTableRequirement requiresWitnessTable) ∧
      (∀ a b : CanType,
        witnessTableRequirement requiresWitnessTable (Requirement.superclass a b) = none ∧
        witnessTableRequirement requiresWitnessTable (Requirement.sameType a b) = none) ∧
      (∀ (a : CanType) (l : Nat),
        witnessTableRequirement requiresWitnessTable (Requirement.layout a l) = none) ∧
      (sig.params.filter (fun p => p.2)).length ≤
        (enumerateGenericSignatureRequirements requiresWitnessTable (some sig)).length ∧
      ((enumerateGenericSignatureRequirements requiresWitnessTable (some sig)).filter
          (fun r => r.Interface.isNone)).length =
        (sig.params.filter (fun p => p.2)).length := by
  refine ⟨rfl, fun sig => ?_⟩
  have hEq : enumerateGenericSignatureRequirements requiresWitnessTable (some sig) =
      (sig.params.filter (fun p => p.2)).map
        (fun p => ({ TypeParameter := p.1.toCanType, Interface := none } : GenericRequirement))
      ++ sig.requirements.filterMap (witnessTableRequirement requiresWitnessTable) := by
    simp only [enumerateGenericSignatureRequirements, enumerateParamRequirements_eq,
      enumerateConformanceRequirements_eq]
  refine ⟨hEq, fun a b => ⟨rfl, rfl⟩, fun a l => rfl, ?_, ?_⟩
  · rw [hEq]
    simp only [List.length_append, List.length_map]
    omega
  · rw [hEq, List.filter_append, List.length_append]
    have h1 : ((sig.params.filter (fun p => p.2)).map
        (fun p => ({ TypeParameter := p.1.toCanType, Interface := none } : GenericRequirement))).filter
          (fun r => r.Interface.isNone) =
        (sig.params.filter (fun p => p.2)).map
        (fun p => ({ TypeParameter := p.1.toCanType, Interface := none } : GenericRequirement)) := by
      apply List.filter_eq_self.mpr
      intro r hr
      obtain ⟨p, _, rfl⟩ := List.mem_map.mp hr
      rfl
    have h2 : (sig.requirements.filterMap (witnessTableRequirement requiresWitnessTable)).filter
        (fun r => r.Interface.isNone) = [] := by
      apply List.filter_eq_nil_iff.mpr
      intro r hr
      obtain ⟨q, _, hq⟩ := List.mem_filterMap.mp hr
      simp [witnessTableRequirement_isSome_Interface requiresWitnessTable q r hq]
    rw [h1, h2]
    simp

/-! ## Properties of the polymorphic convention -/

theorem unfulfilledRequirements_eq_filter (fulfillments : FulfillmentMap)
    (reqs : List GenericRequirement) :
    unfulfilledRequirements fulfillments reqs =
      reqs.filter (fun r => (fulfillments.find (r.TypeParameter, r.Interface)).isNone) := by
  induction reqs with
  | nil => rfl
  | cons r rest ih =>
    obtain ⟨type, iface⟩ := r
    cases iface with
    | none =>
      by_cases h : (fulfillments.find (type, none)).isNone = true
      · simp [unfulfilledRequirements, FulfillmentMap.getTypeMetadata, h, ih]
      · simp [unfulfilledRequirements, FulfillmentMap.getTypeMetadata, h, ih]
    | some p =>
      by_cases h : (fulfillments.find (type, some p)).isNone = true
      · simp [unfulfilledRequirements, FulfillmentMap.getWitnessTable, h, ih]
      · simp [unfulfilledRequirements, FulfillmentMap.getWitnessTable, h, ih]

theorem hasNoFulfillment_eq (fulfillments : FulfillmentMap) (r : GenericRequirement) :
    hasNoFulfillment fulfillments r =
      (fulfillments.find (r.TypeParameter, r.Interface)).isNone := by
  obtain ⟨type, iface⟩ := r
  cases iface <;> rfl

theorem enumerateUnfulfilledRequirements_filter (IGM : IRGenModule)
    (self : PolymorphicConvention) :
    self.enumerateUnfulfilledRequirements IGM =
      (self.enumerateRequirements IGM).filter
        (fun r => (self.Fulfillments.find (r.TypeParameter, r.Interface)).isNone) := by
  unfold PolymorphicConvention.enumerateUnfulfilledRequirements
  exact unfulfilledRequirements_eq_filter _ _

/-- C2: for every polymorphic convention, `enumerateUnfulfilledRequirements` yields exactly
the requirements of `enumerateRequirements` that have no entry in the fulfillment map
(`getWitnessTable` when a protocol is carried, `getTypeMetadata` otherwise), as a
sub-sequence in the same relative order. -/
theorem enumerateUnfulfilledRequirements_spec (IGM : IRGenModule)
    (self : PolymorphicConvention) :
    self.enumerateUnfulfilledRequirements IGM =
        (self.enumerateRequirements IGM).filter (hasNoFulfillment self.Fulfillments) ∧
    List.Sublist (self.enumerateUnfulfilledRequirements IGM) (self.enumerateRequirements IGM) := by
  have h : self.enumerateUnfulfilledRequirements IGM =
      (self.enumerateRequirements IGM).filter (hasNoFulfillment self.Fulfillments) := by
    unfold PolymorphicConvention.enumerateUnfulfilledRequirements
    rw [unfulfilledRequirements_eq_filter]
    apply List.filter_congr
    intro r _
    exact (hasNoFulfillment_eq self.Fulfillments r).symm
  exact ⟨h, h ▸ List.filter_sublist _⟩

theorem foldl_addEarlySource (sources : List MetadataSource) (out : List LLVMType) :
    sources.foldl (fun acc source => ExpandPolymorphicSignature.addEarlySource source acc) out =
      out ++ (sources.filter
          (fun s => decide (s.kind = MetadataSource.Kind.GenericLValueMetadata))).map
        (fun _ => LLVMType.TypeMetadataPtrTy) := by
  induction sources generalizing out with
  | nil => simp
  | cons s rest ih =>
    obtain ⟨kind, idx, ty⟩ := s
    rw [List.foldl_cons, ih]
    cases kind <;>
      simp [ExpandPolymorphicSignature.addEarlySource, List.filter_cons]

theorem foldl_push_requirement_type (reqs : List GenericRequirement) (out : List LLVMType) :
    reqs.foldl
        (fun acc reqt =>
          acc ++ [if reqt.Interface.isSome then LLVMType.WitnessTablePtrTy
                  else LLVMType.TypeMetadataPtrTy]) out =
      out ++ reqs.map requirementPointerType := by
  induction reqs generalizing out with
  | nil => simp
  | cons r rest ih =>
    obtain ⟨type, iface⟩ := r
    rw [List.foldl_cons, ih]
    cases iface <;> simp [requirementPointerType]

/-- C3: for every function type, `expandPolymorphicSignature` leaves the elements already
in the output list unchanged and appends one type-metadata pointer type per
GenericLValueMetadata source in source order (other sources append nothing), then, for each
unfulfilled requirement in enumerator order, a witness-table pointer type when the
requirement carries a protocol and a type-metadata pointer type otherwise. -/
theorem expandPolymorphicSignature_spec (IGM : IRGenModule) (polyFn : PILFunctionType)
    (out : List LLVMType) :
    expandPolymorphicSignature IGM polyFn out =
      out
      ++ (((PolymorphicConvention.construct IGM polyFn).Sources.filter
            (fun s => decide (s.kind = MetadataSource.Kind.GenericLValueMetadata))).map
          (fun _ => LLVMType.TypeMetadataPtrTy))
      ++ ((PolymorphicConvention.construct IGM polyFn).enumerateUnfulfilledRequirements IGM).map
          requirementPointerType := by
  unfold expandPolymorphicSignature ExpandPolymorphicSignature.expand
  simp only [foldl_addEarlySource, foldl_push_requirement_type]

theorem considerType_Sources (IGM : IRGenModule) (self : PolymorphicConvention) (type : CanType)
    (isExact : IsExact_t) (sourceIndex : Nat) (path : MetadataPath) :
    (self.considerType IGM type isExact sourceIndex path).2.Sources = self.Sources := rfl

theorem considerType_Generics (IGM : IRGenModule) (self : PolymorphicConvention) (type : CanType)
    (isExact : IsExact_t) (sourceIndex : Nat) (path : MetadataPath) :
    (self.considerType IGM type isExact sourceIndex path).2.Generics = self.Generics := rfl

theorem addSelfMetadataFulfillment_Sources (self : PolymorphicConvention) (arg : CanType) :
    (self.addSelfMetadataFulfillment arg).Sources = self.Sources := rfl

theorem addSelfWitnessTableFulfillment_Sources (IGM : IRGenModule) (self : PolymorphicConvention)
    (arg : CanType) (conformance : InterfaceConformanceRef) :
    (self.addSelfWitnessTableFulfillment IGM arg conformance).Sources = self.Sources := by
  cases conformance <;> rfl

theorem addSelfWitnessTableFulfillment_Generics (IGM : IRGenModule)
    (self : PolymorphicConvention) (arg : CanType) (conformance : InterfaceConformanceRef) :
    (self.addSelfWitnessTableFulfillment IGM arg conformance).Generics = self.Generics := by
  cases conformance <;> rfl

theorem considerWitnessSelf_Sources (IGM : IRGenModule) (self : PolymorphicConvention)
    (fnType : PILFunctionType) :
    (self.considerWitnessSelf IGM fnType).Sources =
      self.Sources ++
        [{ kind := MetadataSource.Kind.SelfMetadata,
           paramIndex := MetadataSource.InvalidSourceIndex, type := fnType.selfInstanceType },
         { kind := MetadataSource.Kind.SelfWitnessTable,
           paramIndex := MetadataSource.InvalidSourceIndex, type := fnType.selfInstanceType }] := by
  unfold PolymorphicConvention.considerWitnessSelf
  simp only [addSelfWitnessTableFulfillment_Sources]
  split <;> simp [considerType_Sources, addSelfMetadataFulfillment_Sources]

theorem considerWitnessSelf_Generics (IGM : IRGenModule) (self : PolymorphicConvention)
    (fnType : PILFunctionType) :
    (self.considerWitnessSelf IGM fnType).Generics = self.Generics := by
  unfold PolymorphicConvention.considerWitnessSelf
  simp only [addSelfWitnessTableFulfillment_Generics]
  split <;> rfl

theorem foldl_addFulfillment_Sources (path : MetadataPath) (reqs : List GenericRequirement)
    (conv : PolymorphicConvention) :
    (reqs.foldl
      (fun (conv : PolymorphicConvention) (reqt : GenericRequirement) =>
        { conv with
          Fulfillments :=
            (conv.Fulfillments.addFulfillment (reqt.TypeParameter, reqt.Interface) 0
              path MetadataState.Complete).2 })
      conv).Sources = conv.Sources ∧
    (reqs.foldl
      (fun (conv : PolymorphicConvention) (reqt : GenericRequirement) =>
        { conv with
          Fulfillments :=
            (conv.Fulfillments.addFulfillment (reqt.TypeParameter, reqt.Interface) 0
              path MetadataState.Complete).2 })
      conv).Generics = conv.Generics := by
  induction reqs generalizing conv with
  | nil => exact ⟨rfl, rfl⟩
  | cons r rest ih =>
    rw [List.foldl_cons]
    exact ih _

theorem addPseudogenericFulfillments_Sources (IGM : IRGenModule) (self : PolymorphicConvention) :
    (self.addPseudogenericFulfillments IGM).Sources = self.Sources :=
  (foldl_addFulfillment_Sources _ _ self).1

theorem addPseudogenericFulfillments_Generics (IGM : IRGenModule)
    (self : PolymorphicConvention) :
    (self.addPseudogenericFulfillments IGM).Generics = self.Generics :=
  (foldl_addFulfillment_Sources _ _ self).2

/-- C4: for every function type with witness-method representation, pseudogeneric or not
and whatever its parameters, the source list of the constructed convention is exactly
SelfMetadata followed by SelfWitnessTable, both with the Self instance type and the invalid
parameter index. -/
theorem witnessMethod_sources (IGM : IRGenModule) (fnType : PILFunctionType)
    (hrep : fnType.representation = PILFunctionTypeRepresentation.WitnessMethod) :
    (PolymorphicConvention.construct IGM fnType).Sources =
      [{ kind := MetadataSource.Kind.SelfMetadata,
         paramIndex := MetadataSource.InvalidSourceIndex, type := fnType.selfInstanceType },
       { kind := MetadataSource.Kind.SelfWitnessTable,
         paramIndex := MetadataSource.InvalidSourceIndex, type := fnType.selfInstanceType }] := by
  unfold PolymorphicConvention.construct
  by_cases hp : fnType.pseudogeneric = true
  · simp [hp, hrep, addPseudogenericFulfillments_Sources, considerWitnessSelf_Sources,
      PolymorphicConvention.initGenerics]
  · simp [hp, hrep, considerWitnessSelf_Sources, PolymorphicConvention.initGenerics]

/-- Witness of C4 on the thunk of `S: P`: the two Self sources and nothing else. -/
theorem witnessMethod_sources_witness :
    witnessThunkScenario.representation = PILFunctionTypeRepresentation.WitnessMethod ∧
    (PolymorphicConvention.construct (scenarioModule { id := 0 } []) witnessThunkScenario).Sources =
      [{ kind := MetadataSource.Kind.SelfMetadata, paramIndex := MetadataSource.InvalidSourceIndex,
         type := CanType.nominal { id := 0, kind := NominalKind.Struct } },
       { kind := MetadataSource.Kind.SelfWitnessTable, paramIndex := MetadataSource.InvalidSourceIndex,
         type := CanType.nominal { id := 0, kind := NominalKind.Struct } }] :=
  ⟨rfl, witnessMethod_sources (scenarioModule { id := 0 } []) witnessThunkScenario rfl⟩

/-! ## Lookup and insertion in the fulfillment map -/

theorem FulfillmentMap.find_append_single (m : FulfillmentMap) (key k : FulfillmentKey)
    (f : Fulfillment) :
    FulfillmentMap.find { entries := m.entries ++ [(key, f)] } k =
      match m.find k with
      | some g => some g
      | none => if key = k then some f else none := by
  unfold FulfillmentMap.find
  simp only [List.find?_append]
  cases h : m.entries.find? (fun e => decide (e.1 = k)) with
  | some e => simp
  | none =>
    by_cases hk : key = k
    · simp [List.find?, hk]
    · simp [List.find?, hk]

theorem FulfillmentMap.find_addFulfillment (m : FulfillmentMap) (key k : FulfillmentKey)
    (source : Nat) (path : MetadataPath) (state : MetadataState) :
    (m.addFulfillment key source path state).2.find k =
      match m.find k with
      | some g => some g
      | none =>
        if key = k then some { SourceIndex := source, Path := path, State := state } else none := by
  unfold FulfillmentMap.addFulfillment
  cases hkey : m.find key with
  | some g0 =>
    simp only
    cases hk : m.find k with
    | some g => rfl
    | none =>
      have hne : key ≠ k := by
        intro e
        rw [e, hk] at hkey
        cases hkey
      simp [hne]
  | none =>
    simp only
    exact FulfillmentMap.find_append_single m key k _

theorem find_foldl_addFulfillment (source : Nat) (path : MetadataPath) (k : FulfillmentKey)
    (reqs : List GenericRequirement) (conv : PolymorphicConvention) :
    (reqs.foldl
      (fun (conv : PolymorphicConvention) (reqt : GenericRequirement) =>
        { conv with
          Fulfillments :=
            (conv.Fulfillments.addFulfillment (reqt.TypeParameter, reqt.Interface) source
              path MetadataState.Complete).2 })
      conv).Fulfillments.find k =
      match conv.Fulfillments.find k with
      | some g => some g
      | none =>
        if k ∈ reqs.map (fun r => (r.TypeParameter, r.Interface)) then
          some { SourceIndex := source, Path := path, State := MetadataState.Complete }
        else none := by
  induction reqs generalizing conv with
  | nil => cases h : conv.Fulfillments.find k <;> simp [h]
  | cons r rest ih =>
    rw [List.foldl_cons, ih]
    simp only [FulfillmentMap.find_addFulfillment]
    cases hk : conv.Fulfillments.find k with
    | some g => rfl
    | none =>
      by_cases hr : (r.TypeParameter, r.Interface) = k
      · simp [hr]
      · have hr2 : ¬ k = (r.TypeParameter, r.Interface) := fun e => hr e.symm
        simp [hr, hr2]

/-- C5, counterexample: the convention of a pseudogeneric witness method whose Self type
is the generic parameter `τ_0_0` (signature `<τ_0_0 where τ_0_0 : P>`). Both enumerated
requirements are fulfilled, but from Self: the metadata of `τ_0_0` by source 0 with the
empty path and the witness table of `τ_0_0 : P` by source 1 with the empty path; neither is
the Impossible path. -/
theorem pseudogeneric_impossible_counterexample :
    pseudogenericWitnessScenario.pseudogeneric = true ∧
    (PolymorphicConvention.construct (scenarioModule { id := 0 } [])
        pseudogenericWitnessScenario).enumerateRequirements (scenarioModule { id := 0 } []) =
      [{ TypeParameter := CanType.genericTypeParam 0 0, Interface := none },
       { TypeParameter := CanType.genericTypeParam 0 0, Interface := some scenarioInterfaceP }] ∧
    (PolymorphicConvention.construct (scenarioModule { id := 0 } [])
        pseudogenericWitnessScenario).Fulfillments.getTypeMetadata (CanType.genericTypeParam 0 0) =
      some { SourceIndex := 0, Path := [], State := MetadataState.Complete } ∧
    (PolymorphicConvention.construct (scenarioModule { id := 0 } [])
        pseudogenericWitnessScenario).Fulfillments.getWitnessTable (CanType.genericTypeParam 0 0)
        scenarioInterfaceP =
      some { SourceIndex := 1, Path := [], State := MetadataState.Complete } ∧
    ¬ (∀ r ∈ (PolymorphicConvention.construct (scenarioModule { id := 0 } [])
          pseudogenericWitnessScenario).enumerateRequirements (scenarioModule { id := 0 } []),
        (PolymorphicConvention.construct (scenarioModule { id := 0 } [])
          pseudogenericWitnessScenario).Fulfillments.find (r.TypeParameter, r.Interface) =
        some { SourceIndex := 0, Path := [MetadataPath.Component.Impossible],
               State := MetadataState.Complete }) := by
  refine ⟨rfl, by decide, by decide, by decide, ?_⟩
  intro h
  have h0 := h { TypeParameter := CanType.genericTypeParam 0 0, Interface := none } (by decide)
  revert h0
  decide

theorem construct_pseudogeneric (IGM : IRGenModule) (fnType : PILFunctionType)
    (hp : fnType.pseudogeneric = true) :
    PolymorphicConvention.construct IGM fnType =
      (if fnType.representation = PILFunctionTypeRepresentation.WitnessMethod then
          (PolymorphicConvention.initGenerics fnType).considerWitnessSelf IGM fnType
        else PolymorphicConvention.initGenerics fnType).addPseudogenericFulfillments IGM := by
  unfold PolymorphicConvention.construct
  simp [hp]

theorem enumerateRequirements_congr (IGM : IRGenModule) (a b : PolymorphicConvention)
    (h : a.Generics = b.Generics) :
    a.enumerateRequirements IGM = b.enumerateRequirements IGM := by
  unfold PolymorphicConvention.enumerateRequirements
  rw [h]

theorem find_addPseudogenericFulfillments (IGM : IRGenModule) (pre : PolymorphicConvention)
    (r : GenericRequirement) (hr : r ∈ pre.enumerateRequirements IGM) :
    (pre.addPseudogenericFulfillments IGM).Fulfillments.find (r.TypeParameter, r.Interface) =
      match pre.Fulfillments.find (r.TypeParameter, r.Interface) with
      | some f => some f
      | none =>
        some { SourceIndex := 0, Path := [MetadataPath.Component.Impossible],
               State := MetadataState.Complete } := by
  unfold PolymorphicConvention.addPseudogenericFulfillments
  rw [find_foldl_addFulfillment]
  have hmem : (r.TypeParameter, r.Interface) ∈
      (pre.enumerateRequirements IGM).map (fun r => (r.TypeParameter, r.Interface)) :=
    List.mem_map.mpr ⟨r, hr, rfl⟩
  cases pre.Fulfillments.find (r.TypeParameter, r.Interface) with
  | some f => rfl
  | none => simp [hmem, MetadataPath.addImpossibleComponent]

/-- C5, amended: for every pseudogeneric function type, after the convention is
constructed every requirement enumerated for its signature has a fulfillment, so
`enumerateUnfulfilledRequirements` yields no requirement. A requirement that the
witness-method Self handling has already fulfilled keeps that fulfillment; every other one
is fulfilled by the Impossible path (source index 0, state Complete). When the
representation is not witness-method, that is every requirement. -/
theorem pseudogeneric_requirements_fulfilled (IGM : IRGenModule) (fnType : PILFunctionType)
    (hp : fnType.pseudogeneric = true) :
    (PolymorphicConvention.construct IGM fnType).enumerateUnfulfilledRequirements IGM = [] ∧
    (∀ r ∈ (PolymorphicConvention.construct IGM fnType).enumerateRequirements IGM,
      (PolymorphicConvention.construct IGM fnType).Fulfillments.find
          (r.TypeParameter, r.Interface) =
        match (if fnType.representation = PILFunctionTypeRepresentation.WitnessMethod then
            (PolymorphicConvention.initGenerics fnType).considerWitnessSelf IGM fnType
          else PolymorphicConvention.initGenerics fnType).Fulfillments.find
            (r.TypeParameter, r.Interface) with
        | some f => some f
        | none =>
          some { SourceIndex := 0, Path := [MetadataPath.Component.Impossible],
                 State := MetadataState.Complete }) ∧
    (fnType.representation ≠ PILFunctionTypeRepresentation.WitnessMethod →
      ∀ r ∈ (PolymorphicConvention.construct IGM fnType).enumerateRequirements IGM,
        (PolymorphicConvention.construct IGM fnType).Fulfillments.find
            (r.TypeParameter, r.Interface) =
          some { SourceIndex := 0, Path := [MetadataPath.Component.Impossible],
                 State := MetadataState.Complete }) := by
  have hc := construct_pseudogeneric IGM fnType hp
  generalize hpre : (if fnType.representation = PILFunctionTypeRepresentation.WitnessMethod then
      (PolymorphicConvention.initGenerics fnType).considerWitnessSelf IGM fnType
    else PolymorphicConvention.initGenerics fnType) = pre at hc
  have hreqs : (PolymorphicConvention.construct IGM fnType).enumerateRequirements IGM =
      pre.enumerateRequirements IGM := by
    rw [hc]
    exact enumerateRequirements_congr IGM _ _ (addPseudogenericFulfillments_Generics IGM pre)
  have hfind : ∀ r ∈ (PolymorphicConvention.construct IGM fnType).enumerateRequirements IGM,
      (PolymorphicConvention.construct IGM fnType).Fulfillments.find
          (r.TypeParameter, r.Interface) =
        match pre.Fulfillments.find (r.TypeParameter, r.Interface) with
        | some f => some f
        | none =>
          some { SourceIndex := 0, Path := [MetadataPath.Component.Impossible],
                 State := MetadataState.Complete } := by
    intro r hr
    rw [hreqs] at hr
    rw [hc]
    exact find_addPseudogenericFulfillments IGM pre r hr
  refine ⟨?_, hfind, ?_⟩
  · rw [(enumerateUnfulfilledRequirements_filter IGM _)]
    apply List.filter_eq_nil_iff.mpr
    intro r hr
    rw [hfind r hr]
    cases pre.Fulfillments.find (r.TypeParameter, r.Interface) <;> simp
  · intro hrep r hr
    rw [hfind r hr]
    have hempty : pre.Fulfillments.find (r.TypeParameter, r.Interface) = none := by
      rw [← hpre]
      simp [hrep, PolymorphicConvention.initGenerics, FulfillmentMap.find]
    rw [hempty]

/-- Witness of the amended C5 on the pseudogeneric witness method over `τ_0_0 : P`: nothing
is left unfulfilled. -/
theorem pseudogeneric_requirements_fulfilled_witness :
    pseudogenericWitnessScenario.pseudogeneric = true ∧
    (PolymorphicConvention.construct (scenarioModule { id := 0 } [])
      pseudogenericWitnessScenario).enumerateUnfulfilledRequirements
        (scenarioModule { id := 0 } []) = [] :=
  ⟨rfl, (pseudogeneric_requirements_fulfilled (scenarioModule { id := 0 } [])
    pseudogenericWitnessScenario rfl).1⟩

/-- C6, counterexample: in the Method-representation function generic over
`T: Comparable, U` with `self: T` indirect-in, the convention has no source at all (so not
the GenericLValueMetadata source at self), no fulfillment for the metadata of `T` nor for
`T: Comparable`, and all three requirements are left unfulfilled (so not only the metadata
of `U`). -/
theorem selfIndirectIn_counterexample :
    (PolymorphicConvention.construct (scenarioModule { id := 0 } [])
      (selfIndirectInScenario PILFunctionTypeRepresentation.Method scenarioInterfaceP)).Sources
        = [] ∧
    (PolymorphicConvention.construct (scenarioModule { id := 0 } [])
      (selfIndirectInScenario PILFunctionTypeRepresentation.Method scenarioInterfaceP)).Sources
        ≠ [{ kind := MetadataSource.Kind.GenericLValueMetadata, paramIndex := 0,
             type := CanType.genericTypeParam 0 0 }] ∧
    (PolymorphicConvention.construct (scenarioModule { id := 0 } [])
      (selfIndirectInScenario PILFunctionTypeRepresentation.Method
        scenarioInterfaceP)).Fulfillments.getTypeMetadata (CanType.genericTypeParam 0 0) = none ∧
    (PolymorphicConvention.construct (scenarioModule { id := 0 } [])
      (selfIndirectInScenario PILFunctionTypeRepresentation.Method
        scenarioInterfaceP)).Fulfillments.getWitnessTable (CanType.genericTypeParam 0 0)
          scenarioInterfaceP = none ∧
    (PolymorphicConvention.construct (scenarioModule { id := 0 } [])
      (selfIndirectInScenario PILFunctionTypeRepresentation.Method
        scenarioInterfaceP)).enumerateUnfulfilledRequirements (scenarioModule { id := 0 } [])
        = [{ TypeParameter := CanType.genericTypeParam 0 0, Interface := none },
           { TypeParameter := CanType.genericTypeParam 0 1, Interface := none },
           { TypeParameter := CanType.genericTypeParam 0 0, Interface := some scenarioInterfaceP }] ∧
    (PolymorphicConvention.construct (scenarioModule { id := 0 } [])
      (selfIndirectInScenario PILFunctionTypeRepresentation.Method
        scenarioInterfaceP)).enumerateUnfulfilledRequirements (scenarioModule { id := 0 } [])
        ≠ [{ TypeParameter := CanType.genericTypeParam 0 1, Interface := none }] := by
  refine ⟨by decide, by decide, by decide, by decide, by decide, by decide⟩

/-- C6, amended: for a function (neither witness method nor ObjC method) generic over
`T: Comparable, U` whose only parameter is `self: T` passed indirect-in, the self parameter
gives no source because `T` is a generic parameter and not a nominal type: the source list
is empty, nothing is fulfilled, and the metadata of `T`, the metadata of `U` and the witness
table of `T: Comparable` are all unfulfilled, in this order. -/
theorem selfIndirectIn_no_source (IGM : IRGenModule) (rep : PILFunctionTypeRepresentation)
    (Comparable : InterfaceDecl)
    (hw : rep ≠ PILFunctionTypeRepresentation.WitnessMethod)
    (ho : rep ≠ PILFunctionTypeRepresentation.ObjCMethod)
    (hc : IGM.interfaceRequiresWitnessTable Comparable = true) :
    (PolymorphicConvention.construct IGM (selfIndirectInScenario rep Comparable)).Sources = [] ∧
    (PolymorphicConvention.construct IGM
      (selfIndirectInScenario rep Comparable)).Fulfillments.entries = [] ∧
    (PolymorphicConvention.construct IGM
      (selfIndirectInScenario rep Comparable)).enumerateUnfulfilledRequirements IGM =
        [{ TypeParameter := CanType.genericTypeParam 0 0, Interface := none },
         { TypeParameter := CanType.genericTypeParam 0 1, Interface := none },
         { TypeParameter := CanType.genericTypeParam 0 0, Interface := some Comparable }] := by
  have hconv : PolymorphicConvention.construct IGM (selfIndirectInScenario rep Comparable) =
      PolymorphicConvention.initGenerics (selfIndirectInScenario rep Comparable) := by
    unfold PolymorphicConvention.construct
    have hps : (selfIndirectInScenario rep Comparable).pseudogeneric = false := rfl
    have hrp : (selfIndirectInScenario rep Comparable).representation = rep := rfl
    have hsp : (selfIndirectInScenario rep Comparable).hasSelfParam = true := rfl
    have hpar : (selfIndirectInScenario rep Comparable).parameters =
        [{ argumentType := CanType.genericTypeParam 0 0,
           convention := ParameterConvention.Indirect_In }] := rfl
    rw [hps, hrp, hsp, hpar]
    simp only [hw, ho, if_false, if_true, Bool.false_eq_true]
    have hlen : ∀ p : PILParameterInfo, ([p].length + 4294967296 - 1) % 4294967296 = 0 := by
      intro p
      show (1 + 4294967296 - 1) % 4294967296 = 0
      norm_num
    rw [hlen]
    simp only [List.getElem?_cons_zero]
    simp [PolymorphicConvention.considerRestOfParameters,
      PolymorphicConvention.considerParameter, CanType.getNominalOrBoundGenericNominal]
  rw [hconv]
  refine ⟨rfl, rfl, ?_⟩
  simp [PolymorphicConvention.enumerateUnfulfilledRequirements,
    PolymorphicConvention.enumerateRequirements, PolymorphicConvention.initGenerics,
    selfIndirectInScenario, enumerateGenericSignatureRequirements, enumerateParamRequirements,
    enumerateConformanceRequirements, hc, unfulfilledRequirements,
    FulfillmentMap.getTypeMetadata, FulfillmentMap.getWitnessTable, FulfillmentMap.find,
    GenericTypeParamType.toCanType]

/-- Witness of the amended C6 on a Method-representation function. -/
theorem selfIndirectIn_no_source_witness :
    PILFunctionTypeRepresentation.Method ≠ PILFunctionTypeRepresentation.WitnessMethod ∧
    PILFunctionTypeRepresentation.Method ≠ PILFunctionTypeRepresentation.ObjCMethod ∧
    (scenarioModule { id := 0 } []).interfaceRequiresWitnessTable scenarioInterfaceP = true ∧
    (PolymorphicConvention.construct (scenarioModule { id := 0 } [])
      (selfIndirectInScenario PILFunctionTypeRepresentation.Method scenarioInterfaceP)).Sources
        = [] :=
  ⟨by decide, by decide, rfl,
    (selfIndirectIn_no_source (scenarioModule { id := 0 } [])
      PILFunctionTypeRepresentation.Method scenarioInterfaceP (by decide) (by decide) rfl).1⟩

/-- C7: `considerParameter` proposes exactly the source of the specification's
classification: nothing for an indirect parameter that is not self; an exact
GenericLValueMetadata source for an indirect self exactly when its type is a nominal or
bound-generic nominal type; for a direct parameter an inexact ClassPointer source on its own
type when class-typed, else an inexact ClassPointer source on the superclass bound of a
generic parameter that has one, else an inexact Metadata source on the instance type of a
thick metatype, and nothing in every other case. -/
theorem considerParameter_spec (IGM : IRGenModule) (self : PolymorphicConvention)
    (param : PILParameterInfo) (paramIndex : Nat) (isSelfParameter : Bool) :
    self.considerParameter IGM param paramIndex isSelfParameter =
      match proposedSource self.getSuperclassBound param isSelfParameter with
      | none => self
      | some p => self.considerNewTypeSource IGM p.kind paramIndex p.type p.isExact := by
  obtain ⟨type, convention⟩ := param
  cases convention <;> cases isSelfParameter <;> cases type <;>
    simp [PolymorphicConvention.considerParameter, proposedSource,
      ParameterConvention.isIndirect, CanType.isNominalOrBoundGeneric,
      CanType.getNominalOrBoundGenericNominal, CanType.isClassTyped,
      CanType.getClassOrBoundGenericClass, CanType.isGenericTypeParam]
  all_goals (split <;> simp_all)


/-- C8: `considerNewTypeSource` appends exactly the source (kind, paramIndex, type) at the
end of the source list when the type is interesting for fulfillments and the search over
it records a fulfillment, and leaves the source list exactly as it was otherwise (the
speculative source is removed again). In both cases the sources already in the list are
unchanged. -/
theorem considerNewTypeSource_Sources (IGM : IRGenModule) (self : PolymorphicConvention)
    (kind : MetadataSource.Kind) (paramIndex : Nat) (type : CanType) (isExact : IsExact_t) :
    (self.considerNewTypeSource IGM kind paramIndex type isExact).Sources =
      (if IGM.fulfillmentSearch.isInterestingTypeForFulfillments type = true ∧
          (IGM.fulfillmentSearch.searchTypeMetadata self.Fulfillments
            self.FulfillmentMapCallback type isExact MetadataState.Complete
            self.Sources.length []).1 = true then
        self.Sources ++ [{ kind := kind, paramIndex := paramIndex, type := type }]
      else self.Sources) ∧
    self.Sources <+: (self.considerNewTypeSource IGM kind paramIndex type isExact).Sources := by
  have h : (self.considerNewTypeSource IGM kind paramIndex type isExact).Sources =
      (if IGM.fulfillmentSearch.isInterestingTypeForFulfillments type = true ∧
          (IGM.fulfillmentSearch.searchTypeMetadata self.Fulfillments
            self.FulfillmentMapCallback type isExact MetadataState.Complete
            self.Sources.length []).1 = true then
        self.Sources ++ [{ kind := kind, paramIndex := paramIndex, type := type }]
      else self.Sources) := by
    unfold PolymorphicConvention.considerNewTypeSource
    by_cases hi : IGM.fulfillmentSearch.isInterestingTypeForFulfillments type = true
    · have hcb : ∀ srcs : List MetadataSource,
          PolymorphicConvention.FulfillmentMapCallback { self with Sources := srcs } =
            self.FulfillmentMapCallback := fun _ => rfl
      by_cases hs : (IGM.fulfillmentSearch.searchTypeMetadata self.Fulfillments
            self.FulfillmentMapCallback type isExact MetadataState.Complete
            self.Sources.length []).1 = true
      · simp [hi, hs, PolymorphicConvention.considerType, hcb]
      · simp [hi, hs, PolymorphicConvention.considerType, hcb]
    · simp [hi]
  refine ⟨h, ?_⟩
  rw [h]
  split
  · exact List.prefix_append _ _
  · exact List.prefix_refl _

/-! ## Properties of the conformance classifier -/

/-- C9, counterexample: a generic conformance to a resilient protocol, both declared in the
module being compiled. The protocol is resilient and the conforming type is generic, yet
`isResilientConformance` answers false. -/
theorem isResilientConformance_counterexample :
    (resilientInterfaceConformance { id := 0 } true).Interface.resilient = true ∧
    (resilientInterfaceConformance { id := 0 } true).declContext.genericContext = true ∧
    (scenarioModule { id := 0 } []).isResilientConformance
      (resilientInterfaceConformance { id := 0 } true) = false ∧
    ¬ ((scenarioModule { id := 0 } []).isResilientConformance
          (resilientInterfaceConformance { id := 0 } true) = true ↔
        ((resilientInterfaceConformance { id := 0 } true).Interface.resilient = true ∧
          ((resilientInterfaceConformance { id := 0 } true).declContext.parentModule ≠
              (resilientInterfaceConformance { id := 0 } true).Interface.parentModule ∨
            (resilientInterfaceConformance { id := 0 } true).declContext.genericContext = true))) := by
  decide

/-- C9, amended: for every normal conformance, `isResilientConformance` returns true if and
only if the protocol is resilient, the conformance and the protocol are not both in the
module being compiled, and the conformance and the protocol are in different modules or the
conforming type's declaration context is generic. -/
theorem isResilientConformance_iff (IGM : IRGenModule)
    (conformance : NormalInterfaceConformance) :
    IGM.isResilientConformance conformance = true ↔
      conformance.Interface.resilient = true ∧
      ¬ (conformance.declContext.parentModule = IGM.PolarphpModule ∧
          conformance.declContext.parentModule = conformance.Interface.parentModule) ∧
      (conformance.declContext.parentModule ≠ conformance.Interface.parentModule ∨
        conformance.declContext.genericContext = true) := by
  unfold IRGenModule.isResilientConformance
  cases hr : conformance.Interface.resilient <;>
    cases hg : conformance.declContext.genericContext <;>
    by_cases hm : conformance.declContext.parentModule = conformance.Interface.parentModule <;>
    by_cases hc : conformance.declContext.parentModule = IGM.PolarphpModule <;>
    simp [hm, hc]

theorem anyDependentAssociatedConformance_no_conformance
    (recurse : RootInterfaceConformance → List Nat → Option (Bool × List Nat))
    (conformance : NormalInterfaceConformance) (reqs : List Requirement) (visited : List Nat)
    (h : ∀ r ∈ reqs, r.getKind ≠ RequirementKind.Conformance) :
    anyDependentAssociatedConformance recurse conformance reqs visited = some (false, visited) := by
  induction reqs with
  | nil => rfl
  | cons r rest ih =>
    have hr := h r (List.mem_cons_self r rest)
    have hrest : ∀ r ∈ rest, r.getKind ≠ RequirementKind.Conformance :=
      fun x hx => h x (List.mem_cons_of_mem r hx)
    cases r with
    | conformance t p => exact absurd rfl hr
    | superclass a b => simpa [anyDependentAssociatedConformance] using ih hrest
    | sameType a b => simpa [anyDependentAssociatedConformance] using ih hrest
    | layout a b => simpa [anyDependentAssociatedConformance] using ih hrest

/-- C10, counterexample: protocol `P` resilient in module 0, conformance `S: P` declared in
module 0 for a non-generic `S`, compiled from module 1 with an empty cache. The conformance
is not classified resilient and `getConformanceInfo` selects the direct-constant
emission. -/
theorem sameModule_resilient_counterexample :
    (resilientInterfaceConformance { id := 0 } false).Interface.resilient = true ∧
    (resilientInterfaceConformance { id := 0 } false).declContext.parentModule =
      (resilientInterfaceConformance { id := 0 } false).Interface.parentModule ∧
    (resilientInterfaceConformance { id := 0 } false).declContext.genericContext = false ∧
    (scenarioModule { id := 1 } [resilientInterfaceConformance { id := 0 } false]).isResilientConformance
      (resilientInterfaceConformance { id := 0 } false) = false ∧
    (scenarioModule { id := 1 } [resilientInterfaceConformance { id := 0 } false]).getConformanceInfo
        [] resilientInterfaceP (InterfaceConformance.root (RootInterfaceConformance.normal 0)) =
      some (ConformanceInfo.Direct (RootInterfaceConformance.normal 0),
        [(InterfaceConformance.root (RootInterfaceConformance.normal 0),
          ConformanceInfo.Direct (RootInterfaceConformance.normal 0))]) := by
  decide

/-- C10, amended: for a protocol `P` declared in module A (resilient or not) and a
conformance `S: P` declared in the same module A for a non-generic type `S`, the conformance
is not classified resilient; when `P` has no associated conformance requirement and the
conformance has no conditional conformance and is not synthesized non-unique, it is not
dependent and `getConformanceInfo` (conformance not yet cached) selects the direct-constant
emission for its root. -/
theorem sameModule_resilient_direct (IGM : IRGenModule) (Conformances : ConformanceCache)
    (protocol : InterfaceDecl) (conformance : InterfaceConformance) (id : Nat)
    (normal : NormalInterfaceConformance)
    (hroot : conformance.getRootConformance = RootInterfaceConformance.normal id)
    (hlookup : IGM.Context.conformances[id]? = some normal)
    (hmod : normal.declContext.parentModule = normal.Interface.parentModule)
    (hgen : normal.declContext.genericContext = false)
    (hreqs : ∀ r ∈ IGM.Context.requirementSignature normal.Interface,
      r.getKind ≠ RequirementKind.Conformance)
    (hcond : normal.conditionalConformances = [])
    (hsyn : normal.synthesizedNonUnique = false)
    (hc1 : checkCache Conformances conformance = none)
    (hc2 : checkCache Conformances
      (InterfaceConformance.root (RootInterfaceConformance.normal id)) = none) :
    IGM.isResilientConformance normal = false ∧
    IGM.isDependentConformance (RootInterfaceConformance.normal id) = some false ∧
    (IGM.getConformanceInfo Conformances protocol conformance).map (fun r => r.1) =
      some (ConformanceInfo.Direct (RootInterfaceConformance.normal id)) := by
  have hres0 : IGM.isResilientConformance normal = false := by
    unfold IRGenModule.isResilientConformance
    cases hr : normal.Interface.resilient <;> simp [hmod, hgen]
  have hdep : IGM.isDependentConformance (RootInterfaceConformance.normal id) = some false := by
    unfold IRGenModule.isDependentConformance
    simp [Irgen.isDependentConformance, hlookup, hres0,
      anyDependentAssociatedConformance_no_conformance _ normal _ _ hreqs,
      hasDependentTypeWitness, hgen, hcond, enumerateWitnessTableConditionalConformances]
  refine ⟨hres0, hdep, ?_⟩
  unfold IRGenModule.getConformanceInfo
  simp [hc1, hroot, hdep, isSynthesizedNonUnique, hlookup, hsyn, hc2]

/-- Witness of the amended C10: `S: P` declared with the resilient `P` in module 0,
compiled from module 1 with an empty cache. -/
theorem sameModule_resilient_direct_witness :
    (resilientInterfaceConformance { id := 0 } false).Interface.resilient = true ∧
    ((scenarioModule { id := 1 }
        [resilientInterfaceConformance { id := 0 } false]).getConformanceInfo [] resilientInterfaceP
        (InterfaceConformance.root (RootInterfaceConformance.normal 0))).map (fun r => r.1) =
      some (ConformanceInfo.Direct (RootInterfaceConformance.normal 0)) :=
  ⟨rfl, (sameModule_resilient_direct
    (scenarioModule { id := 1 } [resilientInterfaceConformance { id := 0 } false]) []
    resilientInterfaceP (InterfaceConformance.root (RootInterfaceConformance.normal 0)) 0
    (resilientInterfaceConformance { id := 0 } false)
    rfl rfl rfl rfl (fun _ h => nomatch h) rfl rfl rfl rfl).2.2⟩

/-! ## Termination and meaning of the dependence check -/

theorem filter_length_lt_of_mem {α : Type} (p q : α → Bool) (a : α) :
    ∀ l : List α, a ∈ l → (∀ x, p x = true → q x = true) → q a = true → p a = false →
      (l.filter p).length < (l.filter q).length := by
  intro l
  induction l with
  | nil => intro h; cases h
  | cons x xs ih =>
    intro hmem hpq hqa hpa
    have hle : (xs.filter p).length ≤ (xs.filter q).length := by
      rw [← List.countP_eq_length_filter, ← List.countP_eq_length_filter]
      exact List.countP_mono_left (fun y _ hy => hpq y hy)
    rcases List.mem_cons.mp hmem with hax | hax
    · subst hax
      simp only [List.filter_cons, hqa, hpa, if_true, List.length_cons]
      simp
      omega
    · have ih' := ih hax hpq hqa hpa
      by_cases hpx : p x = true
      · have hqx := hpq x hpx
        simp only [List.filter_cons, hpx, hqx, if_true, List.length_cons]
        omega
      · by_cases hqx : q x = true
        · simp only [List.filter_cons, hpx, hqx, if_true, List.length_cons]
          simp
          omega
        · simp only [List.filter_cons, hpx, hqx]
          simpa using ih'

theorem unvisitedCount_mono (n : Nat) (V V' : List Nat) (h : V ⊆ V') :
    unvisitedCount n V' ≤ unvisitedCount n V := by
  unfold unvisitedCount
  rw [← List.countP_eq_length_filter, ← List.countP_eq_length_filter]
  apply List.countP_mono_left
  intro x _ hx
  simp only [decide_eq_true_eq] at hx ⊢
  exact fun hv => hx (h hv)

theorem unvisitedCount_cons_lt (n a : Nat) (V : List Nat) (ha : a < n) (hV : a ∉ V) :
    unvisitedCount n (a :: V) < unvisitedCount n V := by
  unfold unvisitedCount
  apply filter_length_lt_of_mem _ _ a (List.range n) (List.mem_range.mpr ha)
  · intro x hx
    simp only [decide_eq_true_eq, List.mem_cons, not_or] at hx ⊢
    exact hx.2
  · simpa using hV
  · simp

theorem unvisitedCount_le (n : Nat) (V : List Nat) : unvisitedCount n V ≤ n := by
  unfold unvisitedCount
  calc ((List.range n).filter (fun i => decide (i ∉ V))).length
      ≤ (List.range n).length := List.length_filter_le _ _
    _ = n := List.length_range n

theorem enumerateWitnessTableConditionalConformances_true
    (l : List (CanType × InterfaceDecl)) (i : Nat) :
    enumerateWitnessTableConditionalConformances (fun _ _ _ => true) l i = !l.isEmpty := by
  cases l with
  | nil => rfl
  | cons _ _ => simp [enumerateWitnessTableConditionalConformances]

theorem isDependentConformance_succ (IGM : IRGenModule) (fuel : Nat)
    (root : RootInterfaceConformance) (visited : List Nat) :
    Irgen.isDependentConformance IGM (fuel + 1) root visited =
      isDependentConformanceBody IGM (Irgen.isDependentConformance IGM fuel) root visited := by
  cases root <;> rfl

theorem SettledBetween.refl (IGM : IRGenModule) (V : List Nat) : SettledBetween IGM V V :=
  fun _ hx hnx => absurd hx hnx

theorem SettledBetween.trans (IGM : IRGenModule) (V V1 V2 : List Nat) (h12 : V1 ⊆ V2)
    (ha : SettledBetween IGM V V1) (hb : SettledBetween IGM V1 V2) :
    SettledBetween IGM V V2 := by
  intro x hx hnx
  by_cases h1 : x ∈ V1
  · obtain ⟨c, hc, hl, hs⟩ := ha x h1 hnx
    exact ⟨c, hc, hl, fun b hb' => h12 (hs b hb')⟩
  · exact hb x hx h1

theorem anyDependentAssociatedConformance_spec (IGM : IRGenModule) (k : Nat)
    (recurse : RootInterfaceConformance → List Nat → Option (Bool × List Nat))
    (hrec : ∀ b V, unvisitedCount IGM.Context.conformances.length V ≤ k →
      b < IGM.Context.conformances.length →
      DependenceCallSpec IGM b V (recurse (RootInterfaceConformance.normal b) V))
    (hself : ∀ i V, recurse (RootInterfaceConformance.selfConformance i) V = some (false, V))
    (conformance : NormalInterfaceConformance) :
    ∀ (reqs : List Requirement) (V : List Nat),
      unvisitedCount IGM.Context.conformances.length V ≤ k →
      (∀ root ∈ conformance.associatedRoots reqs,
        root.inTable IGM.Context.conformances.length = true) →
      ∃ r V', anyDependentAssociatedConformance recurse conformance reqs V = some (r, V') ∧
        V ⊆ V' ∧
        (r = true → conformance.hasAbstractAssociatedConformance reqs = true ∨
          ∃ b, RootInterfaceConformance.normal b ∈ conformance.associatedRoots reqs ∧
            DependentFrom IGM b) ∧
        (r = false → conformance.hasAbstractAssociatedConformance reqs = false ∧
          (∀ b, RootInterfaceConformance.normal b ∈ conformance.associatedRoots reqs → b ∈ V') ∧
          SettledBetween IGM V V') := by
  intro reqs
  induction reqs with
  | nil =>
    intro V _ _
    refine ⟨false, V, rfl, List.Subset.refl V, ?_, ?_⟩
    · intro h
      cases h
    · intro _
      refine ⟨rfl, ?_, SettledBetween.refl IGM V⟩
      intro b hb
      cases hb
  | cons req rest ih =>
    intro V hV hroots
    cases req with
    | superclass a b =>
      simpa [anyDependentAssociatedConformance, NormalInterfaceConformance.associatedRoots,
        NormalInterfaceConformance.hasAbstractAssociatedConformance] using ih V hV hroots
    | sameType a b =>
      simpa [anyDependentAssociatedConformance, NormalInterfaceConformance.associatedRoots,
        NormalInterfaceConformance.hasAbstractAssociatedConformance] using ih V hV hroots
    | layout a b =>
      simpa [anyDependentAssociatedConformance, NormalInterfaceConformance.associatedRoots,
        NormalInterfaceConformance.hasAbstractAssociatedConformance] using ih V hV hroots
    | conformance t p =>
      cases hassoc : conformance.associatedConformance t p with
      | «abstract» q =>
        refine ⟨true, V, ?_, List.Subset.refl V, ?_, ?_⟩
        · simp [anyDependentAssociatedConformance, hassoc]
        · intro _
          left
          simp [NormalInterfaceConformance.hasAbstractAssociatedConformance, hassoc,
            InterfaceConformanceRef.isAbstract]
        · intro h
          cases h
      | concrete q concrete =>
        have hrootsEq : conformance.associatedRoots (Requirement.conformance t p :: rest) =
            concrete.getRootConformance :: conformance.associatedRoots rest := by
          simp [NormalInterfaceConformance.associatedRoots, hassoc]
        have habsEq : conformance.hasAbstractAssociatedConformance
            (Requirement.conformance t p :: rest) =
            conformance.hasAbstractAssociatedConformance rest := by
          simp [NormalInterfaceConformance.hasAbstractAssociatedConformance, hassoc,
            InterfaceConformanceRef.isAbstract]
        rw [hrootsEq] at hroots
        rw [hrootsEq, habsEq]
        have hrest : ∀ root ∈ conformance.associatedRoots rest,
            root.inTable IGM.Context.conformances.length = true :=
          fun root hr => hroots root (List.mem_cons_of_mem _ hr)
        cases hroot : concrete.getRootConformance with
        | selfConformance i =>
          obtain ⟨r, V', hres, hsub, htrue, hfalse⟩ := ih V hV hrest
          refine ⟨r, V', ?_, hsub, ?_, ?_⟩
          · simp [anyDependentAssociatedConformance, hassoc, hroot, hself, hres]
          · intro hr
            rcases htrue hr with h | ⟨b, hb, hd⟩
            · exact Or.inl h
            · exact Or.inr ⟨b, List.mem_cons_of_mem _ hb, hd⟩
          · intro hr
            obtain ⟨h1, h2, h3⟩ := hfalse hr
            refine ⟨h1, ?_, h3⟩
            intro b hb
            rcases List.mem_cons.mp hb with hb | hb
            · cases hb
            · exact h2 b hb
        | normal b =>
          have hb : b < IGM.Context.conformances.length := by
            have := hroots concrete.getRootConformance (List.mem_cons_self _ _)
            rw [hroot] at this
            simpa [RootInterfaceConformance.inTable] using this
          obtain ⟨r1, V1, hres1, hsub1, htrue1, hfalse1⟩ := hrec b V hV hb
          cases r1 with
          | true =>
            refine ⟨true, V1, ?_, hsub1, ?_, ?_⟩
            · simp [anyDependentAssociatedConformance, hassoc, hroot, hres1]
            · intro _
              exact Or.inr ⟨b, List.mem_cons_self _ _, htrue1 rfl⟩
            · intro h
              cases h
          | false =>
            obtain ⟨hbV1, hset1⟩ := hfalse1 rfl
            have hV1 : unvisitedCount IGM.Context.conformances.length V1 ≤ k :=
              Nat.le_trans (unvisitedCount_mono _ V V1 hsub1) hV
            obtain ⟨r, V', hres, hsub, htrue, hfalse⟩ := ih V1 hV1 hrest
            refine ⟨r, V', ?_, List.Subset.trans hsub1 hsub, ?_, ?_⟩
            · simp [anyDependentAssociatedConformance, hassoc, hroot, hres1, hres]
            · intro hr
              rcases htrue hr with h | ⟨b', hb', hd⟩
              · exact Or.inl h
              · exact Or.inr ⟨b', List.mem_cons_of_mem _ hb', hd⟩
            · intro hr
              obtain ⟨h1, h2, h3⟩ := hfalse hr
              refine ⟨h1, ?_, SettledBetween.trans IGM V V1 V' hsub hset1 h3⟩
              intro b' hb'
              rcases List.mem_cons.mp hb' with hb' | hb'
              · cases hb'
                exact hsub hbV1
              · exact h2 b' hb'

theorem wellFormed_roots (IGM : IRGenModule) (hwf : IGM.Context.wellFormed = true) (a : Nat)
    (conformance : NormalInterfaceConformance)
    (hlookup : IGM.Context.conformances[a]? = some conformance) :
    ∀ root ∈ conformance.associatedRoots
        (IGM.Context.requirementSignature conformance.Interface),
      root.inTable IGM.Context.conformances.length = true := by
  have hmem : conformance ∈ IGM.Context.conformances := List.getElem?_mem hlookup
  unfold AstContext.wellFormed at hwf
  rw [List.all_eq_true] at hwf
  have h := hwf conformance hmem
  rw [List.all_eq_true] at h
  exact h

theorem isDependentConformance_spec (IGM : IRGenModule)
    (hwf : IGM.Context.wellFormed = true) :
    ∀ (fuel a : Nat) (V : List Nat),
      unvisitedCount IGM.Context.conformances.length V < fuel →
      a < IGM.Context.conformances.length →
      DependenceCallSpec IGM a V
        (Irgen.isDependentConformance IGM fuel (RootInterfaceConformance.normal a) V) := by
  intro fuel
  induction fuel with
  | zero =>
    intro a V h _
    exact absurd h (Nat.not_lt_zero _)
  | succ fuel ih =>
    intro a V hfuel ha
    rw [isDependentConformance_succ]
    unfold isDependentConformanceBody
    by_cases hvis : a ∈ V
    · refine ⟨false, V, by simp [hvis], List.Subset.refl V, ?_, ?_⟩
      · intro h
        cases h
      · intro _
        exact ⟨hvis, SettledBetween.refl IGM V⟩
    · obtain ⟨conformance, hlookup⟩ :
          ∃ conformance, IGM.Context.conformances[a]? = some conformance :=
        ⟨IGM.Context.conformances[a], List.getElem?_eq_getElem ha⟩
      have hsubV : V ⊆ a :: V := List.subset_cons_self a V
      have hreflA : ∀ (h : IGM.locallyDependent conformance = true), DependentFrom IGM a :=
        fun h => ⟨a, conformance, Reaches.refl a, hlookup, h⟩
      by_cases hres : IGM.isResilientConformance conformance = true
      · refine ⟨true, a :: V, by simp [hvis, hlookup, hres], hsubV, ?_, ?_⟩
        · intro _
          exact hreflA (by simp [IRGenModule.locallyDependent, hres])
        · intro h
          cases h
      · have hlt := unvisitedCount_cons_lt _ a V ha hvis
        have hfuelpos : 0 < fuel := by omega
        have hk : unvisitedCount IGM.Context.conformances.length (a :: V) ≤ fuel - 1 := by omega
        obtain ⟨r, V2, hloop, hsub2, htrue, hfalse⟩ :=
          anyDependentAssociatedConformance_spec IGM (fuel - 1)
            (Irgen.isDependentConformance IGM fuel)
            (fun b V' hV' hb => ih b V' (by omega) hb)
            (fun i V' => by
              obtain ⟨f, hf⟩ : ∃ f, fuel = f + 1 := ⟨fuel - 1, by omega⟩
              subst hf
              rfl)
            conformance (IGM.Context.requirementSignature conformance.Interface) (a :: V) hk
            (wellFormed_roots IGM hwf a conformance hlookup)
        have hsub : V ⊆ V2 := List.Subset.trans hsubV hsub2
        have haV2 : a ∈ V2 := hsub2 (List.mem_cons_self a V)
        cases r with
        | true =>
          refine ⟨true, V2, by simp [hvis, hlookup, hres, hloop], hsub, ?_, ?_⟩
          · intro _
            rcases htrue rfl with habs | ⟨b, hb, hd⟩
            · exact hreflA (by simp [IRGenModule.locallyDependent, habs])
            · obtain ⟨y, c, hreach, hc, hl⟩ := hd
              exact ⟨y, c, Reaches.step a b y conformance hlookup hb hreach, hc, hl⟩
          · intro h
            cases h
        | false =>
          obtain ⟨habs, hroots, hset⟩ := hfalse rfl
          by_cases htw : hasDependentTypeWitness conformance = true
          · refine ⟨true, V2, by simp [hvis, hlookup, hres, hloop, htw], hsub, ?_, ?_⟩
            · intro _
              exact hreflA (by simp [IRGenModule.locallyDependent, htw])
            · intro h
              cases h
          · by_cases hcond : conformance.conditionalConformances.isEmpty = true
            · refine ⟨false, V2, ?_, hsub, ?_, ?_⟩
              · simp [hvis, hlookup, hres, hloop, htw,
                  enumerateWitnessTableConditionalConformances_true, hcond]
              · intro h
                cases h
              · intro _
                refine ⟨haV2, ?_⟩
                intro x hx hxV
                by_cases hxa : x = a
                · subst hxa
                  refine ⟨conformance, hlookup, ?_, hroots⟩
                  simp [IRGenModule.locallyDependent, hres, habs, htw, hcond]
                · exact hset x hx (by simp [hxa, hxV])
            · refine ⟨true, V2, ?_, hsub, ?_, ?_⟩
              · simp [hvis, hlookup, hres, hloop, htw,
                  enumerateWitnessTableConditionalConformances_true, hcond]
              · intro _
                exact hreflA (by simp [IRGenModule.locallyDependent, hcond])
              · intro h
                cases h

theorem SettledBetween.closed (IGM : IRGenModule) (V' : List Nat)
    (hset : SettledBetween IGM [] V') (x y : Nat) (hreach : Reaches IGM x y) :
    x ∈ V' → y ∈ V' := by
  induction hreach with
  | refl a => exact id
  | step a b y conformance hlookup hb _ ih =>
    intro ha
    obtain ⟨c, hc, _, hs⟩ := hset a ha (List.not_mem_nil a)
    rw [hlookup] at hc
    cases hc
    exact ih (hs b hb)

theorem isDependentConformance_self (IGM : IRGenModule) (i : Nat) :
    IGM.isDependentConformance (RootInterfaceConformance.selfConformance i) = some false := rfl

theorem isDependentConformance_normal (IGM : IRGenModule)
    (hwf : IGM.Context.wellFormed = true) (a : Nat)
    (ha : a < IGM.Context.conformances.length) :
    ∃ r, IGM.isDependentConformance (RootInterfaceConformance.normal a) = some r ∧
      (r = true ↔ DependentFrom IGM a) := by
  obtain ⟨r, V', hres, _, htrue, hfalse⟩ :=
    isDependentConformance_spec IGM hwf (IGM.Context.conformances.length + 1) a []
      (Nat.lt_succ_of_le (unvisitedCount_le _ _)) ha
  refine ⟨r, ?_, ?_⟩
  · unfold IRGenModule.isDependentConformance
    rw [hres]
  · constructor
    · exact htrue
    · intro hdep
      cases r with
      | true => rfl
      | false =>
        exfalso
        obtain ⟨haV, hset⟩ := hfalse rfl
        obtain ⟨y, c, hreach, hc, hl⟩ := hdep
        have hy := SettledBetween.closed IGM V' hset a y hreach haV
        obtain ⟨c', hc', hl', _⟩ := hset y hy (List.not_mem_nil y)
        rw [hc] at hc'
        cases hc'
        rw [hl] at hl'
        cases hl'

theorem isDependentConformance_total (IGM : IRGenModule)
    (hwf : IGM.Context.wellFormed = true) (root : RootInterfaceConformance)
    (hroot : root.inTable IGM.Context.conformances.length = true) :
    ∃ r, IGM.isDependentConformance root = some r := by
  cases root with
  | selfConformance i => exact ⟨false, rfl⟩
  | normal a =>
    obtain ⟨r, hr, _⟩ := isDependentConformance_normal IGM hwf a
      (by simpa [RootInterfaceConformance.inTable] using hroot)
    exact ⟨r, hr⟩

theorem hasAbstractAssociatedConformance_iff (conformance : NormalInterfaceConformance)
    (reqs : List Requirement) :
    conformance.hasAbstractAssociatedConformance reqs = true ↔
      ∃ t p, Requirement.conformance t p ∈ reqs ∧
        (conformance.associatedConformance t p).isAbstract = true := by
  induction reqs with
  | nil => simp [NormalInterfaceConformance.hasAbstractAssociatedConformance]
  | cons req rest ih =>
    cases req with
    | conformance t p =>
      simp only [NormalInterfaceConformance.hasAbstractAssociatedConformance, Bool.or_eq_true, ih,
        List.mem_cons]
      constructor
      · rintro (h | ⟨t', p', hmem, habs⟩)
        · exact ⟨t, p, Or.inl rfl, h⟩
        · exact ⟨t', p', Or.inr hmem, habs⟩
      · rintro ⟨t', p', hmem | hmem, habs⟩
        · cases hmem
          exact Or.inl habs
        · exact Or.inr ⟨t', p', hmem, habs⟩
    | superclass a b =>
      simp [NormalInterfaceConformance.hasAbstractAssociatedConformance, ih]
    | sameType a b =>
      simp [NormalInterfaceConformance.hasAbstractAssociatedConformance, ih]
    | layout a b =>
      simp [NormalInterfaceConformance.hasAbstractAssociatedConformance, ih]

theorem mem_associatedRoots_iff (conformance : NormalInterfaceConformance)
    (reqs : List Requirement) (root : RootInterfaceConformance) :
    root ∈ conformance.associatedRoots reqs ↔
      ∃ t p q concrete, Requirement.conformance t p ∈ reqs ∧
        conformance.associatedConformance t p = InterfaceConformanceRef.concrete q concrete ∧
        concrete.getRootConformance = root := by
  induction reqs with
  | nil => simp [NormalInterfaceConformance.associatedRoots]
  | cons req rest ih =>
    cases req with
    | conformance t p =>
      cases hassoc : conformance.associatedConformance t p with
      | «abstract» q =>
        simp only [NormalInterfaceConformance.associatedRoots, hassoc, ih, List.mem_cons]
        constructor
        · rintro ⟨t', p', q', c', hmem, h1, h2⟩
          exact ⟨t', p', q', c', Or.inr hmem, h1, h2⟩
        · rintro ⟨t', p', q', c', hmem | hmem, h1, h2⟩
          · cases hmem
            rw [hassoc] at h1
            cases h1
          · exact ⟨t', p', q', c', hmem, h1, h2⟩
      | concrete q concrete =>
        simp only [NormalInterfaceConformance.associatedRoots, hassoc, ih, List.mem_cons]
        constructor
        · rintro (h | ⟨t', p', q', c', hmem, h1, h2⟩)
          · exact ⟨t, p, q, concrete, Or.inl rfl, hassoc, h.symm⟩
          · exact ⟨t', p', q', c', Or.inr hmem, h1, h2⟩
        · rintro ⟨t', p', q', c', hmem | hmem, h1, h2⟩
          · cases hmem
            rw [hassoc] at h1
            cases h1
            exact Or.inl h2.symm
          · exact Or.inr ⟨t', p', q', c', hmem, h1, h2⟩
    | superclass a b => simp [NormalInterfaceConformance.associatedRoots, ih]
    | sameType a b => simp [NormalInterfaceConformance.associatedRoots, ih]
    | layout a b => simp [NormalInterfaceConformance.associatedRoots, ih]

theorem hasDependentTypeWitness_iff (conformance : NormalInterfaceConformance) :
    hasDependentTypeWitness conformance = true ↔
      conformance.declContext.genericContext = true ∧
      ∃ w ∈ conformance.typeWitnesses,
        w.requirementHasOverriddenDecls = false ∧ w.type.hasTypeParameter = true := by
  have key : (conformance.typeWitnesses.any
      (fun w => if w.requirementHasOverriddenDecls then false else w.type.hasTypeParameter)) = true ↔
      ∃ w ∈ conformance.typeWitnesses,
        w.requirementHasOverriddenDecls = false ∧ w.type.hasTypeParameter = true := by
    rw [List.any_eq_true]
    constructor
    · rintro ⟨w, hw, h⟩
      refine ⟨w, hw, ?_⟩
      cases ho : w.requirementHasOverriddenDecls with
      | true => simp [ho] at h
      | false => simpa [ho] using h
    · rintro ⟨w, hw, ho, ht⟩
      exact ⟨w, hw, by simp [ho, ht]⟩
  by_cases hg : conformance.declContext.genericContext = true
  · simp only [hasDependentTypeWitness, hg, Bool.not_true, Bool.false_eq_true, if_false,
      true_and]
    exact key
  · simp [hasDependentTypeWitness, hg]

theorem anyDependentAssociatedConformance_subset
    (recurse : RootInterfaceConformance → List Nat → Option (Bool × List Nat))
    (hrec : ∀ root V b V', recurse root V = some (b, V') → V ⊆ V')
    (conformance : NormalInterfaceConformance) :
    ∀ (reqs : List Requirement) (V : List Nat) (b : Bool) (V' : List Nat),
      anyDependentAssociatedConformance recurse conformance reqs V = some (b, V') → V ⊆ V' := by
  intro reqs
  induction reqs with
  | nil =>
    intro V b V' h
    simp only [anyDependentAssociatedConformance, Option.some.injEq, Prod.mk.injEq] at h
    rw [h.2]
    exact List.Subset.refl V'
  | cons req rest ih =>
    intro V b V' h
    cases req with
    | superclass x y => exact ih V b V' (by simpa [anyDependentAssociatedConformance] using h)
    | sameType x y => exact ih V b V' (by simpa [anyDependentAssociatedConformance] using h)
    | layout x y => exact ih V b V' (by simpa [anyDependentAssociatedConformance] using h)
    | conformance t p =>
      cases hassoc : conformance.associatedConformance t p with
      | «abstract» q =>
        simp only [anyDependentAssociatedConformance, hassoc, Option.some.injEq,
          Prod.mk.injEq] at h
        rw [h.2]
        exact List.Subset.refl V'
      | concrete q concrete =>
        cases hr : recurse concrete.getRootConformance V with
        | none => simp [anyDependentAssociatedConformance, hassoc, hr] at h
        | some res =>
          obtain ⟨r1, V1⟩ := res
          have h1 := hrec _ _ _ _ hr
          cases r1 with
          | true =>
            simp only [anyDependentAssociatedConformance, hassoc, hr, Option.some.injEq,
              Prod.mk.injEq] at h
            rw [← h.2]
            exact h1
          | false =>
            simp only [anyDependentAssociatedConformance, hassoc, hr] at h
            exact List.Subset.trans h1 (ih V1 b V' h)

theorem isDependentConformance_subset (IGM : IRGenModule) :
    ∀ (fuel : Nat) (root : RootInterfaceConformance) (V : List Nat) (b : Bool) (V' : List Nat),
      Irgen.isDependentConformance IGM fuel root V = some (b, V') → V ⊆ V' := by
  intro fuel
  induction fuel with
  | zero =>
    intro root V b V' h
    simp [Irgen.isDependentConformance] at h
  | succ fuel ih =>
    intro root V b V' h
    rw [isDependentConformance_succ] at h
    unfold isDependentConformanceBody at h
    cases root with
    | selfConformance i =>
      simp only [Option.some.injEq, Prod.mk.injEq] at h
      rw [h.2]
      exact List.Subset.refl V'
    | normal a =>
      by_cases hvis : a ∈ V
      · simp only [hvis, if_true, Option.some.injEq, Prod.mk.injEq] at h
        rw [h.2]
        exact List.Subset.refl V'
      · simp only [hvis, if_false] at h
        cases hlookup : IGM.Context.conformances[a]? with
        | none => simp [hlookup] at h
        | some conformance =>
          simp only [hlookup] at h
          by_cases hres : IGM.isResilientConformance conformance = true
          · simp only [hres, if_true, Option.some.injEq, Prod.mk.injEq] at h
            rw [← h.2]
            exact List.subset_cons_self a V
          · have hres' : IGM.isResilientConformance conformance = false := by simpa using hres
            simp only [hres', Bool.false_eq_true, if_false] at h
            cases hloop : anyDependentAssociatedConformance (Irgen.isDependentConformance IGM fuel)
                conformance (IGM.Context.requirementSignature conformance.Interface) (a :: V) with
            | none => simp [hloop] at h
            | some res =>
              obtain ⟨r2, V2⟩ := res
              have h2 : a :: V ⊆ V2 :=
                anyDependentAssociatedConformance_subset _ ih conformance _ _ _ _ hloop
              have hV : V ⊆ V2 := List.Subset.trans (List.subset_cons_self a V) h2
              have hV' : V2 = V' := by
                cases r2 with
                | true =>
                  simp only [hloop, Option.some.injEq, Prod.mk.injEq] at h
                  exact h.2
                | false =>
                  simp only [hloop] at h
                  by_cases htw : hasDependentTypeWitness conformance = true
                  · simp only [htw, if_true, Option.some.injEq, Prod.mk.injEq] at h
                    exact h.2
                  · have htw' : hasDependentTypeWitness conformance = false := by simpa using htw
                    simp only [htw', Bool.false_eq_true, if_false, Option.some.injEq,
                      Prod.mk.injEq] at h
                    exact h.2
              rw [← hV']
              exact hV

theorem anyDependentAssociatedConformance_congr
    (r1 r2 : RootInterfaceConformance → List Nat → Option (Bool × List Nat))
    (hmono : ∀ root V b V', r1 root V = some (b, V') → V ⊆ V')
    (conformance : NormalInterfaceConformance) :
    ∀ (reqs : List Requirement) (V : List Nat),
      (∀ root V', V ⊆ V' → r2 root V' = r1 root V') →
      anyDependentAssociatedConformance r2 conformance reqs V =
        anyDependentAssociatedConformance r1 conformance reqs V := by
  intro reqs
  induction reqs with
  | nil => intro V _; rfl
  | cons req rest ih =>
    intro V hagree
    cases req with
    | superclass x y => simpa [anyDependentAssociatedConformance] using ih V hagree
    | sameType x y => simpa [anyDependentAssociatedConformance] using ih V hagree
    | layout x y => simpa [anyDependentAssociatedConformance] using ih V hagree
    | conformance t p =>
      cases hassoc : conformance.associatedConformance t p with
      | «abstract» q => simp [anyDependentAssociatedConformance, hassoc]
      | concrete q concrete =>
        have h0 := hagree concrete.getRootConformance V (List.Subset.refl V)
        cases hr : r1 concrete.getRootConformance V with
        | none => simp [anyDependentAssociatedConformance, hassoc, h0, hr]
        | some res =>
          obtain ⟨b1, V1⟩ := res
          cases b1 with
          | true => simp [anyDependentAssociatedConformance, hassoc, h0, hr]
          | false =>
            have hsub := hmono _ _ _ _ hr
            have := ih V1 (fun root V' hV' => hagree root V' (List.Subset.trans hsub hV'))
            simp [anyDependentAssociatedConformance, hassoc, h0, hr, this]

/-- C11, counterexample: a conformance in a generic context whose only associated-type
witness is the type parameter `τ_0_0`, for an associated type that overrides another one.
Some associated-type witness contains a type parameter, yet the conformance is not
dependent: `hasDependentTypeWitness` skips associated types without a witness-table
entry. -/
theorem isDependentConformance_typeWitness_counterexample :
    (∃ w ∈ overriddenWitnessConformance.typeWitnesses, w.type.hasTypeParameter = true) ∧
    (scenarioModule { id := 0 } [overriddenWitnessConformance]).isDependentConformance
      (RootInterfaceConformance.normal 0) = some false := by
  refine ⟨⟨_, List.mem_cons_self _ _, rfl⟩, ?_⟩
  decide

/-- C11, amended: in a well-formed conformance table, `IRGenModule::isDependentConformance`
(started with an empty visited set) returns a result for every normal conformance, and the
result is true exactly when at least one of these holds: the conformance is resilient; some
conformance requirement of the protocol's requirement signature has an associated
conformance that is abstract or whose root conformance is itself dependent; the conforming
type's context is generic and the witness of some associated type that overrides no other
one has a type containing a type parameter; the conformance has at least one conditional
conformance. It returns false for every self-conformance. -/
theorem isDependentConformance_iff (IGM : IRGenModule)
    (hwf : IGM.Context.wellFormed = true) (a : Nat) (conformance : NormalInterfaceConformance)
    (hlookup : IGM.Context.conformances[a]? = some conformance) :
    (IGM.isDependentConformance (RootInterfaceConformance.normal a)).isSome = true ∧
    (IGM.isDependentConformance (RootInterfaceConformance.normal a) = some true ↔
      IGM.isResilientConformance conformance = true ∨
      (∃ t p, Requirement.conformance t p ∈
          IGM.Context.requirementSignature conformance.Interface ∧
        ((conformance.associatedConformance t p).isAbstract = true ∨
          ∃ q concrete,
            conformance.associatedConformance t p = InterfaceConformanceRef.concrete q concrete ∧
            IGM.isDependentConformance concrete.getRootConformance = some true)) ∨
      (conformance.declContext.genericContext = true ∧
        ∃ w ∈ conformance.typeWitnesses,
          w.requirementHasOverriddenDecls = false ∧ w.type.hasTypeParameter = true) ∨
      conformance.conditionalConformances ≠ []) ∧
    (∀ i, IGM.isDependentConformance (RootInterfaceConformance.selfConformance i) = some false) := by
  have ha : a < IGM.Context.conformances.length := by
    obtain ⟨h, _⟩ := List.getElem?_eq_some.mp hlookup
    exact h
  obtain ⟨r, hr, hiff⟩ := isDependentConformance_normal IGM hwf a ha
  have hrootsWf := wellFormed_roots IGM hwf a conformance hlookup
  refine ⟨by rw [hr]; rfl, ?_, fun i => rfl⟩
  rw [hr]
  constructor
  · intro hsome
    have hrt : r = true := by simpa using hsome
    obtain ⟨y, c, hreach, hc, hl⟩ := hiff.mp hrt
    cases hreach with
    | refl =>
      rw [hlookup] at hc
      cases hc
      simp only [IRGenModule.locallyDependent, Bool.or_eq_true, Bool.not_eq_true',
        List.isEmpty_eq_false] at hl
      rcases hl with ((h | h) | h) | h
      · exact Or.inl h
      · obtain ⟨t, p, hmem, habs⟩ := (hasAbstractAssociatedConformance_iff _ _).mp h
        exact Or.inr (Or.inl ⟨t, p, hmem, Or.inl habs⟩)
      · exact Or.inr (Or.inr (Or.inl ((hasDependentTypeWitness_iff _).mp h)))
      · exact Or.inr (Or.inr (Or.inr (by simpa using h)))
    | step _ b _ c' hc' hb hreach' =>
      rw [hlookup] at hc'
      cases hc'
      obtain ⟨t, p, q, concrete, hmem, hassoc, hroot⟩ := (mem_associatedRoots_iff _ _ _).mp hb
      have hbN : b < IGM.Context.conformances.length := by
        simpa [RootInterfaceConformance.inTable] using hrootsWf _ hb
      obtain ⟨rb, hrb, hiffb⟩ := isDependentConformance_normal IGM hwf b hbN
      have : rb = true := hiffb.mpr ⟨y, c, hreach', hc, hl⟩
      subst this
      exact Or.inr (Or.inl ⟨t, p, hmem, Or.inr ⟨q, concrete, hassoc, by rw [hroot, hrb]⟩⟩)
  · intro h
    have hlocal : IGM.locallyDependent conformance = true → some r = some true := by
      intro hl
      rw [hiff.mpr ⟨a, conformance, Reaches.refl a, hlookup, hl⟩]
    rcases h with h | ⟨t, p, hmem, habs | ⟨q, concrete, hassoc, hdep⟩⟩ | h | h
    · exact hlocal (by simp [IRGenModule.locallyDependent, h])
    · exact hlocal (by
        simp [IRGenModule.locallyDependent,
          (hasAbstractAssociatedConformance_iff _ _).mpr ⟨t, p, hmem, habs⟩])
    · cases hroot : concrete.getRootConformance with
      | selfConformance i =>
        rw [hroot] at hdep
        cases hdep
      | normal b =>
        have hb : RootInterfaceConformance.normal b ∈ conformance.associatedRoots
            (IGM.Context.requirementSignature conformance.Interface) :=
          (mem_associatedRoots_iff _ _ _).mpr ⟨t, p, q, concrete, hmem, hassoc, hroot⟩
        have hbN : b < IGM.Context.conformances.length := by
          simpa [RootInterfaceConformance.inTable] using hrootsWf _ hb
        obtain ⟨rb, hrb, hiffb⟩ := isDependentConformance_normal IGM hwf b hbN
        rw [hroot, hrb] at hdep
        have hrbt : rb = true := by simpa using hdep
        obtain ⟨y, c, hreach, hc, hl⟩ := hiffb.mp hrbt
        rw [hiff.mpr ⟨y, c, Reaches.step a b y conformance hlookup hb hreach, hc, hl⟩]
    · exact hlocal (by
        simp [IRGenModule.locallyDependent, (hasDependentTypeWitness_iff _).mpr h])
    · exact hlocal (by
        have : conformance.conditionalConformances.isEmpty = false := by
          cases hcc : conformance.conditionalConformances with
          | nil => exact absurd hcc h
          | cons x xs => rfl
        simp [IRGenModule.locallyDependent, this])

/-- Witness of the amended C11 on a cyclic graph: conformance 0 refers to conformance 1,
which refers back and has a conditional conformance; conformance 0 is dependent through
its associated conformance. -/
theorem isDependentConformance_iff_witness :
    (cyclicModule [(CanType.genericTypeParam 0 0, scenarioInterfaceP)]).Context.wellFormed = true ∧
    (cyclicModule [(CanType.genericTypeParam 0 0, scenarioInterfaceP)]).isDependentConformance
      (RootInterfaceConformance.normal 0) = some true :=
  ⟨by decide,
    (isDependentConformance_iff
      (cyclicModule [(CanType.genericTypeParam 0 0, scenarioInterfaceP)]) (by decide) 0
      (chainedConformance 1 []) rfl).2.1.mpr
      (Or.inr (Or.inl
        ⟨CanType.dependentMember (CanType.genericTypeParam 0 0) 0, scenarioInterfaceP,
          List.mem_cons_self _ _,
          Or.inr ⟨scenarioInterfaceP,
            InterfaceConformance.root (RootInterfaceConformance.normal 1), rfl, by decide⟩⟩))⟩

/-- C12: on every finite conformance graph without dangling reference, cyclic or not,
`isDependentConformance` terminates: the member function returns a result, and a call with
visited set `V` returns within any budget above the number of conformances not in `V`,
with a visited set that contains `V`. A call on a conformance already in the visited set
returns false at once, without any budget for a nested call. A call on a conformance not
yet visited only makes nested calls with visited sets that contain it, hence strictly
larger ones: its result does not depend on what nested calls would answer on other visited
sets. -/
theorem isDependentConformance_terminates (IGM : IRGenModule)
    (hwf : IGM.Context.wellFormed = true) :
    (∀ root : RootInterfaceConformance,
      root.inTable IGM.Context.conformances.length = true →
      (IGM.isDependentConformance root).isSome = true) ∧
    (∀ (fuel a : Nat) (V : List Nat),
      unvisitedCount IGM.Context.conformances.length V < fuel →
      a < IGM.Context.conformances.length →
      ∃ r V', Irgen.isDependentConformance IGM fuel (RootInterfaceConformance.normal a) V =
        some (r, V') ∧ V ⊆ V') ∧
    (∀ (a : Nat) (V : List Nat), a ∈ V →
      Irgen.isDependentConformance IGM 1 (RootInterfaceConformance.normal a) V =
        some (false, V)) ∧
    (∀ (fuel a : Nat) (V : List Nat)
      (recurse : RootInterfaceConformance → List Nat → Option (Bool × List Nat)),
      a ∉ V →
      (∀ root V', a :: V ⊆ V' → recurse root V' = Irgen.isDependentConformance IGM fuel root V') →
      isDependentConformanceBody IGM recurse (RootInterfaceConformance.normal a) V =
        Irgen.isDependentConformance IGM (fuel + 1) (RootInterfaceConformance.normal a) V) := by
  refine ⟨?_, ?_, ?_, ?_⟩
  · intro root hroot
    obtain ⟨r, hr⟩ := isDependentConformance_total IGM hwf root hroot
    rw [hr]
    rfl
  · intro fuel a V hfuel ha
    obtain ⟨r, V', hres, hsub, _, _⟩ := isDependentConformance_spec IGM hwf fuel a V hfuel ha
    exact ⟨r, V', hres, hsub⟩
  · intro a V ha
    simp [Irgen.isDependentConformance, ha]
  · intro fuel a V recurse ha hagree
    rw [isDependentConformance_succ]
    unfold isDependentConformanceBody
    simp only [ha, if_false]
    cases IGM.Context.conformances[a]? with
    | none => rfl
    | some conformance =>
      simp only
      rw [anyDependentAssociatedConformance_congr (Irgen.isDependentConformance IGM fuel) recurse
        (isDependentConformance_subset IGM fuel) conformance _ (a :: V) hagree]

/-- Witness of C12 on the cyclic graph of two conformances that refer to each other: the
check returns. -/
theorem isDependentConformance_terminates_witness :
    (cyclicModule []).Context.wellFormed = true ∧
    ((cyclicModule []).isDependentConformance (RootInterfaceConformance.normal 0)).isSome = true :=
  ⟨by decide,
    (isDependentConformance_terminates (cyclicModule []) (by decide)).1
      (RootInterfaceConformance.normal 0) (by decide)⟩

/-! ## The conformance info cache -/

theorem checkCache_some_mem (Conformances : ConformanceCache) (conf : InterfaceConformance)
    (info : ConformanceInfo) (h : checkCache Conformances conf = some info) :
    (conf, info) ∈ Conformances := by
  unfold checkCache at h
  cases hf : Conformances.find? (fun e => decide (e.1 = conf)) with
  | none => simp [hf] at h
  | some e =>
    simp only [hf, Option.some.injEq] at h
    have hmem := List.mem_of_find?_eq_some hf
    have hkey := List.find?_some hf
    simp only [decide_eq_true_eq] at hkey
    obtain ⟨k, v⟩ := e
    simp only at hkey h
    subst hkey
    subst h
    exact hmem

theorem CacheConsistent.try_emplace (IGM : IRGenModule) (Conformances : ConformanceCache)
    (hc : CacheConsistent IGM Conformances) (key : InterfaceConformance) (info : ConformanceInfo)
    (hnew : (info = ConformanceInfo.Accessor key ∧
        (IGM.isDependentConformance key.getRootConformance = some true ∨
          isSynthesizedNonUnique IGM key.getRootConformance = true)) ∨
      (key = InterfaceConformance.root key.getRootConformance ∧
        info = ConformanceInfo.Direct key.getRootConformance ∧
        IGM.isDependentConformance key.getRootConformance = some false ∧
        isSynthesizedNonUnique IGM key.getRootConformance = false)) :
    CacheConsistent IGM (ConformanceCache.try_emplace Conformances key info) := by
  unfold ConformanceCache.try_emplace
  cases checkCache Conformances key with
  | some _ => exact hc
  | none =>
    intro k i hmem
    rcases List.mem_append.mp hmem with h | h
    · exact hc k i h
    · simp only [List.mem_singleton, Prod.mk.injEq] at h
      obtain ⟨hk, hi⟩ := h
      subst hk
      subst hi
      exact hnew

theorem getConformanceInfo_consistent (IGM : IRGenModule) (Conformances : ConformanceCache)
    (hc : CacheConsistent IGM Conformances) (protocol : InterfaceDecl)
    (conformance : InterfaceConformance) (info : ConformanceInfo)
    (Conformances' : ConformanceCache)
    (h : IGM.getConformanceInfo Conformances protocol conformance = some (info, Conformances')) :
    CacheConsistent IGM Conformances' := by
  unfold IRGenModule.getConformanceInfo at h
  cases hcache : checkCache Conformances conformance with
  | some found =>
    simp only [hcache, Option.some.injEq, Prod.mk.injEq] at h
    rw [← h.2]
    exact hc
  | none =>
    simp only [hcache] at h
    cases hdep : IGM.isDependentConformance conformance.getRootConformance with
    | none => simp [hdep] at h
    | some dependent =>
      simp only [hdep] at h
      by_cases hcond : (dependent || isSynthesizedNonUnique IGM conformance.getRootConformance) = true
      · simp only [hcond, if_true, Option.some.injEq, Prod.mk.injEq] at h
        rw [← h.2]
        apply CacheConsistent.try_emplace IGM Conformances hc
        left
        refine ⟨rfl, ?_⟩
        rw [hdep]
        simpa using hcond
      · have hcond' : (dependent || isSynthesizedNonUnique IGM conformance.getRootConformance) = false := by
          simpa using hcond
        simp only [hcond', Bool.false_eq_true, if_false] at h
        cases hroot : checkCache Conformances
            (InterfaceConformance.root conformance.getRootConformance) with
        | some found =>
          simp only [hroot, Option.some.injEq, Prod.mk.injEq] at h
          rw [← h.2]
          exact hc
        | none =>
          simp only [hroot, Option.some.injEq, Prod.mk.injEq] at h
          rw [← h.2]
          apply CacheConsistent.try_emplace IGM Conformances hc
          right
          simp only [Bool.or_eq_false_iff] at hcond'
          refine ⟨rfl, rfl, ?_, hcond'.2⟩
          show IGM.isDependentConformance conformance.getRootConformance = some false
          rw [hdep, hcond'.1]

theorem ReachableCache.consistent (IGM : IRGenModule) (Conformances : ConformanceCache)
    (h : ReachableCache IGM Conformances) : CacheConsistent IGM Conformances := by
  induction h with
  | empty =>
    intro k info hmem
    cases hmem
  | step c p conf info c' _ hcall ih =>
    exact getConformanceInfo_consistent IGM c ih p conf info c' hcall

/-- C13: in a well-formed conformance table and on a cache left by earlier calls, for every
conformance not yet in the cache `getConformanceInfo` returns a direct-constant
conformance info (for the root) if and only if the root conformance is not dependent and
not synthesized non-unique; in every other case it returns the accessor-based info of the
conformance. The accessor-based info never yields a constant table. -/
theorem getConformanceInfo_spec (IGM : IRGenModule) (hwf : IGM.Context.wellFormed = true)
    (Conformances : ConformanceCache) (hreach : ReachableCache IGM Conformances)
    (protocol : InterfaceDecl) (conformance : InterfaceConformance)
    (hroot : conformance.getRootConformance.inTable IGM.Context.conformances.length = true)
    (hnew : checkCache Conformances conformance = none) :
    ∃ dependent info Conformances',
      IGM.isDependentConformance conformance.getRootConformance = some dependent ∧
      IGM.getConformanceInfo Conformances protocol conformance = some (info, Conformances') ∧
      ((∃ root, info = ConformanceInfo.Direct root) ↔
        (dependent = false ∧
          isSynthesizedNonUnique IGM conformance.getRootConformance = false)) ∧
      (dependent = false ∧ isSynthesizedNonUnique IGM conformance.getRootConformance = false →
        info = ConformanceInfo.Direct conformance.getRootConformance) ∧
      (¬ (dependent = false ∧
          isSynthesizedNonUnique IGM conformance.getRootConformance = false) →
        info = ConformanceInfo.Accessor conformance) ∧
      (∀ (Options : IRGenOptions) (rootModule : RootInterfaceConformance → ModuleDecl)
          (accessed : InterfaceConformance) (conformingType : CanType),
        (ConformanceInfo.Accessor accessed).tryGetConstantTable IGM Options rootModule
          conformingType = none) := by
  obtain ⟨dependent, hdep⟩ := isDependentConformance_total IGM hwf _ hroot
  have hcons := ReachableCache.consistent IGM Conformances hreach
  by_cases hcond : dependent = false ∧
      isSynthesizedNonUnique IGM conformance.getRootConformance = false
  · have hor : (dependent || isSynthesizedNonUnique IGM conformance.getRootConformance) = false := by
      simp [hcond.1, hcond.2]
    have hinfo : ∃ Conformances', IGM.getConformanceInfo Conformances protocol conformance =
        some (ConformanceInfo.Direct conformance.getRootConformance, Conformances') := by
      unfold IRGenModule.getConformanceInfo
      simp only [hnew, hdep, hor, Bool.false_eq_true, if_false]
      cases hrc : checkCache Conformances
          (InterfaceConformance.root conformance.getRootConformance) with
      | none => exact ⟨_, rfl⟩
      | some found =>
        have hmem := checkCache_some_mem _ _ _ hrc
        rcases hcons _ _ hmem with ⟨_, h | h⟩ | ⟨_, h, _, _⟩
        · have h' : IGM.isDependentConformance conformance.getRootConformance = some true := h
          rw [hdep, hcond.1] at h'
          cases h'
        · have h' : isSynthesizedNonUnique IGM conformance.getRootConformance = true := h
          rw [hcond.2] at h'
          cases h'
        · have h' : found = ConformanceInfo.Direct conformance.getRootConformance := h
          exact ⟨Conformances, by rw [h']⟩
    obtain ⟨Conformances', hres⟩ := hinfo
    refine ⟨dependent, _, Conformances', hdep, hres, ?_, fun _ => rfl, ?_, ?_⟩
    · exact ⟨fun _ => hcond, fun _ => ⟨_, rfl⟩⟩
    · intro h
      exact absurd hcond h
    · intro _ _ _ _
      rfl
  · have hor : (dependent || isSynthesizedNonUnique IGM conformance.getRootConformance) = true := by
      cases hd : dependent with
      | true => rfl
      | false =>
        cases hs : isSynthesizedNonUnique IGM conformance.getRootConformance with
        | true => rfl
        | false => exact absurd ⟨hd, hs⟩ hcond
    refine ⟨dependent, ConformanceInfo.Accessor conformance,
      ConformanceCache.try_emplace Conformances conformance (ConformanceInfo.Accessor conformance),
      hdep, ?_, ?_, ?_, fun _ => rfl, ?_⟩
    · unfold IRGenModule.getConformanceInfo
      simp only [hnew, hdep, hor, if_true]
    · constructor
      · rintro ⟨root, h⟩
        cases h
      · intro h
        exact absurd h hcond
    · intro h
      exact absurd h hcond
    · intro _ _ _ _
      rfl

theorem getConformanceInfo_spec_witness :
    builderModule.Context.wellFormed = true ∧
    (∃ info Conformances1,
      builderModule.getConformanceInfo [] baseInterfaceA
          (InterfaceConformance.root (RootInterfaceConformance.normal 1)) =
        some (info, Conformances1) ∧
      ((∃ root, info = ConformanceInfo.Direct root) ↔
        (builderModule.isDependentConformance (RootInterfaceConformance.normal 1) = some false ∧
          isSynthesizedNonUnique builderModule (RootInterfaceConformance.normal 1) = false))) := by
  obtain ⟨dependent, info, Conformances1, hdep, hinfo, hiff, _, _, _⟩ :=
    getConformanceInfo_spec builderModule (by decide) [] ReachableCache.empty baseInterfaceA
      (InterfaceConformance.root (RootInterfaceConformance.normal 1)) (by decide) rfl
  refine ⟨by decide, info, Conformances1, hinfo, ?_⟩
  have hd : builderModule.isDependentConformance (RootInterfaceConformance.normal 1) =
      some dependent := hdep
  rw [hiff, hd]
  have hs : isSynthesizedNonUnique builderModule
      (InterfaceConformance.root (RootInterfaceConformance.normal 1)).getRootConformance =
      isSynthesizedNonUnique builderModule (RootInterfaceConformance.normal 1) := rfl
  rw [hs]
  simp

/-! ## Properties of the witness table layout -/

theorem WitnessTableLayout.foldl_visit (events : List WitnessVisit) (self : WitnessTableLayout) :
    (events.foldl WitnessTableLayout.visit self).Entries =
      self.Entries ++ events.flatMap WitnessVisit.layoutEntries ∧
    (events.foldl WitnessTableLayout.visit self).requirementSignatureOnly =
      self.requirementSignatureOnly := by
  induction events generalizing self with
  | nil => simp
  | cons e rest ih =>
    rw [List.foldl_cons]
    obtain ⟨h1, h2⟩ := ih (self.visit e)
    rw [h1, h2]
    cases e <;> simp [WitnessTableLayout.visit, WitnessVisit.layoutEntries]

theorem flatMap_layoutEntries_bases (l : List InterfaceDecl) :
    (l.map WitnessVisit.OutOfLineBaseInterface).flatMap WitnessVisit.layoutEntries =
      l.map WitnessTableEntry.OutOfLineBase := by
  induction l with
  | nil => rfl
  | cons x xs ih => simp [WitnessVisit.layoutEntries, ih]

theorem flatMap_layoutEntries_associatedTypes (l : List AssociatedType) :
    (l.map WitnessVisit.AssociatedType).flatMap WitnessVisit.layoutEntries =
      l.map WitnessTableEntry.AssociatedType := by
  induction l with
  | nil => rfl
  | cons x xs ih => simp [WitnessVisit.layoutEntries, ih]

theorem flatMap_layoutEntries_associatedConformances (l : List AssociatedConformance) :
    (l.map WitnessVisit.AssociatedConformance).flatMap WitnessVisit.layoutEntries =
      l.map WitnessTableEntry.AssociatedConformance := by
  induction l with
  | nil => rfl
  | cons x xs ih => simp [WitnessVisit.layoutEntries, ih]

theorem layoutInterfaceInfo_entries (IGM : IRGenModule) (reqs : InterfaceRequirements)
    (protocol : InterfaceDecl) (kind : InterfaceInfoKind) :
    (layoutInterfaceInfo IGM reqs protocol kind).WitnessEntries =
      if IGM.interfaceRequiresWitnessTable protocol then
        reqs.outOfLineBases.map WitnessTableEntry.OutOfLineBase ++
          (match kind with
           | .RequirementSignature => []
           | .Full =>
             (reqs.members.map InterfaceMember.toVisit).flatMap WitnessVisit.layoutEntries ++
               reqs.associatedTypes.map WitnessTableEntry.AssociatedType ++
               reqs.associatedConformances.map WitnessTableEntry.AssociatedConformance)
      else [] := by
  unfold layoutInterfaceInfo
  by_cases hw : IGM.interfaceRequiresWitnessTable protocol = true
  · simp only [hw, if_true, WitnessTableLayout.visitInterfaceDecl,
      (WitnessTableLayout.foldl_visit _ _).1]
    cases kind
    · simp only [WitnessTableLayout.create,
        WitnessTableLayout.shouldVisitRequirementSignatureOnly, Irgen.visitInterfaceDecl,
        if_true, List.append_nil, List.nil_append, List.flatMap_cons,
        WitnessVisit.layoutEntries, flatMap_layoutEntries_bases]
    · simp only [WitnessTableLayout.create,
        WitnessTableLayout.shouldVisitRequirementSignatureOnly, Irgen.visitInterfaceDecl,
        Bool.false_eq_true, if_false, List.nil_append, List.flatMap_cons, List.flatMap_append,
        WitnessVisit.layoutEntries, flatMap_layoutEntries_bases,
        flatMap_layoutEntries_associatedTypes, flatMap_layoutEntries_associatedConformances,
        List.append_assoc]
  · have hw' : IGM.interfaceRequiresWitnessTable protocol = false := by simpa using hw
    cases kind <;> simp [hw', WitnessTableLayout.create]

theorem InterfaceCache.find_set (Interfaces : InterfaceCache) (protocol : InterfaceDecl)
    (info : InterfaceInfo) :
    (InterfaceCache.set Interfaces protocol info).find protocol = some info := by
  induction Interfaces with
  | nil => simp [InterfaceCache.set, InterfaceCache.find]
  | cons e rest ih =>
    obtain ⟨p, i⟩ := e
    by_cases hp : p = protocol
    · simp [InterfaceCache.set, InterfaceCache.find, hp]
    · unfold InterfaceCache.find at ih ⊢
      simp only [InterfaceCache.set, hp, if_false, List.find?_cons, decide_False]
      exact ih

/-- C14: for every protocol, when its layout is first computed with kind
RequirementSignature and later recomputed with kind Full, the Full entry sequence is at
least as long as the earlier one and its prefix of that length equals the earlier sequence;
a request for a kind no broader than the cached one returns the cached layout, and the
memo, unchanged. -/
theorem getInterfaceInfo_prefix (IGM : IRGenModule)
    (requirementsOf : InterfaceDecl → InterfaceRequirements) (protocol : InterfaceDecl) :
    (∀ Interfaces : InterfaceCache, Interfaces.find protocol = none →
      (TypeConverter.getInterfaceInfo IGM requirementsOf Interfaces protocol
          InterfaceInfoKind.RequirementSignature).1 =
        layoutInterfaceInfo IGM (requirementsOf protocol) protocol
          InterfaceInfoKind.RequirementSignature ∧
      (TypeConverter.getInterfaceInfo IGM requirementsOf Interfaces protocol
          InterfaceInfoKind.RequirementSignature).2.find protocol =
        some (layoutInterfaceInfo IGM (requirementsOf protocol) protocol
          InterfaceInfoKind.RequirementSignature)) ∧
    (∀ Interfaces : InterfaceCache,
      Interfaces.find protocol =
        some (layoutInterfaceInfo IGM (requirementsOf protocol) protocol
          InterfaceInfoKind.RequirementSignature) →
      (TypeConverter.getInterfaceInfo IGM requirementsOf Interfaces protocol
          InterfaceInfoKind.Full).1.Kind = InterfaceInfoKind.Full ∧
      (layoutInterfaceInfo IGM (requirementsOf protocol) protocol
          InterfaceInfoKind.RequirementSignature).WitnessEntries.length ≤
        (TypeConverter.getInterfaceInfo IGM requirementsOf Interfaces protocol
          InterfaceInfoKind.Full).1.WitnessEntries.length ∧
      (TypeConverter.getInterfaceInfo IGM requirementsOf Interfaces protocol
          InterfaceInfoKind.Full).1.WitnessEntries.take
          (layoutInterfaceInfo IGM (requirementsOf protocol) protocol
            InterfaceInfoKind.RequirementSignature).WitnessEntries.length =
        (layoutInterfaceInfo IGM (requirementsOf protocol) protocol
          InterfaceInfoKind.RequirementSignature).WitnessEntries) ∧
    (∀ (Interfaces : InterfaceCache) (kind : InterfaceInfoKind) (cached : InterfaceInfo),
      Interfaces.find protocol = some cached → kind.rank ≤ cached.Kind.rank →
      TypeConverter.getInterfaceInfo IGM requirementsOf Interfaces protocol kind =
        (cached, Interfaces)) := by
  refine ⟨?_, ?_, ?_⟩
  · intro Interfaces hnone
    simp only [TypeConverter.getInterfaceInfo, hnone, InterfaceCache.find_set, and_self]
  · intro Interfaces hfirst
    have hres : (TypeConverter.getInterfaceInfo IGM requirementsOf Interfaces protocol
        InterfaceInfoKind.Full).1 =
        layoutInterfaceInfo IGM (requirementsOf protocol) protocol InterfaceInfoKind.Full := by
      simp [TypeConverter.getInterfaceInfo, hfirst, layoutInterfaceInfo, InterfaceInfoKind.rank]
    rw [hres]
    refine ⟨rfl, ?_, ?_⟩
    · rw [layoutInterfaceInfo_entries, layoutInterfaceInfo_entries]
      split <;> simp
    · rw [layoutInterfaceInfo_entries, layoutInterfaceInfo_entries]
      split <;> simp
  · intro Interfaces kind cached hfind hrank
    simp [TypeConverter.getInterfaceInfo, hfind, hrank]

/-! ## Properties of the witness table builder -/

theorem WitnessTableBuilder.sameSetup_refl (s : WitnessTableBuilder) :
    WitnessTableBuilder.SameSetup s s :=
  ⟨rfl, rfl, rfl, rfl, rfl, rfl, rfl, rfl, rfl⟩

theorem WitnessTableBuilder.sameSetup_trans {s1 s2 s3 : WitnessTableBuilder}
    (h12 : WitnessTableBuilder.SameSetup s1 s2) (h23 : WitnessTableBuilder.SameSetup s2 s3) :
    WitnessTableBuilder.SameSetup s1 s3 := by
  obtain ⟨a0, a1, a2, a3, a4, a5, a6, a7, a8⟩ := h12
  obtain ⟨b0, b1, b2, b3, b4, b5, b6, b7, b8⟩ := h23
  exact ⟨b0.trans a0, b1.trans a1, b2.trans a2, b3.trans a3, b4.trans a4, b5.trans a5, b6.trans a6,
    b7.trans a7, b8.trans a8⟩

theorem WitnessTableBuilder.defineAccessFunction_frame (IGM : IRGenModule)
    (inputs : WitnessTableInputs) (self s' : WitnessTableBuilder)
    (requirement : AssociatedConformance) (type : CanType) (ref : InterfaceConformanceRef)
    (h : self.defineAssociatedTypeWitnessTableAccessFunction IGM inputs requirement type ref
      = some s') :
    (∃ cache, s' = { self with Conformances := cache }) ∧
    ∃ id, self.Conformance = RootInterfaceConformance.normal id := by
  obtain ⟨Table, TableSize, PILWT, ConcreteType, Conformance, ConformanceInContext, PILEntries,
    PILConditionalConformances, SpecializedBaseConformances,
    ConditionalRequirementPrivateDataIndices, NextPrivateDataIndex, ResilientConformance, PI,
    Conformances⟩ := self
  unfold WitnessTableBuilder.defineAssociatedTypeWitnessTableAccessFunction at h
  cases Conformance with
  | selfConformance i => simp at h
  | normal id =>
    refine ⟨?_, id, rfl⟩
    cases ref with
    | «abstract» p =>
      refine ⟨Conformances, ?_⟩
      simp only at h
      repeat' split at h
      all_goals (cases h <;> rfl)
    | concrete p c =>
      cases hci : IGM.getConformanceInfo Conformances requirement.associatedRequirement c with
      | none => simp [hci] at h
      | some r =>
        obtain ⟨info, cache⟩ := r
        refine ⟨cache, ?_⟩
        simp only [hci] at h
        repeat' split at h
        all_goals (cases h <;> rfl)

theorem WitnessTableBuilder.getAssociatedConformanceWitness_frame (IGM : IRGenModule)
    (inputs : WitnessTableInputs) (self s' : WitnessTableBuilder)
    (requirement : AssociatedConformance) (type : CanType) (ref : InterfaceConformanceRef)
    (w : Constant)
    (h : self.getAssociatedConformanceWitness IGM inputs requirement type ref = some (w, s')) :
    (∃ cache, s' = { self with Conformances := cache }) ∧
    w = Constant.MangledAssociatedConformance self.Conformance requirement ∧
    ∃ id, self.Conformance = RootInterfaceConformance.normal id := by
  unfold WitnessTableBuilder.getAssociatedConformanceWitness at h
  cases hd : self.defineAssociatedTypeWitnessTableAccessFunction IGM inputs requirement type
      ref with
  | none => simp [hd] at h
  | some s1 =>
    obtain ⟨⟨cache, hs1⟩, _⟩ :=
      WitnessTableBuilder.defineAccessFunction_frame IGM inputs self s1 _ _ _ hd
    simp only [hd] at h
    subst hs1
    cases hc : self.Conformance with
    | selfConformance i => simp [hc] at h
    | normal id =>
      simp only [hc, Option.some.injEq, Prod.mk.injEq] at h
      refine ⟨⟨cache, h.2.symm⟩, h.1.symm, id, rfl⟩

theorem ConformanceInfo.tryGetConstantTable_ne_null (IGM : IRGenModule) (Options : IRGenOptions)
    (rootModule : RootInterfaceConformance → ModuleDecl) (info : ConformanceInfo)
    (type : CanType) (w : Constant)
    (h : info.tryGetConstantTable IGM Options rootModule type = some w) :
    w ≠ Constant.NullPointer := by
  unfold ConformanceInfo.tryGetConstantTable at h
  cases info with
  | Accessor c => simp at h
  | Direct r =>
    simp only at h
    split at h
    · cases h
    · simp only [Option.some.injEq] at h
      rw [← h]
      intro hc
      cases hc

theorem WitnessTableBuilder.visit_effect (IGM : IRGenModule) (inputs : WitnessTableInputs)
    (self s' : WitnessTableBuilder) (e : WitnessVisit)
    (h : self.visit IGM inputs e = some s') :
    WitnessTableBuilder.SameSetup self s' ∧ WitnessTableBuilder.TableStep IGM inputs self s' := by
  cases e with
  | InterfaceConformanceDescriptor =>
    simp only [WitnessTableBuilder.visit, Option.some.injEq] at h
    subst h
    refine ⟨⟨rfl, rfl, rfl, rfl, rfl, rfl, rfl, rfl, rfl⟩, Or.inr (Or.inl ⟨_, ?_, rfl, rfl⟩)⟩
    intro hc
    cases hc
  | Placeholder n =>
    simp [WitnessTableBuilder.visit, WitnessTableBuilder.addPlaceholder] at h
  | Method requirement =>
    simp only [WitnessTableBuilder.visit, WitnessTableBuilder.addMethod] at h
    cases hent : self.PILEntries with
    | nil => simp [hent] at h
    | cons entry rest =>
      simp only [hent] at h
      by_cases hres : self.ResilientConformance = true
      · simp only [hres, if_true, Option.some.injEq] at h
        subst h
        exact ⟨⟨rfl, rfl, rfl, rfl, rfl, rfl, rfl, hres.symm, rfl⟩, Or.inl ⟨rfl, rfl⟩⟩
      · have hres' : self.ResilientConformance = false := by simpa using hres
        simp only [hres', Bool.false_eq_true, if_false] at h
        cases entry with
        | Method r w =>
          simp only [Option.some.injEq] at h
          subst h
          refine ⟨⟨rfl, rfl, rfl, rfl, rfl, rfl, rfl, hres'.symm, rfl⟩, Or.inr (Or.inl ⟨_, ?_, rfl, rfl⟩)⟩
          cases w <;> (intro hc; cases hc)
        | Invalid => simp at h
        | AssociatedType a => simp at h
        | AssociatedTypeInterface a b => simp at h
        | BaseInterface a => simp at h
  | AssociatedType requirement =>
    simp only [WitnessTableBuilder.visit, WitnessTableBuilder.addAssociatedType] at h
    cases hent : self.PILEntries with
    | nil => simp [hent] at h
    | cons entry rest =>
      simp only [hent] at h
      by_cases hres : self.ResilientConformance = true
      · simp only [hres, if_true, Option.some.injEq] at h
        subst h
        exact ⟨⟨rfl, rfl, rfl, rfl, rfl, rfl, rfl, hres.symm, rfl⟩, Or.inl ⟨rfl, rfl⟩⟩
      · have hres' : self.ResilientConformance = false := by simpa using hres
        simp only [hres', Bool.false_eq_true, if_false, Option.some.injEq] at h
        subst h
        refine ⟨⟨rfl, rfl, rfl, rfl, rfl, rfl, rfl, hres'.symm, rfl⟩, Or.inr (Or.inl ⟨_, ?_, rfl, rfl⟩)⟩
        intro hc
        cases hc
  | AssociatedConformance requirement =>
    simp only [WitnessTableBuilder.visit, WitnessTableBuilder.addAssociatedConformance] at h
    cases hent : self.PILEntries with
    | nil => simp [hent] at h
    | cons entry rest =>
      simp only [hent] at h
      by_cases hres : self.ResilientConformance = true
      · simp only [hres, if_true, Option.some.injEq] at h
        subst h
        exact ⟨⟨rfl, rfl, rfl, rfl, rfl, rfl, rfl, hres.symm, rfl⟩, Or.inl ⟨rfl, rfl⟩⟩
      · have hres' : self.ResilientConformance = false := by simpa using hres
        simp only [hres', Bool.false_eq_true, if_false] at h
        split at h
        · cases h
        · rename_i witnessEntry self2 hw
          simp only [Option.some.injEq] at h
          subst h
          obtain ⟨⟨cache, hs2⟩, hwe, _⟩ :=
            WitnessTableBuilder.getAssociatedConformanceWitness_frame IGM inputs _ _ _ _ _ _ hw
          subst hs2
          refine ⟨⟨rfl, rfl, rfl, rfl, rfl, rfl, rfl, hres'.symm, rfl⟩, Or.inr (Or.inl ⟨_, ?_, rfl, rfl⟩)⟩
          rw [hwe]
          intro hc
          cases hc
  | OutOfLineBaseInterface baseProto =>
    simp only [WitnessTableBuilder.visit, WitnessTableBuilder.addOutOfLineBaseInterface] at h
    cases hent : self.PILEntries with
    | nil => simp [hent] at h
    | cons entry rest =>
      simp only [hent] at h
      by_cases hres : self.ResilientConformance = true
      · simp only [hres, if_true, Option.some.injEq] at h
        subst h
        exact ⟨⟨rfl, rfl, rfl, rfl, rfl, rfl, rfl, hres.symm, rfl⟩, Or.inl ⟨rfl, rfl⟩⟩
      · have hres' : self.ResilientConformance = false := by simpa using hres
        simp only [hres', Bool.false_eq_true, if_false] at h
        split at h
        · cases h
        · rename_i conf Conformances hci
          split at h
          · rename_i baseWitness hw
            simp only [Option.some.injEq] at h
            subst h
            exact ⟨⟨rfl, rfl, rfl, rfl, rfl, rfl, rfl, hres'.symm, rfl⟩,
              Or.inr (Or.inl ⟨baseWitness,
                ConformanceInfo.tryGetConstantTable_ne_null IGM _ _ _ _ _ hw, rfl, rfl⟩)⟩
          · rename_i hw
            simp only [Option.some.injEq] at h
            subst h
            exact ⟨⟨rfl, rfl, rfl, rfl, rfl, rfl, rfl, hres'.symm, rfl⟩,
              Or.inr (Or.inr ⟨conf, hw, rfl, rfl⟩)⟩

theorem getConformanceInfo_total (IGM : IRGenModule) (hwf : IGM.Context.wellFormed = true)
    (Conformances : ConformanceCache) (protocol : InterfaceDecl)
    (conformance : InterfaceConformance)
    (hroot : conformance.getRootConformance.inTable IGM.Context.conformances.length = true) :
    ∃ r, IGM.getConformanceInfo Conformances protocol conformance = some r := by
  obtain ⟨d, hd⟩ := isDependentConformance_total IGM hwf conformance.getRootConformance hroot
  unfold IRGenModule.getConformanceInfo
  cases hc : checkCache Conformances conformance with
  | some found => exact ⟨_, rfl⟩
  | none =>
    simp only [hd]
    split
    · exact ⟨_, rfl⟩
    · split <;> exact ⟨_, rfl⟩

theorem WitnessTableBuilder.addConditionalConformances_foldl
    (l : List PILWitnessTable.ConditionalConformance) (self : WitnessTableBuilder) :
    l.foldl
      (fun (b : WitnessTableBuilder) _conditional =>
        let r := b.getNextPrivateDataIndex
        { r.2 with
          ConditionalRequirementPrivateDataIndices :=
            r.2.ConditionalRequirementPrivateDataIndices ++ [r.1] })
      self =
    { self with
      ConditionalRequirementPrivateDataIndices :=
        self.ConditionalRequirementPrivateDataIndices ++
          List.range' self.NextPrivateDataIndex l.length
      NextPrivateDataIndex := self.NextPrivateDataIndex + l.length } := by
  induction l generalizing self with
  | nil => simp
  | cons c rest ih =>
    rw [List.foldl_cons, ih]
    simp only [WitnessTableBuilder.getNextPrivateDataIndex, List.length_cons, List.range'_succ,
      List.append_assoc, List.singleton_append]
    congr 1
    omega

theorem WitnessTableBuilder.addConditionalConformances_eq (self : WitnessTableBuilder) :
    self.addConditionalConformances =
    { self with
      ConditionalRequirementPrivateDataIndices :=
        self.ConditionalRequirementPrivateDataIndices ++
          List.range' self.NextPrivateDataIndex self.PILConditionalConformances.length
      NextPrivateDataIndex :=
        self.NextPrivateDataIndex + self.PILConditionalConformances.length } :=
  WitnessTableBuilder.addConditionalConformances_foldl self.PILConditionalConformances self

theorem WitnessTableBuilder.visitAll_sameSetup (IGM : IRGenModule)
    (inputs : WitnessTableInputs) (events : List WitnessVisit)
    (self s' : WitnessTableBuilder)
    (h : WitnessTableBuilder.visitAll IGM inputs events self = some s') :
    WitnessTableBuilder.SameSetup self s' := by
  induction events generalizing self with
  | nil =>
    simp only [WitnessTableBuilder.visitAll, Option.some.injEq] at h
    subst h
    exact WitnessTableBuilder.sameSetup_refl _
  | cons e rest ih =>
    simp only [WitnessTableBuilder.visitAll] at h
    cases hv : self.visit IGM inputs e with
    | none => simp [hv] at h
    | some s1 =>
      simp only [hv] at h
      exact WitnessTableBuilder.sameSetup_trans
        (WitnessTableBuilder.visit_effect IGM inputs self s1 e hv).1 (ih s1 h)

theorem WitnessTableBuilder.build_eq (IGM : IRGenModule) (inputs : WitnessTableInputs)
    (self s' : WitnessTableBuilder) (h : self.build IGM inputs = some s') :
    ∃ s2, WitnessTableBuilder.visitAll IGM inputs
        (Irgen.visitInterfaceDecl false (inputs.requirementsOf self.PILWT.Interface))
        self.addConditionalConformances = some s2 ∧
      s' = { s2 with TableSize := s2.Table.length % 4294967296 } := by
  unfold WitnessTableBuilder.build at h
  simp only [WitnessTableBuilder.visitInterfaceDecl] at h
  have hP : self.addConditionalConformances.PILWT = self.PILWT := by
    rw [WitnessTableBuilder.addConditionalConformances_eq]
  rw [hP] at h
  split at h
  · cases h
  · rename_i s2 hs2
    simp only [Option.some.injEq] at h
    exact ⟨s2, hs2, h.symm⟩

/-- C18: After `WitnessTableBuilder::build()` on a freshly created builder, the private slot
indices assigned to the conditional conformances of the recorded witness table are
`0, 1, ..., n - 1` in declaration order (the i-th conditional conformance has slot `i`), and
`getTablePrivateSize()` is `n`, the number of conditional conformances. The allocation step
`addConditionalConformances` establishes this by itself, and the rest of `build` keeps it. -/
theorem build_assigns_private_slots (IGM : IRGenModule) (inputs : WitnessTableInputs)
    (Conformances : ConformanceCache) (Interfaces : InterfaceCache) (table : List Constant)
    (PILWT : PILWitnessTable) (built : WitnessTableBuilder)
    (hbuild : (WitnessTableBuilder.create IGM inputs Conformances Interfaces table PILWT).1.build
      IGM inputs = some built) :
    ((WitnessTableBuilder.create IGM inputs Conformances Interfaces table
        PILWT).1.addConditionalConformances.ConditionalRequirementPrivateDataIndices =
      List.range PILWT.ConditionalConformances.length) ∧
    built.ConditionalRequirementPrivateDataIndices =
      List.range PILWT.ConditionalConformances.length ∧
    (∀ i, i < PILWT.ConditionalConformances.length →
      built.ConditionalRequirementPrivateDataIndices[i]? = some i) ∧
    built.getTablePrivateSize = PILWT.ConditionalConformances.length := by
  obtain ⟨s2, hs2, hb⟩ := WitnessTableBuilder.build_eq IGM inputs _ _ hbuild
  obtain ⟨_, _, _, _, _, hidx, hnext, _, _⟩ :=
    WitnessTableBuilder.visitAll_sameSetup IGM inputs _ _ _ hs2
  have hadd : (WitnessTableBuilder.create IGM inputs Conformances Interfaces table
        PILWT).1.addConditionalConformances.ConditionalRequirementPrivateDataIndices =
      List.range PILWT.ConditionalConformances.length := by
    rw [WitnessTableBuilder.addConditionalConformances_eq]
    simp [WitnessTableBuilder.create, List.range_eq_range']
  have hsize : (WitnessTableBuilder.create IGM inputs Conformances Interfaces table
        PILWT).1.addConditionalConformances.NextPrivateDataIndex =
      PILWT.ConditionalConformances.length := by
    rw [WitnessTableBuilder.addConditionalConformances_eq]
    simp [WitnessTableBuilder.create]
  have hbi : built.ConditionalRequirementPrivateDataIndices =
      List.range PILWT.ConditionalConformances.length := by
    rw [hb]
    exact hidx.trans hadd
  refine ⟨hadd, hbi, ?_, ?_⟩
  · intro i hi
    rw [hbi]
    simp [hi]
  · rw [hb]
    exact hnext.trans hsize

theorem build_assigns_private_slots_witness :
    ∃ built, (freshBuilder fixedTableScenario).build builderModule builderInputs = some built ∧
      built.ConditionalRequirementPrivateDataIndices = [0, 1] ∧
      built.getTablePrivateSize = 2 := by
  have h : ((freshBuilder fixedTableScenario).build builderModule builderInputs).isSome = true := by
    decide
  obtain ⟨built, hb⟩ := Option.isSome_iff_exists.mp h
  have hspec := build_assigns_private_slots builderModule builderInputs [] [] []
    fixedTableScenario built hb
  exact ⟨built, hb, hspec.2.1, hspec.2.2.2⟩

theorem WitnessTableBuilder.defineAccessFunction_total (IGM : IRGenModule)
    (hwf : IGM.Context.wellFormed = true) (inputs : WitnessTableInputs)
    (self : WitnessTableBuilder) (requirement : AssociatedConformance) (type : CanType)
    (ref : InterfaceConformanceRef)
    (id : Nat) (hnormal : self.Conformance = RootInterfaceConformance.normal id)
    (hok : self.AccessFunctionEmittable IGM inputs type requirement.associatedRequirement ref) :
    ∃ cache, self.defineAssociatedTypeWitnessTableAccessFunction IGM inputs requirement type
      ref = some { self with Conformances := cache } := by
  obtain ⟨Table, TableSize, PILWT, ConcreteType, Conformance, ConformanceInContext, PILEntries,
    PILConditionalConformances, SpecializedBaseConformances,
    ConditionalRequirementPrivateDataIndices, NextPrivateDataIndex, ResilientConformance, PI,
    Conformances⟩ := self
  simp only at hnormal
  subst hnormal
  obtain ⟨hconc, habs, hpath⟩ := hok
  unfold WitnessTableBuilder.defineAssociatedTypeWitnessTableAccessFunction
  cases ref with
  | «abstract» p =>
    obtain ⟨harch, hcast⟩ := habs p rfl
    refine ⟨Conformances, ?_⟩
    simp only [harch, Bool.not_true, Bool.false_eq_true, if_false]
    split
    · rename_i fulfillment hf
      rw [if_neg (hpath harch fulfillment hf)]
    · rename_i hf
      obtain ⟨a, ha⟩ := hcast hf
      subst ha
      rfl
  | concrete p c =>
    obtain ⟨⟨info, cache⟩, hr⟩ := getConformanceInfo_total IGM hwf Conformances
      requirement.associatedRequirement c (hconc p c rfl)
    refine ⟨cache, ?_⟩
    simp only [hr]
    split
    · rfl
    · split
      · rfl
      · rename_i hna
        have harch : type.hasArchetype = true := by simpa using hna
        split
        · rename_i fulfillment hf
          rw [if_neg (hpath harch fulfillment hf)]
        · rfl

theorem WitnessTableBuilder.getAssociatedConformanceWitness_total (IGM : IRGenModule)
    (hwf : IGM.Context.wellFormed = true) (inputs : WitnessTableInputs)
    (self : WitnessTableBuilder) (requirement : AssociatedConformance) (type : CanType)
    (ref : InterfaceConformanceRef)
    (id : Nat) (hnormal : self.Conformance = RootInterfaceConformance.normal id)
    (hok : self.AccessFunctionEmittable IGM inputs type requirement.associatedRequirement ref) :
    ∃ cache, self.getAssociatedConformanceWitness IGM inputs requirement type ref =
      some (Constant.MangledAssociatedConformance self.Conformance requirement,
        { self with Conformances := cache }) := by
  obtain ⟨cache, hc⟩ := WitnessTableBuilder.defineAccessFunction_total IGM hwf inputs self
    requirement type ref id hnormal hok
  refine ⟨cache, ?_⟩
  unfold WitnessTableBuilder.getAssociatedConformanceWitness
  rw [hc]
  simp only [hnormal]

theorem WitnessTableBuilder.getFulfillmentMap_congr (IGM : IRGenModule)
    (inputs : WitnessTableInputs) (s s' : WitnessTableBuilder)
    (h : s'.ConcreteType = s.ConcreteType) :
    s'.getFulfillmentMap IGM inputs = s.getFulfillmentMap IGM inputs := by
  unfold WitnessTableBuilder.getFulfillmentMap
  rw [h]

theorem WitnessTableBuilder.accessFunctionEmittable_congr {IGM : IRGenModule}
    {inputs : WitnessTableInputs} {s s' : WitnessTableBuilder} {type : CanType}
    {protocol : InterfaceDecl} {ref : InterfaceConformanceRef}
    (h : s'.ConcreteType = s.ConcreteType)
    (hok : s.AccessFunctionEmittable IGM inputs type protocol ref) :
    s'.AccessFunctionEmittable IGM inputs type protocol ref := by
  unfold WitnessTableBuilder.AccessFunctionEmittable at hok ⊢
  rw [WitnessTableBuilder.getFulfillmentMap_congr IGM inputs s s' h]
  exact hok

theorem WitnessTableBuilder.resilientEntryEmittable_congr {IGM : IRGenModule}
    {inputs : WitnessTableInputs} {s s' : WitnessTableBuilder}
    (hctx : s'.ConformanceInContext = s.ConformanceInContext)
    (htype : s'.ConcreteType = s.ConcreteType) (entry : PILWitnessTable.Entry)
    (hok : s.ResilientEntryEmittable IGM inputs entry) :
    s'.ResilientEntryEmittable IGM inputs entry := by
  cases entry with
  | AssociatedTypeInterface t q =>
    simp only [WitnessTableBuilder.ResilientEntryEmittable] at hok ⊢
    rw [hctx]
    exact WitnessTableBuilder.accessFunctionEmittable_congr htype hok
  | BaseInterface b =>
    simp only [WitnessTableBuilder.ResilientEntryEmittable] at hok ⊢
    rw [hctx, htype]
    exact WitnessTableBuilder.accessFunctionEmittable_congr htype hok
  | Invalid => trivial
  | Method r w => trivial
  | AssociatedType a => trivial

theorem WitnessTableBuilder.collectResilientWitness_spec (IGM : IRGenModule)
    (hwf : IGM.Context.wellFormed = true) (inputs : WitnessTableInputs)
    (self : WitnessTableBuilder) (acc : List (Option Constant))
    (entry : PILWitnessTable.Entry)
    (id : Nat) (hnormal : self.Conformance = RootInterfaceConformance.normal id)
    (hok : self.ResilientEntryEmittable IGM inputs entry) :
    ∃ cache, self.collectResilientWitness IGM inputs acc entry =
      some ({ self with Conformances := cache }, acc ++ self.resilientWitnessesOf entry) := by
  cases entry with
  | Invalid =>
    exact ⟨self.Conformances, by
      simp [WitnessTableBuilder.collectResilientWitness,
        WitnessTableBuilder.resilientWitnessesOf]⟩
  | Method r w =>
    refine ⟨self.Conformances, ?_⟩
    cases w <;>
      simp [WitnessTableBuilder.collectResilientWitness,
        WitnessTableBuilder.resilientWitnessesOf]
  | AssociatedType a =>
    exact ⟨self.Conformances, by
      simp [WitnessTableBuilder.collectResilientWitness,
        WitnessTableBuilder.resilientWitnessesOf]⟩
  | AssociatedTypeInterface t q =>
    obtain ⟨cache, hc⟩ := WitnessTableBuilder.getAssociatedConformanceWitness_total IGM hwf
      inputs self
      { sourceInterface := self.PILWT.Interface, association := t, associatedRequirement := q }
      (self.ConformanceInContext.getAssociatedType t)
      (self.ConformanceInContext.getAssociatedConformance t q) id hnormal hok
    refine ⟨cache, ?_⟩
    simp only [WitnessTableBuilder.collectResilientWitness, hc,
      WitnessTableBuilder.resilientWitnessesOf]
  | BaseInterface b =>
    obtain ⟨cache, hc⟩ := WitnessTableBuilder.getAssociatedConformanceWitness_total IGM hwf
      inputs self
      { sourceInterface := self.PILWT.Interface,
        association := self.ConformanceInContext.interfaceSelfType,
        associatedRequirement := b }
      self.ConcreteType
      (self.ConformanceInContext.getAssociatedConformance
        self.ConformanceInContext.interfaceSelfType b) id hnormal hok
    refine ⟨cache, ?_⟩
    simp only [WitnessTableBuilder.collectResilientWitness, hc,
      WitnessTableBuilder.resilientWitnessesOf]

theorem WitnessTableBuilder.collectResilientWitnessLoop_spec (IGM : IRGenModule)
    (hwf : IGM.Context.wellFormed = true) (inputs : WitnessTableInputs)
    (entries : List PILWitnessTable.Entry)
    (self : WitnessTableBuilder) (acc : List (Option Constant))
    (id : Nat) (hnormal : self.Conformance = RootInterfaceConformance.normal id)
    (hok : ∀ entry ∈ entries, self.ResilientEntryEmittable IGM inputs entry) :
    ∃ cache, WitnessTableBuilder.collectResilientWitnessLoop IGM inputs entries self acc =
      some ({ self with Conformances := cache },
        acc ++ entries.flatMap self.resilientWitnessesOf) := by
  induction entries generalizing self acc with
  | nil => exact ⟨self.Conformances, by simp [WitnessTableBuilder.collectResilientWitnessLoop]⟩
  | cons e rest ih =>
    obtain ⟨cache, hc⟩ :=
      WitnessTableBuilder.collectResilientWitness_spec IGM hwf inputs self acc e id hnormal
        (hok e (List.mem_cons_self _ _))
    obtain ⟨cache', hc'⟩ := ih { self with Conformances := cache }
      (acc ++ self.resilientWitnessesOf e) hnormal
      (fun entry hm => WitnessTableBuilder.resilientEntryEmittable_congr rfl rfl entry
        (hok entry (List.mem_cons_of_mem _ hm)))
    refine ⟨cache', ?_⟩
    simp only [WitnessTableBuilder.collectResilientWitnessLoop, hc, hc']
    have hsame : WitnessTableBuilder.resilientWitnessesOf { self with Conformances := cache } =
        self.resilientWitnessesOf := by
      funext x
      cases x <;> rfl
    simp [hsame, List.flatMap_cons]

theorem WitnessTableBuilder.visit_resilient_table (IGM : IRGenModule)
    (inputs : WitnessTableInputs) (self s' : WitnessTableBuilder) (e : WitnessVisit)
    (hres : self.ResilientConformance = true)
    (he : e ≠ WitnessVisit.InterfaceConformanceDescriptor)
    (h : self.visit IGM inputs e = some s') : s'.Table = self.Table := by
  cases e with
  | InterfaceConformanceDescriptor => exact absurd rfl he
  | Placeholder n =>
    simp [WitnessTableBuilder.visit, WitnessTableBuilder.addPlaceholder] at h
  | Method requirement =>
    simp only [WitnessTableBuilder.visit, WitnessTableBuilder.addMethod] at h
    cases hent : self.PILEntries with
    | nil => simp [hent] at h
    | cons entry rest =>
      simp only [hent, hres, if_true, Option.some.injEq] at h
      subst h
      rfl
  | AssociatedType requirement =>
    simp only [WitnessTableBuilder.visit, WitnessTableBuilder.addAssociatedType] at h
    cases hent : self.PILEntries with
    | nil => simp [hent] at h
    | cons entry rest =>
      simp only [hent, hres, if_true, Option.some.injEq] at h
      subst h
      rfl
  | AssociatedConformance requirement =>
    simp only [WitnessTableBuilder.visit, WitnessTableBuilder.addAssociatedConformance] at h
    cases hent : self.PILEntries with
    | nil => simp [hent] at h
    | cons entry rest =>
      simp only [hent, hres, if_true, Option.some.injEq] at h
      subst h
      rfl
  | OutOfLineBaseInterface baseProto =>
    simp only [WitnessTableBuilder.visit, WitnessTableBuilder.addOutOfLineBaseInterface] at h
    cases hent : self.PILEntries with
    | nil => simp [hent] at h
    | cons entry rest =>
      simp only [hent, hres, if_true, Option.some.injEq] at h
      subst h
      rfl

theorem WitnessTableBuilder.visitAll_resilient_table (IGM : IRGenModule)
    (inputs : WitnessTableInputs) (events : List WitnessVisit)
    (self s' : WitnessTableBuilder) (hres : self.ResilientConformance = true)
    (he : ∀ e ∈ events, e ≠ WitnessVisit.InterfaceConformanceDescriptor)
    (h : WitnessTableBuilder.visitAll IGM inputs events self = some s') :
    s'.Table = self.Table := by
  induction events generalizing self with
  | nil =>
    simp only [WitnessTableBuilder.visitAll, Option.some.injEq] at h
    subst h
    rfl
  | cons e rest ih =>
    simp only [WitnessTableBuilder.visitAll] at h
    cases hv : self.visit IGM inputs e with
    | none => simp [hv] at h
    | some s1 =>
      simp only [hv] at h
      have h1 := WitnessTableBuilder.visit_resilient_table IGM inputs self s1 e hres
        (he e (List.mem_cons_self _ _)) hv
      have hr1 : s1.ResilientConformance = true :=
        ((WitnessTableBuilder.visit_effect IGM inputs self s1 e hv).1.2.2.2.2.2.2.2.1).trans hres
      rw [ih s1 hr1 (fun x hx => he x (List.mem_cons_of_mem _ hx)) h, h1]

theorem visitInterfaceDecl_tail_no_descriptor (requirementSignatureOnly : Bool)
    (reqs : InterfaceRequirements) :
    ∃ tail, visitInterfaceDecl requirementSignatureOnly reqs =
        WitnessVisit.InterfaceConformanceDescriptor :: tail ∧
      ∀ e ∈ tail, e ≠ WitnessVisit.InterfaceConformanceDescriptor := by
  refine ⟨_, rfl, ?_⟩
  intro e he hc
  subst hc
  simp only [List.mem_append, List.mem_map] at he
  rcases he with ⟨x, _, hx⟩ | he
  · cases hx
  · split at he
    · cases he
    · simp only [List.mem_append, List.mem_map] at he
      rcases he with (⟨x, _, hx⟩ | ⟨x, _, hx⟩) | ⟨x, _, hx⟩
      · cases x <;> cases hx
      · cases hx
      · cases hx

theorem WitnessTableBuilder.resilientWitnessesOf_congr (s s' : WitnessTableBuilder)
    (h : WitnessTableBuilder.SameSetup s s') :
    s'.resilientWitnessesOf = s.resilientWitnessesOf := by
  obtain ⟨h0, h1, _, h3, _⟩ := h
  funext x
  cases x <;> simp [WitnessTableBuilder.resilientWitnessesOf, h0, h1, h3]

theorem WitnessTableBuilder.build_sameSetup (IGM : IRGenModule) (inputs : WitnessTableInputs)
    (self built : WitnessTableBuilder) (h : self.build IGM inputs = some built) :
    built.ConformanceInContext = self.ConformanceInContext ∧ built.PILWT = self.PILWT ∧
    built.ConcreteType = self.ConcreteType ∧ built.Conformance = self.Conformance ∧
    built.ResilientConformance = self.ResilientConformance := by
  obtain ⟨s2, hs2, hb⟩ := WitnessTableBuilder.build_eq IGM inputs _ _ h
  obtain ⟨h0, h1, h2, h3, _, _, _, h7, _⟩ :=
    WitnessTableBuilder.visitAll_sameSetup IGM inputs _ _ _ hs2
  rw [WitnessTableBuilder.addConditionalConformances_eq] at h0 h1 h2 h3 h7
  subst hb
  exact ⟨h0, h1, h2, h3, h7⟩

theorem WitnessTableBuilder.build_resilient_table (IGM : IRGenModule)
    (inputs : WitnessTableInputs) (self built : WitnessTableBuilder)
    (hres : self.ResilientConformance = true) (h : self.build IGM inputs = some built) :
    built.Table = self.Table ++ [Constant.InterfaceConformanceDescriptor self.Conformance] := by
  obtain ⟨s2, hs2, hb⟩ := WitnessTableBuilder.build_eq IGM inputs _ _ h
  obtain ⟨tail, htail, hno⟩ :=
    visitInterfaceDecl_tail_no_descriptor false (inputs.requirementsOf self.PILWT.Interface)
  rw [htail] at hs2
  simp only [WitnessTableBuilder.visitAll, WitnessTableBuilder.visit] at hs2
  have hres1 : self.addConditionalConformances.addInterfaceConformanceDescriptor.ResilientConformance
      = true := by
    rw [WitnessTableBuilder.addConditionalConformances_eq]
    exact hres
  have ht := WitnessTableBuilder.visitAll_resilient_table IGM inputs tail _ s2 hres1 hno hs2
  subst hb
  rw [show ({ s2 with TableSize := s2.Table.length % 4294967296 } :
      WitnessTableBuilder).Table = s2.Table
    from rfl, ht, WitnessTableBuilder.addConditionalConformances_eq]
  rfl

theorem IRGenModule.isResilientRootConformance_normal (IGM : IRGenModule)
    (root : RootInterfaceConformance) (h : IGM.isResilientRootConformance root = true) :
    ∃ id, root = RootInterfaceConformance.normal id := by
  cases root with
  | normal id => exact ⟨id, rfl⟩
  | selfConformance i => simp [IRGenModule.isResilientRootConformance] at h

theorem resilientBuilder_emittable :
    ∀ entry ∈ resilientTableScenario.Entries,
      resilientBuilder.ResilientEntryEmittable builderModule resilientBuilderInputs entry := by
  intro entry hm
  have hm' : entry = PILWitnessTable.Entry.BaseInterface baseInterfaceA ∨
      entry = PILWitnessTable.Entry.BaseInterface baseInterfaceB ∨
      entry = PILWitnessTable.Entry.Method { decl := 0 } (some { id := 7 }) ∨
      entry = PILWitnessTable.Entry.Method { decl := 1 } none ∨
      entry = PILWitnessTable.Entry.AssociatedType { id := 0 } := by
    simpa [resilientTableScenario, builderEntries] using hm
  have hbase : ∀ protocol : InterfaceDecl, protocol = baseInterfaceA ∨ protocol = baseInterfaceB →
      resilientBuilder.AccessFunctionEmittable builderModule resilientBuilderInputs
        resilientBuilder.ConcreteType protocol
        (resilientBuilder.ConformanceInContext.getAssociatedConformance
          resilientBuilder.ConformanceInContext.interfaceSelfType protocol) := by
    intro protocol hp
    refine ⟨?_, ?_, ?_⟩
    · intro p c hc
      have hc' : InterfaceConformanceRef.concrete protocol
          (InterfaceConformance.root
            (RootInterfaceConformance.normal (if protocol = baseInterfaceA then 1 else 2))) =
          InterfaceConformanceRef.concrete p c := hc
      cases hc'
      rcases hp with hp | hp <;> subst hp <;> decide
    · intro p hc
      have hc' : InterfaceConformanceRef.concrete protocol
          (InterfaceConformance.root
            (RootInterfaceConformance.normal (if protocol = baseInterfaceA then 1 else 2))) =
          InterfaceConformanceRef.abstract p := hc
      cases hc'
    · intro harch
      have hno : resilientBuilder.ConcreteType.hasArchetype = false := by decide
      rw [hno] at harch
      cases harch
  rcases hm' with h | h | h | h | h <;> subst h
  · exact hbase baseInterfaceA (Or.inl rfl)
  · exact hbase baseInterfaceB (Or.inr rfl)
  · trivial
  · trivial
  · trivial

/-- C16: After `build()` on the builder of a recorded witness table: for a conformance that
is not resilient, `collectResilientWitnesses` leaves the list empty; for a resilient one the
fixed table holds only the conformance descriptor (no requirement slot was added), and
`collectResilientWitnesses` returns the concatenation, in the order of the recorded entries,
of the witnesses of each entry, where an invalid entry contributes nothing and every other
entry contributes exactly one witness. The list is produced when the conformance table is
well formed and the access function of every base-protocol and associated-conformance entry
can be emitted: the conformance looked up for the entry is concrete with its root in the
conformance table, or it is abstract and the type has archetypes (with a fulfillment, or
being an archetype itself), and no replayed fulfillment path has an Impossible component.
An abstract conformance for a type without archetypes is fatal in
`defineAssociatedTypeWitnessTableAccessFunction`. -/
theorem collectResilientWitnesses_spec (IGM : IRGenModule)
    (hwf : IGM.Context.wellFormed = true) (inputs : WitnessTableInputs)
    (Conformances : ConformanceCache) (Interfaces : InterfaceCache) (table : List Constant)
    (PILWT : PILWitnessTable)
    (hok : ∀ entry ∈ PILWT.Entries,
      (WitnessTableBuilder.create IGM inputs Conformances Interfaces table
        PILWT).1.ResilientEntryEmittable IGM inputs entry)
    (built : WitnessTableBuilder)
    (hbuild : (WitnessTableBuilder.create IGM inputs Conformances Interfaces table PILWT).1.build
      IGM inputs = some built) :
    (IGM.isResilientRootConformance PILWT.Conformance = false →
      built.collectResilientWitnesses IGM inputs [] = some (built, [])) ∧
    (IGM.isResilientRootConformance PILWT.Conformance = true →
      built.Table = table ++ [Constant.InterfaceConformanceDescriptor PILWT.Conformance] ∧
      ∃ cache, built.collectResilientWitnesses IGM inputs [] =
        some ({ built with Conformances := cache },
          PILWT.Entries.flatMap
            (WitnessTableBuilder.create IGM inputs Conformances Interfaces table
              PILWT).1.resilientWitnessesOf)) ∧
    (∀ entry : PILWitnessTable.Entry,
      ((WitnessTableBuilder.create IGM inputs Conformances Interfaces table
          PILWT).1.resilientWitnessesOf entry).length =
        if entry = PILWitnessTable.Entry.Invalid then 0 else 1) := by
  obtain ⟨h0, h1, h2, h3, h7⟩ := WitnessTableBuilder.build_sameSetup IGM inputs _ _ hbuild
  have hP : built.PILWT = PILWT := h1
  have hC : built.Conformance = PILWT.Conformance := h3
  have hR : built.ResilientConformance = IGM.isResilientRootConformance PILWT.Conformance := h7
  refine ⟨?_, ?_, ?_⟩
  · intro hnr
    simp [WitnessTableBuilder.collectResilientWitnesses, hR, hnr]
  · intro hres
    refine ⟨WitnessTableBuilder.build_resilient_table IGM inputs _ _ hres hbuild, ?_⟩
    obtain ⟨id, hid⟩ := IRGenModule.isResilientRootConformance_normal IGM _ hres
    obtain ⟨cache, hc⟩ := WitnessTableBuilder.collectResilientWitnessLoop_spec IGM hwf inputs
      PILWT.Entries built [] id (hC.trans hid)
      (fun entry hm => WitnessTableBuilder.resilientEntryEmittable_congr h0 h2 entry
        (hok entry hm))
    refine ⟨cache, ?_⟩
    have hsame : built.resilientWitnessesOf =
        (WitnessTableBuilder.create IGM inputs Conformances Interfaces table
          PILWT).1.resilientWitnessesOf := by
      funext x
      cases x <;> simp [WitnessTableBuilder.resilientWitnessesOf, h0, hP, hC,
        WitnessTableBuilder.create]
    have e1 : built.collectResilientWitnesses IGM inputs [] =
        WitnessTableBuilder.collectResilientWitnessLoop IGM inputs PILWT.Entries built [] := by
      unfold WitnessTableBuilder.collectResilientWitnesses
      rw [hR, hres, hP, hC, hid]
      rfl
    rw [e1, hc, hsame, List.nil_append]
  · intro entry
    cases entry <;> simp [WitnessTableBuilder.resilientWitnessesOf]

theorem collectResilientWitnesses_spec_witness :
    ∃ built, resilientBuilder.build builderModule resilientBuilderInputs = some built ∧
      built.Table =
        [Constant.InterfaceConformanceDescriptor (RootInterfaceConformance.normal 3)] ∧
      (built.collectResilientWitnesses builderModule resilientBuilderInputs []).map Prod.snd =
        some [some (Constant.MangledAssociatedConformance (RootInterfaceConformance.normal 3)
                { sourceInterface := resilientInterfaceP,
                  association := CanType.genericTypeParam 0 0,
                  associatedRequirement := baseInterfaceA }),
              some (Constant.MangledAssociatedConformance (RootInterfaceConformance.normal 3)
                { sourceInterface := resilientInterfaceP,
                  association := CanType.genericTypeParam 0 0,
                  associatedRequirement := baseInterfaceB }),
              some (Constant.PILFunction { id := 7 }),
              none,
              some (Constant.AssociatedTypeWitness
                (CanType.nominal { id := 1, kind := NominalKind.Struct }))] := by
  have h : (resilientBuilder.build builderModule resilientBuilderInputs).isSome = true := by
    decide
  obtain ⟨built, hb⟩ := Option.isSome_iff_exists.mp h
  have hspec := collectResilientWitnesses_spec builderModule (by decide) resilientBuilderInputs
    [] [] [] resilientTableScenario resilientBuilder_emittable built hb
  obtain ⟨htable, cache, hcollect⟩ := hspec.2.1 (by decide)
  refine ⟨built, hb, htable, ?_⟩
  rw [hcollect]
  rfl

/-- C17 (counterexample): for the resilient sample conformance, whose second method was
removed as dead, `collectResilientWitnesses` after `build` returns a list that holds a null
pointer (`none`) at the place of that method, and the deleted-method trap pointer occurs
nowhere in the list. -/
theorem collectResilientWitnesses_dead_method_counterexample :
    ((resilientBuilder.build builderModule resilientBuilderInputs).bind
        (fun built =>
          (built.collectResilientWitnesses builderModule resilientBuilderInputs []).map
            (fun r => (r.2[3]?, decide (some Constant.DeletedMethodErrorFn ∈ r.2))))) =
      some (some none, false) := by
  decide

/-- C17 (amended): for every method entry, with witness `w`, the fixed witness table of a
conformance that is not resilient receives the address of the witness function when the
implementation exists and the deleted-method trap pointer when it was removed as dead; the
resilient witnesses list that `collectResilientWitnesses` returns for a resilient
conformance holds, at the place of the entry, the address of the witness function when the
implementation exists and a null pointer (`none`) when it was removed as dead, and holds the
trap pointer nowhere. The list is returned when the conformance table is well formed and
the access functions of the other entries can be emitted. -/
theorem method_witness_spec (IGM : IRGenModule) (hwf : IGM.Context.wellFormed = true)
    (inputs : WitnessTableInputs) :
    (∀ (self : WitnessTableBuilder) (requirement r : PILDeclRef) (w : Option PILFunction)
        (rest : List PILWitnessTable.Entry),
      self.PILEntries = PILWitnessTable.Entry.Method r w :: rest →
      self.ResilientConformance = false →
      self.addMethod requirement =
        some { self with
               PILEntries := rest
               Table := self.Table ++
                 [match w with
                  | some Func => Constant.PILFunction Func
                  | none => Constant.DeletedMethodErrorFn] }) ∧
    (∀ (self : WitnessTableBuilder) (id : Nat),
      self.ResilientConformance = true →
      self.Conformance = RootInterfaceConformance.normal id →
      (∀ entry ∈ self.PILWT.Entries, self.ResilientEntryEmittable IGM inputs entry) →
      ∃ (cache : ConformanceCache) (list : List (Option Constant)),
        self.collectResilientWitnesses IGM inputs [] =
          some ({ self with Conformances := cache }, list) ∧
        (∀ (before after : List PILWitnessTable.Entry) (r : PILDeclRef)
            (w : Option PILFunction),
          self.PILWT.Entries = before ++ PILWitnessTable.Entry.Method r w :: after →
          list[(before.flatMap self.resilientWitnessesOf).length]? =
            some (match w with
                  | some Func => some (Constant.PILFunction Func)
                  | none => none)) ∧
        some Constant.DeletedMethodErrorFn ∉ list) := by
  refine ⟨?_, ?_⟩
  · intro self requirement r w rest hent hnr
    cases self
    simp only at hent hnr
    subst hent hnr
    cases w <;> rfl
  · intro self id hres hnormal hok
    obtain ⟨cache, hc⟩ := WitnessTableBuilder.collectResilientWitnessLoop_spec IGM hwf inputs
      self.PILWT.Entries self [] id hnormal hok
    refine ⟨cache, self.PILWT.Entries.flatMap self.resilientWitnessesOf, ?_, ?_, ?_⟩
    · have e1 : self.collectResilientWitnesses IGM inputs [] =
          WitnessTableBuilder.collectResilientWitnessLoop IGM inputs self.PILWT.Entries self
            [] := by
        unfold WitnessTableBuilder.collectResilientWitnesses
        rw [hres, hnormal]
        rfl
      rw [e1, hc, List.nil_append]
    · intro before after r w hsplit
      rw [hsplit, List.flatMap_append, List.flatMap_cons,
        List.getElem?_append_right (Nat.le_refl _), Nat.sub_self]
      cases w <;> simp [WitnessTableBuilder.resilientWitnessesOf]
    · intro hmem
      obtain ⟨entry, _, hx⟩ := List.mem_flatMap.mp hmem
      cases entry with
      | Invalid => simp [WitnessTableBuilder.resilientWitnessesOf] at hx
      | Method r w => cases w <;> simp [WitnessTableBuilder.resilientWitnessesOf] at hx
      | AssociatedType a => simp [WitnessTableBuilder.resilientWitnessesOf] at hx
      | AssociatedTypeInterface t q => simp [WitnessTableBuilder.resilientWitnessesOf] at hx
      | BaseInterface b => simp [WitnessTableBuilder.resilientWitnessesOf] at hx

theorem method_witness_spec_witness :
    (deadMethodBuilder.addMethod { decl := 1 }).map (fun b => b.Table) =
      some [Constant.DeletedMethodErrorFn] ∧
    ∃ list,
      (resilientBuilder.collectResilientWitnesses builderModule resilientBuilderInputs
        []).map Prod.snd = some list ∧
      list[3]? = some none ∧ some Constant.DeletedMethodErrorFn ∉ list := by
  have h := method_witness_spec builderModule (by decide) resilientBuilderInputs
  have hfixed := h.1 deadMethodBuilder { decl := 1 } { decl := 1 } none [] rfl (by decide)
  obtain ⟨cache, list, hcollect, hat, hno⟩ :=
    h.2 resilientBuilder 3 (by decide) rfl resilientBuilder_emittable
  refine ⟨by rw [hfixed]; rfl, list, by rw [hcollect]; rfl, ?_, hno⟩
  exact hat
    [PILWitnessTable.Entry.BaseInterface baseInterfaceA,
     PILWitnessTable.Entry.BaseInterface baseInterfaceB,
     PILWitnessTable.Entry.Method { decl := 0 } (some { id := 7 })]
    [PILWitnessTable.Entry.AssociatedType { id := 0 }] { decl := 1 } none rfl

theorem List.getElem?_append_singleton_eq_iff {α : Type} (l : List α) (c x : α) (i : Nat) :
    (l ++ [c])[i]? = some x ↔ l[i]? = some x ∨ (i = l.length ∧ c = x) := by
  rcases Nat.lt_trichotomy i l.length with h | h | h
  · rw [List.getElem?_append_left h]
    constructor
    · intro hx
      exact Or.inl hx
    · rintro (hx | ⟨hi, _⟩)
      · exact hx
      · omega
  · subst h
    rw [List.getElem?_append_right (Nat.le_refl _)]
    simp
  · rw [List.getElem?_append_right (Nat.le_of_lt h)]
    have h1 : l[i]? = none := List.getElem?_eq_none (Nat.le_of_lt h)
    have h2 : [c][i - l.length]? = none := List.getElem?_eq_none (by simp; omega)
    rw [h1, h2]
    constructor
    · intro hx
      cases hx
    · rintro (hx | ⟨hi, _⟩)
      · cases hx
      · omega

theorem WitnessTableBuilder.DeferredBasesRecorded.step (IGM : IRGenModule)
    (inputs : WitnessTableInputs) (s s' : WitnessTableBuilder)
    (hinv : WitnessTableBuilder.DeferredBasesRecorded IGM inputs s)
    (hstep : WitnessTableBuilder.TableStep IGM inputs s s')
    (htype : s'.ConcreteType = s.ConcreteType) :
    WitnessTableBuilder.DeferredBasesRecorded IGM inputs s' := by
  obtain ⟨hpair, hiff, hnone⟩ := hinv
  rcases hstep with ⟨ht, hs⟩ | ⟨c, hc, ht, hs⟩ | ⟨conf, hconf, ht, hs⟩
  · refine ⟨?_, ?_, ?_⟩
    · rw [hs]
      exact hpair
    · intro i
      rw [hs, ht]
      exact hiff i
    · intro p hp
      rw [hs] at hp
      rw [htype]
      exact hnone p hp
  · refine ⟨?_, ?_, ?_⟩
    · rw [hs]
      exact hpair
    · intro i
      rw [hs, ht, List.getElem?_append_singleton_eq_iff, hiff i]
      constructor
      · intro h
        exact Or.inl h
      · rintro (h | ⟨_, h⟩)
        · exact h
        · exact absurd h hc
    · intro p hp
      rw [hs] at hp
      rw [htype]
      exact hnone p hp
  · have hlt : ∀ a ∈ s.SpecializedBaseConformances.map Prod.fst, a < s.Table.length := by
      intro a ha
      have h := (hiff a).mp ha
      by_contra hge
      rw [List.getElem?_eq_none (Nat.le_of_not_lt hge)] at h
      cases h
    refine ⟨?_, ?_, ?_⟩
    · rw [hs, List.map_append, List.pairwise_append]
      refine ⟨hpair, by simp, ?_⟩
      intro a ha b hb
      simp only [List.map_cons, List.map_nil, List.mem_singleton] at hb
      subst hb
      exact hlt a ha
    · intro i
      rw [hs, ht, List.getElem?_append_singleton_eq_iff, List.map_append, List.mem_append,
        hiff i]
      simp
    · intro p hp
      rw [hs, List.mem_append] at hp
      rw [htype]
      rcases hp with hp | hp
      · exact hnone p hp
      · simp only [List.mem_singleton] at hp
        subst hp
        exact hconf

theorem WitnessTableBuilder.visitAll_deferredBasesRecorded (IGM : IRGenModule)
    (inputs : WitnessTableInputs) (events : List WitnessVisit)
    (self s' : WitnessTableBuilder)
    (hinv : WitnessTableBuilder.DeferredBasesRecorded IGM inputs self)
    (h : WitnessTableBuilder.visitAll IGM inputs events self = some s') :
    WitnessTableBuilder.DeferredBasesRecorded IGM inputs s' := by
  induction events generalizing self with
  | nil =>
    simp only [WitnessTableBuilder.visitAll, Option.some.injEq] at h
    subst h
    exact hinv
  | cons e rest ih =>
    simp only [WitnessTableBuilder.visitAll] at h
    cases hv : self.visit IGM inputs e with
    | none => simp [hv] at h
    | some s1 =>
      simp only [hv] at h
      have he := WitnessTableBuilder.visit_effect IGM inputs self s1 e hv
      exact ih s1 (WitnessTableBuilder.DeferredBasesRecorded.step IGM inputs self s1 hinv he.2
        he.1.2.2.1) h

theorem WitnessTableBuilder.build_deferredBasesRecorded (IGM : IRGenModule)
    (inputs : WitnessTableInputs) (self built : WitnessTableBuilder)
    (hinv : WitnessTableBuilder.DeferredBasesRecorded IGM inputs self)
    (h : self.build IGM inputs = some built) :
    WitnessTableBuilder.DeferredBasesRecorded IGM inputs built := by
  obtain ⟨s2, hs2, hb⟩ := WitnessTableBuilder.build_eq IGM inputs _ _ h
  have h1 : WitnessTableBuilder.DeferredBasesRecorded IGM inputs
      self.addConditionalConformances := by
    rw [WitnessTableBuilder.addConditionalConformances_eq]
    exact hinv
  have h2 := WitnessTableBuilder.visitAll_deferredBasesRecorded IGM inputs _ _ s2 h1 hs2
  subst hb
  exact h2

theorem WitnessTableBuilder.addOutOfLineBaseInterface_spec (IGM : IRGenModule)
    (inputs : WitnessTableInputs) (self : WitnessTableBuilder) (baseProto : InterfaceDecl)
    (entry : PILWitnessTable.Entry) (rest : List PILWitnessTable.Entry)
    (conf : ConformanceInfo) (cache : ConformanceCache)
    (hnr : self.ResilientConformance = false) (hent : self.PILEntries = entry :: rest)
    (hinfo : IGM.getConformanceInfo self.Conformances baseProto
      (self.ConformanceInContext.getInheritedConformance baseProto) = some (conf, cache)) :
    ∃ s', self.addOutOfLineBaseInterface IGM inputs baseProto = some s' ∧
      match conf.tryGetConstantTable IGM inputs.Options inputs.rootModule self.ConcreteType with
      | some baseWitness =>
        s'.Table = self.Table ++ [baseWitness] ∧
        s'.SpecializedBaseConformances = self.SpecializedBaseConformances
      | none =>
        s'.Table = self.Table ++ [Constant.NullPointer] ∧
        s'.SpecializedBaseConformances =
          self.SpecializedBaseConformances ++ [(self.Table.length, conf)] := by
  unfold WitnessTableBuilder.addOutOfLineBaseInterface
  simp only [hent, hnr, Bool.false_eq_true, if_false, hinfo]
  cases ht : conf.tryGetConstantTable IGM inputs.Options inputs.rootModule self.ConcreteType with
  | some w => exact ⟨_, rfl, rfl, rfl⟩
  | none => exact ⟨_, rfl, rfl, rfl⟩

/-- C19: After `build()` on the builder that `emitPILWitnessTable` creates (over an empty
constant array), `buildInstantiationFunction` emits a function if and only if a base
conformance was deferred, which is the case if and only if some table slot holds a null
placeholder. Every deferred base is recorded with the index of a slot that holds the null
placeholder and with a conformance info that yields no constant table, every null slot
belongs to a deferred base, the recorded indices are strictly increasing (hence distinct),
and the stores of the emitted function are exactly the recorded deferred bases. A base is
deferred, with the index of the slot that receives the null placeholder, exactly when its
conformance info yields no constant table; otherwise the constant table fills the slot. -/
theorem buildInstantiationFunction_spec (IGM : IRGenModule) (inputs : WitnessTableInputs)
    (Conformances : ConformanceCache) (Interfaces : InterfaceCache) (PILWT : PILWitnessTable)
    (built : WitnessTableBuilder)
    (hbuild : (WitnessTableBuilder.create IGM inputs Conformances Interfaces [] PILWT).1.build
      IGM inputs = some built) :
    (built.buildInstantiationFunction.isSome = true ↔
      built.SpecializedBaseConformances ≠ []) ∧
    (built.buildInstantiationFunction.isSome = true ↔
      ∃ i : Nat, built.Table[i]? = some Constant.NullPointer) ∧
    (∀ p ∈ built.SpecializedBaseConformances,
      built.Table[p.1]? = some Constant.NullPointer ∧
      p.2.tryGetConstantTable IGM inputs.Options inputs.rootModule built.ConcreteType = none) ∧
    (∀ i : Nat, built.Table[i]? = some Constant.NullPointer →
      i ∈ built.SpecializedBaseConformances.map Prod.fst) ∧
    (built.SpecializedBaseConformances.map Prod.fst).Pairwise (fun i j => i < j) ∧
    (∀ fn, built.buildInstantiationFunction = some fn →
      fn.stores = built.SpecializedBaseConformances) ∧
    (∀ (s : WitnessTableBuilder) (baseProto : InterfaceDecl) (entry : PILWitnessTable.Entry)
      (rest : List PILWitnessTable.Entry) (conf : ConformanceInfo) (cache : ConformanceCache),
      s.ResilientConformance = false → s.PILEntries = entry :: rest →
      IGM.getConformanceInfo s.Conformances baseProto
        (s.ConformanceInContext.getInheritedConformance baseProto) = some (conf, cache) →
      ∃ s', s.addOutOfLineBaseInterface IGM inputs baseProto = some s' ∧
        match conf.tryGetConstantTable IGM inputs.Options inputs.rootModule s.ConcreteType with
        | some baseWitness =>
          s'.Table = s.Table ++ [baseWitness] ∧
          s'.SpecializedBaseConformances = s.SpecializedBaseConformances
        | none =>
          s'.Table = s.Table ++ [Constant.NullPointer] ∧
          s'.SpecializedBaseConformances =
            s.SpecializedBaseConformances ++ [(s.Table.length, conf)]) := by
  have hinit : WitnessTableBuilder.DeferredBasesRecorded IGM inputs
      (WitnessTableBuilder.create IGM inputs Conformances Interfaces [] PILWT).1 := by
    refine ⟨?_, ?_, ?_⟩
    · simp [WitnessTableBuilder.create]
    · intro i
      simp [WitnessTableBuilder.create]
    · intro p hp
      simp [WitnessTableBuilder.create] at hp
  obtain ⟨hpair, hiff, hnone⟩ :=
    WitnessTableBuilder.build_deferredBasesRecorded IGM inputs _ built hinit hbuild
  have hfn : built.buildInstantiationFunction.isSome = true ↔
      built.SpecializedBaseConformances ≠ [] := by
    unfold WitnessTableBuilder.buildInstantiationFunction
    cases hs : built.SpecializedBaseConformances with
    | nil => simp
    | cons p rest => simp
  refine ⟨hfn, ?_, ?_, ?_, hpair, ?_, ?_⟩
  · rw [hfn]
    constructor
    · intro hne
      cases hs : built.SpecializedBaseConformances with
      | nil => exact absurd hs hne
      | cons p rest =>
        refine ⟨p.1, (hiff p.1).mp ?_⟩
        rw [hs]
        simp
    · rintro ⟨i, hi⟩ hnil
      have hmem := (hiff i).mpr hi
      rw [hnil] at hmem
      simp at hmem
  · intro p hp
    exact ⟨(hiff p.1).mp (List.mem_map_of_mem _ hp), hnone p hp⟩
  · intro i hi
    exact (hiff i).mpr hi
  · intro fn hfn'
    unfold WitnessTableBuilder.buildInstantiationFunction at hfn'
    split at hfn'
    · cases hfn'
    · simp only [Option.some.injEq] at hfn'
      rw [← hfn']
  · intro s baseProto entry rest conf cache hnr hent hinfo
    exact WitnessTableBuilder.addOutOfLineBaseInterface_spec IGM inputs s baseProto entry rest
      conf cache hnr hent hinfo

theorem buildInstantiationFunction_spec_witness :
    ∃ built, (freshBuilder fixedTableScenario).build builderModule builderInputs = some built ∧
      built.buildInstantiationFunction.isSome = true ∧
      built.Table[2]? = some Constant.NullPointer ∧
      ((freshBuilder fixedTableScenario).build builderModule builderInputs).map
          (fun b => b.SpecializedBaseConformances) =
        some [(2, ConformanceInfo.Accessor
          (InterfaceConformance.root (RootInterfaceConformance.normal 2)))] := by
  have h : ((freshBuilder fixedTableScenario).build builderModule builderInputs).isSome
      = true := by decide
  obtain ⟨built, hb⟩ := Option.isSome_iff_exists.mp h
  have hspec := buildInstantiationFunction_spec builderModule builderInputs [] []
    fixedTableScenario built hb
  have hd : ((freshBuilder fixedTableScenario).build builderModule builderInputs).map
      (fun b => b.SpecializedBaseConformances) =
      some [(2, ConformanceInfo.Accessor
        (InterfaceConformance.root (RootInterfaceConformance.normal 2)))] := by decide
  have hs : built.SpecializedBaseConformances =
      [(2, ConformanceInfo.Accessor
        (InterfaceConformance.root (RootInterfaceConformance.normal 2)))] := by
    rw [hb] at hd
    simpa using hd
  refine ⟨built, hb, hspec.1.mpr (by rw [hs]; simp), ?_, ?_⟩
  · have h2 := (hspec.2.2.1 _ (by rw [hs]; exact List.mem_singleton.mpr rfl)).1
    exact h2
  · rw [hb]
    simp [hs]

/-! ## Following a metadata path -/

theorem followRequests_succ_succ (n : Nat) (finalRequest : DynamicMetadataRequest) :
    followRequests (n + 2) finalRequest =
      DynamicMetadataRequest.ofState MetadataState.Abstract ::
        followRequests (n + 1) finalRequest := by
  simp [followRequests, List.replicate_succ]

theorem followRequests_length (n : Nat) (finalRequest : DynamicMetadataRequest) :
    (followRequests n finalRequest).length = n := by
  cases n <;> simp [followRequests]

theorem followRequests_cons (component : MetadataPath.Component) (rest : MetadataPath)
    (finalRequest : DynamicMetadataRequest) :
    (component :: rest).zip (followRequests (component :: rest).length finalRequest) =
      (component,
        if rest.isEmpty then finalRequest
        else DynamicMetadataRequest.ofState MetadataState.Abstract) ::
      rest.zip (followRequests rest.length finalRequest) := by
  cases rest with
  | nil => simp [followRequests]
  | cons c rest =>
    simp only [List.length_cons, followRequests_succ_succ, List.zip_cons_cons,
      List.isEmpty_cons, Bool.false_eq_true, if_false]

theorem MetadataPath.drillIn_eq_foldlM {F K R C : Type} (ops : FollowOps F K R C)
    (finalRequest : DynamicMetadataRequest) (done rest : MetadataPath) (IGF : F)
    (sourceKey : K) (source : Option R) (cache : Option C) :
    MetadataPath.drillIn ops finalRequest done rest IGF sourceKey source cache =
      ((rest.zip (followRequests rest.length finalRequest)).foldlM (followStep ops)
        (IGF, sourceKey, source, cache, done)).map
        (fun state => (state.1, state.2.2.2.1, state.2.2.1)) := by
  induction rest generalizing done IGF sourceKey source cache with
  | nil => simp [MetadataPath.drillIn, followRequests]
  | cons component rest ih =>
    rw [followRequests_cons, List.foldlM_cons]
    simp only [MetadataPath.drillIn, followStep]
    cases hf : MetadataPath.followComponent ops IGF sourceKey source component
        (if rest.isEmpty then finalRequest
         else DynamicMetadataRequest.ofState MetadataState.Abstract) with
    | none => simp
    | some r =>
      obtain ⟨IGF1, sourceKey1, source1⟩ := r
      cases cache with
      | some map => simp [ih]
      | none => simp [ih]

theorem MetadataPath.followComponent_isSome_iff {F K R C : Type} (ops : FollowOps F K R C)
    (IGF : F) (sourceKey : K) (source : Option R) (component : MetadataPath.Component)
    (request : DynamicMetadataRequest) :
    (MetadataPath.followComponent ops IGF sourceKey source component request = none ↔
      component = MetadataPath.Component.Impossible) := by
  cases component <;> cases source <;> simp [MetadataPath.followComponent]

theorem MetadataPath.followComponent_null {F K R C : Type} (ops : FollowOps F K R C)
    (IGF : F) (sourceKey : K) (component : MetadataPath.Component)
    (request : DynamicMetadataRequest)
    (hc : component ≠ MetadataPath.Component.Impossible) :
    MetadataPath.followComponent ops IGF sourceKey none component request =
      some (IGF, ops.adjustKey IGF sourceKey component, none) := by
  cases component <;> first | rfl | exact absurd rfl hc

theorem MetadataPath.followComponent_present {F K R C : Type} (ops : FollowOps F K R C)
    (IGF : F) (sourceKey : K) (present : R) (component : MetadataPath.Component)
    (request : DynamicMetadataRequest)
    (hc : component ≠ MetadataPath.Component.Impossible) :
    MetadataPath.followComponent ops IGF sourceKey (some present) component request =
      some ((ops.emitComponent IGF sourceKey present component request).1,
        ops.adjustKey IGF sourceKey component,
        some (ops.emitComponent IGF sourceKey present component request).2) := by
  cases component <;> first | rfl | exact absurd rfl hc

theorem followStep_foldlM_impossible {F K R C : Type} (ops : FollowOps F K R C)
    (steps : List (MetadataPath.Component × DynamicMetadataRequest))
    (state : F × K × Option R × Option C × MetadataPath)
    (h : MetadataPath.Component.Impossible ∈ steps.map Prod.fst) :
    steps.foldlM (followStep ops) state = none := by
  induction steps generalizing state with
  | nil => simp at h
  | cons step rest ih =>
    rw [List.foldlM_cons]
    by_cases hc : step.1 = MetadataPath.Component.Impossible
    · have hf := (MetadataPath.followComponent_isSome_iff ops state.1 state.2.1 state.2.2.1
        step.1 step.2).mpr hc
      simp [followStep, hf]
    · have hrest : MetadataPath.Component.Impossible ∈ rest.map Prod.fst := by
        simp only [List.map_cons, List.mem_cons] at h
        rcases h with h | h
        · exact absurd h.symm hc
        · exact h
      cases hs : followStep ops state step with
      | none => rfl
      | some state1 => exact ih state1 hrest

theorem followStep_foldlM_present {F K R C : Type} (ops : FollowOps F K R C)
    (steps : List (MetadataPath.Component × DynamicMetadataRequest))
    (state : F × K × Option R × Option C × MetadataPath)
    (hsource : state.2.2.1.isSome = true)
    (h : MetadataPath.Component.Impossible ∉ steps.map Prod.fst) :
    ∃ final, steps.foldlM (followStep ops) state = some final ∧ final.2.2.1.isSome = true := by
  induction steps generalizing state with
  | nil => exact ⟨state, rfl, hsource⟩
  | cons step rest ih =>
    rw [List.foldlM_cons]
    obtain ⟨IGF, sourceKey, source, cache, done⟩ := state
    obtain ⟨present, hp⟩ := Option.isSome_iff_exists.mp hsource
    simp only at hp
    subst hp
    have hc : step.1 ≠ MetadataPath.Component.Impossible := by
      intro hc
      apply h
      simp [hc.symm]
    have hrest : MetadataPath.Component.Impossible ∉ rest.map Prod.fst := by
      intro hr
      apply h
      simp only [List.map_cons, List.mem_cons]
      exact Or.inr hr
    have hf := MetadataPath.followComponent_present ops IGF sourceKey present step.1 step.2 hc
    cases cache with
    | some map =>
      simp only [followStep, hf]
      exact ih _ rfl hrest
    | none =>
      simp only [followStep, hf]
      exact ih _ rfl hrest

theorem MetadataPath.skipToCached_none {F K R C : Type} (ops : FollowOps F K R C)
    (finalRequest : DynamicMetadataRequest) (skipDone skipRest : MetadataPath) (IGF : F)
    (skipKey : K) (baseline : K × Option R × MetadataPath × MetadataPath)
    (hnone : ∀ kr ∈ skipKeys ops IGF finalRequest skipRest skipKey,
      ops.tryGetConcreteLocalTypeData IGF kr.1 kr.2 = none) :
    (MetadataPath.Component.Impossible ∈ skipRest ∧
      MetadataPath.skipToCached ops finalRequest skipDone skipRest IGF skipKey baseline
        = none) ∨
    (MetadataPath.Component.Impossible ∉ skipRest ∧
      MetadataPath.skipToCached ops finalRequest skipDone skipRest IGF skipKey baseline
        = some (IGF, baseline)) := by
  induction skipRest generalizing skipDone skipKey with
  | nil => exact Or.inr ⟨by simp, rfl⟩
  | cons component rest ih =>
    by_cases hc : component = MetadataPath.Component.Impossible
    · left
      refine ⟨by simp [hc], ?_⟩
      have hf := (MetadataPath.followComponent_isSome_iff ops IGF skipKey none component
        (DynamicMetadataRequest.ofState MetadataState.Abstract)).mpr hc
      simp [MetadataPath.skipToCached, hf]
    · have hf := MetadataPath.followComponent_null ops IGF skipKey component
        (DynamicMetadataRequest.ofState MetadataState.Abstract) hc
      have hhead := hnone _ (List.mem_cons_self _ _)
      simp only at hhead
      have htail : ∀ kr ∈ skipKeys ops IGF finalRequest rest
          (ops.adjustKey IGF skipKey component),
          ops.tryGetConcreteLocalTypeData IGF kr.1 kr.2 = none :=
        fun kr hkr => hnone kr (List.mem_cons_of_mem _ hkr)
      have hstep : MetadataPath.skipToCached ops finalRequest skipDone (component :: rest) IGF
          skipKey baseline =
          MetadataPath.skipToCached ops finalRequest (skipDone ++ [component]) rest IGF
            (ops.adjustKey IGF skipKey component) baseline := by
        simp only [MetadataPath.skipToCached, hf, hhead]
      rw [hstep]
      rcases ih (skipDone ++ [component]) (ops.adjustKey IGF skipKey component) htail with
        ⟨hi, hr⟩ | ⟨hi, hr⟩
      · exact Or.inl ⟨List.mem_cons_of_mem _ hi, hr⟩
      · refine Or.inr ⟨?_, hr⟩
        intro hmem
        simp only [List.mem_cons] at hmem
        rcases hmem with hmem | hmem
        · exact hc hmem.symm
        · exact hi hmem

/-- C20: `MetadataPath::follow` on a path of `n` components, when no prefix is found in a
cache (the cache given by the caller has no prefix of the path, or no cache is given and
the local type data of the function has no concrete value at any key along the path),
applies `followComponent` to the source once per component from left to right, with the
Abstract request for each of the first `n - 1` components and the final request of the
caller for the last one, remembering each response. For the empty path the source is
returned unchanged. When the source is present and no component is impossible, the path is
followed to its end and the response is present. -/
theorem follow_spec {F K R C : Type} (ops : FollowOps F K R C) (IGF : F) (sourceKey : K)
    (source : Option R) (path : MetadataPath) (finalRequest : DynamicMetadataRequest) :
    (∀ map : C, (ops.findPrefix map path).1 = none →
      MetadataPath.follow ops IGF sourceKey source path finalRequest (some map) =
        followSpec ops IGF sourceKey source path finalRequest (some map)) ∧
    ((∀ kr ∈ skipKeys ops IGF finalRequest path sourceKey,
        ops.tryGetConcreteLocalTypeData IGF kr.1 kr.2 = none) →
      MetadataPath.follow ops IGF sourceKey source path finalRequest none =
        followSpec ops IGF sourceKey source path finalRequest none) ∧
    (∀ cache : Option C,
      followSpec ops IGF sourceKey source [] finalRequest cache = some (IGF, cache, source)) ∧
    (followRequests path.length finalRequest).length = path.length ∧
    (∀ i request, (followRequests path.length finalRequest)[i]? = some request →
      request = if i + 1 = path.length then finalRequest
        else DynamicMetadataRequest.ofState MetadataState.Abstract) ∧
    (∀ cache : Option C, source.isSome = true → MetadataPath.Component.Impossible ∉ path →
      ∃ IGF1 cache1 response,
        followSpec ops IGF sourceKey source path finalRequest cache =
          some (IGF1, cache1, some response)) := by
  refine ⟨?_, ?_, ?_, followRequests_length _ _, ?_, ?_⟩
  · intro map hmap
    simp only [MetadataPath.follow, hmap, followSpec]
    exact MetadataPath.drillIn_eq_foldlM ops finalRequest [] path IGF sourceKey source (some map)
  · intro hnone
    rcases MetadataPath.skipToCached_none ops finalRequest [] path IGF sourceKey
        (sourceKey, source, [], path) hnone with ⟨himp, hskip⟩ | ⟨_, hskip⟩
    · simp only [MetadataPath.follow, hskip, followSpec]
      rw [followStep_foldlM_impossible ops _ _ (by
        rw [List.map_fst_zip]
        · exact himp
        · rw [followRequests_length])]
      rfl
    · simp only [MetadataPath.follow, hskip, followSpec]
      exact MetadataPath.drillIn_eq_foldlM ops finalRequest [] path IGF sourceKey source none
  · intro cache
    simp [followSpec, followRequests]
  · intro i request hi
    cases hn : path.length with
    | zero =>
      rw [hn] at hi
      simp [followRequests] at hi
    | succ m =>
      rw [hn] at hi
      simp only [followRequests] at hi
      by_cases him : i < m
      · rw [List.getElem?_append_left (by simpa using him)] at hi
        rw [List.getElem?_replicate] at hi
        simp only [him, if_true, Option.some.injEq] at hi
        rw [if_neg (by omega)]
        exact hi.symm
      · rw [List.getElem?_append_right (by simpa using Nat.le_of_not_lt him)] at hi
        simp only [List.length_replicate] at hi
        by_cases hie : i = m
        · subst hie
          simp only [Nat.sub_self, List.getElem?_cons_zero, Option.some.injEq] at hi
          rw [if_pos rfl]
          exact hi.symm
        · rw [List.getElem?_eq_none (by simp only [List.length_singleton]; omega)] at hi
          cases hi
  · intro cache hsource himp
    obtain ⟨final, hfinal, hpresent⟩ := followStep_foldlM_present ops
      (path.zip (followRequests path.length finalRequest)) (IGF, sourceKey, source, cache, [])
      hsource (by
        rw [List.map_fst_zip]
        · exact himp
        · rw [followRequests_length])
    obtain ⟨response, hresponse⟩ := Option.isSome_iff_exists.mp hpresent
    refine ⟨final.1, final.2.2.2.1, response, ?_⟩
    simp only [followSpec, hfinal, Option.map_some', hresponse]

theorem follow_spec_witness :
    MetadataPath.follow loggingFollowOps [] 0 (some 0) followScenarioPath
        (DynamicMetadataRequest.ofState MetadataState.Complete) none =
      some ([(MetadataPath.Component.NominalTypeArgumentConformance 0,
              DynamicMetadataRequest.ofState MetadataState.Abstract),
             (MetadataPath.Component.AssociatedConformance 1,
              DynamicMetadataRequest.ofState MetadataState.Abstract),
             (MetadataPath.Component.OutOfLineBaseInterface 2,
              DynamicMetadataRequest.ofState MetadataState.Complete)], none, some 3) := by
  have h := (follow_spec loggingFollowOps [] 0 (some 0) followScenarioPath
    (DynamicMetadataRequest.ofState MetadataState.Complete)).2.1 (fun _ _ => rfl)
  rw [h]
  rfl

theorem MetadataPath.advanceSourceKey_eq {F K R C : Type} (ops : FollowOps F K R C)
    (path : MetadataPath) (IGF : F) (sourceKey : K)
    (himp : MetadataPath.Component.Impossible ∉ path) :
    MetadataPath.advanceSourceKey ops path IGF sourceKey =
      some (IGF, path.foldl (ops.adjustKey IGF) sourceKey) := by
  induction path generalizing sourceKey with
  | nil => rfl
  | cons component rest ih =>
    have hc : component ≠ MetadataPath.Component.Impossible := by
      intro hc
      exact himp (by simp [hc])
    have hrest : MetadataPath.Component.Impossible ∉ rest :=
      fun h => himp (List.mem_cons_of_mem _ h)
    simp only [MetadataPath.advanceSourceKey,
      MetadataPath.followComponent_null ops IGF sourceKey component _ hc, List.foldl_cons]
    exact ih _ hrest

theorem MetadataPath.advanceSourceKey_impossible {F K R C : Type} (ops : FollowOps F K R C)
    (path : MetadataPath) (IGF : F) (sourceKey : K)
    (himp : MetadataPath.Component.Impossible ∈ path) :
    MetadataPath.advanceSourceKey ops path IGF sourceKey = none := by
  induction path generalizing IGF sourceKey with
  | nil => simp at himp
  | cons component rest ih =>
    by_cases hc : component = MetadataPath.Component.Impossible
    · have hf := (MetadataPath.followComponent_isSome_iff ops IGF sourceKey none component
        (DynamicMetadataRequest.ofState MetadataState.Abstract)).mpr hc
      simp [MetadataPath.advanceSourceKey, hf]
    · have hrest : MetadataPath.Component.Impossible ∈ rest := by
        simp only [List.mem_cons] at himp
        rcases himp with h | h
        · exact absurd h.symm hc
        · exact h
      simp only [MetadataPath.advanceSourceKey,
        MetadataPath.followComponent_null ops IGF sourceKey component _ hc]
      exact ih _ _ hrest

theorem MetadataPath.drillIn_impossible {F K R C : Type} (ops : FollowOps F K R C)
    (finalRequest : DynamicMetadataRequest) (done rest : MetadataPath) (IGF : F)
    (sourceKey : K) (source : Option R) (cache : Option C)
    (himp : MetadataPath.Component.Impossible ∈ rest) :
    MetadataPath.drillIn ops finalRequest done rest IGF sourceKey source cache = none := by
  rw [MetadataPath.drillIn_eq_foldlM, followStep_foldlM_impossible ops _ _ (by
    rw [List.map_fst_zip]
    · exact himp
    · rw [followRequests_length])]
  rfl

theorem MetadataPath.drillIn_absent {F K R C : Type} (ops : FollowOps F K R C)
    (finalRequest : DynamicMetadataRequest) (done rest : MetadataPath) (IGF : F)
    (sourceKey : K) (cache : Option C)
    (himp : MetadataPath.Component.Impossible ∉ rest) :
    ∃ IGF1 cache1,
      MetadataPath.drillIn ops finalRequest done rest IGF sourceKey none cache =
        some (IGF1, cache1, none) := by
  induction rest generalizing done IGF sourceKey cache with
  | nil => exact ⟨IGF, cache, rfl⟩
  | cons component rest ih =>
    have hc : component ≠ MetadataPath.Component.Impossible := by
      intro hc
      exact himp (by simp [hc])
    have hrest : MetadataPath.Component.Impossible ∉ rest :=
      fun h => himp (List.mem_cons_of_mem _ h)
    cases cache with
    | some map =>
      simp only [MetadataPath.drillIn,
        MetadataPath.followComponent_null ops IGF sourceKey component _ hc]
      exact ih _ _ _ _ hrest
    | none =>
      simp only [MetadataPath.drillIn,
        MetadataPath.followComponent_null ops IGF sourceKey component _ hc]
      exact ih _ _ _ _ hrest

/-- C21: With an absent source, replaying a path that has no Impossible component advances
the source key through every component and returns no value. The loop of `follow` that
advances the key leaves the key adjusted by every component in turn and the function state
untouched; `followComponent` with an absent source returns an absent response, and the
key it leaves is the key it leaves for a present source (for which it returns a present
response); the drilling loop started on an absent source ends with an absent response. -/
theorem followComponent_absent_source {F K R C : Type} (ops : FollowOps F K R C) (IGF : F)
    (sourceKey : K) (path : MetadataPath)
    (himp : MetadataPath.Component.Impossible ∉ path) :
    MetadataPath.advanceSourceKey ops path IGF sourceKey =
      some (IGF, path.foldl (ops.adjustKey IGF) sourceKey) ∧
    (∀ component ∈ path, ∀ (key : K) (request : DynamicMetadataRequest),
      MetadataPath.followComponent ops IGF key none component request =
        some (IGF, ops.adjustKey IGF key component, none) ∧
      ∀ present : R, ∃ IGF1 response,
        MetadataPath.followComponent ops IGF key (some present) component request =
          some (IGF1, ops.adjustKey IGF key component, some response) ∧
        (MetadataPath.followComponent ops IGF key none component request).map
            (fun r => r.2.1) =
          (MetadataPath.followComponent ops IGF key (some present) component request).map
            (fun r => r.2.1)) ∧
    (∀ (finalRequest : DynamicMetadataRequest) (cache : Option C),
      ∃ IGF1 cache1,
        MetadataPath.drillIn ops finalRequest [] path IGF sourceKey none cache =
          some (IGF1, cache1, none)) := by
  refine ⟨MetadataPath.advanceSourceKey_eq ops path IGF sourceKey himp, ?_, ?_⟩
  · intro component hmem key request
    have hc : component ≠ MetadataPath.Component.Impossible := by
      intro hc
      exact himp (hc ▸ hmem)
    have hnull := MetadataPath.followComponent_null ops IGF key component request hc
    refine ⟨hnull, ?_⟩
    intro present
    have hpres := MetadataPath.followComponent_present ops IGF key present component request hc
    exact ⟨_, _, hpres, by rw [hnull, hpres]; rfl⟩
  · intro finalRequest cache
    exact MetadataPath.drillIn_absent ops finalRequest [] path IGF sourceKey cache himp

theorem followComponent_absent_source_witness :
    MetadataPath.advanceSourceKey loggingFollowOps followScenarioPath [] 0 = some ([], 3) ∧
    MetadataPath.followComponent loggingFollowOps [] 0 none
        (MetadataPath.Component.AssociatedConformance 1)
        (DynamicMetadataRequest.ofState MetadataState.Abstract) = some ([], 1, none) := by
  have h := followComponent_absent_source loggingFollowOps [] 0 followScenarioPath (by decide)
  exact ⟨h.1, (h.2.1 (MetadataPath.Component.AssociatedConformance 1) (by decide) 0
    (DynamicMetadataRequest.ofState MetadataState.Abstract)).1⟩

theorem MetadataPath.follow_impossible {F K R C : Type} (ops : FollowOps F K R C) (IGF : F)
    (sourceKey : K) (source : Option R) (path : MetadataPath)
    (finalRequest : DynamicMetadataRequest)
    (himp : MetadataPath.Component.Impossible ∈ path) :
    MetadataPath.follow ops IGF sourceKey source path finalRequest none = none ∧
    (∀ map : C,
      (ops.findPrefix map path).1 = none ∨ (path.drop (ops.findPrefix map path).2) ≠ [] →
      MetadataPath.follow ops IGF sourceKey source path finalRequest (some map) = none) := by
  constructor
  · have hkey : ∀ (skipDone skipRest : MetadataPath) (skipKey : K)
        (baseline : K × Option R × MetadataPath × MetadataPath),
        MetadataPath.Component.Impossible ∈ skipRest →
        MetadataPath.skipToCached ops finalRequest skipDone skipRest IGF skipKey baseline
          = none := by
      intro skipDone skipRest
      induction skipRest generalizing skipDone with
      | nil =>
        intro _ _ h
        simp at h
      | cons component rest ih =>
        intro skipKey baseline h
        by_cases hc : component = MetadataPath.Component.Impossible
        · have hf := (MetadataPath.followComponent_isSome_iff ops IGF skipKey none component
            (DynamicMetadataRequest.ofState MetadataState.Abstract)).mpr hc
          simp [MetadataPath.skipToCached, hf]
        · have hrest : MetadataPath.Component.Impossible ∈ rest := by
            simp only [List.mem_cons] at h
            rcases h with h | h
            · exact absurd h.symm hc
            · exact h
          simp only [MetadataPath.skipToCached,
            MetadataPath.followComponent_null ops IGF skipKey component _ hc]
          split
          · exact ih _ _ _ hrest
          · exact ih _ _ _ hrest
    simp only [MetadataPath.follow, hkey [] path sourceKey _ himp]
  · intro map hmap
    simp only [MetadataPath.follow]
    cases hfound : (ops.findPrefix map path).1 with
    | none =>
      exact MetadataPath.drillIn_impossible ops finalRequest [] path IGF sourceKey source _ himp
    | some found =>
      have hdrop : (path.drop (ops.findPrefix map path).2) ≠ [] := by
        rcases hmap with h | h
        · rw [hfound] at h
          cases h
        · exact h
      have hempty : (path.drop (ops.findPrefix map path).2).isEmpty = false := by
        cases hd : path.drop (ops.findPrefix map path).2 with
        | nil => exact absurd hd hdrop
        | cons a b => rfl
      simp only [hempty, Bool.false_eq_true, if_false]
      have hsplit : MetadataPath.Component.Impossible ∈ path.take (ops.findPrefix map path).2 ∨
          MetadataPath.Component.Impossible ∈ path.drop (ops.findPrefix map path).2 := by
        rw [← List.mem_append, List.take_append_drop]
        exact himp
      rcases hsplit with h | h
      · rw [MetadataPath.advanceSourceKey_impossible ops _ IGF sourceKey h]
      · cases hadv : MetadataPath.advanceSourceKey ops
            (path.take (ops.findPrefix map path).2) IGF sourceKey with
        | none => rfl
        | some r =>
          exact MetadataPath.drillIn_impossible ops finalRequest _ _ r.1 r.2 found _ h

/-- C22 (counterexample): for the pseudogeneric witness method whose Self type is the generic
parameter of `<T where T: P>`, the fulfillment recorded for the type metadata of `T` has
the empty path, and `follow` on the path of that fulfillment returns the source: not every
fulfillment recorded for a pseudogeneric function has a path that reaches an Impossible
component. -/
theorem pseudogeneric_self_path_counterexample :
    pseudogenericWitnessScenario.pseudogeneric = true ∧
    ((PolymorphicConvention.construct (scenarioModule { id := 0 } [])
        pseudogenericWitnessScenario).Fulfillments.getTypeMetadata
        (CanType.genericTypeParam 0 0)).map
      (fun fulfillment =>
        (fulfillment.Path,
          MetadataPath.follow loggingFollowOps [] 0 (some 0) fulfillment.Path
            (DynamicMetadataRequest.ofState MetadataState.Complete) none)) =
      some ([], some ([], none, some 0)) :=
  ⟨rfl, by rfl⟩

/-- C22 (amended): `followComponent` never returns a value for an Impossible component,
whether the source is present or absent, so `follow` fails on every path whose replay
reaches one: on every path with an Impossible component when no cache is given, and, when
a cache is given, unless the cache holds a value for the whole path. In particular
`follow` fails on the path of every fulfillment that `addPseudogenericFulfillments`
records for a pseudogeneric function, that is for every requirement not already fulfilled
from the witness-method Self (every requirement when the function is not a witness
method). -/
theorem follow_impossible_fails {F K R C : Type} (ops : FollowOps F K R C) (IGF : F)
    (sourceKey : K) (source : Option R) (finalRequest : DynamicMetadataRequest) :
    (∀ request : DynamicMetadataRequest,
      MetadataPath.followComponent ops IGF sourceKey source MetadataPath.Component.Impossible
        request = none) ∧
    (∀ path : MetadataPath, MetadataPath.Component.Impossible ∈ path →
      MetadataPath.follow ops IGF sourceKey source path finalRequest none = none ∧
      ∀ map : C,
        (ops.findPrefix map path).1 = none ∨ (path.drop (ops.findPrefix map path).2) ≠ [] →
        MetadataPath.follow ops IGF sourceKey source path finalRequest (some map) = none) ∧
    (∀ (IGM : IRGenModule) (fnType : PILFunctionType), fnType.pseudogeneric = true →
      ∀ r ∈ (PolymorphicConvention.construct IGM fnType).enumerateRequirements IGM,
        (if fnType.representation = PILFunctionTypeRepresentation.WitnessMethod then
            (PolymorphicConvention.initGenerics fnType).considerWitnessSelf IGM fnType
          else PolymorphicConvention.initGenerics fnType).Fulfillments.find
            (r.TypeParameter, r.Interface) = none →
        ∃ fulfillment,
          (PolymorphicConvention.construct IGM fnType).Fulfillments.find
              (r.TypeParameter, r.Interface) = some fulfillment ∧
          fulfillment.Path = [MetadataPath.Component.Impossible] ∧
          MetadataPath.follow ops IGF sourceKey source fulfillment.Path finalRequest none
            = none) ∧
    (∀ (IGM : IRGenModule) (fnType : PILFunctionType), fnType.pseudogeneric = true →
      fnType.representation ≠ PILFunctionTypeRepresentation.WitnessMethod →
      ∀ r ∈ (PolymorphicConvention.construct IGM fnType).enumerateRequirements IGM,
        ∃ fulfillment,
          (PolymorphicConvention.construct IGM fnType).Fulfillments.find
              (r.TypeParameter, r.Interface) = some fulfillment ∧
          fulfillment.Path = [MetadataPath.Component.Impossible] ∧
          MetadataPath.follow ops IGF sourceKey source fulfillment.Path finalRequest none
            = none) := by
  have hfollow : MetadataPath.follow ops IGF sourceKey source
      [MetadataPath.Component.Impossible] finalRequest none = none :=
    (MetadataPath.follow_impossible ops IGF sourceKey source _ finalRequest
      (List.mem_singleton.mpr rfl)).1
  have hpseudo : ∀ (IGM : IRGenModule) (fnType : PILFunctionType),
      fnType.pseudogeneric = true →
      ∀ r ∈ (PolymorphicConvention.construct IGM fnType).enumerateRequirements IGM,
        (if fnType.representation = PILFunctionTypeRepresentation.WitnessMethod then
            (PolymorphicConvention.initGenerics fnType).considerWitnessSelf IGM fnType
          else PolymorphicConvention.initGenerics fnType).Fulfillments.find
            (r.TypeParameter, r.Interface) = none →
        ∃ fulfillment,
          (PolymorphicConvention.construct IGM fnType).Fulfillments.find
              (r.TypeParameter, r.Interface) = some fulfillment ∧
          fulfillment.Path = [MetadataPath.Component.Impossible] ∧
          MetadataPath.follow ops IGF sourceKey source fulfillment.Path finalRequest none
            = none := by
    intro IGM fnType hp r hr hnone
    rw [construct_pseudogeneric IGM fnType hp] at hr ⊢
    rw [enumerateRequirements_congr IGM _ _
      (addPseudogenericFulfillments_Generics IGM _)] at hr
    rw [find_addPseudogenericFulfillments IGM _ r hr, hnone]
    exact ⟨_, rfl, rfl, hfollow⟩
  refine ⟨?_, ?_, hpseudo, ?_⟩
  · intro request
    cases source <;> rfl
  · intro path himp
    exact MetadataPath.follow_impossible ops IGF sourceKey source path finalRequest himp
  · intro IGM fnType hp hrep r hr
    apply hpseudo IGM fnType hp r hr
    rw [if_neg hrep]
    rfl

theorem follow_impossible_fails_witness :
    MetadataPath.follow loggingFollowOps [] 0 (some 0)
        [MetadataPath.Component.AssociatedConformance 1, MetadataPath.Component.Impossible]
        (DynamicMetadataRequest.ofState MetadataState.Complete) none = none :=
  ((follow_impossible_fails loggingFollowOps [] 0 (some 0)
    (DynamicMetadataRequest.ofState MetadataState.Complete)).2.1
    [MetadataPath.Component.AssociatedConformance 1, MetadataPath.Component.Impossible]
    (by decide)).1

/-! ## Necessary bindings -/

mutual
theorem dependentLeaves_eq_nil : ∀ t : CanType, t.hasArchetype = false → dependentLeaves t = []
  | .tuple es, h => by
    rw [dependentLeaves]
    exact dependentLeavesList_eq_nil es (by simpa [CanType.hasArchetype] using h)
  | .function ps r, h => by
    rw [dependentLeaves]
    simp only [CanType.hasArchetype, Bool.or_eq_false_iff] at h
    rw [dependentLeavesList_eq_nil ps h.1, dependentLeaves_eq_nil r h.2]
    rfl
  | .metatype t _, h => by
    rw [dependentLeaves]
    exact dependentLeaves_eq_nil t (by simpa [CanType.hasArchetype] using h)
  | .genericTypeParam d i, h => by
    rw [dependentLeaves]
    simp [h]
  | .dependentMember b a, h => by
    rw [dependentLeaves]
    simp [h]
  | .archetype n, h => by
    simp [CanType.hasArchetype] at h
  | .nominal d, h => by
    rw [dependentLeaves]
    simp [h]
  | .boundGeneric d args, h => by
    rw [dependentLeaves]
    simp [h]
  | .builtin n, h => by
    rw [dependentLeaves]
    simp [h]
theorem dependentLeavesList_eq_nil : ∀ ts : List CanType,
    CanType.anyHasArchetype ts = false → dependentLeavesList ts = []
  | [], _ => by rw [dependentLeavesList]
  | t :: ts, h => by
    rw [dependentLeavesList]
    simp only [CanType.anyHasArchetype, Bool.or_eq_false_iff] at h
    rw [dependentLeaves_eq_nil t h.1, dependentLeavesList_eq_nil ts h.2]
    rfl
end

mutual
theorem dependentLeaves_leaf : ∀ (t leaf : CanType), leaf ∈ dependentLeaves t →
    leaf.hasArchetype = true ∧ leaf.isStructural = false
  | .tuple es, leaf, h => by
    rw [dependentLeaves] at h
    exact dependentLeavesList_leaf es leaf h
  | .function ps r, leaf, h => by
    rw [dependentLeaves, List.mem_append] at h
    rcases h with h | h
    · exact dependentLeavesList_leaf ps leaf h
    · exact dependentLeaves_leaf r leaf h
  | .metatype t _, leaf, h => by
    rw [dependentLeaves] at h
    exact dependentLeaves_leaf t leaf h
  | .genericTypeParam d i, leaf, h => by
    rw [dependentLeaves] at h
    split at h
    · rename_i ha
      simp only [List.mem_singleton] at h
      subst h
      exact ⟨ha, rfl⟩
    · simp at h
  | .dependentMember b a, leaf, h => by
    rw [dependentLeaves] at h
    split at h
    · rename_i ha
      simp only [List.mem_singleton] at h
      subst h
      exact ⟨ha, rfl⟩
    · simp at h
  | .archetype n, leaf, h => by
    rw [dependentLeaves] at h
    simp only [List.mem_singleton] at h
    subst h
    exact ⟨rfl, rfl⟩
  | .nominal d, leaf, h => by
    rw [dependentLeaves] at h
    split at h
    · rename_i ha
      simp only [List.mem_singleton] at h
      subst h
      exact ⟨ha, rfl⟩
    · simp at h
  | .boundGeneric d args, leaf, h => by
    rw [dependentLeaves] at h
    split at h
    · rename_i ha
      simp only [List.mem_singleton] at h
      subst h
      exact ⟨ha, rfl⟩
    · simp at h
  | .builtin n, leaf, h => by
    rw [dependentLeaves] at h
    split at h
    · rename_i ha
      simp only [List.mem_singleton] at h
      subst h
      exact ⟨ha, rfl⟩
    · simp at h
theorem dependentLeavesList_leaf : ∀ (ts : List CanType) (leaf : CanType),
    leaf ∈ dependentLeavesList ts → leaf.hasArchetype = true ∧ leaf.isStructural = false
  | [], leaf, h => by
    rw [dependentLeavesList] at h
    simp at h
  | t :: ts, leaf, h => by
    rw [dependentLeavesList, List.mem_append] at h
    rcases h with h | h
    · exact dependentLeaves_leaf t leaf h
    · exact dependentLeavesList_leaf ts leaf h
end

mutual
theorem NecessaryBindings.addTypeMetadata_eq : ∀ (t : CanType) (self : NecessaryBindings),
    NecessaryBindings.addTypeMetadata t self =
      (dependentLeaves t).foldl
        (fun b leaf => b.insert { TypeParameter := leaf, Interface := none }) self
  | .tuple es, self => by
    rw [NecessaryBindings.addTypeMetadata]
    by_cases h : (CanType.tuple es).hasArchetype = true
    · simp only [h, Bool.not_true, Bool.false_eq_true, if_false]
      rw [NecessaryBindings.addTypeMetadataList_eq es self, dependentLeaves]
    · have h' : (CanType.tuple es).hasArchetype = false := by simpa using h
      rw [dependentLeaves_eq_nil _ h']
      simp [h']
  | .function ps r, self => by
    rw [NecessaryBindings.addTypeMetadata]
    by_cases h : (CanType.function ps r).hasArchetype = true
    · simp only [h, Bool.not_true, Bool.false_eq_true, if_false]
      rw [NecessaryBindings.addTypeMetadataList_eq ps self,
        NecessaryBindings.addTypeMetadata_eq r, dependentLeaves, List.foldl_append]
    · have h' : (CanType.function ps r).hasArchetype = false := by simpa using h
      rw [dependentLeaves_eq_nil _ h']
      simp [h']
  | .metatype t repr, self => by
    rw [NecessaryBindings.addTypeMetadata]
    by_cases h : (CanType.metatype t repr).hasArchetype = true
    · simp only [h, Bool.not_true, Bool.false_eq_true, if_false]
      rw [NecessaryBindings.addTypeMetadata_eq t self, dependentLeaves]
    · have h' : (CanType.metatype t repr).hasArchetype = false := by simpa using h
      rw [dependentLeaves_eq_nil _ h']
      simp [h']
  | .genericTypeParam d i, self => by
    rw [NecessaryBindings.addTypeMetadata, dependentLeaves]
    by_cases h : (CanType.genericTypeParam d i).hasArchetype = true <;> simp [h]
  | .dependentMember b a, self => by
    rw [NecessaryBindings.addTypeMetadata, dependentLeaves]
    by_cases h : (CanType.dependentMember b a).hasArchetype = true <;> simp [h]
  | .archetype n, self => by
    rw [NecessaryBindings.addTypeMetadata, dependentLeaves]
    simp [CanType.hasArchetype]
  | .nominal d, self => by
    rw [NecessaryBindings.addTypeMetadata, dependentLeaves]
    by_cases h : (CanType.nominal d).hasArchetype = true <;> simp [h]
  | .boundGeneric d args, self => by
    rw [NecessaryBindings.addTypeMetadata, dependentLeaves]
    by_cases h : (CanType.boundGeneric d args).hasArchetype = true <;> simp [h]
  | .builtin n, self => by
    rw [NecessaryBindings.addTypeMetadata, dependentLeaves]
    by_cases h : (CanType.builtin n).hasArchetype = true <;> simp [h]
theorem NecessaryBindings.addTypeMetadataList_eq : ∀ (ts : List CanType)
    (self : NecessaryBindings),
    NecessaryBindings.addTypeMetadataList ts self =
      (dependentLeavesList ts).foldl
        (fun b leaf => b.insert { TypeParameter := leaf, Interface := none }) self
  | [], self => by
    rw [NecessaryBindings.addTypeMetadataList, dependentLeavesList]
    rfl
  | t :: ts, self => by
    rw [NecessaryBindings.addTypeMetadataList, dependentLeavesList, List.foldl_append,
      NecessaryBindings.addTypeMetadata_eq t self,
      NecessaryBindings.addTypeMetadataList_eq ts]
end

theorem NecessaryBindings.insert_Requirements (self : NecessaryBindings)
    (requirement : GenericRequirement) :
    (self.insert requirement).Requirements =
      if requirement ∈ self.Requirements then self.Requirements
      else self.Requirements ++ [requirement] := by
  unfold NecessaryBindings.insert
  split <;> rfl

theorem NecessaryBindings.foldl_insert_spec (leaves : List CanType) (self : NecessaryBindings) :
    self.Requirements <+:
      (leaves.foldl (fun b leaf => b.insert { TypeParameter := leaf, Interface := none })
        self).Requirements ∧
    (∀ r, r ∈ (leaves.foldl
          (fun b leaf => b.insert { TypeParameter := leaf, Interface := none })
          self).Requirements ↔
      r ∈ self.Requirements ∨
        ∃ leaf ∈ leaves, r = { TypeParameter := leaf, Interface := none }) ∧
    (self.Requirements.Nodup →
      (leaves.foldl (fun b leaf => b.insert { TypeParameter := leaf, Interface := none })
        self).Requirements.Nodup) := by
  induction leaves generalizing self with
  | nil =>
    refine ⟨List.prefix_refl _, ?_, fun h => h⟩
    intro r
    simp
  | cons leaf rest ih =>
    obtain ⟨hpre, hmem, hnodup⟩ :=
      ih (self.insert { TypeParameter := leaf, Interface := none })
    have hins := NecessaryBindings.insert_Requirements self
      { TypeParameter := leaf, Interface := none }
    refine ⟨?_, ?_, ?_⟩
    · refine List.IsPrefix.trans ?_ hpre
      rw [hins]
      split
      · exact List.prefix_refl _
      · exact List.prefix_append _ _
    · intro r
      rw [List.foldl_cons, hmem r, hins]
      split
      · rename_i hin
        constructor
        · rintro (h | ⟨l, hl, rfl⟩)
          · exact Or.inl h
          · exact Or.inr ⟨l, List.mem_cons_of_mem _ hl, rfl⟩
        · rintro (h | ⟨l, hl, rfl⟩)
          · exact Or.inl h
          · rcases List.mem_cons.mp hl with rfl | hl
            · exact Or.inl hin
            · exact Or.inr ⟨l, hl, rfl⟩
      · constructor
        · rintro (h | ⟨l, hl, rfl⟩)
          · rcases List.mem_append.mp h with h | h
            · exact Or.inl h
            · rw [List.mem_singleton] at h
              exact Or.inr ⟨leaf, List.mem_cons_self _ _, h⟩
          · exact Or.inr ⟨l, List.mem_cons_of_mem _ hl, rfl⟩
        · rintro (h | ⟨l, hl, rfl⟩)
          · exact Or.inl (List.mem_append_left _ h)
          · rcases List.mem_cons.mp hl with rfl | hl
            · exact Or.inl (List.mem_append_right _ (List.mem_singleton.mpr rfl))
            · exact Or.inr ⟨l, hl, rfl⟩
    · intro hnd
      rw [List.foldl_cons]
      apply hnodup
      rw [hins]
      split
      · exact hnd
      · rename_i hnin
        rw [List.nodup_append]
        refine ⟨hnd, List.nodup_singleton _, ?_⟩
        intro a ha hb
        rw [List.mem_singleton] at hb
        subst hb
        exact hnin ha

/-- C23: for every `NecessaryBindings` value, `getBufferSize` is the pointer size
multiplied by the number of recorded requirements, as long as that product is
representable as a 64-bit size; it is zero for an empty set. -/
theorem getBufferSize_spec (pointerSize : Nat) (self : NecessaryBindings)
    (hfit : pointerSize * self.Requirements.length < 18446744073709551616) :
    self.getBufferSize pointerSize = pointerSize * self.Requirements.length ∧
    (self.Requirements = [] → self.getBufferSize pointerSize = 0) := by
  have h : self.getBufferSize pointerSize = pointerSize * self.Requirements.length := by
    unfold NecessaryBindings.getBufferSize
    exact Nat.mod_eq_of_lt hfit
  refine ⟨h, ?_⟩
  intro hempty
  rw [h, hempty]
  rfl

theorem getBufferSize_spec_witness :
    NecessaryBindings.getBufferSize 8
      { Requirements :=
          [{ TypeParameter := CanType.archetype 0, Interface := none },
           { TypeParameter := CanType.archetype 0, Interface := some scenarioInterfaceP }] } =
      8 * 2 :=
  (getBufferSize_spec 8
    { Requirements :=
        [{ TypeParameter := CanType.archetype 0, Interface := none },
         { TypeParameter := CanType.archetype 0, Interface := some scenarioInterfaceP }] }
    (by decide)).1

/-- C25: `NecessaryBindings::addTypeMetadata(t)` inserts `(leaf, no protocol)` for the
dependent leaves of `t`, in order, where tuples decompose into their elements, function
types into their parameter types followed by the result type and metatypes into their
instance type. It records nothing when `t` contains no archetype; the requirements already
recorded are kept as a prefix, in their order; every requirement it adds carries no
protocol and is a leaf that contains an archetype and is not a tuple, function or metatype
type; every dependent leaf is recorded; and a set without duplicates stays so. -/
theorem addTypeMetadata_spec (t : CanType) (self : NecessaryBindings) :
    NecessaryBindings.addTypeMetadata t self =
      (dependentLeaves t).foldl
        (fun b leaf => b.insert { TypeParameter := leaf, Interface := none }) self ∧
    (t.hasArchetype = false → NecessaryBindings.addTypeMetadata t self = self) ∧
    self.Requirements <+: (NecessaryBindings.addTypeMetadata t self).Requirements ∧
    (∀ r ∈ (NecessaryBindings.addTypeMetadata t self).Requirements,
      r ∈ self.Requirements ∨
        (r.Interface = none ∧ r.TypeParameter ∈ dependentLeaves t ∧
          r.TypeParameter.hasArchetype = true ∧ r.TypeParameter.isStructural = false)) ∧
    (∀ leaf ∈ dependentLeaves t,
      ({ TypeParameter := leaf, Interface := none } : GenericRequirement) ∈
        (NecessaryBindings.addTypeMetadata t self).Requirements) ∧
    (self.Requirements.Nodup →
      (NecessaryBindings.addTypeMetadata t self).Requirements.Nodup) := by
  have heq := NecessaryBindings.addTypeMetadata_eq t self
  obtain ⟨hpre, hmem, hnodup⟩ := NecessaryBindings.foldl_insert_spec (dependentLeaves t) self
  rw [← heq] at hpre hmem hnodup
  refine ⟨heq, ?_, hpre, ?_, ?_, hnodup⟩
  · intro h
    rw [heq, dependentLeaves_eq_nil t h]
    rfl
  · intro r hr
    rcases (hmem r).mp hr with h | ⟨leaf, hleaf, rfl⟩
    · exact Or.inl h
    · obtain ⟨h1, h2⟩ := dependentLeaves_leaf t leaf hleaf
      exact Or.inr ⟨rfl, hleaf, h1, h2⟩
  · intro leaf hleaf
    exact (hmem _).mpr (Or.inr ⟨leaf, hleaf, rfl⟩)

theorem addTypeMetadata_spec_witness :
    (NecessaryBindings.addTypeMetadata structuralTypeScenario
        recordedBindingsScenario).Requirements =
      [{ TypeParameter := CanType.archetype 1, Interface := none },
       { TypeParameter := CanType.archetype 0, Interface := none },
       { TypeParameter :=
           CanType.boundGeneric { id := 8, kind := NominalKind.Struct } [CanType.archetype 0],
         Interface := none }] := by
  rw [(addTypeMetadata_spec structuralTypeScenario recordedBindingsScenario).1]
  decide

theorem emitInitOfGenericRequirementsBufferLoop_spec {V : Type}
    (emitRequirement : GenericRequirement → V) (requirements : List GenericRequirement)
    (start : Nat) (buffer : RequirementsBuffer V) (i : Nat) :
    emitInitOfGenericRequirementsBufferLoop emitRequirement requirements start buffer i =
      if start ≤ i then
        match requirements[i - start]? with
        | some requirement => some (slotPointerType requirement, emitRequirement requirement)
        | none => buffer i
      else buffer i := by
  induction requirements generalizing start buffer with
  | nil =>
    simp [emitInitOfGenericRequirementsBufferLoop]
  | cons requirement rest ih =>
    rw [emitInitOfGenericRequirementsBufferLoop, ih]
    by_cases h1 : start + 1 ≤ i
    · have h2 : start ≤ i := by omega
      have h3 : i - start = (i - (start + 1)) + 1 := by omega
      simp only [h1, h2, if_true, h3, List.getElem?_cons_succ]
      cases rest[i - (start + 1)]? with
      | some r => rfl
      | none =>
        simp only [RequirementsBuffer.store]
        rw [if_neg (by omega)]
    · by_cases h2 : start ≤ i
      · have h3 : i = start := by omega
        subst h3
        simp [RequirementsBuffer.store]
      · simp only [h1, h2, if_false, RequirementsBuffer.store]
        rw [if_neg (by omega)]

theorem emitInitOfGenericRequirementsBuffer_spec {V : Type}
    (requirements : List GenericRequirement) (buffer : RequirementsBuffer V)
    (emitRequirement : GenericRequirement → V) (i : Nat) :
    emitInitOfGenericRequirementsBuffer requirements buffer emitRequirement i =
      match requirements[i]? with
      | some requirement => some (slotPointerType requirement, emitRequirement requirement)
      | none => buffer i := by
  unfold emitInitOfGenericRequirementsBuffer
  cases requirements with
  | nil => simp
  | cons r rest =>
    simp only [List.isEmpty_cons, Bool.false_eq_true, if_false]
    rw [emitInitOfGenericRequirementsBufferLoop_spec]
    simp

theorem bindFromGenericRequirementsBufferLoop_spec {V : Type} (buffer : RequirementsBuffer V)
    (metadataState : MetadataState) (getInContext : CanType → CanType)
    (requirements : List GenericRequirement) (start : Nat) :
    bindFromGenericRequirementsBufferLoop buffer metadataState getInContext requirements start =
      (requirements.enumFrom start).map
        (fun p => bindGenericRequirement p.2 (buffer.load p.1 (slotPointerType p.2))
          metadataState getInContext) := by
  induction requirements generalizing start with
  | nil => rfl
  | cons r rest ih =>
    rw [bindFromGenericRequirementsBufferLoop, ih]
    rfl

theorem bindFromGenericRequirementsBuffer_spec {V : Type}
    (requirements : List GenericRequirement) (buffer : RequirementsBuffer V)
    (metadataState : MetadataState) (getInContext : CanType → CanType) :
    bindFromGenericRequirementsBuffer requirements buffer metadataState getInContext =
      (requirements.enumFrom 0).map
        (fun p => bindGenericRequirement p.2 (buffer.load p.1 (slotPointerType p.2))
          metadataState getInContext) := by
  unfold bindFromGenericRequirementsBuffer
  cases requirements with
  | nil => rfl
  | cons r rest =>
    simp only [List.isEmpty_cons, Bool.false_eq_true, if_false]
    exact bindFromGenericRequirementsBufferLoop_spec buffer metadataState getInContext _ 0

theorem map_enumFrom_of_getElem {α β : Type} (l : List α) (start : Nat) (f : Nat × α → β)
    (g : α → β) (h : ∀ i a, l[i]? = some a → f (start + i, a) = g a) :
    (l.enumFrom start).map f = l.map g := by
  induction l generalizing start with
  | nil => rfl
  | cons a rest ih =>
    simp only [List.enumFrom_cons, List.map_cons]
    rw [ih (start + 1)]
    · have h0 := h 0 a (by simp)
      simp only [Nat.add_zero] at h0
      rw [h0]
    · intro i b hb
      have h1 := h (i + 1) b (by simpa using hb)
      rw [← h1]
      congr 2
      omega

/-- C24: `NecessaryBindings::save` writes the value of the i-th recorded requirement into
slot i of the buffer, through a witness-table pointer when the requirement carries a
protocol and through a type-metadata pointer otherwise, and leaves the other slots alone;
`restore` reads slot i through the pointer type of the i-th requirement and binds what it
reads to that requirement (a witness table for the type and protocol, or exact type
metadata for the type); hence `restore` on the buffer that `save` produced binds, in
insertion order, every recorded requirement to the value saved for it. -/
theorem save_restore_spec {V : Type} (self : NecessaryBindings) (emitter : BindingsEmitter V)
    (buffer : RequirementsBuffer V) (metadataState : MetadataState) :
    (∀ (i : Nat) (requirement : GenericRequirement),
      self.Requirements[i]? = some requirement →
      self.save emitter buffer i =
        some (if requirement.Interface.isSome then LLVMType.WitnessTablePtrTy
              else LLVMType.TypeMetadataPtrTy,
          NecessaryBindings.savedValue emitter requirement)) ∧
    (∀ i : Nat, self.Requirements.length ≤ i → self.save emitter buffer i = buffer i) ∧
    (∀ other : RequirementsBuffer V,
      self.restore other metadataState =
        (self.Requirements.enumFrom 0).map
          (fun p => bindGenericRequirement p.2
            (other.load p.1
              (if p.2.Interface.isSome then LLVMType.WitnessTablePtrTy
               else LLVMType.TypeMetadataPtrTy))
            metadataState (fun type => type))) ∧
    self.restore (self.save emitter buffer) metadataState =
      self.Requirements.map
        (fun requirement =>
          match requirement.Interface with
          | some protocol =>
            LocalTypeBinding.witnessTable requirement.TypeParameter protocol
              (some (emitter.emitArchetypeWitnessTableRef requirement.TypeParameter protocol))
          | none =>
            LocalTypeBinding.typeMetadata requirement.TypeParameter IsExact_t.IsExact
              (some (emitter.emitTypeMetadataRef requirement.TypeParameter))
              metadataState) := by
  have hsave : ∀ i : Nat, self.save emitter buffer i =
      match self.Requirements[i]? with
      | some requirement =>
        some (slotPointerType requirement, NecessaryBindings.savedValue emitter requirement)
      | none => buffer i :=
    fun i => emitInitOfGenericRequirementsBuffer_spec self.Requirements buffer _ i
  refine ⟨?_, ?_, ?_, ?_⟩
  · intro i requirement hi
    rw [hsave i, hi]
    rfl
  · intro i hi
    rw [hsave i, List.getElem?_eq_none hi]
  · intro other
    exact bindFromGenericRequirementsBuffer_spec self.Requirements other metadataState _
  · unfold NecessaryBindings.restore
    rw [bindFromGenericRequirementsBuffer_spec]
    apply map_enumFrom_of_getElem
    intro i requirement hi
    simp only [Nat.zero_add, RequirementsBuffer.load, hsave i, hi, if_true]
    cases hp : requirement.Interface with
    | some protocol => simp [bindGenericRequirement, NecessaryBindings.savedValue, hp]
    | none => simp [bindGenericRequirement, NecessaryBindings.savedValue, hp]

theorem save_restore_spec_witness :
    savedBindingsScenario.restore (savedBindingsScenario.save namingEmitter (fun _ => none))
        MetadataState.Complete =
      [LocalTypeBinding.typeMetadata (CanType.archetype 0) IsExact_t.IsExact
         (some (0, CanType.archetype 0)) MetadataState.Complete,
       LocalTypeBinding.witnessTable (CanType.archetype 0) scenarioInterfaceP
         (some (1, CanType.archetype 0))] := by
  rw [(save_restore_spec savedBindingsScenario namingEmitter (fun _ => none)
    MetadataState.Complete).2.2.2]
  rfl

/-! ## The witness-method Self fulfillment -/

theorem addSelfWitnessTableFulfillment_find (IGM : IRGenModule)
    (hkeep : IGM.fulfillmentSearch.keepsFulfillments) (self : PolymorphicConvention)
    (arg : CanType) (conformance : InterfaceConformanceRef) (key : FulfillmentKey)
    (fulfillment : Fulfillment) (h : self.Fulfillments.find key = some fulfillment) :
    (self.addSelfWitnessTableFulfillment IGM arg conformance).Fulfillments.find key =
      some fulfillment := by
  have h1 : (self.Fulfillments.addFulfillment (arg, some conformance.getRequirement)
      (self.Sources.length - 1) [] MetadataState.Complete).2.find key = some fulfillment := by
    rw [FulfillmentMap.find_addFulfillment, h]
  unfold PolymorphicConvention.addSelfWitnessTableFulfillment
  cases conformance with
  | «abstract» p => exact h1
  | concrete p c => exact hkeep.2 _ _ _ _ _ _ _ h1

theorem considerWitnessSelf_find_self (IGM : IRGenModule)
    (hkeep : IGM.fulfillmentSearch.keepsFulfillments) (self : PolymorphicConvention)
    (fnType : PILFunctionType) (hself : fnType.selfInstanceType.isGenericTypeParam = true)
    (hnone : self.Fulfillments.find (fnType.selfInstanceType, none) = none) :
    (self.considerWitnessSelf IGM fnType).Fulfillments.find (fnType.selfInstanceType, none) =
      some { SourceIndex := self.Sources.length, Path := [], State := MetadataState.Complete } := by
  unfold PolymorphicConvention.considerWitnessSelf
  simp only [hself, if_true]
  apply addSelfWitnessTableFulfillment_find IGM hkeep
  simp only [PolymorphicConvention.considerType]
  apply hkeep.1
  simp only [PolymorphicConvention.addSelfMetadataFulfillment,
    FulfillmentMap.find_addFulfillment, hnone, List.length_append, List.length_singleton,
    Nat.add_sub_cancel, if_true]

theorem FulfillmentMap.recordCandidates_find (m : FulfillmentMap) (source : Nat)
    (candidates : List FulfillmentCandidate) (key : FulfillmentKey) (fulfillment : Fulfillment)
    (h : m.find key = some fulfillment) :
    (m.recordCandidates source candidates).2.find key = some fulfillment := by
  induction candidates generalizing m with
  | nil => exact h
  | cons candidate rest ih =>
    simp only [FulfillmentMap.recordCandidates]
    apply ih
    rw [FulfillmentMap.find_addFulfillment, h]

theorem FulfillmentDiscovery.toSearch_keeps (discovery : FulfillmentDiscovery) :
    discovery.toSearch.keepsFulfillments := by
  constructor
  · intro m callbacks type isExact state source path key fulfillment h
    exact FulfillmentMap.recordCandidates_find m source _ key fulfillment h
  · intro m callbacks conformance source path key fulfillment h
    exact FulfillmentMap.recordCandidates_find m source _ key fulfillment h

/-- C26: In the witness-method convention, when the Self type is a generic type parameter,
the fulfillment of the type metadata of Self in the constructed convention is the
Self-derived one: source index 0, which is the SelfMetadata source, the empty path and state
Complete. It is recorded before the structural search over Self runs
(`addSelfMetadataFulfillment` on the convention that has only the SelfMetadata source), and
neither that search nor what follows replaces it. The searches of the fulfillment map are
those of the specification: whatever they discover, in whatever order, they record through
`addFulfillment`, where the first fulfillment of a key wins. -/
theorem witnessSelf_metadata_fulfillment (IGM : IRGenModule) (fnType : PILFunctionType)
    (discovery : FulfillmentDiscovery)
    (hrep : fnType.representation = PILFunctionTypeRepresentation.WitnessMethod)
    (hself : fnType.selfInstanceType.isGenericTypeParam = true)
    (hsearch : IGM.fulfillmentSearch = discovery.toSearch) :
    (PolymorphicConvention.construct IGM fnType).Fulfillments.getTypeMetadata
        fnType.selfInstanceType =
      some { SourceIndex := 0, Path := [], State := MetadataState.Complete } ∧
    (PolymorphicConvention.construct IGM fnType).Sources[0]? =
      some { kind := MetadataSource.Kind.SelfMetadata,
             paramIndex := MetadataSource.InvalidSourceIndex,
             type := fnType.selfInstanceType } ∧
    (PolymorphicConvention.addSelfMetadataFulfillment
        { FnType := fnType, Generics := fnType.invocationGenericSignature,
          Sources := [{ kind := MetadataSource.Kind.SelfMetadata,
                        paramIndex := MetadataSource.InvalidSourceIndex,
                        type := fnType.selfInstanceType }],
          Fulfillments := { entries := [] } }
        fnType.selfInstanceType).Fulfillments.getTypeMetadata fnType.selfInstanceType =
      some { SourceIndex := 0, Path := [], State := MetadataState.Complete } ∧
    (∀ (conv : PolymorphicConvention) (isExact : IsExact_t) (sourceIndex : Nat)
        (path : MetadataPath) (fulfillment : Fulfillment),
      conv.Fulfillments.getTypeMetadata fnType.selfInstanceType = some fulfillment →
      (conv.considerType IGM fnType.selfInstanceType isExact sourceIndex
          path).2.Fulfillments.getTypeMetadata fnType.selfInstanceType = some fulfillment) := by
  have hkeep : IGM.fulfillmentSearch.keepsFulfillments := by
    rw [hsearch]
    exact FulfillmentDiscovery.toSearch_keeps discovery
  have hfind : ((PolymorphicConvention.initGenerics fnType).considerWitnessSelf IGM
      fnType).Fulfillments.find (fnType.selfInstanceType, none) =
      some { SourceIndex := 0, Path := [], State := MetadataState.Complete } :=
    considerWitnessSelf_find_self IGM hkeep _ fnType hself rfl
  have hsources : ((PolymorphicConvention.initGenerics fnType).considerWitnessSelf IGM
      fnType).Sources[0]? =
      some { kind := MetadataSource.Kind.SelfMetadata,
             paramIndex := MetadataSource.InvalidSourceIndex,
             type := fnType.selfInstanceType } := by
    rw [considerWitnessSelf_Sources]
    rfl
  refine ⟨?_, ?_, ?_, ?_⟩
  · unfold FulfillmentMap.getTypeMetadata
    by_cases hp : fnType.pseudogeneric = true
    · rw [construct_pseudogeneric IGM fnType hp, if_pos hrep]
      unfold PolymorphicConvention.addPseudogenericFulfillments
      rw [find_foldl_addFulfillment, hfind]
    · have hp' : fnType.pseudogeneric = false := by simpa using hp
      have hc : PolymorphicConvention.construct IGM fnType =
          (PolymorphicConvention.initGenerics fnType).considerWitnessSelf IGM fnType := by
        unfold PolymorphicConvention.construct
        simp [hp', hrep]
      rw [hc]
      exact hfind
  · by_cases hp : fnType.pseudogeneric = true
    · rw [construct_pseudogeneric IGM fnType hp, if_pos hrep,
        addPseudogenericFulfillments_Sources]
      exact hsources
    · have hp' : fnType.pseudogeneric = false := by simpa using hp
      have hc : PolymorphicConvention.construct IGM fnType =
          (PolymorphicConvention.initGenerics fnType).considerWitnessSelf IGM fnType := by
        unfold PolymorphicConvention.construct
        simp [hp', hrep]
      rw [hc]
      exact hsources
  · unfold FulfillmentMap.getTypeMetadata
    simp only [PolymorphicConvention.addSelfMetadataFulfillment,
      FulfillmentMap.find_addFulfillment]
    rfl
  · intro conv isExact sourceIndex path fulfillment h
    exact hkeep.1 _ _ _ _ _ _ _ _ _ h

theorem witnessSelf_metadata_fulfillment_witness :
    (PolymorphicConvention.construct recordingModule
        abstractSelfWitnessScenario).Fulfillments.getTypeMetadata
        (CanType.genericTypeParam 0 0) =
      some { SourceIndex := 0, Path := [], State := MetadataState.Complete } :=
  (witnessSelf_metadata_fulfillment recordingModule abstractSelfWitnessScenario
    searchedTypeDiscovery rfl rfl rfl).1

/-! ## The order of parameters in the general convention -/

theorem considerNewTypeSource_Sources_cases (IGM : IRGenModule) (self : PolymorphicConvention)
    (kind : MetadataSource.Kind) (paramIndex : Nat) (type : CanType) (isExact : IsExact_t) :
    (self.considerNewTypeSource IGM kind paramIndex type isExact).Sources = self.Sources ∨
    (self.considerNewTypeSource IGM kind paramIndex type isExact).Sources =
      self.Sources ++ [{ kind := kind, paramIndex := paramIndex, type := type }] := by
  unfold PolymorphicConvention.considerNewTypeSource
  by_cases hi : IGM.fulfillmentSearch.isInterestingTypeForFulfillments type = true
  · simp only [hi, Bool.not_true, Bool.false_eq_true, if_false]
    split
    · left
      simp [PolymorphicConvention.considerType]
    · right
      simp [PolymorphicConvention.considerType]
  · left
    simp [hi]

theorem considerParameter_Sources_cases (IGM : IRGenModule) (self : PolymorphicConvention)
    (param : PILParameterInfo) (paramIndex : Nat) (isSelfParameter : Bool) :
    (self.considerParameter IGM param paramIndex isSelfParameter).Sources = self.Sources ∨
    ∃ source : MetadataSource, source.paramIndex = paramIndex ∧
      (self.considerParameter IGM param paramIndex isSelfParameter).Sources =
        self.Sources ++ [source] := by
  have hnew : ∀ (kind : MetadataSource.Kind) (type : CanType) (isExact : IsExact_t),
      (self.considerNewTypeSource IGM kind paramIndex type isExact).Sources = self.Sources ∨
      ∃ source : MetadataSource, source.paramIndex = paramIndex ∧
        (self.considerNewTypeSource IGM kind paramIndex type isExact).Sources =
          self.Sources ++ [source] := by
    intro kind type isExact
    rcases considerNewTypeSource_Sources_cases IGM self kind paramIndex type isExact with h | h
    · exact Or.inl h
    · exact Or.inr ⟨_, rfl, h⟩
  unfold PolymorphicConvention.considerParameter
  dsimp only
  repeat' (first | exact Or.inl rfl | exact hnew _ _ _ | split)

theorem considerInOrder_Sources (IGM : IRGenModule) (fnType : PILFunctionType)
    (order : List (Nat × Bool)) (self : PolymorphicConvention) :
    ∃ added : List MetadataSource,
      (self.considerInOrder IGM fnType order).Sources = self.Sources ++ added ∧
      (added.map (fun source => source.paramIndex)).Sublist (order.map Prod.fst) := by
  induction order generalizing self with
  | nil => exact ⟨[], by simp [PolymorphicConvention.considerInOrder], List.Sublist.refl _⟩
  | cons step rest ih =>
    have hstep : ∃ first : List MetadataSource,
        (match fnType.parameters[step.1]? with
          | some param => self.considerParameter IGM param step.1 step.2
          | none => self).Sources = self.Sources ++ first ∧
        (first.map (fun source => source.paramIndex)).Sublist [step.1] := by
      cases fnType.parameters[step.1]? with
      | none => exact ⟨[], by simp, by simp⟩
      | some param =>
        rcases considerParameter_Sources_cases IGM self param step.1 step.2 with
          h | ⟨source, hidx, h⟩
        · exact ⟨[], by simp [h], by simp⟩
        · exact ⟨[source], h, by simp [hidx]⟩
    obtain ⟨first, hfirst, hsub1⟩ := hstep
    obtain ⟨added, hadded, hsub2⟩ := ih
      (match fnType.parameters[step.1]? with
        | some param => self.considerParameter IGM param step.1 step.2
        | none => self)
    refine ⟨first ++ added, ?_, ?_⟩
    · have hfold : self.considerInOrder IGM fnType (step :: rest) =
          PolymorphicConvention.considerInOrder IGM fnType rest
            (match fnType.parameters[step.1]? with
              | some param => self.considerParameter IGM param step.1 step.2
              | none => self) := rfl
      rw [hfold, hadded, hfirst, List.append_assoc]
    · rw [List.map_append, List.map_cons]
      exact List.Sublist.append hsub1 hsub2

theorem considerRestOfParameters_eq (IGM : IRGenModule) (fnType : PILFunctionType)
    (selfIndex : Nat) (count start : Nat) (hstart : start + count = fnType.parameters.length)
    (self : PolymorphicConvention) :
    PolymorphicConvention.considerRestOfParameters IGM selfIndex
        (fnType.parameters.drop start) start self =
      self.considerInOrder IGM fnType
        (((List.range' start count).filter (fun index => decide (index ≠ selfIndex))).map
          (fun index => (index, false))) := by
  induction count generalizing start self with
  | zero =>
    have hdrop : fnType.parameters.drop start = [] :=
      List.drop_eq_nil_of_le (by omega)
    rw [hdrop]
    rfl
  | succ k ih =>
    have hlt : start < fnType.parameters.length := by omega
    have hdrop : fnType.parameters.drop start =
        fnType.parameters[start] :: fnType.parameters.drop (start + 1) :=
      List.drop_eq_getElem_cons hlt
    have hget : fnType.parameters[start]? = some fnType.parameters[start] :=
      List.getElem?_eq_getElem hlt
    rw [hdrop, PolymorphicConvention.considerRestOfParameters, ih (start + 1) (by omega),
      List.range'_succ, List.filter_cons]
    by_cases hs : start = selfIndex
    · simp [hs]
    · simp only [ne_eq, hs, not_false_eq_true, if_true, decide_True, List.map_cons]
      simp only [PolymorphicConvention.considerInOrder, List.foldl_cons, hget]

theorem filter_range_ne_last (m : Nat) :
    (List.range' 0 (m + 1)).filter (fun index => decide (index ≠ m)) = List.range m := by
  rw [List.range_eq_range']
  have h : List.range' 0 (m + 1) = List.range' 0 m ++ [m] := by
    rw [← List.range_eq_range', ← List.range_eq_range', List.range_succ]
  rw [h, List.filter_append]
  have h1 : (List.range' 0 m).filter (fun index => decide (index ≠ m)) = List.range' 0 m := by
    rw [List.filter_eq_self]
    intro a ha
    have := (List.mem_range'_1.mp ha).2
    simp
    omega
  rw [h1]
  simp

theorem filter_range_ne_beyond (n selfIndex : Nat) (h : n ≤ selfIndex) :
    (List.range' 0 n).filter (fun index => decide (index ≠ selfIndex)) = List.range n := by
  rw [List.range_eq_range', List.filter_eq_self]
  intro a ha
  have := (List.mem_range'_1.mp ha).2
  simp
  omega

theorem construct_general (IGM : IRGenModule) (fnType : PILFunctionType)
    (hp : fnType.pseudogeneric = false)
    (hw : fnType.representation ≠ PILFunctionTypeRepresentation.WitnessMethod)
    (ho : fnType.representation ≠ PILFunctionTypeRepresentation.ObjCMethod) :
    PolymorphicConvention.construct IGM fnType =
      PolymorphicConvention.considerRestOfParameters IGM
        (if fnType.hasSelfParam then (fnType.parameters.length + 4294967296 - 1) % 4294967296
         else 4294967295)
        fnType.parameters 0
        (if fnType.hasSelfParam then
          match fnType.parameters[
              (if fnType.hasSelfParam then
                (fnType.parameters.length + 4294967296 - 1) % 4294967296
               else 4294967295)]? with
          | some param =>
            (PolymorphicConvention.initGenerics fnType).considerParameter IGM param
              (if fnType.hasSelfParam then
                (fnType.parameters.length + 4294967296 - 1) % 4294967296
               else 4294967295) true
          | none => PolymorphicConvention.initGenerics fnType
        else PolymorphicConvention.initGenerics fnType) := by
  unfold PolymorphicConvention.construct
  simp only [hp, hw, ho, Bool.false_eq_true, if_false]

theorem considerationOrder_indices (fnType : PILFunctionType) :
    ((considerationOrder fnType).map Prod.fst).Perm (List.range fnType.parameters.length) ∧
    (fnType.hasSelfParam = false →
      (considerationOrder fnType).map Prod.fst = List.range fnType.parameters.length) ∧
    (fnType.hasSelfParam = true → ∀ m, fnType.parameters.length = m + 1 →
      (considerationOrder fnType).map Prod.fst = m :: List.range m) := by
  have hmap : ∀ k : Nat,
      ((List.range k).map (fun index => (index, false))).map Prod.fst = List.range k := by
    intro k
    rw [List.map_map]
    exact List.map_id'' (fun _ => rfl) _
  have hfalse : fnType.hasSelfParam = false →
      (considerationOrder fnType).map Prod.fst = List.range fnType.parameters.length := by
    intro hs
    unfold considerationOrder
    simp only [hs, Bool.false_eq_true, if_false, hmap]
  have htrue : fnType.hasSelfParam = true → ∀ m, fnType.parameters.length = m + 1 →
      (considerationOrder fnType).map Prod.fst = m :: List.range m := by
    intro hs m hm
    unfold considerationOrder
    simp only [hs, if_true, hm, List.map_cons, hmap]
  refine ⟨?_, hfalse, htrue⟩
  by_cases hs : fnType.hasSelfParam = true
  · cases hn : fnType.parameters.length with
    | zero =>
      unfold considerationOrder
      simp [hs, hn]
    | succ m =>
      rw [htrue hs m hn, List.range_succ]
      exact (List.perm_append_singleton m (List.range m)).symm
  · rw [hfalse (by simpa using hs)]

theorem construct_eq_considerInOrder (IGM : IRGenModule) (fnType : PILFunctionType)
    (hp : fnType.pseudogeneric = false)
    (hw : fnType.representation ≠ PILFunctionTypeRepresentation.WitnessMethod)
    (ho : fnType.representation ≠ PILFunctionTypeRepresentation.ObjCMethod)
    (hlen : fnType.parameters.length < 4294967296) :
    PolymorphicConvention.construct IGM fnType =
      (PolymorphicConvention.initGenerics fnType).considerInOrder IGM fnType
        (considerationOrder fnType) := by
  rw [construct_general IGM fnType hp hw ho]
  cases hs : fnType.hasSelfParam with
  | false =>
    simp only [Bool.false_eq_true, if_false]
    have hrest := considerRestOfParameters_eq IGM fnType 4294967295
      fnType.parameters.length 0 (by omega) (PolymorphicConvention.initGenerics fnType)
    rw [List.drop_zero, filter_range_ne_beyond _ _ (by omega)] at hrest
    rw [hrest]
    unfold considerationOrder
    simp only [hs, Bool.false_eq_true, if_false]
  | true =>
    simp only [if_true]
    cases hn : fnType.parameters.length with
    | zero =>
      have hnil : fnType.parameters = [] := List.length_eq_zero.mp hn
      unfold considerationOrder
      simp only [hs, hn, if_true]
      rw [hnil]
      rfl
    | succ m =>
      have hsi : (m + 1 + 4294967296 - 1) % 4294967296 = m := by omega
      rw [hsi]
      have hlt : m < fnType.parameters.length := by omega
      have hget : fnType.parameters[m]? = some fnType.parameters[m] :=
        List.getElem?_eq_getElem hlt
      rw [hget]
      simp only
      have hrest := considerRestOfParameters_eq IGM fnType m (m + 1) 0 (by omega)
        ((PolymorphicConvention.initGenerics fnType).considerParameter IGM
          fnType.parameters[m] m true)
      rw [List.drop_zero, filter_range_ne_last] at hrest
      rw [hrest]
      unfold considerationOrder
      simp only [hs, hn, if_true, PolymorphicConvention.considerInOrder, List.foldl_cons,
        hget]

/-- C27: In the general convention (not pseudogeneric, neither witness method nor ObjC
method) the constructor considers the parameters in the order of the specification: the
self parameter, which is the last one, first when the function has one, then the others in
increasing index; the indices considered are a permutation of all parameter indices, so
every parameter is considered exactly once. The parameter indices of the final sources
are a sublist of that order: at most one source per parameter, a source of self (if any)
first, and the remaining sources in strictly increasing parameter index. -/
theorem general_convention_order (IGM : IRGenModule) (fnType : PILFunctionType)
    (hp : fnType.pseudogeneric = false)
    (hw : fnType.representation ≠ PILFunctionTypeRepresentation.WitnessMethod)
    (ho : fnType.representation ≠ PILFunctionTypeRepresentation.ObjCMethod)
    (hlen : fnType.parameters.length < 4294967296) :
    PolymorphicConvention.construct IGM fnType =
      (PolymorphicConvention.initGenerics fnType).considerInOrder IGM fnType
        (considerationOrder fnType) ∧
    ((considerationOrder fnType).map Prod.fst).Perm (List.range fnType.parameters.length) ∧
    (fnType.hasSelfParam = false →
      (considerationOrder fnType).map Prod.fst = List.range fnType.parameters.length) ∧
    (fnType.hasSelfParam = true → ∀ m, fnType.parameters.length = m + 1 →
      (considerationOrder fnType).map Prod.fst = m :: List.range m) ∧
    (((PolymorphicConvention.construct IGM fnType).Sources.map
        (fun source => source.paramIndex)).Sublist
      ((considerationOrder fnType).map Prod.fst)) ∧
    ((PolymorphicConvention.construct IGM fnType).Sources.map
      (fun source => source.paramIndex)).Nodup ∧
    (((PolymorphicConvention.construct IGM fnType).Sources.map
      (fun source => source.paramIndex)).tail.Pairwise (fun i j => i < j)) ∧
    (∀ source ∈ (PolymorphicConvention.construct IGM fnType).Sources.tail,
      fnType.hasSelfParam = true → source.paramIndex + 1 < fnType.parameters.length) := by
  have heq : PolymorphicConvention.construct IGM fnType =
      (PolymorphicConvention.initGenerics fnType).considerInOrder IGM fnType
        (considerationOrder fnType) := construct_eq_considerInOrder IGM fnType hp hw ho hlen
  obtain ⟨hperm, hnoself, hself⟩ := considerationOrder_indices fnType
  obtain ⟨added, hadded, hsub⟩ := considerInOrder_Sources IGM fnType
    (considerationOrder fnType) (PolymorphicConvention.initGenerics fnType)
  have hsources : (PolymorphicConvention.construct IGM fnType).Sources = added := by
    rw [heq, hadded]
    rfl
  have hnodupOrder : ((considerationOrder fnType).map Prod.fst).Nodup :=
    (List.Perm.nodup_iff hperm).mpr (List.nodup_range _)
  have htail : ((added.map (fun source => source.paramIndex)).tail.Pairwise
        (fun i j => i < j)) ∧
      (∀ i ∈ (added.map (fun source => source.paramIndex)).tail,
        fnType.hasSelfParam = true → i + 1 < fnType.parameters.length) := by
    cases hs : fnType.hasSelfParam with
    | false =>
      rw [hnoself hs] at hsub
      refine ⟨?_, fun _ _ h => by cases h⟩
      exact List.Pairwise.sublist ((List.tail_sublist _).trans hsub) (List.pairwise_lt_range _)
    | true =>
      cases hn : fnType.parameters.length with
      | zero =>
        have horder : (considerationOrder fnType).map Prod.fst = [] := by
          have := hperm
          rw [hn] at this
          simpa using this
        rw [horder] at hsub
        have hnil : added.map (fun source => source.paramIndex) = [] :=
          List.eq_nil_of_sublist_nil hsub
        rw [hnil]
        exact ⟨List.Pairwise.nil, fun _ h => by simp at h⟩
      | succ m =>
        rw [hself hs m hn] at hsub
        have htl : ((added.map (fun source => source.paramIndex)).tail).Sublist
            (List.range m) := by
          cases hl : added.map (fun source => source.paramIndex) with
          | nil => simp
          | cons a rest =>
            rw [hl] at hsub
            simp only [List.tail_cons]
            cases hsub with
            | cons _ h => exact (List.sublist_of_cons_sublist h)
            | cons₂ _ h => exact h
        refine ⟨List.Pairwise.sublist htl (List.pairwise_lt_range _), ?_⟩
        intro i hi _
        have := List.mem_range.mp (htl.subset hi)
        omega
  refine ⟨heq, hperm, hnoself, hself, ?_, ?_, ?_, ?_⟩
  · rw [hsources]
    exact hsub
  · rw [hsources]
    exact List.Nodup.sublist hsub hnodupOrder
  · rw [hsources]
    exact htail.1
  · intro source hsource hs
    rw [hsources] at hsource
    apply htail.2 source.paramIndex ?_ hs
    rw [← List.map_tail]
    exact List.mem_map_of_mem _ hsource

theorem general_convention_order_witness :
    (PolymorphicConvention.construct findingModule threeParameterScenario).Sources.map
        (fun source => source.paramIndex) = [2, 0] ∧
    (considerationOrder threeParameterScenario).map Prod.fst = [2, 0, 1] := by
  have h := general_convention_order findingModule threeParameterScenario rfl (by decide)
    (by decide) (by decide)
  refine ⟨?_, by decide⟩
  rw [h.1]
  decide

/-! ## Requirements of a generic type -/

theorem foldl_push_eq {α : Type} (l acc : List α) :
    l.foldl (fun requirements reqt => requirements ++ [reqt]) acc = acc ++ l := by
  induction l generalizing acc with
  | nil => simp
  | cons a rest ih => simp [ih]

theorem construct_representative (IGM : IRGenModule) (generics : GenericSignature) :
    PolymorphicConvention.construct IGM (representativeFunctionType generics) =
      PolymorphicConvention.initGenerics (representativeFunctionType generics) := by
  rw [construct_general IGM _ rfl (fun h => by cases h) (fun h => by cases h)]
  rfl

theorem unfulfilledRequirements_empty (reqs : List GenericRequirement) :
    unfulfilledRequirements { entries := [] } reqs = reqs := by
  rw [unfulfilledRequirements_eq_filter, List.filter_eq_self]
  intro r _
  rfl

/-- C30: `GenericTypeRequirements` is empty for a type declaration whose context has no
generic signature or one whose parameters are all concrete. Otherwise it records exactly
the sequence that `enumerateGenericSignatureRequirements` produces on the canonical
signature, in the same order: the convention of the representative function type, which
has no parameters, has no source and no fulfillment. -/
theorem genericTypeRequirements_spec (IGM : IRGenModule) :
    (GenericTypeRequirements.construct IGM none).Requirements = [] ∧
    (∀ nc : ContextGenericSignature, nc.areAllParamsConcrete = true →
      (GenericTypeRequirements.construct IGM (some nc)).Requirements = []) ∧
    (∀ nc : ContextGenericSignature, nc.areAllParamsConcrete = false →
      (GenericTypeRequirements.construct IGM (some nc)).Requirements =
        enumerateGenericSignatureRequirements IGM.interfaceRequiresWitnessTable
          (some nc.canonicalSignature)) ∧
    (∀ generics : GenericSignature,
      (representativeFunctionType generics).parameters = [] ∧
      (PolymorphicConvention.construct IGM (representativeFunctionType generics)).Sources = [] ∧
      (PolymorphicConvention.construct IGM
        (representativeFunctionType generics)).Fulfillments.entries = []) := by
  refine ⟨rfl, ?_, ?_, ?_⟩
  · intro nc h
    simp [GenericTypeRequirements.construct, h]
  · intro nc h
    simp only [GenericTypeRequirements.construct, h, Bool.false_eq_true, if_false]
    rw [foldl_push_eq, List.nil_append, construct_representative]
    exact unfulfilledRequirements_empty _
  · intro generics
    rw [construct_representative]
    exact ⟨rfl, rfl, rfl⟩

theorem genericTypeRequirements_spec_witness :
    (GenericTypeRequirements.construct (scenarioModule { id := 0 } [])
        (some { areAllParamsConcrete := false,
                canonicalSignature := twoParameterSignature })).Requirements =
      [{ TypeParameter := CanType.genericTypeParam 0 0, Interface := none },
       { TypeParameter := CanType.genericTypeParam 0 1, Interface := none },
       { TypeParameter := CanType.genericTypeParam 0 0, Interface := some scenarioInterfaceP }] := by
  rw [(genericTypeRequirements_spec (scenarioModule { id := 0 } [])).2.2.1
    { areAllParamsConcrete := false, canonicalSignature := twoParameterSignature } rfl]
  decide

/-! ## Agreement of the caller and the callee on the implicit generic arguments -/

theorem EmitPolymorphicArguments.emitEarlySources_spec {V : Type} (emitter : ArgumentEmitter V)
    (FnType : PILFunctionType) (subs : SubstitutionMap) (sources : List MetadataSource)
    (out out1 : List V)
    (h : EmitPolymorphicArguments.emitEarlySources emitter FnType subs sources out = some out1) :
    out1 = out ++
      (sources.filter
        (fun source => decide (source.kind = MetadataSource.Kind.GenericLValueMetadata))).map
        (fun _ => emitter.emitTypeMetadataRef
          ((getSubstSelfType FnType subs).getD (CanType.tuple []))) := by
  induction sources generalizing out with
  | nil =>
    simp only [EmitPolymorphicArguments.emitEarlySources, Option.some.injEq] at h
    simp [h]
  | cons source rest ih =>
    unfold EmitPolymorphicArguments.emitEarlySources at h
    cases hk : source.kind with
    | GenericLValueMetadata =>
      simp only [hk] at h
      cases hs : getSubstSelfType FnType subs with
      | none => simp [hs] at h
      | some selfType =>
        simp only [hs] at h
        have := ih _ h
        rw [this, hs]
        simp [List.filter_cons, hk]
    | ClassPointer =>
      simp only [hk] at h
      rw [ih _ h]
      simp [List.filter_cons, hk]
    | Metadata =>
      simp only [hk] at h
      rw [ih _ h]
      simp [List.filter_cons, hk]
    | SelfMetadata =>
      simp only [hk] at h
      rw [ih _ h]
      simp [List.filter_cons, hk]
    | SelfWitnessTable =>
      simp only [hk] at h
      rw [ih _ h]
      simp [List.filter_cons, hk]

theorem foldl_emitRequirement {V : Type} (f : GenericRequirement → V)
    (reqs : List GenericRequirement) (out : List V) :
    reqs.foldl (fun acc requirement => acc ++ [f requirement]) out = out ++ reqs.map f := by
  induction reqs generalizing out with
  | nil => simp
  | cons r rest ih => simp [ih]

theorem EmitPolymorphicParameters.bindExtraSource_spec {V : Type} (env : ParameterEmitter V)
    (FnType : PILFunctionType) (source : MetadataSource)
    (state state1 : List (ParameterBinding V) × List V)
    (witnessMetadata : Option (WitnessMetadata V))
    (h : EmitPolymorphicParameters.bindExtraSource env FnType source state witnessMetadata =
      some state1) :
    state.1 <+: state1.1 ∧
    (source.kind = MetadataSource.Kind.GenericLValueMetadata →
      ∃ value binding, state.2 = value :: state1.2 ∧
        ImplicitArgument.boundAs env FnType value (ImplicitArgument.lvalueMetadata source) =
          some binding ∧
        binding ∈ state1.1) ∧
    (source.kind ≠ MetadataSource.Kind.GenericLValueMetadata → state1.2 = state.2) := by
  unfold EmitPolymorphicParameters.bindExtraSource at h
  cases hk : source.kind with
  | Metadata =>
    simp only [hk, Option.some.injEq] at h
    subst h
    refine ⟨List.prefix_refl _, ?_, fun _ => rfl⟩
    intro hc
    cases hc
  | ClassPointer =>
    simp only [hk, Option.some.injEq] at h
    subst h
    refine ⟨List.prefix_refl _, ?_, fun _ => rfl⟩
    intro hc
    cases hc
  | GenericLValueMetadata =>
    simp only [hk] at h
    cases harg : EmitPolymorphicParameters.getArgTypeInContext env FnType source.paramIndex with
    | none => simp [harg] at h
    | some argTy =>
      cases hin : state.2 with
      | nil => simp [harg, hin] at h
      | cons metadata rest =>
        simp only [harg, hin, Option.some.injEq] at h
        subst h
        refine ⟨List.prefix_append _ _, ?_, fun hc => absurd rfl hc⟩
        intro _
        refine ⟨metadata, _, rfl, ?_, List.mem_append_right _ (List.mem_singleton.mpr rfl)⟩
        simp [ImplicitArgument.boundAs, harg]
  | SelfMetadata =>
    simp only [hk] at h
    cases hw : witnessMetadata with
    | none => simp [hw] at h
    | some witness =>
      cases hm : witness.SelfMetadata with
      | none => simp [hw, hm] at h
      | some metadata =>
        simp only [hw, hm, Option.some.injEq] at h
        subst h
        refine ⟨List.prefix_append _ _, ?_, fun _ => rfl⟩
        intro hc
        cases hc
  | SelfWitnessTable =>
    simp only [hk] at h
    cases hw : witnessMetadata with
    | none => simp [hw] at h
    | some witness =>
      cases hm : witness.SelfWitnessTable with
      | none => simp [hw, hm] at h
      | some selfTable =>
        simp only [hw, hm] at h
        cases hc : FnType.witnessMethodConformance with
        | «abstract» p =>
          simp only [hc, Option.some.injEq] at h
          subst h
          refine ⟨List.prefix_append _ _, ?_, fun _ => rfl⟩
          intro hc
          cases hc
        | concrete p c =>
          simp only [hc, Option.some.injEq] at h
          subst h
          refine ⟨?_, ?_, fun _ => rfl⟩
          · rw [List.append_assoc]
            exact List.prefix_append _ _
          · intro hc
            cases hc

theorem EmitPolymorphicParameters.bindExtraSources_spec {V : Type} (env : ParameterEmitter V)
    (FnType : PILFunctionType) (witnessMetadata : Option (WitnessMetadata V))
    (sources : List MetadataSource) (state state1 : List (ParameterBinding V) × List V)
    (h : EmitPolymorphicParameters.bindExtraSources env FnType witnessMetadata sources state =
      some state1) :
    state.1 <+: state1.1 ∧
    ∃ claimed : List V, state.2 = claimed ++ state1.2 ∧
      claimed.length =
        (sources.filter (fun source =>
          decide (source.kind = MetadataSource.Kind.GenericLValueMetadata))).length ∧
      ∀ (i : Nat) (source : MetadataSource) (value : V),
        (sources.filter (fun source =>
          decide (source.kind = MetadataSource.Kind.GenericLValueMetadata)))[i]? =
            some source →
        claimed[i]? = some value →
        ∃ binding,
          ImplicitArgument.boundAs env FnType value (ImplicitArgument.lvalueMetadata source) =
            some binding ∧
          binding ∈ state1.1 := by
  induction sources generalizing state with
  | nil =>
    simp only [EmitPolymorphicParameters.bindExtraSources, Option.some.injEq] at h
    subst h
    exact ⟨List.prefix_refl _, [], rfl, rfl, fun i source value hs => by simp at hs⟩
  | cons source rest ih =>
    simp only [EmitPolymorphicParameters.bindExtraSources] at h
    cases hone : EmitPolymorphicParameters.bindExtraSource env FnType source state
        witnessMetadata with
    | none => simp [hone] at h
    | some mid =>
      simp only [hone] at h
      obtain ⟨hpre1, hlv, hother⟩ :=
        EmitPolymorphicParameters.bindExtraSource_spec env FnType source state mid
          witnessMetadata hone
      obtain ⟨hpre2, claimed, hsplit, hlen, hbound⟩ := ih mid h
      refine ⟨hpre1.trans hpre2, ?_⟩
      by_cases hk : source.kind = MetadataSource.Kind.GenericLValueMetadata
      · obtain ⟨value, binding, hstate, hb, hmem⟩ := hlv hk
        refine ⟨value :: claimed, ?_, ?_, ?_⟩
        · rw [hstate, hsplit]
          rfl
        · simp [List.filter_cons, hk, hlen]
        · intro i s v hs hv
          rw [List.filter_cons, if_pos (by simpa using hk)] at hs
          cases i with
          | zero =>
            simp only [List.getElem?_cons_zero, Option.some.injEq] at hs hv
            subst hs hv
            exact ⟨binding, hb, hpre2.subset hmem⟩
          | succ j =>
            simp only [List.getElem?_cons_succ] at hs hv
            exact hbound j s v hs hv
      · refine ⟨claimed, ?_, ?_, ?_⟩
        · rw [← hother hk, hsplit]
        · rw [List.filter_cons, if_neg (by simpa using hk)]
          exact hlen
        · intro i s v hs hv
          rw [List.filter_cons, if_neg (by simpa using hk)] at hs
          exact hbound i s v hs hv

theorem EmitPolymorphicParameters.bindUnfulfilledRequirements_spec {V : Type}
    (env : ParameterEmitter V) (reqs : List GenericRequirement)
    (state state1 : List (ParameterBinding V) × List V)
    (h : EmitPolymorphicParameters.bindUnfulfilledRequirements env reqs state = some state1) :
    state.1 <+: state1.1 ∧
    ∃ claimed : List V, state.2 = claimed ++ state1.2 ∧ claimed.length = reqs.length ∧
      ∀ (i : Nat) (requirement : GenericRequirement) (value : V),
        reqs[i]? = some requirement → claimed[i]? = some value →
        ParameterBinding.requirement
          (bindGenericRequirement requirement (some value) MetadataState.Complete
            env.getTypeInContext) ∈ state1.1 := by
  induction reqs generalizing state with
  | nil =>
    simp only [EmitPolymorphicParameters.bindUnfulfilledRequirements, Option.some.injEq] at h
    subst h
    exact ⟨List.prefix_refl _, [], rfl, rfl, fun i r v hr => by simp at hr⟩
  | cons requirement rest ih =>
    simp only [EmitPolymorphicParameters.bindUnfulfilledRequirements] at h
    cases hin : state.2 with
    | nil => simp [hin] at h
    | cons value remaining =>
      simp only [hin] at h
      obtain ⟨hpre, claimed, hsplit, hlen, hbound⟩ := ih _ h
      simp only at hpre hsplit
      refine ⟨(List.prefix_append _ _).trans hpre, value :: claimed, ?_, ?_, ?_⟩
      · rw [hsplit]
        rfl
      · simp [hlen]
      · intro i r v hr hv
        cases i with
        | zero =>
          simp only [List.getElem?_cons_zero, Option.some.injEq] at hr hv
          subst hr hv
          exact hpre.subset (List.mem_append_right _ (List.mem_singleton.mpr rfl))
        | succ j =>
          simp only [List.getElem?_cons_succ] at hr hv
          exact hbound j r v hr hv

theorem EmitPolymorphicParameters.bindParameterSource_prefix {V : Type}
    (env : ParameterEmitter V) (FnType : PILFunctionType) (Sources : List MetadataSource)
    (param : PILParameterInfo) (paramIndex : Nat) (bound : List (ParameterBinding V)) :
    bound <+: EmitPolymorphicParameters.bindParameterSource env FnType Sources param paramIndex
      bound := by
  unfold EmitPolymorphicParameters.bindParameterSource
  repeat' (first | exact List.prefix_refl _ | exact List.prefix_append _ _ | split)

theorem EmitPolymorphicParameters.bindParameterSourcesLoop_prefix {V : Type}
    (env : ParameterEmitter V) (FnType : PILFunctionType) (Sources : List MetadataSource)
    (params : List PILParameterInfo) (index : Nat) (bound : List (ParameterBinding V)) :
    bound <+: EmitPolymorphicParameters.bindParameterSourcesLoop env FnType Sources params index
      bound := by
  induction params generalizing index bound with
  | nil => exact List.prefix_refl _
  | cons param rest ih =>
    exact (EmitPolymorphicParameters.bindParameterSource_prefix env FnType Sources param index
      bound).trans (ih _ _)

theorem EmitPolymorphicParameters.bindParameterSources_prefix {V : Type}
    (env : ParameterEmitter V) (FnType : PILFunctionType) (Sources : List MetadataSource)
    (bound : List (ParameterBinding V)) :
    bound <+: EmitPolymorphicParameters.bindParameterSources env FnType Sources bound := by
  unfold EmitPolymorphicParameters.bindParameterSources
  dsimp only
  split
  · split
    · exact (EmitPolymorphicParameters.bindParameterSource_prefix env FnType Sources _ _
        bound).trans
        (EmitPolymorphicParameters.bindParameterSourcesLoop_prefix env FnType Sources _ _ _)
    · exact List.prefix_refl _
  · exact EmitPolymorphicParameters.bindParameterSourcesLoop_prefix env FnType Sources _ _ _

theorem considerObjCGenericSelf_Sources_kind (IGM : IRGenModule) (fnType : PILFunctionType)
    (source : MetadataSource)
    (h : source ∈ ((PolymorphicConvention.initGenerics fnType).considerObjCGenericSelf IGM
      fnType).Sources) :
    source.kind = MetadataSource.Kind.ClassPointer := by
  unfold PolymorphicConvention.considerObjCGenericSelf at h
  dsimp only at h
  split at h
  · simp only [PolymorphicConvention.addSelfMetadataFulfillment,
      PolymorphicConvention.initGenerics, List.nil_append, List.mem_singleton] at h
    rw [h]
  · simp only [PolymorphicConvention.considerType, PolymorphicConvention.initGenerics,
      List.nil_append, List.mem_singleton] at h
    rw [h]

theorem construct_lvalue_source_valid (IGM : IRGenModule) (fnType : PILFunctionType)
    (hlen : fnType.parameters.length < 4294967296) (source : MetadataSource)
    (hmem : source ∈ (PolymorphicConvention.construct IGM fnType).Sources)
    (hkind : source.kind = MetadataSource.Kind.GenericLValueMetadata) :
    source.paramIndex < fnType.parameters.length := by
  have hwitness : ∀ conv : PolymorphicConvention, conv.Sources = [] →
      source ∈ (conv.considerWitnessSelf IGM fnType).Sources → False := by
    intro conv hnil hs
    rw [considerWitnessSelf_Sources, hnil] at hs
    simp only [List.nil_append, List.mem_cons, List.mem_singleton, List.not_mem_nil,
      or_false] at hs
    rcases hs with hs | hs
    · rw [hs] at hkind
      cases hkind
    · rw [hs] at hkind
      cases hkind
  by_cases hp : fnType.pseudogeneric = true
  · rw [construct_pseudogeneric IGM fnType hp, addPseudogenericFulfillments_Sources] at hmem
    split at hmem
    · exact (hwitness _ rfl hmem).elim
    · simp [PolymorphicConvention.initGenerics] at hmem
  · have hp' : fnType.pseudogeneric = false := by simpa using hp
    by_cases hw : fnType.representation = PILFunctionTypeRepresentation.WitnessMethod
    · have hc : PolymorphicConvention.construct IGM fnType =
          (PolymorphicConvention.initGenerics fnType).considerWitnessSelf IGM fnType := by
        unfold PolymorphicConvention.construct
        simp [hp', hw]
      rw [hc] at hmem
      exact (hwitness _ rfl hmem).elim
    · by_cases ho : fnType.representation = PILFunctionTypeRepresentation.ObjCMethod
      · have hc : PolymorphicConvention.construct IGM fnType =
            (PolymorphicConvention.initGenerics fnType).considerObjCGenericSelf IGM fnType := by
          unfold PolymorphicConvention.construct
          simp only [hp', Bool.false_eq_true, if_false]
          rw [if_neg hw, if_pos ho]
        rw [hc] at hmem
        rw [considerObjCGenericSelf_Sources_kind IGM fnType source hmem] at hkind
        cases hkind
      · obtain ⟨added, hadded, hsub⟩ := considerInOrder_Sources IGM fnType
          (considerationOrder fnType) (PolymorphicConvention.initGenerics fnType)
        have horder := construct_eq_considerInOrder IGM fnType hp' hw ho hlen
        rw [horder, hadded] at hmem
        have hmem' : source ∈ added := by
          simpa [PolymorphicConvention.initGenerics] using hmem
        have hidx : source.paramIndex ∈ (considerationOrder fnType).map Prod.fst :=
          hsub.subset (List.mem_map_of_mem _ hmem')
        have hperm := (considerationOrder_indices fnType).1
        exact List.mem_range.mp ((List.Perm.mem_iff hperm).mp hidx)

theorem getSubstSelfType_isSome (origFnType : PILFunctionType) (subs : SubstitutionMap)
    (h : origFnType.parameters ≠ []) :
    ∃ selfType, getSubstSelfType origFnType subs = some selfType := by
  unfold getSubstSelfType
  cases hl : origFnType.parameters.getLast? with
  | none =>
    rw [List.getLast?_eq_none_iff] at hl
    exact absurd hl h
  | some selfParam => exact ⟨_, rfl⟩

theorem EmitPolymorphicArguments.emitEarlySources_total {V : Type}
    (emitter : ArgumentEmitter V) (FnType : PILFunctionType) (subs : SubstitutionMap)
    (selfType : CanType) (hself : getSubstSelfType FnType subs = some selfType)
    (sources : List MetadataSource) (out : List V) :
    ∃ out1, EmitPolymorphicArguments.emitEarlySources emitter FnType subs sources out =
      some out1 := by
  induction sources generalizing out with
  | nil => exact ⟨out, rfl⟩
  | cons source rest ih =>
    unfold EmitPolymorphicArguments.emitEarlySources
    cases hk : source.kind <;> simp only [hself] <;> exact ih _

theorem EmitPolymorphicArguments.emitSelfMetadata_total {V : Type}
    (emitter : ArgumentEmitter V) (FnType : PILFunctionType) (subs : SubstitutionMap)
    (selfType : CanType) (hself : getSubstSelfType FnType subs = some selfType)
    (sources : List MetadataSource) (metadata : WitnessMetadata V) :
    ∃ metadata1, EmitPolymorphicArguments.emitSelfMetadata emitter FnType subs sources
      (some metadata) = some metadata1 := by
  induction sources generalizing metadata with
  | nil => exact ⟨_, rfl⟩
  | cons source rest ih =>
    simp only [EmitPolymorphicArguments.emitSelfMetadata,
      EmitPolymorphicArguments.emitSelfMetadataSource]
    cases hk : source.kind <;> simp only [hself] <;> exact ih _

theorem EmitPolymorphicParameters.bindExtraSources_total {V : Type} (env : ParameterEmitter V)
    (FnType : PILFunctionType) (witness : WitnessMetadata V) (selfMetadata selfTable : V)
    (hm : witness.SelfMetadata = some selfMetadata)
    (ht : witness.SelfWitnessTable = some selfTable)
    (sources : List MetadataSource)
    (hvalid : ∀ source ∈ sources,
      source.kind = MetadataSource.Kind.GenericLValueMetadata →
      source.paramIndex < FnType.parameters.length)
    (bound : List (ParameterBinding V)) (claimed rest : List V)
    (hlen : claimed.length =
      (sources.filter (fun source =>
        decide (source.kind = MetadataSource.Kind.GenericLValueMetadata))).length) :
    ∃ bound1, EmitPolymorphicParameters.bindExtraSources env FnType (some witness) sources
      (bound, claimed ++ rest) = some (bound1, rest) := by
  induction sources generalizing bound claimed with
  | nil =>
    have hnil : claimed = [] := List.length_eq_zero.mp (by simpa using hlen)
    subst hnil
    exact ⟨bound, rfl⟩
  | cons source others ih =>
    have hvalid' : ∀ s ∈ others,
        s.kind = MetadataSource.Kind.GenericLValueMetadata →
        s.paramIndex < FnType.parameters.length :=
      fun s hs => hvalid s (List.mem_cons_of_mem _ hs)
    unfold EmitPolymorphicParameters.bindExtraSources
    unfold EmitPolymorphicParameters.bindExtraSource
    cases hk : source.kind with
    | Metadata =>
      rw [List.filter_cons, if_neg (by simp [hk])] at hlen
      simp only
      exact ih hvalid' bound claimed hlen
    | ClassPointer =>
      rw [List.filter_cons, if_neg (by simp [hk])] at hlen
      simp only
      exact ih hvalid' bound claimed hlen
    | SelfMetadata =>
      rw [List.filter_cons, if_neg (by simp [hk])] at hlen
      simp only [hm]
      exact ih hvalid' _ claimed hlen
    | SelfWitnessTable =>
      rw [List.filter_cons, if_neg (by simp [hk])] at hlen
      simp only [ht]
      cases FnType.witnessMethodConformance with
      | «abstract» p => exact ih hvalid' _ claimed hlen
      | concrete p c => exact ih hvalid' _ claimed hlen
    | GenericLValueMetadata =>
      rw [List.filter_cons, if_pos (by simp [hk])] at hlen
      have hlt := hvalid source (List.mem_cons_self _ _) hk
      have harg : EmitPolymorphicParameters.getArgTypeInContext env FnType source.paramIndex =
          some (env.getTypeInContext FnType.parameters[source.paramIndex].argumentType) := by
        unfold EmitPolymorphicParameters.getArgTypeInContext
        rw [List.getElem?_eq_getElem hlt]
      cases claimed with
      | nil => simp at hlen
      | cons value more =>
        simp only [harg, List.cons_append]
        exact ih hvalid' _ more (by simpa using hlen)

theorem EmitPolymorphicParameters.bindUnfulfilledRequirements_total {V : Type}
    (env : ParameterEmitter V) (reqs : List GenericRequirement)
    (bound : List (ParameterBinding V)) (claimed rest : List V)
    (hlen : claimed.length = reqs.length) :
    ∃ bound1, EmitPolymorphicParameters.bindUnfulfilledRequirements env reqs
      (bound, claimed ++ rest) = some (bound1, rest) := by
  induction reqs generalizing bound claimed with
  | nil =>
    have hnil : claimed = [] := List.length_eq_zero.mp (by simpa using hlen)
    subst hnil
    exact ⟨bound, rfl⟩
  | cons requirement others ih =>
    cases claimed with
    | nil => simp at hlen
    | cons value more =>
      simp only [EmitPolymorphicParameters.bindUnfulfilledRequirements, List.cons_append]
      exact ih _ more (by simpa using hlen)

/-- C29: For every function type the caller side and the callee side agree on the implicit
generic arguments, which are one per GenericLValueMetadata source in source order followed
by one per unfulfilled requirement in enumerator order: `expandPolymorphicSignature`
appends the type of each of them, in this order; `EmitPolymorphicArguments::emit`, when it
returns, has added the value of each of them, in this order, and nothing else;
`EmitPolymorphicParameters::emit`, when it returns, has claimed as many values from the
front of the incoming explosion, and has bound the i-th value claimed as the i-th implicit
argument. Hence the three have the same number of elements, and the callee that receives
the values the caller added, followed by anything, claims exactly those values. Both sides
do return: for a function type with at least one parameter (and fewer than 2^32), a caller
given a witness metadata returns, and the callee given the values the caller added,
followed by anything, and a witness metadata holding both Self values returns and leaves
what followed. -/
theorem implicit_arguments_agree {V : Type} (IGM : IRGenModule) (fnType : PILFunctionType)
    (emitter : ArgumentEmitter V) (env : ParameterEmitter V) (subs : SubstitutionMap) :
    (∀ tys : List LLVMType,
      expandPolymorphicSignature IGM fnType tys =
        tys ++ (implicitArguments IGM (PolymorphicConvention.construct IGM fnType)).map
          ImplicitArgument.signatureType) ∧
    (∀ (witnessMetadata witnessMetadata1 : Option (WitnessMetadata V)) (out out1 : List V),
      EmitPolymorphicArguments.emit IGM fnType emitter subs witnessMetadata out =
        some (witnessMetadata1, out1) →
      out1 = out ++ (implicitArguments IGM (PolymorphicConvention.construct IGM fnType)).map
        (ImplicitArgument.passedValue emitter subs
          ((getSubstSelfType fnType subs).getD (CanType.tuple [])))) ∧
    (∀ (incoming rest : List V) (witnessMetadata : Option (WitnessMetadata V))
        (bindings : List (ParameterBinding V)),
      EmitPolymorphicParameters.emit IGM fnType env incoming witnessMetadata =
        some (bindings, rest) →
      ∃ claimed : List V, incoming = claimed ++ rest ∧
        claimed.length =
          (implicitArguments IGM (PolymorphicConvention.construct IGM fnType)).length ∧
        ∀ (i : Nat) (argument : ImplicitArgument) (value : V),
          (implicitArguments IGM (PolymorphicConvention.construct IGM fnType))[i]? =
            some argument →
          claimed[i]? = some value →
          ∃ binding, argument.boundAs env fnType value = some binding ∧ binding ∈ bindings) ∧
    (∀ (callerMetadata callerMetadata1 calleeMetadata : Option (WitnessMetadata V))
        (arguments tail rest : List V) (bindings : List (ParameterBinding V)),
      EmitPolymorphicArguments.emit IGM fnType emitter subs callerMetadata [] =
        some (callerMetadata1, arguments) →
      EmitPolymorphicParameters.emit IGM fnType env (arguments ++ tail) calleeMetadata =
        some (bindings, rest) →
      rest = tail ∧
      arguments.length = (expandPolymorphicSignature IGM fnType []).length) ∧
    (fnType.parameters ≠ [] → fnType.parameters.length < 4294967296 →
      ∀ (callerMetadata calleeMetadata : WitnessMetadata V) (selfMetadata selfTable : V)
        (tail : List V),
      calleeMetadata.SelfMetadata = some selfMetadata →
      calleeMetadata.SelfWitnessTable = some selfTable →
      ∃ (callerMetadata1 : Option (WitnessMetadata V)) (arguments : List V)
        (bindings : List (ParameterBinding V)),
        EmitPolymorphicArguments.emit IGM fnType emitter subs (some callerMetadata) [] =
          some (callerMetadata1, arguments) ∧
        EmitPolymorphicParameters.emit IGM fnType env (arguments ++ tail)
          (some calleeMetadata) = some (bindings, tail)) := by
  have hsig : ∀ tys : List LLVMType,
      expandPolymorphicSignature IGM fnType tys =
        tys ++ (implicitArguments IGM (PolymorphicConvention.construct IGM fnType)).map
          ImplicitArgument.signatureType := by
    intro tys
    unfold expandPolymorphicSignature ExpandPolymorphicSignature.expand implicitArguments
    simp only [foldl_addEarlySource, foldl_push_requirement_type, List.map_append,
      List.map_map, List.append_assoc]
    rfl
  have hcaller : ∀ (witnessMetadata witnessMetadata1 : Option (WitnessMetadata V))
      (out out1 : List V),
      EmitPolymorphicArguments.emit IGM fnType emitter subs witnessMetadata out =
        some (witnessMetadata1, out1) →
      out1 = out ++ (implicitArguments IGM (PolymorphicConvention.construct IGM fnType)).map
        (ImplicitArgument.passedValue emitter subs
          ((getSubstSelfType fnType subs).getD (CanType.tuple []))) := by
    intro witnessMetadata witnessMetadata1 out out1 h
    unfold EmitPolymorphicArguments.emit at h
    simp only at h
    cases hearly : EmitPolymorphicArguments.emitEarlySources emitter fnType subs
        (PolymorphicConvention.construct IGM fnType).Sources out with
    | none => simp [hearly] at h
    | some early =>
      simp only [hearly] at h
      cases hself : EmitPolymorphicArguments.emitSelfMetadata emitter fnType subs
          (PolymorphicConvention.construct IGM fnType).Sources witnessMetadata with
      | none => simp [hself] at h
      | some wm =>
        simp only [hself, Option.some.injEq, Prod.mk.injEq] at h
        rw [← h.2, foldl_emitRequirement,
          EmitPolymorphicArguments.emitEarlySources_spec emitter fnType subs _ out early hearly]
        unfold implicitArguments
        simp only [List.map_append, List.map_map, List.append_assoc]
        rfl
  have hcallee : ∀ (incoming rest : List V) (witnessMetadata : Option (WitnessMetadata V))
      (bindings : List (ParameterBinding V)),
      EmitPolymorphicParameters.emit IGM fnType env incoming witnessMetadata =
        some (bindings, rest) →
      ∃ claimed : List V, incoming = claimed ++ rest ∧
        claimed.length =
          (implicitArguments IGM (PolymorphicConvention.construct IGM fnType)).length ∧
        ∀ (i : Nat) (argument : ImplicitArgument) (value : V),
          (implicitArguments IGM (PolymorphicConvention.construct IGM fnType))[i]? =
            some argument →
          claimed[i]? = some value →
          ∃ binding, argument.boundAs env fnType value = some binding ∧ binding ∈ bindings := by
    intro incoming rest witnessMetadata bindings h
    unfold EmitPolymorphicParameters.emit at h
    simp only at h
    cases hextra : EmitPolymorphicParameters.bindExtraSources env fnType witnessMetadata
        (PolymorphicConvention.construct IGM fnType).Sources ([], incoming) with
    | none => simp [hextra] at h
    | some state1 =>
      simp only [hextra] at h
      cases hreq : EmitPolymorphicParameters.bindUnfulfilledRequirements env
          ((PolymorphicConvention.construct IGM fnType).enumerateUnfulfilledRequirements IGM)
          state1 with
      | none => simp [hreq] at h
      | some state2 =>
        simp only [hreq, Option.some.injEq, Prod.mk.injEq] at h
        obtain ⟨hb, hr⟩ := h
        obtain ⟨_, claimed1, hsplit1, hlen1, hbound1⟩ :=
          EmitPolymorphicParameters.bindExtraSources_spec env fnType witnessMetadata _ _ _ hextra
        obtain ⟨hpre2, claimed2, hsplit2, hlen2, hbound2⟩ :=
          EmitPolymorphicParameters.bindUnfulfilledRequirements_spec env _ _ _ hreq
        have hpre3 := EmitPolymorphicParameters.bindParameterSources_prefix env fnType
          (PolymorphicConvention.construct IGM fnType).Sources state2.1
        rw [hb] at hpre3
        simp only at hsplit1
        refine ⟨claimed1 ++ claimed2, ?_, ?_, ?_⟩
        · rw [hsplit1, hsplit2, hr, List.append_assoc]
        · unfold implicitArguments
          simp [hlen1, hlen2]
        · intro i argument value harg hval
          unfold implicitArguments at harg
          by_cases hi : i < claimed1.length
          · rw [List.getElem?_append_left (by simpa [hlen1] using hi)] at harg
            rw [List.getElem?_append_left hi] at hval
            rw [List.getElem?_map] at harg
            cases hsrc : ((PolymorphicConvention.construct IGM fnType).Sources.filter
                (fun source =>
                  decide (source.kind = MetadataSource.Kind.GenericLValueMetadata)))[i]? with
            | none => simp [hsrc] at harg
            | some source =>
              simp only [hsrc, Option.map_some', Option.some.injEq] at harg
              subst harg
              obtain ⟨binding, hbd, hmem⟩ := hbound1 i source value hsrc hval
              exact ⟨binding, hbd, hpre3.subset (hpre2.subset hmem)⟩
          · have hge : claimed1.length ≤ i := Nat.le_of_not_lt hi
            rw [List.getElem?_append_right (by simpa [hlen1] using hge)] at harg
            rw [List.getElem?_append_right hge] at hval
            simp only [List.length_map, ← hlen1, List.getElem?_map] at harg
            cases hrq : ((PolymorphicConvention.construct IGM
                fnType).enumerateUnfulfilledRequirements IGM)[i - claimed1.length]? with
            | none => simp [hrq] at harg
            | some requirement =>
              simp only [hrq, Option.map_some', Option.some.injEq] at harg
              subst harg
              exact ⟨_, rfl, hpre3.subset (hbound2 _ requirement value hrq hval)⟩
  refine ⟨hsig, hcaller, hcallee, ?_, ?_⟩
  · intro callerMetadata callerMetadata1 calleeMetadata arguments tail rest bindings hc he
    have hargs := hcaller callerMetadata callerMetadata1 [] arguments hc
    obtain ⟨claimed, hsplit, hlen, _⟩ := hcallee _ rest calleeMetadata bindings he
    have hlenArgs : arguments.length =
        (implicitArguments IGM (PolymorphicConvention.construct IGM fnType)).length := by
      rw [hargs]
      simp
    refine ⟨?_, ?_⟩
    · have h1 : claimed.length = arguments.length := by rw [hlen, hlenArgs]
      have h2 := List.append_inj hsplit h1.symm
      exact h2.2.symm
    · rw [hlenArgs, hsig []]
      simp
  · intro hparams hlen callerMetadata calleeMetadata selfMetadata selfTable tail hm ht
    obtain ⟨selfType, hself⟩ := getSubstSelfType_isSome fnType subs hparams
    obtain ⟨early, hearly⟩ := EmitPolymorphicArguments.emitEarlySources_total emitter fnType
      subs selfType hself (PolymorphicConvention.construct IGM fnType).Sources []
    obtain ⟨metadata1, hmeta⟩ := EmitPolymorphicArguments.emitSelfMetadata_total emitter
      fnType subs selfType hself (PolymorphicConvention.construct IGM fnType).Sources
      callerMetadata
    have hemit : ∃ arguments,
        EmitPolymorphicArguments.emit IGM fnType emitter subs (some callerMetadata) [] =
          some (metadata1, arguments) := by
      unfold EmitPolymorphicArguments.emit
      simp only [hearly, hmeta]
      exact ⟨_, rfl⟩
    obtain ⟨arguments, hargs⟩ := hemit
    have hval := hcaller _ _ _ _ hargs
    refine ⟨metadata1, arguments, ?_⟩
    obtain ⟨bound1, hextra⟩ := EmitPolymorphicParameters.bindExtraSources_total env fnType
      calleeMetadata selfMetadata selfTable hm ht
      (PolymorphicConvention.construct IGM fnType).Sources
      (fun source hmem hkind => construct_lvalue_source_valid IGM fnType hlen source hmem hkind)
      []
      ((((PolymorphicConvention.construct IGM fnType).Sources.filter
          (fun source =>
            decide (source.kind = MetadataSource.Kind.GenericLValueMetadata))).map
        ImplicitArgument.lvalueMetadata).map
        (ImplicitArgument.passedValue emitter subs
          ((getSubstSelfType fnType subs).getD (CanType.tuple []))))
      (((((PolymorphicConvention.construct IGM fnType).enumerateUnfulfilledRequirements
          IGM).map ImplicitArgument.requirement).map
        (ImplicitArgument.passedValue emitter subs
          ((getSubstSelfType fnType subs).getD (CanType.tuple [])))) ++ tail)
      (by simp)
    obtain ⟨bound2, hreq⟩ := EmitPolymorphicParameters.bindUnfulfilledRequirements_total env
      ((PolymorphicConvention.construct IGM fnType).enumerateUnfulfilledRequirements IGM)
      bound1
      ((((PolymorphicConvention.construct IGM fnType).enumerateUnfulfilledRequirements
          IGM).map ImplicitArgument.requirement).map
        (ImplicitArgument.passedValue emitter subs
          ((getSubstSelfType fnType subs).getD (CanType.tuple []))))
      tail (by simp)
    refine ⟨EmitPolymorphicParameters.bindParameterSources env fnType
      (PolymorphicConvention.construct IGM fnType).Sources bound2, hargs, ?_⟩
    unfold EmitPolymorphicParameters.emit
    rw [hval]
    unfold implicitArguments
    simp only [List.nil_append, List.map_append, List.append_assoc]
    rw [hextra]
    simp only
    rw [hreq]

theorem implicit_arguments_agree_witness :
    EmitPolymorphicArguments.emit findingModule mutatingMethodScenario namingArgumentEmitter
        intSubstitution none [] =
      some (none,
        [(0, CanType.boundGeneric { id := 5, kind := NominalKind.Struct }
              [CanType.nominal { id := 9, kind := NominalKind.Struct }]),
         (0, CanType.nominal { id := 9, kind := NominalKind.Struct })]) ∧
    expandPolymorphicSignature findingModule mutatingMethodScenario [] =
      [LLVMType.TypeMetadataPtrTy, LLVMType.TypeMetadataPtrTy] ∧
    (EmitPolymorphicParameters.emit findingModule mutatingMethodScenario plainParameterEmitter
        [(0, CanType.boundGeneric { id := 5, kind := NominalKind.Struct }
              [CanType.nominal { id := 9, kind := NominalKind.Struct }]),
         (0, CanType.nominal { id := 9, kind := NominalKind.Struct }),
         (7, CanType.tuple [])] none).map Prod.snd = some [(7, CanType.tuple [])] := by
  have hcaller : EmitPolymorphicArguments.emit findingModule mutatingMethodScenario
      namingArgumentEmitter intSubstitution none [] =
      some (none,
        [(0, CanType.boundGeneric { id := 5, kind := NominalKind.Struct }
              [CanType.nominal { id := 9, kind := NominalKind.Struct }]),
         (0, CanType.nominal { id := 9, kind := NominalKind.Struct })]) := by
    rfl
  have hsome : (EmitPolymorphicParameters.emit findingModule mutatingMethodScenario
      plainParameterEmitter
      ([(0, CanType.boundGeneric { id := 5, kind := NominalKind.Struct }
              [CanType.nominal { id := 9, kind := NominalKind.Struct }]),
         (0, CanType.nominal { id := 9, kind := NominalKind.Struct })] ++
        [(7, CanType.tuple [])]) none).isSome = true := by
    rfl
  obtain ⟨result, hresult⟩ := Option.isSome_iff_exists.mp hsome
  have h := implicit_arguments_agree findingModule mutatingMethodScenario
    namingArgumentEmitter plainParameterEmitter intSubstitution
  have hrest := (h.2.2.2.1 none none none _ [(7, CanType.tuple [])] result.2 result.1 hcaller
    hresult).1
  refine ⟨hcaller, ?_, ?_⟩
  · rw [h.1 []]
    rfl
  · have hlist : ([(0, CanType.boundGeneric { id := 5, kind := NominalKind.Struct }
              [CanType.nominal { id := 9, kind := NominalKind.Struct }]),
         (0, CanType.nominal { id := 9, kind := NominalKind.Struct }),
         (7, CanType.tuple [])] : List (Nat × CanType)) =
        [(0, CanType.boundGeneric { id := 5, kind := NominalKind.Struct }
              [CanType.nominal { id := 9, kind := NominalKind.Struct }]),
         (0, CanType.nominal { id := 9, kind := NominalKind.Struct })] ++
        [(7, CanType.tuple [])] := rfl
    rw [hlist, hresult, Option.map_some', hrest]

/-! ## The builder in lockstep with the layout -/

theorem entriesAgree_length (entries : List PILWitnessTable.Entry) (visits : List WitnessVisit)
    (h : entriesAgree entries visits = true) : entries.length = visits.length := by
  induction entries generalizing visits with
  | nil =>
    cases visits with
    | nil => rfl
    | cons v vs => simp [entriesAgree] at h
  | cons entry others ih =>
    cases visits with
    | nil => simp [entriesAgree] at h
    | cons v vs =>
      simp only [entriesAgree, Bool.and_eq_true] at h
      simp [ih vs h.2]

theorem entriesAgree_take (entries : List PILWitnessTable.Entry) (visits : List WitnessVisit)
    (k : Nat) (h : entriesAgree entries visits = true) :
    entriesAgree (entries.take k) (visits.take k) = true := by
  induction entries generalizing visits k with
  | nil =>
    cases visits with
    | nil => simp [entriesAgree]
    | cons v vs => simp [entriesAgree] at h
  | cons entry others ih =>
    cases visits with
    | nil => simp [entriesAgree] at h
    | cons v vs =>
      simp only [entriesAgree, Bool.and_eq_true] at h
      cases k with
      | zero => simp [entriesAgree]
      | succ k =>
        simp only [List.take_succ_cons, entriesAgree, Bool.and_eq_true]
        exact ⟨h.1, ih vs k h.2⟩

theorem entriesAgree_getElem (entries : List PILWitnessTable.Entry)
    (visits : List WitnessVisit) (k : Nat) (visit : WitnessVisit)
    (h : entriesAgree entries visits = true) (hk : visits[k]? = some visit) :
    ∃ entry, entries[k]? = some entry ∧ entry.agreesWith visit = true := by
  induction entries generalizing visits k with
  | nil =>
    cases visits with
    | nil => simp at hk
    | cons v vs => simp [entriesAgree] at h
  | cons entry others ih =>
    cases visits with
    | nil => simp [entriesAgree] at h
    | cons v vs =>
      simp only [entriesAgree, Bool.and_eq_true] at h
      cases k with
      | zero =>
        simp only [List.getElem?_cons_zero, Option.some.injEq] at hk
        subst hk
        exact ⟨entry, by simp, h.1⟩
      | succ k =>
        simp only [List.getElem?_cons_succ] at hk ⊢
        exact ih vs k h.2 hk

theorem InterfaceInfo.firstMatchingWitness_visits (pred : WitnessTableEntry → Bool)
    (target : WitnessVisit)
    (hpred : ∀ (entry : PILWitnessTable.Entry) (visit : WitnessVisit),
      entry.agreesWith visit = true →
      ∃ witness, visit.layoutEntries = [witness] ∧ (pred witness = true ↔ visit = target))
    (visits : List WitnessVisit) (entries : List PILWitnessTable.Entry) (position k : Nat)
    (hagree : entriesAgree entries visits = true) (hnodup : visits.Nodup)
    (hk : visits[k]? = some target) :
    InterfaceInfo.firstMatchingWitness pred (visits.flatMap WitnessVisit.layoutEntries)
      position = some (position + k) := by
  induction visits generalizing entries position k with
  | nil => simp at hk
  | cons visit rest ih =>
    cases entries with
    | nil => simp [entriesAgree] at hagree
    | cons entry others =>
      simp only [entriesAgree, Bool.and_eq_true] at hagree
      obtain ⟨witness, hw, hiff⟩ := hpred entry visit hagree.1
      rw [List.flatMap_cons, hw, List.singleton_append]
      unfold InterfaceInfo.firstMatchingWitness
      cases k with
      | zero =>
        simp only [List.getElem?_cons_zero, Option.some.injEq] at hk
        rw [if_pos (hiff.mpr hk)]
        rfl
      | succ k =>
        simp only [List.getElem?_cons_succ] at hk
        have hmem : target ∈ rest := (List.mem_iff_getElem?.mpr ⟨k, hk⟩)
        have hne : visit ≠ target := by
          intro h
          rw [h] at hnodup
          exact (List.nodup_cons.mp hnodup).1 hmem
        rw [if_neg (fun h => hne (hiff.mp h)),
          ih others (position + 1) k hagree.2 (List.nodup_cons.mp hnodup).2 hk]
        congr 1
        omega

theorem WitnessTableBuilder.layoutIndex_of_agree (self : WitnessTableBuilder)
    (visits : List WitnessVisit) (entries : List PILWitnessTable.Entry)
    (hPI : self.PI.WitnessEntries = visits.flatMap WitnessVisit.layoutEntries)
    (hagree : entriesAgree entries visits = true) (hnodup : visits.Nodup)
    (k : Nat) (target : WitnessVisit) (hk : visits[k]? = some target) :
    self.layoutIndex target = some k := by
  obtain ⟨entry, _, htarget⟩ := entriesAgree_getElem entries visits k target hagree hk
  have hzero : ∀ pred : WitnessTableEntry → Bool,
      (∀ (entry : PILWitnessTable.Entry) (visit : WitnessVisit),
        entry.agreesWith visit = true →
        ∃ witness, visit.layoutEntries = [witness] ∧ (pred witness = true ↔ visit = target)) →
      InterfaceInfo.firstMatchingWitness pred self.PI.WitnessEntries 0 = some k := by
    intro pred hpred
    rw [hPI, InterfaceInfo.firstMatchingWitness_visits pred target hpred visits entries 0 k
      hagree hnodup hk, Nat.zero_add]
  cases target with
  | InterfaceConformanceDescriptor =>
    cases entry <;> simp [PILWitnessTable.Entry.agreesWith] at htarget
  | Placeholder n =>
    cases entry <;> simp [PILWitnessTable.Entry.agreesWith] at htarget
  | OutOfLineBaseInterface baseProto =>
    apply hzero
    intro e v hv
    cases v <;>
      first
      | exact ⟨_, rfl, by simp [WitnessTableEntry.matchesBase]⟩
      | (exfalso; cases e <;> simp [PILWitnessTable.Entry.agreesWith] at hv)
  | Method requirement =>
    apply hzero
    intro e v hv
    obtain ⟨decl⟩ := requirement
    cases v with
    | Method r =>
      obtain ⟨d⟩ := r
      exact ⟨_, rfl, by simp [WitnessTableEntry.matchesFunction]⟩
    | InterfaceConformanceDescriptor =>
      exfalso
      cases e <;> simp [PILWitnessTable.Entry.agreesWith] at hv
    | Placeholder n =>
      exfalso
      cases e <;> simp [PILWitnessTable.Entry.agreesWith] at hv
    | OutOfLineBaseInterface b => exact ⟨_, rfl, by simp [WitnessTableEntry.matchesFunction]⟩
    | AssociatedType r => exact ⟨_, rfl, by simp [WitnessTableEntry.matchesFunction]⟩
    | AssociatedConformance r => exact ⟨_, rfl, by simp [WitnessTableEntry.matchesFunction]⟩
  | AssociatedType requirement =>
    apply hzero
    intro e v hv
    cases v <;>
      first
      | exact ⟨_, rfl, by simp [WitnessTableEntry.matchesAssociatedType]⟩
      | (exfalso; cases e <;> simp [PILWitnessTable.Entry.agreesWith] at hv)
  | AssociatedConformance requirement =>
    apply hzero
    intro e v hv
    cases v <;>
      first
      | exact ⟨_, rfl, by simp [WitnessTableEntry.matchesAssociatedConformance]⟩
      | (exfalso; cases e <;> simp [PILWitnessTable.Entry.agreesWith] at hv)

theorem WitnessTableBuilder.assertionsHold_of_agree (WitnessTableFirstRequirementOffset : Nat)
    (self : WitnessTableBuilder) (visit : WitnessVisit) (entry : PILWitnessTable.Entry)
    (rest : List PILWitnessTable.Entry) (hent : self.PILEntries = entry :: rest)
    (hagree : entry.agreesWith visit = true)
    (hidx : self.layoutIndex visit =
      some (self.requirementOffset WitnessTableFirstRequirementOffset)) :
    self.assertionsHold WitnessTableFirstRequirementOffset visit = true := by
  cases visit <;> cases entry <;>
    simp only [PILWitnessTable.Entry.agreesWith, Bool.false_eq_true, Bool.and_eq_true,
      decide_eq_true_eq] at hagree <;>
    simp only [WitnessTableBuilder.layoutIndex] at hidx <;>
    simp [WitnessTableBuilder.assertionsHold, hent, hidx,
      WitnessTableBuilder.offsetMatchesLayout, hagree]

theorem WitnessTableBuilder.visit_fixed (IGM : IRGenModule) (inputs : WitnessTableInputs)
    (hwf : IGM.Context.wellFormed = true) (self : WitnessTableBuilder)
    (entry : PILWitnessTable.Entry) (extra : List PILWitnessTable.Entry) (e : WitnessVisit)
    (hres : self.ResilientConformance = false) (hent : self.PILEntries = entry :: extra)
    (hagree : entry.agreesWith e = true)
    (hbase : ∀ baseProto, e = WitnessVisit.OutOfLineBaseInterface baseProto →
      (self.ConformanceInContext.getInheritedConformance baseProto).getRootConformance.inTable
        IGM.Context.conformances.length = true)
    (hassoc : ∀ requirement, e = WitnessVisit.AssociatedConformance requirement →
      (∃ id, self.Conformance = RootInterfaceConformance.normal id) ∧
      self.AccessFunctionEmittable IGM inputs
        (self.ConformanceInContext.getAssociatedType requirement.association)
        requirement.associatedRequirement
        (self.ConformanceInContext.getAssociatedConformance requirement.association
          requirement.associatedRequirement)) :
    ∃ s', self.visit IGM inputs e = some s' ∧ s'.Table.length = self.Table.length + 1 ∧
      s'.PILEntries = extra ∧ s'.PI = self.PI ∧ s'.ResilientConformance = false ∧
      s'.ConformanceInContext = self.ConformanceInContext ∧
      s'.Conformance = self.Conformance ∧ s'.ConcreteType = self.ConcreteType := by
  obtain ⟨Table, TableSize, PILWT, ConcreteType, Conformance, ConformanceInContext, PILEntries,
    PILConditionalConformances, SpecializedBaseConformances,
    ConditionalRequirementPrivateDataIndices, NextPrivateDataIndex, ResilientConformance, PI,
    Conformances⟩ := self
  simp only at hres hent hbase hassoc
  subst hres hent
  cases e with
  | InterfaceConformanceDescriptor =>
    cases entry <;> simp [PILWitnessTable.Entry.agreesWith] at hagree
  | Placeholder n =>
    cases entry <;> simp [PILWitnessTable.Entry.agreesWith] at hagree
  | OutOfLineBaseInterface baseProto =>
    obtain ⟨⟨conf, cache⟩, hr⟩ := getConformanceInfo_total IGM hwf Conformances baseProto _
      (hbase baseProto rfl)
    simp only [WitnessTableBuilder.visit, WitnessTableBuilder.addOutOfLineBaseInterface,
      Bool.false_eq_true, if_false, hr]
    split
    · exact ⟨_, rfl, by simp, rfl, rfl, rfl, rfl, rfl, rfl⟩
    · exact ⟨_, rfl, by simp, rfl, rfl, rfl, rfl, rfl, rfl⟩
  | Method requirement =>
    cases entry <;> simp only [PILWitnessTable.Entry.agreesWith, Bool.false_eq_true] at hagree
    rename_i r w
    simp only [WitnessTableBuilder.visit, WitnessTableBuilder.addMethod, Bool.false_eq_true,
      if_false]
    exact ⟨_, rfl, by simp, rfl, rfl, rfl, rfl, rfl, rfl⟩
  | AssociatedType requirement =>
    simp only [WitnessTableBuilder.visit, WitnessTableBuilder.addAssociatedType,
      Bool.false_eq_true, if_false]
    exact ⟨_, rfl, by simp, rfl, rfl, rfl, rfl, rfl, rfl⟩
  | AssociatedConformance requirement =>
    obtain ⟨⟨id, hnormal⟩, hok⟩ := hassoc requirement rfl
    simp only [WitnessTableBuilder.visit, WitnessTableBuilder.addAssociatedConformance,
      Bool.false_eq_true, if_false]
    obtain ⟨cache, hcache⟩ := WitnessTableBuilder.getAssociatedConformanceWitness_total IGM hwf
      inputs
      { Table := Table, TableSize := TableSize, PILWT := PILWT, ConcreteType := ConcreteType,
        Conformance := Conformance, ConformanceInContext := ConformanceInContext,
        PILEntries := extra, PILConditionalConformances := PILConditionalConformances,
        SpecializedBaseConformances := SpecializedBaseConformances,
        ConditionalRequirementPrivateDataIndices := ConditionalRequirementPrivateDataIndices,
        NextPrivateDataIndex := NextPrivateDataIndex, ResilientConformance := false, PI := PI,
        Conformances := Conformances }
      requirement
      (ConformanceInContext.getAssociatedType requirement.association)
      (ConformanceInContext.getAssociatedConformance requirement.association
        requirement.associatedRequirement) id hnormal
      (WitnessTableBuilder.accessFunctionEmittable_congr rfl hok)
    rw [hcache]
    exact ⟨_, rfl, by simp, rfl, rfl, rfl, rfl, rfl, rfl⟩

theorem WitnessTableBuilder.visitAll_fixed (IGM : IRGenModule) (inputs : WitnessTableInputs)
    (hwf : IGM.Context.wellFormed = true) (events : List WitnessVisit)
    (self : WitnessTableBuilder) (entries extra : List PILWitnessTable.Entry)
    (hres : self.ResilientConformance = false) (hent : self.PILEntries = entries ++ extra)
    (hagree : entriesAgree entries events = true)
    (hbase : ∀ baseProto, WitnessVisit.OutOfLineBaseInterface baseProto ∈ events →
      (self.ConformanceInContext.getInheritedConformance baseProto).getRootConformance.inTable
        IGM.Context.conformances.length = true)
    (hassoc : ∀ requirement, WitnessVisit.AssociatedConformance requirement ∈ events →
      (∃ id, self.Conformance = RootInterfaceConformance.normal id) ∧
      self.AccessFunctionEmittable IGM inputs
        (self.ConformanceInContext.getAssociatedType requirement.association)
        requirement.associatedRequirement
        (self.ConformanceInContext.getAssociatedConformance requirement.association
          requirement.associatedRequirement)) :
    ∃ s', WitnessTableBuilder.visitAll IGM inputs events self = some s' ∧
      s'.Table.length = self.Table.length + events.length ∧
      s'.PILEntries = extra ∧ s'.PI = self.PI ∧ s'.ResilientConformance = false ∧
      s'.ConformanceInContext = self.ConformanceInContext ∧
      s'.Conformance = self.Conformance ∧ s'.ConcreteType = self.ConcreteType := by
  induction events generalizing self entries with
  | nil =>
    cases entries with
    | nil => exact ⟨self, rfl, rfl, hent, rfl, hres, rfl, rfl, rfl⟩
    | cons entry others => simp [entriesAgree] at hagree
  | cons e rest ih =>
    cases entries with
    | nil => simp [entriesAgree] at hagree
    | cons entry others =>
      simp only [entriesAgree, Bool.and_eq_true] at hagree
      obtain ⟨s1, hs1, hlen1, hent1, hPI1, hres1, hctx1, hconf1, htype1⟩ :=
        WitnessTableBuilder.visit_fixed IGM inputs hwf self entry (others ++ extra) e hres hent
          hagree.1
          (fun baseProto he => hbase baseProto (by rw [he]; exact List.mem_cons_self _ _))
          (fun requirement he => hassoc requirement (by rw [he]; exact List.mem_cons_self _ _))
      obtain ⟨s2, hs2, hlen2, hent2, hPI2, hres2, hctx2, hconf2, htype2⟩ :=
        ih s1 others hres1 hent1 hagree.2
          (fun baseProto hm => by
            rw [hctx1]
            exact hbase baseProto (List.mem_cons_of_mem _ hm))
          (fun requirement hm => by
            rw [hctx1, hconf1]
            exact ⟨(hassoc requirement (List.mem_cons_of_mem _ hm)).1,
              WitnessTableBuilder.accessFunctionEmittable_congr htype1
                (hassoc requirement (List.mem_cons_of_mem _ hm)).2⟩)
      refine ⟨s2, ?_, ?_, hent2, hPI2.trans hPI1, hres2, hctx2.trans hctx1,
        hconf2.trans hconf1, htype2.trans htype1⟩
      · simp only [WitnessTableBuilder.visitAll, hs1]
        exact hs2
      · rw [hlen2, hlen1, List.length_cons]
        omega

theorem WitnessTableBuilder.visitAll_prefix_fixed (IGM : IRGenModule)
    (inputs : WitnessTableInputs) (hwf : IGM.Context.wellFormed = true)
    (self : WitnessTableBuilder) (visits : List WitnessVisit)
    (hres : self.ResilientConformance = false) (htable : self.Table = [])
    (hagree : entriesAgree self.PILEntries visits = true)
    (hbase : ∀ baseProto, WitnessVisit.OutOfLineBaseInterface baseProto ∈ visits →
      (self.ConformanceInContext.getInheritedConformance baseProto).getRootConformance.inTable
        IGM.Context.conformances.length = true)
    (hassoc : ∀ requirement, WitnessVisit.AssociatedConformance requirement ∈ visits →
      (∃ id, self.Conformance = RootInterfaceConformance.normal id) ∧
      self.AccessFunctionEmittable IGM inputs
        (self.ConformanceInContext.getAssociatedType requirement.association)
        requirement.associatedRequirement
        (self.ConformanceInContext.getAssociatedConformance requirement.association
          requirement.associatedRequirement))
    (i : Nat) (hi : i ≤ visits.length + 1) :
    ∃ state,
      WitnessTableBuilder.visitAll IGM inputs
        ((WitnessVisit.InterfaceConformanceDescriptor :: visits).take i) self = some state ∧
      state.Table.length = i ∧ state.PILEntries = self.PILEntries.drop (i - 1) ∧
      state.PI = self.PI ∧ state.ResilientConformance = false := by
  cases i with
  | zero =>
    refine ⟨self, rfl, ?_, rfl, rfl, hres⟩
    rw [htable]
    rfl
  | succ k =>
    have hk : k ≤ visits.length := by omega
    obtain ⟨state, hstate, hlen, hent, hPI, hres', _, _, _⟩ :=
      WitnessTableBuilder.visitAll_fixed IGM inputs hwf (visits.take k)
        self.addInterfaceConformanceDescriptor (self.PILEntries.take k) (self.PILEntries.drop k)
        hres (List.take_append_drop k self.PILEntries).symm
        (entriesAgree_take _ _ k hagree)
        (fun baseProto hm => hbase baseProto (List.mem_of_mem_take hm))
        (fun requirement hm =>
          ⟨(hassoc requirement (List.mem_of_mem_take hm)).1,
            WitnessTableBuilder.accessFunctionEmittable_congr rfl
              (hassoc requirement (List.mem_of_mem_take hm)).2⟩)
    refine ⟨state, ?_, ?_, ?_, hPI, hres'⟩
    · simp only [List.take_succ_cons, WitnessTableBuilder.visitAll, WitnessTableBuilder.visit]
      exact hstate
    · rw [hlen, List.length_take, Nat.min_eq_left hk]
      simp only [WitnessTableBuilder.addInterfaceConformanceDescriptor, htable, List.nil_append,
        List.length_singleton]
      omega
    · rw [hent, Nat.add_sub_cancel]

theorem create_layout_entries (IGM : IRGenModule) (inputs : WitnessTableInputs)
    (Conformances : ConformanceCache) (Interfaces : InterfaceCache) (table : List Constant)
    (PILWT : PILWitnessTable)
    (hnonres : IGM.isResilientRootConformance PILWT.Conformance = false)
    (hwt : IGM.interfaceRequiresWitnessTable PILWT.Interface = true)
    (hcache : ∀ cached, Interfaces.find PILWT.Interface = some cached →
      cached.Kind = InterfaceInfoKind.Full →
      cached.WitnessEntries =
        (layoutInterfaceInfo IGM (inputs.requirementsOf PILWT.Interface) PILWT.Interface
          InterfaceInfoKind.Full).WitnessEntries) :
    (WitnessTableBuilder.create IGM inputs Conformances Interfaces table PILWT).1.PI.WitnessEntries
      = (Irgen.visitInterfaceDecl false (inputs.requirementsOf PILWT.Interface)).tail.flatMap
          WitnessVisit.layoutEntries := by
  have hlayout : (layoutInterfaceInfo IGM (inputs.requirementsOf PILWT.Interface)
      PILWT.Interface InterfaceInfoKind.Full).WitnessEntries =
      (Irgen.visitInterfaceDecl false (inputs.requirementsOf PILWT.Interface)).tail.flatMap
        WitnessVisit.layoutEntries := by
    unfold layoutInterfaceInfo
    simp only [hwt, if_true, WitnessTableLayout.visitInterfaceDecl,
      (WitnessTableLayout.foldl_visit _ _).1, WitnessTableLayout.create,
      WitnessTableLayout.shouldVisitRequirementSignatureOnly, List.nil_append]
    unfold Irgen.visitInterfaceDecl
    simp only [List.flatMap_cons, WitnessVisit.layoutEntries, List.nil_append, List.tail_cons]
  simp only [WitnessTableBuilder.create, hnonres, Bool.false_eq_true, if_false]
  unfold TypeConverter.getInterfaceInfo
  cases hfind : Interfaces.find PILWT.Interface with
  | none => exact hlayout
  | some cached =>
    simp only
    split
    · rename_i hrank
      have hkind : cached.Kind = InterfaceInfoKind.Full := by
        cases hc : cached.Kind with
        | Full => rfl
        | RequirementSignature =>
          rw [hc] at hrank
          simp [InterfaceInfoKind.rank] at hrank
      rw [hcache cached hfind hkind]
      exact hlayout
    · exact hlayout

theorem mem_visitInterfaceDecl_base (reqs : InterfaceRequirements) (baseProto : InterfaceDecl)
    (h : WitnessVisit.OutOfLineBaseInterface baseProto ∈ Irgen.visitInterfaceDecl false reqs) :
    baseProto ∈ reqs.outOfLineBases := by
  unfold Irgen.visitInterfaceDecl at h
  simp only [Bool.false_eq_true, if_false, List.mem_cons, List.mem_append, List.mem_map] at h
  rcases h with h | ⟨x, hx, hxe⟩ | (⟨x, _, hxe⟩ | ⟨x, _, hxe⟩) | ⟨x, _, hxe⟩
  · cases h
  · cases hxe
    exact hx
  · cases x <;> cases hxe
  · cases hxe
  · cases hxe

theorem mem_visitInterfaceDecl_associatedConformance (reqs : InterfaceRequirements)
    (requirement : AssociatedConformance)
    (h : WitnessVisit.AssociatedConformance requirement ∈ Irgen.visitInterfaceDecl false reqs) :
    requirement ∈ reqs.associatedConformances := by
  unfold Irgen.visitInterfaceDecl at h
  simp only [Bool.false_eq_true, if_false, List.mem_cons, List.mem_append, List.mem_map] at h
  rcases h with h | ⟨x, _, hxe⟩ | (⟨x, _, hxe⟩ | ⟨x, _, hxe⟩) | ⟨x, hx, hxe⟩
  · cases h
  · cases hxe
  · cases x <;> cases hxe
  · cases hxe
  · cases hxe
    exact hx

/-- C28: For a non-resilient conformance whose recorded witness-table entries agree in kind
and order with the requirements of the protocol, `build()` returns, and it runs in lockstep
with the layout of the protocol: when the i-th visit of the traversal is made (the
conformance descriptor is visit 0, the requirements are visits 1, 2, ...), the table holds
exactly `i` slots and exactly `i - 1` recorded entries have been consumed, all debug
assertions of the hook hold, and for a requirement the `size_t` difference of the table
size and `WitnessTableFirstRequirementOffset` equals the index `i - 1` that the hook looks up
in the layout of the protocol. At the end every recorded entry has been consumed, the table
holds one slot per visit, and the reported table size is that number of slots. The table
starts empty, as `emitPILWitnessTable` creates it; the constant
`WitnessTableFirstRequirementOffset` is 1, the protocol needs a witness table, the
requirements of the protocol are pairwise distinct and fewer than 2^32, a full layout
already memoized for the protocol is the one `getInterfaceInfo` computes, the inherited
conformances are in the conformance table of a well-formed context, and the access function
of every associated conformance requirement can be emitted (`AccessFunctionEmittable`: an
abstract associated conformance for a type without archetypes, for one, is fatal in
`defineAssociatedTypeWitnessTableAccessFunction`). -/
theorem build_lockstep_with_layout (WitnessTableFirstRequirementOffset : Nat)
    (IGM : IRGenModule) (inputs : WitnessTableInputs) (Conformances : ConformanceCache)
    (Interfaces : InterfaceCache) (PILWT : PILWitnessTable)
    (hoffset : WitnessTableFirstRequirementOffset = 1)
    (hwf : IGM.Context.wellFormed = true)
    (hnonres : IGM.isResilientRootConformance PILWT.Conformance = false)
    (hwt : IGM.interfaceRequiresWitnessTable PILWT.Interface = true)
    (hcache : ∀ cached, Interfaces.find PILWT.Interface = some cached →
      cached.Kind = InterfaceInfoKind.Full →
      cached.WitnessEntries =
        (layoutInterfaceInfo IGM (inputs.requirementsOf PILWT.Interface) PILWT.Interface
          InterfaceInfoKind.Full).WitnessEntries)
    (hagree : entriesAgree PILWT.Entries
      (Irgen.visitInterfaceDecl false (inputs.requirementsOf PILWT.Interface)).tail = true)
    (hnodup : (Irgen.visitInterfaceDecl false (inputs.requirementsOf PILWT.Interface)).Nodup)
    (hfit : (Irgen.visitInterfaceDecl false (inputs.requirementsOf PILWT.Interface)).length <
      4294967296)
    (hbase : ∀ baseProto ∈ (inputs.requirementsOf PILWT.Interface).outOfLineBases,
      (inputs.ConformanceInContext.getInheritedConformance baseProto).getRootConformance.inTable
        IGM.Context.conformances.length = true)
    (hassoc : ∀ requirement ∈ (inputs.requirementsOf PILWT.Interface).associatedConformances,
      (∃ id, PILWT.Conformance = RootInterfaceConformance.normal id) ∧
      (WitnessTableBuilder.create IGM inputs Conformances Interfaces []
        PILWT).1.AccessFunctionEmittable IGM inputs
        (inputs.ConformanceInContext.getAssociatedType requirement.association)
        requirement.associatedRequirement
        (inputs.ConformanceInContext.getAssociatedConformance requirement.association
          requirement.associatedRequirement)) :
    (∀ (i : Nat) (visit : WitnessVisit),
      (Irgen.visitInterfaceDecl false (inputs.requirementsOf PILWT.Interface))[i]? =
        some visit →
      ∃ state,
        WitnessTableBuilder.visitAll IGM inputs
          ((Irgen.visitInterfaceDecl false (inputs.requirementsOf PILWT.Interface)).take i)
          (WitnessTableBuilder.create IGM inputs Conformances Interfaces []
            PILWT).1.addConditionalConformances = some state ∧
        state.Table.length = i ∧
        state.PILEntries = PILWT.Entries.drop (i - 1) ∧
        state.assertionsHold WitnessTableFirstRequirementOffset visit = true ∧
        (0 < i →
          state.layoutIndex visit = some (i - 1) ∧
          state.requirementOffset WitnessTableFirstRequirementOffset = i - 1)) ∧
    ∃ built,
      (WitnessTableBuilder.create IGM inputs Conformances Interfaces [] PILWT).1.build IGM
        inputs = some built ∧
      built.PILEntries = [] ∧
      built.Table.length =
        (Irgen.visitInterfaceDecl false (inputs.requirementsOf PILWT.Interface)).length ∧
      built.getTableSize = built.Table.length := by
  have hV : Irgen.visitInterfaceDecl false (inputs.requirementsOf PILWT.Interface) =
      WitnessVisit.InterfaceConformanceDescriptor ::
        (Irgen.visitInterfaceDecl false (inputs.requirementsOf PILWT.Interface)).tail := rfl
  have hPI := create_layout_entries IGM inputs Conformances Interfaces [] PILWT hnonres hwt
    hcache
  generalize (Irgen.visitInterfaceDecl false (inputs.requirementsOf PILWT.Interface)).tail =
    visits at hV hPI hagree
  have hbase' : ∀ baseProto, WitnessVisit.OutOfLineBaseInterface baseProto ∈ visits →
      (inputs.ConformanceInContext.getInheritedConformance baseProto).getRootConformance.inTable
        IGM.Context.conformances.length = true := by
    intro baseProto hm
    apply hbase
    apply mem_visitInterfaceDecl_base
    rw [hV]
    exact List.mem_cons_of_mem _ hm
  have hassoc' : ∀ requirement, WitnessVisit.AssociatedConformance requirement ∈ visits →
      (∃ id, PILWT.Conformance = RootInterfaceConformance.normal id) ∧
      (WitnessTableBuilder.create IGM inputs Conformances Interfaces []
        PILWT).1.AccessFunctionEmittable IGM inputs
        (inputs.ConformanceInContext.getAssociatedType requirement.association)
        requirement.associatedRequirement
        (inputs.ConformanceInContext.getAssociatedConformance requirement.association
          requirement.associatedRequirement) := by
    intro requirement hm
    apply hassoc
    apply mem_visitInterfaceDecl_associatedConformance
    rw [hV]
    exact List.mem_cons_of_mem _ hm
  rw [hV] at hnodup hfit ⊢
  have hnodup' : visits.Nodup := (List.nodup_cons.mp hnodup).2
  have hlenV : visits.length + 1 < 4294967296 := by simpa using hfit
  have hself : (WitnessTableBuilder.create IGM inputs Conformances Interfaces []
      PILWT).1.addConditionalConformances =
      { (WitnessTableBuilder.create IGM inputs Conformances Interfaces [] PILWT).1 with
        ConditionalRequirementPrivateDataIndices := List.range' 0 PILWT.ConditionalConformances.length
        NextPrivateDataIndex := 0 + PILWT.ConditionalConformances.length } := by
    rw [WitnessTableBuilder.addConditionalConformances_eq]
    rfl
  have hprefix := WitnessTableBuilder.visitAll_prefix_fixed IGM inputs hwf
    (WitnessTableBuilder.create IGM inputs Conformances Interfaces []
      PILWT).1.addConditionalConformances visits
    (by rw [hself]; exact hnonres) (by rw [hself]; rfl) (by rw [hself]; exact hagree)
    (by rw [hself]; exact hbase')
    (by
      rw [hself]
      intro requirement hm
      exact ⟨(hassoc' requirement hm).1,
        WitnessTableBuilder.accessFunctionEmittable_congr rfl (hassoc' requirement hm).2⟩)
  have hentries : (WitnessTableBuilder.create IGM inputs Conformances Interfaces []
      PILWT).1.addConditionalConformances.PILEntries = PILWT.Entries := by
    rw [hself]
    rfl
  have hPI1 : (WitnessTableBuilder.create IGM inputs Conformances Interfaces []
      PILWT).1.addConditionalConformances.PI.WitnessEntries =
      visits.flatMap WitnessVisit.layoutEntries := by
    rw [hself]
    exact hPI
  refine ⟨?_, ?_⟩
  · intro i visit hvisit
    have hi : i < visits.length + 1 := by
      have := (List.getElem?_eq_some_iff.mp hvisit).1
      simpa using this
    obtain ⟨state, hstate, hlen, hent, hPIs, hres⟩ := hprefix i (Nat.le_of_lt hi)
    rw [hentries] at hent
    refine ⟨state, hstate, hlen, hent, ?_⟩
    cases i with
    | zero =>
      simp only [List.getElem?_cons_zero, Option.some.injEq] at hvisit
      subst hvisit
      exact ⟨rfl, fun h => absurd h (Nat.lt_irrefl 0)⟩
    | succ k =>
      simp only [List.getElem?_cons_succ] at hvisit
      simp only [Nat.add_sub_cancel] at hent ⊢
      obtain ⟨entry, hentry, hagreeK⟩ := entriesAgree_getElem _ _ k visit hagree hvisit
      have hidx : state.layoutIndex visit = some k :=
        WitnessTableBuilder.layoutIndex_of_agree state visits PILWT.Entries
          (by rw [hPIs]; exact hPI1) hagree hnodup' k visit hvisit
      have hoff : state.requirementOffset WitnessTableFirstRequirementOffset = k := by
        unfold WitnessTableBuilder.requirementOffset
        rw [hlen, hoffset]
        omega
      have hdrop : state.PILEntries = entry :: PILWT.Entries.drop (k + 1) := by
        rw [hent]
        have hk := (List.getElem?_eq_some_iff.mp hentry)
        obtain ⟨hklt, hkeq⟩ := hk
        rw [← hkeq]
        exact List.drop_eq_getElem_cons hklt
      refine ⟨?_, fun _ => ⟨hidx, hoff⟩⟩
      exact WitnessTableBuilder.assertionsHold_of_agree _ state visit entry _ hdrop hagreeK
        (by rw [hidx, hoff])
  · obtain ⟨state, hstate, hlen, hent, _, _⟩ := hprefix (visits.length + 1) (Nat.le_refl _)
    rw [List.take_of_length_le (by simp)] at hstate
    rw [hentries] at hent
    refine ⟨{ state with TableSize := state.Table.length % 4294967296 }, ?_, ?_, ?_, ?_⟩
    · unfold WitnessTableBuilder.build WitnessTableBuilder.visitInterfaceDecl
      have hP : (WitnessTableBuilder.create IGM inputs Conformances Interfaces []
          PILWT).1.addConditionalConformances.PILWT = PILWT := by
        rw [hself]
        rfl
      simp only [hP]
      rw [hV, hstate]
    · show state.PILEntries = []
      rw [hent, Nat.add_sub_cancel, ← entriesAgree_length _ _ hagree]
      exact List.drop_length _
    · show state.Table.length = _
      rw [hlen]
      simp
    · show state.Table.length % 4294967296 = state.Table.length
      rw [hlen]
      exact Nat.mod_eq_of_lt hlenV

theorem build_lockstep_with_layout_witness :
    (∃ state,
      WitnessTableBuilder.visitAll builderModule associatedBuilderInputs
        ((Irgen.visitInterfaceDecl false
          (associatedBuilderInputs.requirementsOf associatedTableScenario.Interface)).take 6)
        (WitnessTableBuilder.create builderModule associatedBuilderInputs [] [] []
          associatedTableScenario).1.addConditionalConformances = some state ∧
      state.Table.length = 6 ∧
      state.PILEntries = associatedTableScenario.Entries.drop 5 ∧
      state.assertionsHold 1 (WitnessVisit.AssociatedConformance associatedRequirementTA)
        = true ∧
      state.layoutIndex (WitnessVisit.AssociatedConformance associatedRequirementTA) =
        some 5 ∧
      state.requirementOffset 1 = 5) ∧
    ∃ built,
      (WitnessTableBuilder.create builderModule associatedBuilderInputs [] [] []
        associatedTableScenario).1.build builderModule associatedBuilderInputs = some built ∧
      built.PILEntries = [] ∧ built.Table.length = 7 ∧ built.getTableSize = 7 := by
  have h := build_lockstep_with_layout 1 builderModule associatedBuilderInputs [] []
    associatedTableScenario rfl (by decide) (by decide) (by decide)
    (by
      intro cached hc
      simp [InterfaceCache.find] at hc)
    (by decide) (by decide) (by decide)
    (by
      intro baseProto hb
      have hb' : baseProto = baseInterfaceA ∨ baseProto = baseInterfaceB := by
        simpa [associatedBuilderInputs, associatedTableScenario] using hb
      rcases hb' with hb' | hb' <;> subst hb' <;> decide)
    (by
      intro requirement hr
      have hr' : requirement = associatedRequirementTA := by
        simpa [associatedBuilderInputs, associatedTableScenario] using hr
      subst hr'
      refine ⟨⟨0, rfl⟩, ?_, ?_, ?_⟩
      · intro p c hc
        have hc' : InterfaceConformanceRef.concrete baseInterfaceA
            (InterfaceConformance.root (RootInterfaceConformance.normal 1)) =
            InterfaceConformanceRef.concrete p c := hc
        cases hc'
        decide
      · intro p hc
        have hc' : InterfaceConformanceRef.concrete baseInterfaceA
            (InterfaceConformance.root (RootInterfaceConformance.normal 1)) =
            InterfaceConformanceRef.abstract p := hc
        cases hc'
      · intro harch
        have hno : (associatedBuilderInputs.ConformanceInContext.getAssociatedType
            associatedRequirementTA.association).hasArchetype = false := by decide
        rw [hno] at harch
        cases harch)
  refine ⟨?_, ?_⟩
  · obtain ⟨state, hstate, hlen, hent, hassert, hidx⟩ :=
      h.1 6 (WitnessVisit.AssociatedConformance associatedRequirementTA) (by decide)
    exact ⟨state, hstate, hlen, hent, hassert, (hidx (by decide)).1, (hidx (by decide)).2⟩
  · obtain ⟨built, hbuilt, hent, hlen, hsize⟩ := h.2
    have hseven : built.Table.length = 7 := hlen.trans (by decide)
    exact ⟨built, hbuilt, hent, hseven, hsize.trans hseven⟩

end Irgen
